import Mathlib

/-!
# MPI memory-consumption profiler: event capture and accounting engine

A shallow embedding of `mpimcu-mem-stat-mgr.h` and `mpimcu-mem-hooks.cc`.

* Event records are heap objects.  The tables of the accounting engine store
  *pointers* to them, and the engine rewrites events through those pointers, so
  the embedding keeps an explicit object store (`heap`) and the tables map an
  address to an index into that store.  Event records are never deleted by the
  source, so the store only grows.
* `ssize_t` / `size_t` values are integers with explicit 64-bit wrap-around
  (`to_ssize_t`, `to_size_t`).  The `uint64_t` event counters only ever grow by
  one per call and are kept as natural numbers.
* The kernel interface (`/proc/self/smaps`) and the clock are an environment
  `mmcu_env` that answers the k-th query of each kind.
* `exit(EXIT_FAILURE)` and a failing `assert` (assertions are compiled in) end the run
  with an error value.
* The mutual recursion of the source is indexed by a fuel argument; a call chain that
  starts in `capture` is at most six calls deep (`capture_fuel`).
* The parser `mmcu_proc_smaps_parser` is embedded at the level of characters: the file
  is the list of characters not yet read, and `fgets`, `strtok`, `strncpy`, `strncmp`,
  `strtoull` and `strtoll` are modelled as glibc behaves.  The parser declares its token
  arrays without initialising them; what they hold is a parameter (`uninit_stack`), and
  the theorems say for which contents they hold.  The line loops are indexed by fuel; the
  length of the file plus one suffices, since every round reads at least one character.
  A fixture is a list of region blocks (`smaps_region`) rendered to text.
-/

set_option autoImplicit false

namespace MpiMcu

/-! ## Data model -/

/-- Modelled from the spec: the operation identifiers `MMCU_HOOK_*` are declared in
`mpimcu-mem-hook-state.h`, which is not part of the sources at hand.  The spec lists
the kinds allocate (plain, zero-initialised, aligned), resize, deallocate, map, unmap,
map-cost-update and no-op; the constant names are the ones the code uses. -/
inductive mmcu_hook_id where
  | MMCU_HOOK_MALLOC
  | MMCU_HOOK_CALLOC
  | MMCU_HOOK_REALLOC
  | MMCU_HOOK_POSIX_MEMALIGN
  | MMCU_HOOK_MMAP
  | MMCU_HOOK_FREE
  | MMCU_HOOK_MUNMAP
  | MMCU_HOOK_MMAP_PSS_UPDATE
  | MMCU_HOOK_NOOP
  deriving DecidableEq, Repr

open mmcu_hook_id

/-- Conversion of an integer to `size_t`: its residue modulo 2^64. -/
def to_size_t (x : Int) : Int := x % 18446744073709551616

/-- Conversion of an integer to `ssize_t`: two's-complement wrap into
`[-2^63, 2^63)`. -/
def to_ssize_t (x : Int) : Int :=
  (x + 9223372036854775808) % 18446744073709551616 - 9223372036854775808

/-- The values an `ssize_t` variable can hold. -/
def is_ssize_t (x : Int) : Prop :=
  -9223372036854775808 ≤ x ∧ x < 9223372036854775808

instance (x : Int) : Decidable (is_ssize_t x) := by
  unfold is_ssize_t; infer_instance

/-- The class `mmcu_memory_op_entry`: one observed memory operation. -/
structure mmcu_memory_op_entry where
  opid : mmcu_hook_id
  addr : Nat
  size : Int := 0
  old_addr : Nat := 0
  deriving DecidableEq, Repr

instance : Inhabited mmcu_memory_op_entry := ⟨⟨MMCU_HOOK_NOOP, 0, 0, 0⟩⟩

/-- The class `mmcu_proc_smaps_entry`, as its constructor zeroes it. -/
structure mmcu_proc_smaps_entry where
  addr_start : Nat := 0
  addr_end : Nat := 0
  pss_in_b : Nat := 0
  reg_shared : Bool := false
  path : List Char := []
  deriving DecidableEq, Repr

/-- Ways in which a run ends without returning: `exit(EXIT_FAILURE)`, a failing
`assert`, the model's fuel running out, and the exception `std::length_error` leaving
the parser uncaught. -/
inductive mmcu_failure where
  | exit_failure
  | assertion_failed
  | out_of_fuel
  | length_error
  deriving DecidableEq, Repr

/-- Diagnostics written to standard error. -/
inductive mmcu_warning where
  | curious_threshold
  | missing_smaps_entry
  | unexpected_opid (opid : mmcu_hook_id)
  | existing_entry_not_munmap (addr : Nat) (opid : mmcu_hook_id)
  deriving DecidableEq, Repr

/-- Outcome of one call of `mmcu_proc_smaps_parser::get_proc_self_smaps_entry` on a
zeroed descriptor: the parser exits, reports not-found (descriptor untouched), or
reports found with the descriptor it filled in. -/
inductive smaps_query where
  | fatal
  | not_found
  | found (e : mmcu_proc_smaps_entry)
  deriving DecidableEq, Repr

/-- Environment of the engine: the value of the k-th call of `mmcu_time()`, the
outcome of the k-th call of the parser's address query (for a target address), and the
outcome of the k-th whole-process PSS query (`none` when the parser exits). -/
structure mmcu_env where
  mmcu_time : Nat → Int
  smaps_entry : Nat → Nat → smaps_query
  smaps_pss_total : Nat → Option Int

/-- The class `mmcu_mem_stat_mgr` together with what its methods touch outside the
object: the function-local static `curious_b` of `capture`, the store of event
records, standard error, and the number of environment queries made so far. -/
structure mmcu_mem_stat_mgr where
  num_captures : Nat := 0
  n_mem_ops_recorded : Nat := 0
  n_mpi_pss_samples_requested : Nat := 0
  n_mpi_pss_samples : Nat := 0
  n_app_pss_samples : Nat := 0
  n_mem_alloc_ops : Nat := 0
  n_mem_free_ops : Nat := 0
  current_mem_allocd : Int := 0
  mpi_high_mem_usage_mark : Int := 0
  pss_high_mem_usage_mark : Int := 0
  addr2entry : List (Nat × Nat) := []
  addr2mmap_entry : List (Nat × Nat) := []
  mem_allocd_samples : List (Int × Int) := []
  pss_total_samples : List (Int × Int) := []
  curious_b : Int := 0
  heap : List mmcu_memory_op_entry := []
  stderr : List mmcu_warning := []
  n_time_calls : Nat := 0
  n_smaps_entry_calls : Nat := 0
  n_smaps_total_calls : Nat := 0
  deriving DecidableEq, Repr

/-- The sampling constant `mem_allocd_sample_freq`. -/
def mem_allocd_sample_freq : Nat := 1

/-- The sampling constant `mpi_pss_update_freq`. -/
def mpi_pss_update_freq : Nat := 8

/-- The sampling constant `pss_totals_sample_freq`. -/
def pss_totals_sample_freq : Nat := 8

/-- The constant `report_thresh` of `capture`: 1024 * 1024. -/
def report_thresh : Int := 1024 * 1024

/-- The constant `n_tries` of the engine's `get_proc_self_smaps_entry`. -/
def n_tries : Nat := 5

/-! ## Address-keyed tables (`std::unordered_map<uintptr_t, mmcu_memory_op_entry *>`) -/

/-- Lookup `find(addr)`: the stored pointer, or `none` for `end()`. -/
def map_find : List (Nat × Nat) → Nat → Option Nat
  | [], _ => none
  | (k, v) :: m, a => if k = a then some v else map_find m a

/-- Insertion `insert(std::make_pair(addr, ope))`: no effect when the key is present. -/
def map_insert (m : List (Nat × Nat)) (a p : Nat) : List (Nat × Nat) :=
  if (map_find m a).isSome then m else (a, p) :: m

/-- Removal `erase(got)` of the element whose key is `a`. -/
def map_erase (m : List (Nat × Nat)) (a : Nat) : List (Nat × Nat) :=
  m.filter (fun kv => decide (kv.1 ≠ a))

/-! ## Event records in the store -/

/-- The expression `new mmcu_memory_op_entry(...)`: a fresh record in the store. -/
def new_entry (s : mmcu_mem_stat_mgr) (e : mmcu_memory_op_entry) :
    mmcu_mem_stat_mgr × Nat :=
  ({ s with heap := s.heap ++ [e] }, s.heap.length)

/-- Read of the record a pointer refers to. -/
def deref (s : mmcu_mem_stat_mgr) (p : Nat) : mmcu_memory_op_entry :=
  s.heap.getD p default

/-- Write of the record a pointer refers to. -/
def store (s : mmcu_mem_stat_mgr) (p : Nat) (e : mmcu_memory_op_entry) :
    mmcu_mem_stat_mgr :=
  { s with heap := s.heap.set p e }

/-! ## The accounting engine -/

/-- The loop of the engine's `get_proc_self_smaps_entry`: call the parser until it
reports found, at most `n` more times. -/
def smaps_retry (env : mmcu_env) (target : Nat) :
    Nat → mmcu_proc_smaps_entry → mmcu_mem_stat_mgr →
      Except mmcu_failure (Bool × mmcu_proc_smaps_entry × mmcu_mem_stat_mgr)
  | 0, res, s => .ok (false, res, s)
  | n + 1, res, s =>
    match env.smaps_entry s.n_smaps_entry_calls target with
    | .fatal => .error .exit_failure
    | .not_found =>
      smaps_retry env target n res { s with n_smaps_entry_calls := s.n_smaps_entry_calls + 1 }
    | .found e =>
      .ok (true, e, { s with n_smaps_entry_calls := s.n_smaps_entry_calls + 1 })

/-- The method `mmcu_mem_stat_mgr::get_proc_self_smaps_entry`. -/
def get_proc_self_smaps_entry (env : mmcu_env) (s : mmcu_mem_stat_mgr) (target_addr : Nat) :
    Except mmcu_failure (mmcu_proc_smaps_entry × mmcu_mem_stat_mgr) :=
  match smaps_retry env target_addr n_tries {} s with
  | .error f => .error f
  | .ok (found_entry, res_entry, s) =>
    .ok (res_entry, { s with
      stderr := if found_entry then s.stderr else s.stderr ++ [.missing_smaps_entry] })

/-- The method `mmcu_mem_stat_mgr::get_proc_self_smaps_pss_total`. -/
def get_proc_self_smaps_pss_total (env : mmcu_env) (s : mmcu_mem_stat_mgr) :
    Except mmcu_failure (Int × mmcu_mem_stat_mgr) :=
  match env.smaps_pss_total s.n_smaps_total_calls with
  | none => .error .exit_failure
  | some v => .ok (v, { s with n_smaps_total_calls := s.n_smaps_total_calls + 1 })

/-- Iteration over a table with a body that may leave the loop (`return`). -/
def for_each_entry
    (body : mmcu_mem_stat_mgr → Nat → Except mmcu_failure (Bool × mmcu_mem_stat_mgr)) :
    List (Nat × Nat) → mmcu_mem_stat_mgr → Except mmcu_failure mmcu_mem_stat_mgr
  | [], s => .ok s
  | me :: rest, s =>
    match body s me.2 with
    | .error f => .error f
    | .ok (go_on, s) => if go_on then for_each_entry body rest s else .ok s

/-- Body of the loop of `update_all_pss_entries` for one table entry `e`; the
result says whether the loop goes on.  `ucma` is the method
`update_current_mem_allocd`, which the body calls. -/
def pss_entry_step (env : mmcu_env)
    (ucma : mmcu_mem_stat_mgr → Nat → Bool → Except mmcu_failure mmcu_mem_stat_mgr)
    (s : mmcu_mem_stat_mgr) (e : Nat) : Except mmcu_failure (Bool × mmcu_mem_stat_mgr) :=
  match (deref s e).opid with
  | MMCU_HOOK_MMAP_PSS_UPDATE =>
    let old_size := (deref s e).size
    -- Next capture the new PSS value.
    match get_proc_self_smaps_entry env s (deref s e).addr with
    | .error f => .error f
    | .ok (maps_entry, s) =>
      let new_size := to_ssize_t maps_entry.pss_in_b
      -- Free up old size.
      let s := store s e { deref s e with size := to_ssize_t (-old_size) }
      match ucma s e true with
      | .error f => .error f
      | .ok s =>
        -- Now include new size.
        let s := store s e { deref s e with size := new_size }
        match ucma s e false with
        | .error f => .error f
        | .ok s => .ok (true, s)
  | MMCU_HOOK_MUNMAP =>
    -- Nothing to do.
    match ucma s e false with
    | .error f => .error f
    | .ok s => .ok (true, s)
  | opid =>
    -- Bail.
    .ok (false, { s with stderr := s.stderr ++ [.unexpected_opid opid] })

mutual

/-- The method `update_mem_stats(bool sample)`. -/
def update_mem_stats (env : mmcu_env) :
    Nat → mmcu_mem_stat_mgr → Bool → Except mmcu_failure mmcu_mem_stat_mgr
  | 0, _, _ => .error .out_of_fuel
  | fuel + 1, s, sample =>
    let s := { s with
      mpi_high_mem_usage_mark :=
        if s.current_mem_allocd > s.mpi_high_mem_usage_mark then s.current_mem_allocd
        else s.mpi_high_mem_usage_mark }
    -- `sample || n_mem_ops_recorded++ % mem_allocd_sample_freq == 0`: the counter is
    -- tested before the increment, and not touched when `sample` holds.
    let take := sample || s.n_mem_ops_recorded % mem_allocd_sample_freq == 0
    let s := { s with
      n_mem_ops_recorded :=
        if sample then s.n_mem_ops_recorded else s.n_mem_ops_recorded + 1 }
    let s := { s with
      mem_allocd_samples :=
        if take then
          s.mem_allocd_samples ++ [(env.mmcu_time s.n_time_calls, s.current_mem_allocd)]
        else s.mem_allocd_samples
      n_time_calls := if take then s.n_time_calls + 1 else s.n_time_calls }
    -- Gather total process memory usage also.
    let r : Except mmcu_failure mmcu_mem_stat_mgr :=
      if sample || s.n_mem_ops_recorded % pss_totals_sample_freq == 0 then
        match get_proc_self_smaps_pss_total env
            { s with n_app_pss_samples := s.n_app_pss_samples + 1 } with
        | .error f => .error f
        | .ok (pss_total, s) =>
          .ok { s with
            pss_total_samples :=
              s.pss_total_samples ++ [(env.mmcu_time s.n_time_calls, pss_total)]
            n_time_calls := s.n_time_calls + 1
            pss_high_mem_usage_mark :=
              if pss_total > s.pss_high_mem_usage_mark then pss_total
              else s.pss_high_mem_usage_mark }
      else .ok s
    match r with
    | .error f => .error f
    | .ok s => if sample then update_all_pss_entries env fuel s sample else .ok s

/-- The method `update_all_pss_entries(bool samp)`. -/
def update_all_pss_entries (env : mmcu_env) :
    Nat → mmcu_mem_stat_mgr → Bool → Except mmcu_failure mmcu_mem_stat_mgr
  | 0, _, _ => .error .out_of_fuel
  | fuel + 1, s, samp =>
    -- `!samp && n_mpi_pss_samples_requested++ % mpi_pss_update_freq != 0`
    let skip := !samp && s.n_mpi_pss_samples_requested % mpi_pss_update_freq != 0
    let s := { s with
      n_mpi_pss_samples_requested :=
        if samp then s.n_mpi_pss_samples_requested
        else s.n_mpi_pss_samples_requested + 1 }
    if skip then .ok s
    else
      let s := { s with n_mpi_pss_samples := s.n_mpi_pss_samples + 1 }
      for_each_entry (pss_entry_step env (update_current_mem_allocd env fuel))
        s.addr2mmap_entry s

/-- The method `update_current_mem_allocd(ope, internal_bookkeeping)`. -/
def update_current_mem_allocd (env : mmcu_env) :
    Nat → mmcu_mem_stat_mgr → Nat → Bool → Except mmcu_failure mmcu_mem_stat_mgr
  | 0, _, _, _ => .error .out_of_fuel
  | fuel + 1, s, ope, internal_bookkeeping =>
    let opid := (deref s ope).opid
    let size := to_size_t (deref s ope).size
    let r : Except mmcu_failure mmcu_mem_stat_mgr :=
      match opid with
      | MMCU_HOOK_MALLOC | MMCU_HOOK_CALLOC | MMCU_HOOK_POSIX_MEMALIGN =>
        .ok { s with
          n_mem_alloc_ops := s.n_mem_alloc_ops + 1
          current_mem_allocd := to_ssize_t (s.current_mem_allocd + size) }
      | MMCU_HOOK_FREE | MMCU_HOOK_MUNMAP =>
        .ok { s with
          n_mem_free_ops := s.n_mem_free_ops + 1
          current_mem_allocd := to_ssize_t (s.current_mem_allocd - size) }
      | MMCU_HOOK_MMAP_PSS_UPDATE =>
        -- Here size may be positive or negative.
        .ok { s with current_mem_allocd := to_ssize_t (s.current_mem_allocd + size) }
      | MMCU_HOOK_NOOP => .ok s
      | _ => .error .assertion_failed
    match r with
    | .error f => .error f
    | .ok s => if !internal_bookkeeping then update_mem_stats env fuel s false else .ok s

end

/-- The method `capture_mmap_ops(ope)`. -/
def capture_mmap_ops (env : mmcu_env) (fuel : Nat) (s : mmcu_mem_stat_mgr) (ope : Nat) :
    Except mmcu_failure mmcu_mem_stat_mgr :=
  let addr := (deref s ope).addr
  let opid := (deref s ope).opid
  match map_find s.addr2mmap_entry addr with
  | none =>
    -- New entry.
    if opid ≠ MMCU_HOOK_MMAP then .error .assertion_failed
    else
      -- Grab PSS stats.
      match get_proc_self_smaps_entry env s addr with
      | .error f => .error f
      | .ok (maps_entry, s) =>
        let s := store s ope { deref s ope with opid := MMCU_HOOK_MMAP_PSS_UPDATE }
        let s := store s ope { deref s ope with size := to_ssize_t maps_entry.pss_in_b }
        let s := { s with addr2mmap_entry := map_insert s.addr2mmap_entry addr ope }
        let s := { s with n_mem_alloc_ops := s.n_mem_alloc_ops + 1 }
        update_current_mem_allocd env fuel s ope false
  | some _ =>
    if opid = MMCU_HOOK_MUNMAP then
      -- Existing entry and munmap: munmap already has the size, unlike free.
      match update_current_mem_allocd env fuel s ope false with
      | .error f => .error f
      | .ok s => .ok { s with addr2mmap_entry := map_erase s.addr2mmap_entry addr }
    else
      .ok { s with stderr := s.stderr ++ [.existing_entry_not_munmap addr opid] }

mutual

/-- The method `capture(ope)`. -/
def capture (env : mmcu_env) :
    Nat → mmcu_mem_stat_mgr → Nat → Except mmcu_failure mmcu_mem_stat_mgr
  | 0, _, _ => .error .out_of_fuel
  | fuel + 1, s, ope =>
    let s := { s with num_captures := s.num_captures + 1 }
    let addr := (deref s ope).addr
    let opid := (deref s ope).opid
    match opid with
    | MMCU_HOOK_REALLOC => break_down_realloc env fuel s ope
    | MMCU_HOOK_MMAP | MMCU_HOOK_MUNMAP => capture_mmap_ops env fuel s ope
    | _ =>
      match map_find s.addr2entry addr with
      | none =>
        -- New entry.
        let s := { s with addr2entry := map_insert s.addr2entry addr ope }
        match update_current_mem_allocd env fuel s ope false with
        | .error f => .error f
        | .ok s => update_all_pss_entries env fuel s false
      | some got =>
        if opid = MMCU_HOOK_FREE then
          -- Existing entry and free.
          let s := store s ope { deref s ope with size := (deref s got).size }
          match update_current_mem_allocd env fuel s ope false with
          | .error f => .error f
          | .ok s =>
            match update_all_pss_entries env fuel s false with
            | .error f => .error f
            | .ok s => .ok { s with addr2entry := map_erase s.addr2entry addr }
        else
          -- `curious_b += got->second->size`, then the threshold test.
          let curious_b := to_ssize_t (s.curious_b + (deref s got).size)
          .ok { s with
            stderr :=
              if curious_b ≥ report_thresh then s.stderr ++ [.curious_threshold]
              else s.stderr
            curious_b := if curious_b ≥ report_thresh then 0 else curious_b }

/-- The method `break_down_realloc(ope)`. -/
def break_down_realloc (env : mmcu_env) :
    Nat → mmcu_mem_stat_mgr → Nat → Except mmcu_failure mmcu_mem_stat_mgr
  | 0, _, _ => .error .out_of_fuel
  | fuel + 1, s, ope =>
    let addr := (deref s ope).addr
    let old_addr := (deref s ope).old_addr
    let size := to_size_t (deref s ope).size
    if addr = 0 then
      -- Returned NULL, so old_addr was unchanged.
      capture env fuel (store s ope { deref s ope with opid := MMCU_HOOK_NOOP }) ope
    else if size = 0 ∧ old_addr ≠ 0 then
      -- Acts like free.
      match map_find s.addr2entry old_addr with
      | some _ =>
        let s := store s ope { deref s ope with opid := MMCU_HOOK_FREE }
        let s := store s ope { deref s ope with addr := old_addr }
        capture env fuel s ope
      | none =>
        capture env fuel (store s ope { deref s ope with opid := MMCU_HOOK_NOOP }) ope
    else if old_addr = 0 then
      -- Acts like malloc.
      capture env fuel (store s ope { deref s ope with opid := MMCU_HOOK_MALLOC }) ope
    else if old_addr ≠ addr then
      -- Area pointed to was moved: new region was first created.
      let s := store s ope { deref s ope with opid := MMCU_HOOK_MALLOC }
      match capture env fuel s ope with
      | .error f => .error f
      | .ok s =>
        -- Old region was freed.
        let s := store s ope { deref s ope with opid := MMCU_HOOK_FREE }
        let s := store s ope { deref s ope with addr := old_addr }
        capture env fuel s ope
    else
      -- Area pointed to was not moved.
      let s := store s ope { deref s ope with opid := MMCU_HOOK_FREE }
      match capture env fuel s ope with
      | .error f => .error f
      | .ok s =>
        let s := store s ope { deref s ope with opid := MMCU_HOOK_MALLOC }
        let s := store s ope { deref s ope with size := to_ssize_t size }
        capture env fuel s ope

end

/-! ## Auxiliary definitions for the statements -/

/-- Fuel that suffices for every call chain that starts in `capture`. -/
def capture_fuel : Nat := 6

/-- The call `capture(new mmcu_memory_op_entry(e))` that every hook makes. -/
def capture_new (env : mmcu_env) (s : mmcu_mem_stat_mgr) (e : mmcu_memory_op_entry) :
    Except mmcu_failure mmcu_mem_stat_mgr :=
  capture env capture_fuel (new_entry s e).1 (new_entry s e).2

/-- Allocate-class operations: malloc, calloc, posix_memalign. -/
def alloc_class (o : mmcu_hook_id) : Bool :=
  o = MMCU_HOOK_MALLOC || o = MMCU_HOOK_CALLOC || o = MMCU_HOOK_POSIX_MEMALIGN

/-- The record stored in the live allocation table for an address, if any. -/
def live_entry (s : mmcu_mem_stat_mgr) (a : Nat) : Option mmcu_memory_op_entry :=
  (map_find s.addr2entry a).bind (fun p => s.heap[p]?)

/-- The kernel interface never makes the parser exit. -/
def env_ok (env : mmcu_env) : Prop :=
  (∀ k, env.smaps_pss_total k ≠ none) ∧ (∀ k a, env.smaps_entry k a ≠ .fatal)

/-- A run either returns a state satisfying `P`, or it ended in `exit(EXIT_FAILURE)`
because the kernel interface made the parser exit. -/
def outcome (env : mmcu_env) (r : Except mmcu_failure mmcu_mem_stat_mgr)
    (P : mmcu_mem_stat_mgr → Prop) : Prop :=
  (∀ s', r = .ok s' → P s') ∧ (∀ f, r = .error f → f = .exit_failure ∧ ¬ env_ok env)

/-- What a sampling step leaves alone. -/
structure stats_frame (s s' : mmcu_mem_stat_mgr) : Prop where
  heap : s'.heap = s.heap
  addr2entry : s'.addr2entry = s.addr2entry
  addr2mmap_entry : s'.addr2mmap_entry = s.addr2mmap_entry
  current_mem_allocd : s'.current_mem_allocd = s.current_mem_allocd
  n_mem_alloc_ops : s'.n_mem_alloc_ops = s.n_mem_alloc_ops
  n_mem_free_ops : s'.n_mem_free_ops = s.n_mem_free_ops
  curious_b : s'.curious_b = s.curious_b
  stderr : s'.stderr = s.stderr
  num_captures : s'.num_captures = s.num_captures
  n_smaps_entry_calls : s'.n_smaps_entry_calls = s.n_smaps_entry_calls

/-- Effect of a capture on the store, the two tables and the running total. -/
structure core_is (s' : mmcu_mem_stat_mgr) (heap : List mmcu_memory_op_entry)
    (tbl mm : List (Nat × Nat)) (total : Int) : Prop where
  heap : s'.heap = heap
  addr2entry : s'.addr2entry = tbl
  addr2mmap_entry : s'.addr2mmap_entry = mm
  current_mem_allocd : s'.current_mem_allocd = total

/-- A kernel interface for the concrete runs below: every region has PSS 4096 bytes,
the whole-process PSS total is 0, and the clock counts its calls. -/
def demo_env : mmcu_env where
  mmcu_time := fun k => k
  smaps_entry := fun _ _ => .found { pss_in_b := 4096 }
  smaps_pss_total := fun _ => some 0

/-- A state in which one malloc of 10 bytes at address 100 is tracked. -/
def demo_state : mmcu_mem_stat_mgr where
  current_mem_allocd := 10
  mpi_high_mem_usage_mark := 10
  n_mem_alloc_ops := 1
  addr2entry := [(100, 0)]
  heap := [⟨MMCU_HOOK_MALLOC, 100, 10, 0⟩]

/-- A state in which address 100 is tracked with a recorded size of exactly 1 MiB
and no curious bytes have been counted yet. -/
def curious_state : mmcu_mem_stat_mgr where
  current_mem_allocd := 1048576
  mpi_high_mem_usage_mark := 1048576
  n_mem_alloc_ops := 1
  addr2entry := [(100, 0)]
  heap := [⟨MMCU_HOOK_MALLOC, 100, 1048576, 0⟩]

/-- The accounting state at start-up: all counters zero, both tables empty. -/
def init_state : mmcu_mem_stat_mgr := {}

/-! ## The hook shim (`mpimcu-mem-hooks.cc`)

Each hook performs the real operation, builds an event from its arguments and result, and
hands it to `capture`.  The result of the real operation is a parameter here. -/

/-- The hook `mmcu_mem_hooks_malloc_hook(size)`, with `res` the pointer `malloc` returned. -/
def mmcu_mem_hooks_malloc_hook (env : mmcu_env) (s : mmcu_mem_stat_mgr) (res size : Nat) :
    Except mmcu_failure mmcu_mem_stat_mgr :=
  capture_new env s ⟨MMCU_HOOK_MALLOC, res, to_ssize_t size, 0⟩

/-- The hook `mmcu_mem_hooks_calloc_hook(nmemb, size)`. -/
def mmcu_mem_hooks_calloc_hook (env : mmcu_env) (s : mmcu_mem_stat_mgr)
    (res nmemb size : Nat) : Except mmcu_failure mmcu_mem_stat_mgr :=
  capture_new env s ⟨MMCU_HOOK_CALLOC, res, to_ssize_t (to_size_t (nmemb * size)), 0⟩

/-- The hook `mmcu_mem_hooks_realloc_hook(ptr, size)`. -/
def mmcu_mem_hooks_realloc_hook (env : mmcu_env) (s : mmcu_mem_stat_mgr)
    (res ptr size : Nat) : Except mmcu_failure mmcu_mem_stat_mgr :=
  capture_new env s ⟨MMCU_HOOK_REALLOC, res, to_ssize_t size, ptr⟩

/-- The hook `mmcu_mem_hooks_posix_memalign_hook(memptr, alignment, size)`, with `res`
the value of `*memptr` after the call. -/
def mmcu_mem_hooks_posix_memalign_hook (env : mmcu_env) (s : mmcu_mem_stat_mgr)
    (res size : Nat) : Except mmcu_failure mmcu_mem_stat_mgr :=
  capture_new env s ⟨MMCU_HOOK_POSIX_MEMALIGN, res, to_ssize_t size, 0⟩

/-- The hook `mmcu_mem_hooks_mmap_hook(addr, length, ...)`, with `res` the address `mmap`
returned. -/
def mmcu_mem_hooks_mmap_hook (env : mmcu_env) (s : mmcu_mem_stat_mgr) (res length : Nat) :
    Except mmcu_failure mmcu_mem_stat_mgr :=
  capture_new env s ⟨MMCU_HOOK_MMAP, res, to_ssize_t length, 0⟩

/-- The hook `mmcu_mem_hooks_free_hook(ptr)`. -/
def mmcu_mem_hooks_free_hook (env : mmcu_env) (s : mmcu_mem_stat_mgr) (ptr : Nat) :
    Except mmcu_failure mmcu_mem_stat_mgr :=
  capture_new env s ⟨MMCU_HOOK_FREE, ptr, 0, 0⟩

/-- The hook `mmcu_mem_hooks_munmap_hook(addr, length)`. -/
def mmcu_mem_hooks_munmap_hook (env : mmcu_env) (s : mmcu_mem_stat_mgr) (addr length : Nat) :
    Except mmcu_failure mmcu_mem_stat_mgr :=
  capture_new env s ⟨MMCU_HOOK_MUNMAP, addr, to_ssize_t length, 0⟩

/-! ## Sequences of heap events -/

/-- Capture of a sequence of events, each in a fresh record, in order. -/
def capture_all (env : mmcu_env) :
    mmcu_mem_stat_mgr → List mmcu_memory_op_entry → Except mmcu_failure mmcu_mem_stat_mgr
  | s, [] => .ok s
  | s, e :: es =>
    match capture_new env s e with
    | .error f => .error f
    | .ok s' => capture_all env s' es

/-- An allocate-class event whose address is not in the live allocation table, or a
deallocate event whose address is in it. -/
def heap_event_ok (s : mmcu_mem_stat_mgr) (e : mmcu_memory_op_entry) : Bool :=
  if alloc_class e.opid then (map_find s.addr2entry e.addr).isNone
  else decide (e.opid = MMCU_HOOK_FREE) && (map_find s.addr2entry e.addr).isSome

/-- Every event of the sequence is admissible (`heap_event_ok`) in the state in which the
engine receives it. -/
def unique_addr_trace (env : mmcu_env) :
    mmcu_mem_stat_mgr → List mmcu_memory_op_entry → Prop
  | _, [] => True
  | s, e :: es =>
    heap_event_ok s e = true ∧ ∀ s', capture_new env s e = .ok s' → unique_addr_trace env s' es

/-- Book-keeping of the allocate events not yet deallocated: an allocate-class event is
added, any other (deallocate) event removes the events at its address. -/
def live_step (L : List mmcu_memory_op_entry) (e : mmcu_memory_op_entry) :
    List mmcu_memory_op_entry :=
  if alloc_class e.opid then e :: L else L.filter (fun x => decide (x.addr ≠ e.addr))

/-- The allocate events of a sequence whose address has not yet been deallocated. -/
def live_allocs (evs : List mmcu_memory_op_entry) : List mmcu_memory_op_entry :=
  evs.foldl live_step []

/-- Admissibility of a sequence read off the events alone, starting from the live
events `L`. -/
def events_admissible : List mmcu_memory_op_entry → List mmcu_memory_op_entry → Bool
  | _, [] => true
  | L, e :: es =>
    (if alloc_class e.opid then decide (e.addr ∉ L.map (fun x => x.addr))
      else decide (e.opid = MMCU_HOOK_FREE) && decide (e.addr ∈ L.map (fun x => x.addr)))
    && events_admissible (live_step L e) es

/-- The engine state agrees with the live events `L`: no mapped regions, the running
total is the sum of their sizes, the live allocation table lists their addresses with
their sizes, and every table pointer refers to an existing record. -/
structure heap_inv (s : mmcu_mem_stat_mgr) (L : List mmcu_memory_op_entry) : Prop where
  mm : s.addr2mmap_entry = []
  total : s.current_mem_allocd = to_ssize_t ((L.map (fun e => e.size)).sum)
  view : s.addr2entry.map (fun kv => (kv.1, (deref s kv.2).size))
    = L.map (fun e => (e.addr, e.size))
  ptrs : ∀ kv ∈ s.addr2entry, kv.2 < s.heap.length
  nodup : (L.map (fun e => e.addr)).Nodup

/-- Neither watermark of `s'` is below the corresponding watermark of `s`. -/
def marks_le (s s' : mmcu_mem_stat_mgr) : Prop :=
  s.mpi_high_mem_usage_mark ≤ s'.mpi_high_mem_usage_mark ∧
  s.pss_high_mem_usage_mark ≤ s'.pss_high_mem_usage_mark

/-- The record stored in the mapped-region table for an address, if any. -/
def mapped_entry (s : mmcu_mem_stat_mgr) (a : Nat) : Option mmcu_memory_op_entry :=
  (map_find s.addr2mmap_entry a).bind (fun p => s.heap[p]?)

/-- A run of `k` successive non-forced calls `update_mem_stats()`. -/
def update_mem_stats_n (env : mmcu_env) :
    Nat → mmcu_mem_stat_mgr → Except mmcu_failure mmcu_mem_stat_mgr
  | 0, s => .ok s
  | k + 1, s =>
    match update_mem_stats env 1 s false with
    | .error f => .error f
    | .ok s' => update_mem_stats_n env k s'

/-- A state in which one mapped region at address 100 is tracked with a stored PSS of
4096 bytes, as the mmap hook leaves it when called at start-up under `demo_env`. -/
def mapped_state : mmcu_mem_stat_mgr where
  num_captures := 1
  n_mem_ops_recorded := 1
  n_mem_alloc_ops := 1
  current_mem_allocd := 4096
  mpi_high_mem_usage_mark := 4096
  addr2mmap_entry := [(100, 0)]
  mem_allocd_samples := [(0, 4096)]
  heap := [⟨MMCU_HOOK_MMAP_PSS_UPDATE, 100, 4096, 0⟩]
  n_time_calls := 1
  n_smaps_entry_calls := 1

/-- The fields of an event record that no method changes after the record has entered a
table: kind, address and old address (only `size` is rewritten by the refresh). -/
def entry_shape (e : mmcu_memory_op_entry) : mmcu_hook_id × Nat × Nat :=
  (e.opid, e.addr, e.old_addr)

/-- The largest value of a time series, or 0 when none is larger. -/
def series_max (l : List (Int × Int)) : Int :=
  (l.map (fun x => x.2)).foldl max 0

/-- What one pass of the refresh loop body does to an entry of kind map-cost-update. -/
structure refresh_step (env : mmcu_env) (s s' : mmcu_mem_stat_mgr) (e : Nat)
    (d : mmcu_proc_smaps_entry) : Prop where
  heap : s'.heap = s.heap.set e { deref s e with size := to_ssize_t d.pss_in_b }
  addr2entry : s'.addr2entry = s.addr2entry
  addr2mmap_entry : s'.addr2mmap_entry = s.addr2mmap_entry
  current_mem_allocd : s'.current_mem_allocd
    = to_ssize_t (s.current_mem_allocd + ((d.pss_in_b : Int) - (deref s e).size))
  n_mem_ops_recorded : s'.n_mem_ops_recorded = s.n_mem_ops_recorded + 1
  mem_allocd_samples : ∃ t, s'.mem_allocd_samples
    = s.mem_allocd_samples ++ [(t, s'.current_mem_allocd)]
  pss_total_samples : s'.pss_total_samples.length + s.n_mem_ops_recorded / 8
    = s.pss_total_samples.length + (s.n_mem_ops_recorded + 1) / 8
  n_mem_alloc_ops : s'.n_mem_alloc_ops = s.n_mem_alloc_ops
  n_mem_free_ops : s'.n_mem_free_ops = s.n_mem_free_ops
  n_mpi_pss_samples : s'.n_mpi_pss_samples = s.n_mpi_pss_samples

/-- Effect of the refresh loop on the counters, the tables and the shape of the store. -/
structure refresh_counts (s s' : mmcu_mem_stat_mgr) (k : Nat) : Prop where
  addr2entry : s'.addr2entry = s.addr2entry
  addr2mmap_entry : s'.addr2mmap_entry = s.addr2mmap_entry
  shape : s'.heap.map entry_shape = s.heap.map entry_shape
  n_mem_ops_recorded : s'.n_mem_ops_recorded = s.n_mem_ops_recorded + k
  mem_allocd_samples : s'.mem_allocd_samples.length = s.mem_allocd_samples.length + k
  pss_total_samples : s'.pss_total_samples.length + s.n_mem_ops_recorded / 8
    = s.pss_total_samples.length + (s.n_mem_ops_recorded + k) / 8
  n_mem_alloc_ops : s'.n_mem_alloc_ops = s.n_mem_alloc_ops
  n_mem_free_ops : s'.n_mem_free_ops = s.n_mem_free_ops
  n_mpi_pss_samples : s'.n_mpi_pss_samples = s.n_mpi_pss_samples

/-- A kernel interface in which no region is ever found: every address query reports
not-found, the whole-process PSS total is 0, and the clock counts its calls. -/
def empty_env : mmcu_env where
  mmcu_time := fun k => k
  smaps_entry := fun _ _ => .not_found
  smaps_pss_total := fun _ => some 0

/-- Each watermark is the largest value of its time series, or 0 when no value is
larger. -/
structure series_inv (s : mmcu_mem_stat_mgr) : Prop where
  mpi : s.mpi_high_mem_usage_mark = series_max s.mem_allocd_samples
  pss : s.pss_high_mem_usage_mark = series_max s.pss_total_samples

/-- The watermarks are the maxima of their series and the library-only watermark is at
least the running total. -/
structure wm_inv (s : mmcu_mem_stat_mgr) : Prop where
  series : series_inv s
  total : s.current_mem_allocd ≤ s.mpi_high_mem_usage_mark

/-- The states reachable from the start-up state by `capture` calls (on any event) and by
forced or non-forced calls of the public method `update_mem_stats`. -/
inductive stats_reachable (env : mmcu_env) : mmcu_mem_stat_mgr → Prop where
  | init : stats_reachable env init_state
  | capture (s : mmcu_mem_stat_mgr) (e : mmcu_memory_op_entry) (s' : mmcu_mem_stat_mgr) :
      stats_reachable env s → capture_new env s e = .ok s' → stats_reachable env s'
  | update (s : mmcu_mem_stat_mgr) (fuel : Nat) (sample : Bool) (s' : mmcu_mem_stat_mgr) :
      stats_reachable env s → update_mem_stats env fuel s sample = .ok s' →
      stats_reachable env s'

/-- What the sampling and refresh methods leave alone: both tables, the capture count,
and the kind, address and old address of every event record. -/
structure engine_frame (s s' : mmcu_mem_stat_mgr) : Prop where
  addr2entry : s'.addr2entry = s.addr2entry
  addr2mmap_entry : s'.addr2mmap_entry = s.addr2mmap_entry
  shape : s'.heap.map entry_shape = s.heap.map entry_shape
  num_captures : s'.num_captures = s.num_captures

/-- Every entry of the mapped-region table has kind map-cost-update and is stored under
a key equal to its own address field. -/
def mm_inv (s : mmcu_mem_stat_mgr) : Prop :=
  ∀ kv ∈ s.addr2mmap_entry,
    (deref s kv.2).opid = MMCU_HOOK_MMAP_PSS_UPDATE ∧ (deref s kv.2).addr = kv.1

/-- The unexpected-kind warning of the refresh loop has never been written. -/
def no_unexpected (s : mmcu_mem_stat_mgr) : Prop :=
  ∀ o, mmcu_warning.unexpected_opid o ∉ s.stderr

/-- The kinds of event the hooks build: malloc, calloc, realloc, posix_memalign, free,
mmap, munmap. -/
def hook_kind (o : mmcu_hook_id) : Bool :=
  o = MMCU_HOOK_MALLOC || o = MMCU_HOOK_CALLOC || o = MMCU_HOOK_REALLOC ||
  o = MMCU_HOOK_POSIX_MEMALIGN || o = MMCU_HOOK_FREE || o = MMCU_HOOK_MMAP ||
  o = MMCU_HOOK_MUNMAP

/-- The states reachable from the start-up state by `capture` calls on events of the
kinds the hooks build. -/
inductive hook_reachable (env : mmcu_env) : mmcu_mem_stat_mgr → Prop where
  | init : hook_reachable env init_state
  | capture (s : mmcu_mem_stat_mgr) (e : mmcu_memory_op_entry) (s' : mmcu_mem_stat_mgr) :
      hook_reachable env s → hook_kind e.opid = true → capture_new env s e = .ok s' →
      hook_reachable env s'

/-- A state in which address 100 is a key of both tables: a malloc of 64 bytes returned
100 and a map event was then captured at 100 (PSS 4096 bytes), as the hooks leave the
engine under `demo_env`. -/
def overlap_state : mmcu_mem_stat_mgr where
  num_captures := 2
  n_mem_ops_recorded := 2
  n_mpi_pss_samples_requested := 1
  n_mpi_pss_samples := 1
  n_mem_alloc_ops := 2
  current_mem_allocd := 4160
  mpi_high_mem_usage_mark := 4160
  addr2entry := [(100, 0)]
  addr2mmap_entry := [(100, 1)]
  mem_allocd_samples := [(0, 64), (1, 4160)]
  heap := [⟨MMCU_HOOK_MALLOC, 100, 64, 0⟩, ⟨MMCU_HOOK_MMAP_PSS_UPDATE, 100, 4096, 0⟩]
  n_time_calls := 2
  n_smaps_entry_calls := 1

/-- The state `overlap_state` after an unmap event of 8192 bytes at address 100. -/
def overlap_unmapped : mmcu_mem_stat_mgr where
  num_captures := 3
  n_mem_ops_recorded := 3
  n_mpi_pss_samples_requested := 1
  n_mpi_pss_samples := 1
  n_mem_alloc_ops := 2
  n_mem_free_ops := 1
  current_mem_allocd := -4032
  mpi_high_mem_usage_mark := 4160
  addr2entry := [(100, 0)]
  addr2mmap_entry := []
  mem_allocd_samples := [(0, 64), (1, 4160), (2, -4032)]
  heap := [⟨MMCU_HOOK_MALLOC, 100, 64, 0⟩, ⟨MMCU_HOOK_MMAP_PSS_UPDATE, 100, 4096, 0⟩,
    ⟨MMCU_HOOK_MUNMAP, 100, 8192, 0⟩]
  n_time_calls := 3
  n_smaps_entry_calls := 1

/-- The state `overlap_state` after a deallocate event at address 100. -/
def overlap_freed : mmcu_mem_stat_mgr where
  num_captures := 3
  n_mem_ops_recorded := 3
  n_mpi_pss_samples_requested := 2
  n_mpi_pss_samples := 1
  n_mem_alloc_ops := 2
  n_mem_free_ops := 1
  current_mem_allocd := 4096
  mpi_high_mem_usage_mark := 4160
  addr2entry := []
  addr2mmap_entry := [(100, 1)]
  mem_allocd_samples := [(0, 64), (1, 4160), (2, 4096)]
  heap := [⟨MMCU_HOOK_MALLOC, 100, 64, 0⟩, ⟨MMCU_HOOK_MMAP_PSS_UPDATE, 100, 4096, 0⟩,
    ⟨MMCU_HOOK_FREE, 100, 64, 0⟩]
  n_time_calls := 3
  n_smaps_entry_calls := 1

/-- The state `demo_state` after the resize event `realloc(100, 20)` that returned 200. -/
def demo_moved : mmcu_mem_stat_mgr where
  num_captures := 3
  n_mem_ops_recorded := 2
  n_mpi_pss_samples_requested := 2
  n_mpi_pss_samples := 1
  n_mem_alloc_ops := 2
  n_mem_free_ops := 1
  current_mem_allocd := 20
  mpi_high_mem_usage_mark := 30
  addr2entry := [(200, 1)]
  mem_allocd_samples := [(0, 30), (1, 20)]
  heap := [⟨MMCU_HOOK_MALLOC, 100, 10, 0⟩, ⟨MMCU_HOOK_FREE, 100, 10, 100⟩]
  n_time_calls := 2

/-! ## The C library, as far as the parser uses it

A stream is the list of characters not yet read.  A character array is the list of its
bytes; the C string it holds is what precedes the first NUL. -/

/-- The constant `PATH_MAX` of `<limits.h>` on Linux. -/
def PATH_MAX : Nat := 4096

/-- The terminating character of a C string. -/
def NUL : Char := Char.ofNat 0

/-- The C string held in a character array: the bytes before the first NUL. -/
def c_str (buf : List Char) : List Char := buf.takeWhile (fun c => c != NUL)

/-- What `fgets` moves from the stream into the buffer when it may store `k`
characters: it stops after a newline or at the end of the stream.  The result is the
characters read and the remaining stream. -/
def read_line : Nat → List Char → List Char × List Char
  | 0, f => ([], f)
  | _ + 1, [] => ([], [])
  | k + 1, c :: f =>
    if c = '\n' then ([c], f)
    else (c :: (read_line k f).1, (read_line k f).2)

/-- The call `fgets(buf, size, f)`: `none` is the null pointer returned at end of file. -/
def fgets (size : Nat) (f : List Char) : Option (List Char × List Char) :=
  if f.isEmpty then none else some (read_line (size - 1) f)

/-- One call of `strtok` with a single delimiter on the string that remains to be
scanned: the token and the string after it, or `none` (the null pointer) when only
delimiters remain. -/
def strtok (delim : Char) (s : List Char) : Option (List Char × List Char) :=
  let s := s.dropWhile (fun c => c == delim)
  if s.isEmpty then none
  else some (s.takeWhile (fun c => c != delim), (s.dropWhile (fun c => c != delim)).drop 1)

/-- The call `strncpy(dest, src, n)`: the first `n` bytes of `dest` become `src`, cut or
padded with NULs to `n` bytes; the other bytes of `dest` stay. -/
def strncpy (dest src : List Char) (n : Nat) : List Char :=
  src.take n ++ List.replicate (n - src.length) NUL ++ dest.drop n

/-- The test `strncmp(a, b, n) == 0` on two C strings. -/
def strncmp_eq (a b : List Char) (n : Nat) : Bool := a.take n == b.take n

/-- The function `isspace` in the C locale. -/
def isspace (c : Char) : Bool :=
  c == ' ' || c == '\t' || c == '\n' || c == Char.ofNat 11 || c == Char.ofNat 12 || c == '\r'

/-- Value of a character as a digit, for bases up to 36. -/
def digit_value (c : Char) : Option Nat :=
  if '0' ≤ c ∧ c ≤ '9' then some (c.toNat - 48)
  else if 'a' ≤ c ∧ c ≤ 'z' then some (c.toNat - 87)
  else if 'A' ≤ c ∧ c ≤ 'Z' then some (c.toNat - 55)
  else none

/-- Value of the longest prefix of digits of the base, starting from `acc`. -/
def scan_digits (base : Nat) : List Char → Nat → Nat
  | [], acc => acc
  | c :: cs, acc =>
    match digit_value c with
    | some d => if d < base then scan_digits base cs (acc * base + d) else acc
    | none => acc

/-- The subject sequence of the `strtol` family: white space is skipped, then an optional
sign, then for base 16 an optional `0x`, then digits.  The result is whether there was a
minus sign and the value of the digits (0 when there is none). -/
def strto_subject (base : Nat) (s : List Char) : Bool × Nat :=
  let s := s.dropWhile isspace
  let neg := s.head? == some '-'
  let s := if s.head? == some '-' || s.head? == some '+' then s.tail else s
  let s :=
    if base == 16 && s.head? == some '0' && (s.tail.head? == some 'x' || s.tail.head? == some 'X')
    then s.drop 2 else s
  (neg, scan_digits base s 0)

/-- The call `strtoull(s, NULL, base)` with `errno` cleared before it: the value and whether
`errno` is set afterwards (`ERANGE`; glibc sets nothing when no digit is found). -/
def strtoull (base : Nat) (s : List Char) : Nat × Bool :=
  let r := strto_subject base s
  if r.2 ≥ 18446744073709551616 then (18446744073709551615, true)
  else if r.1 then ((18446744073709551616 - r.2) % 18446744073709551616, false)
  else (r.2, false)

/-- The call `strtoll(s, NULL, base)` with `errno` cleared before it: the value and whether
`errno` is set afterwards. -/
def strtoll (base : Nat) (s : List Char) : Int × Bool :=
  let r := strto_subject base s
  if r.1 then
    if r.2 > 9223372036854775808 then (-9223372036854775808, true) else (-(r.2 : Int), false)
  else
    if r.2 ≥ 9223372036854775808 then (9223372036854775807, true) else ((r.2 : Int), false)

/-- The tokenizing loop the parser runs on a line,
`for (i = 0; i < n_tok && (tokp = strtok(strp, delim)); ++i) strncpy(toks[i], tokp, cap - 1)`:
`k` is the number of rounds left, `toks` the arrays (of `cap` bytes each) written so far. -/
def tokenize (delim : Char) (cap : Nat) :
    Nat → Nat → List Char → List (List Char) → List (List Char)
  | 0, _, _, toks => toks
  | k + 1, i, strp, toks =>
    match strtok delim strp with
    | none => toks
    | some (tokp, rest) =>
      tokenize delim cap k (i + 1) rest (toks.set i (strncpy (toks.getD i []) tokp (cap - 1)))

/-- The loop `for (i = 0; i < n && fgets(lb, sizeof(lb) - 1, f); ++i) { }`. -/
def skip_lines : Nat → List Char → List Char
  | 0, f => f
  | k + 1, f =>
    match fgets (2 * PATH_MAX - 1) f with
    | none => f
    | some (_, rest) => skip_lines k rest

/-- Contents of the automatic arrays the parser declares without initialising them:
`toks` (six arrays per line scanned), `pss_tokens` (three per call of `get_pss`) and
`addr_strs` (two per call of `get_addr_range`).  The first argument is the length of the
stream when the array is declared, the second the index of the array. -/
structure uninit_stack where
  toks : Nat → Nat → List Char
  pss_tokens : Nat → Nat → List Char
  addr_strs : Nat → Nat → List Char

/-- An array of `n` character arrays with the given contents. -/
def uninit (n : Nat) (g : Nat → List Char) : List (List Char) := (List.range n).map g

/-! ## The parser `mmcu_proc_smaps_parser`

The static member functions of the class carry the prefix `mmcu_proc_smaps`. -/

/-- The string `skip_suffix` of `get_proc_self_smaps_pss_total`. -/
def skip_suffix : List Char := "mpimcu-trace.so".toList

/-- The function `has_suffix(str, suffix)`. -/
def mmcu_proc_smaps.has_suffix (str suffix : List Char) : Bool :=
  str.length ≥ suffix.length && str.drop (str.length - suffix.length) == suffix

/-- The function `entry_has_shared_perms(perms_buff)`. -/
def mmcu_proc_smaps.entry_has_shared_perms (perms_buff : List Char) : Bool :=
  perms_buff.getD 3 NUL == 's'

/-- The function `get_addr_range(addr_str_buff, start, end)`; `addr_strs` is what its
local array of that name holds on entry. -/
def mmcu_proc_smaps.get_addr_range (addr_strs : List (List Char))
    (addr_str_buff : List Char) : Except mmcu_failure (Nat × Nat) :=
  -- Tokenize.
  let addr_strs := tokenize '-' 128 2 0 (c_str addr_str_buff) addr_strs
  -- Convert hex strings to numerical values.
  let r0 := strtoull 16 (c_str (addr_strs.getD 0 []))
  if r0.2 then .error .exit_failure
  else
    let r1 := strtoull 16 (c_str (addr_strs.getD 1 []))
    if r1.2 then .error .exit_failure
    else .ok (r0.1, r1.1)

/-- The function `get_pss(mapsf, pss_val)`; `pss_tokens` is what its local array of that
name holds on entry.  The result is the value and the stream after the PSS line. -/
def mmcu_proc_smaps.get_pss (pss_tokens : List (List Char)) (mapsf : List Char) :
    Except mmcu_failure (Int × List Char) :=
  -- Skip Size and Rss lines.
  let mapsf := skip_lines 2 mapsf
  -- Grab PSS entry.
  match fgets (2 * PATH_MAX - 1) mapsf with
  | none => .error .exit_failure
  | some (lb, mapsf) =>
    -- Tokenize.
    let pss_tokens := tokenize ' ' PATH_MAX 3 0 (c_str lb) pss_tokens
    -- Sanity (expecting Pss:).
    if !strncmp_eq "Pss:".toList (c_str (pss_tokens.getD 0 [])) 4 then .error .exit_failure
    -- Sanity (expecting kB).
    else if !strncmp_eq "kB".toList (c_str (pss_tokens.getD 2 [])) 2 then .error .exit_failure
    else
      -- Get the value.
      let r := strtoll 10 (c_str (pss_tokens.getD 1 []))
      if r.2 then .error .exit_failure else .ok (r.1, mapsf)

/-- The line loop of the parser's `get_proc_self_smaps_entry`: `none` when the stream
ends without a match, otherwise the descriptor filled in at the match and the stream
after the matching line. -/
def mmcu_proc_smaps.entry_scan (u : uninit_stack) (target_addr : Nat)
    (res_entry : mmcu_proc_smaps_entry) :
    Nat → List Char → Except mmcu_failure (Option (mmcu_proc_smaps_entry × List Char))
  | 0, _ => .error .out_of_fuel
  | fuel + 1, mapsf =>
    match fgets (2 * PATH_MAX - 1) mapsf with
    | none => .ok none
    | some (cline_buff, rest) =>
      -- Tokenize.
      let toks := tokenize ' ' PATH_MAX 6 0 (c_str cline_buff) (uninit 6 (u.toks mapsf.length))
      -- Look for target address.
      match mmcu_proc_smaps.get_addr_range (uninit 2 (u.addr_strs mapsf.length))
          (toks.getD 0 []) with
      | .error f => .error f
      | .ok (addr_start, addr_end) =>
        -- If we found it, then process and return to caller.
        if target_addr = addr_start then
          let reg_shared := mmcu_proc_smaps.entry_has_shared_perms (toks.getD 1 [])
          .ok (some ({ res_entry with
            addr_start := addr_start
            addr_end := addr_end
            reg_shared := reg_shared
            -- Stash path to file backing store only if shared.
            path :=
              if reg_shared then (c_str (toks.getD 5 [])).take (PATH_MAX - 1)
              else res_entry.path }, rest))
        else mmcu_proc_smaps.entry_scan u target_addr res_entry fuel rest

/-- The parser's `get_proc_self_smaps_entry(target_addr, res_entry, found_entry)` on the
content of `/proc/self/smaps` (`none` when the file cannot be opened): the descriptor and
the flag `found_entry` on return. -/
def mmcu_proc_smaps.get_proc_self_smaps_entry (u : uninit_stack)
    (smaps : Option (List Char)) (target_addr : Nat) (res_entry : mmcu_proc_smaps_entry) :
    Except mmcu_failure (mmcu_proc_smaps_entry × Bool) :=
  match smaps with
  | none => .error .exit_failure
  | some mapsf =>
    match mmcu_proc_smaps.entry_scan u target_addr res_entry (mapsf.length + 1) mapsf with
    | .error f => .error f
    | .ok none => .ok (res_entry, false)
    | .ok (some (res_entry, mapsf)) =>
      match mmcu_proc_smaps.get_pss (uninit 3 (u.pss_tokens mapsf.length)) mapsf with
      | .error f => .error f
      | .ok (pss_val, _) =>
        -- In kilobytes.
        .ok ({ res_entry with pss_in_b := (to_size_t (to_size_t pss_val * 1024)).toNat }, true)

/-- The line loop of `get_proc_self_smaps_pss_total`, with the running `pss_sum`. -/
def mmcu_proc_smaps.pss_total_scan (u : uninit_stack) :
    Nat → List Char → Int → Except mmcu_failure Int
  | 0, _, _ => .error .out_of_fuel
  | fuel + 1, smapsf, pss_sum =>
    match fgets (2 * PATH_MAX - 1) smapsf with
    | none => .ok pss_sum
    | some (lb, rest) =>
      -- Tokenize.
      let toks := tokenize ' ' PATH_MAX 6 0 (c_str lb) (uninit 6 (u.toks smapsf.length))
      let tok := c_str (toks.getD 5 [])
      -- `std::string path_str(tok, strlen(tok) - 1)`: a length of `SIZE_MAX` throws.
      if tok.length = 0 then .error .length_error
      else
        let path_str := tok.take (tok.length - 1)
        -- Has suffix, so skip it.
        let add_pss_to_tally := !mmcu_proc_smaps.has_suffix path_str skip_suffix
        match mmcu_proc_smaps.get_pss (uninit 3 (u.pss_tokens rest.length)) rest with
        | .error f => .error f
        | .ok (cur_pss, rest) =>
          let pss_sum := if add_pss_to_tally then to_ssize_t (pss_sum + cur_pss) else pss_sum
          -- Skip rest.
          mmcu_proc_smaps.pss_total_scan u fuel (skip_lines 15 rest) pss_sum

/-- The parser's `get_proc_self_smaps_pss_total(pss_total_in_b)` on the content of
`/proc/self/smaps` (`none` when the file cannot be opened). -/
def mmcu_proc_smaps.get_proc_self_smaps_pss_total (u : uninit_stack)
    (smaps : Option (List Char)) : Except mmcu_failure Int :=
  match smaps with
  | none => .error .exit_failure
  | some smapsf =>
    match mmcu_proc_smaps.pss_total_scan u (smapsf.length + 1) smapsf 0 with
    | .error f => .error f
    | .ok pss_sum => .ok (to_ssize_t (pss_sum * 1024))

/-! ## Fixtures: the text of `/proc/self/smaps` -/

/-- A numeral of the base: a non-empty string of digits of that base. -/
def is_numeral (base : Nat) (ds : List Char) : Bool :=
  !ds.isEmpty && ds.all (fun c => match digit_value c with | some d => d < base | none => false)

/-- Value of a numeral: its digits, most significant first. -/
def numeral_value (base : Nat) (ds : List Char) : Nat :=
  Nat.ofDigits base (ds.reverse.map (fun c => (digit_value c).getD 0))

/-- A string without space, newline or NUL. -/
def no_blank (f : List Char) : Bool := f.all (fun c => c != ' ' && c != '\n' && c != NUL)

/-- A field of a header line: a non-empty string without space, newline or NUL, short
enough for the array the parser copies it to. -/
def is_field (f : List Char) : Bool := !f.isEmpty && no_blank f && f.length < PATH_MAX - 1

/-- A line of text (given without its newline) that one `fgets` of the parser reads
whole. -/
def text_line (l : List Char) : Bool := l.all (fun c => c != '\n') && l.length + 1 < 2 * PATH_MAX - 1

/-- The labels of the lines that follow a header line, as the kernel writes them. -/
def kernel_labels : List (List Char) :=
  ["Size", "Rss", "Pss", "Shared_Clean", "Shared_Dirty", "Private_Clean", "Private_Dirty",
    "Referenced", "Anonymous", "AnonHugePages", "Shared_Hugetlb", "Private_Hugetlb", "Swap",
    "SwapPss", "KernelPageSize", "MMUPageSize", "Locked", "VmFlags"].map String.toList

/-- A labelled line (given without its newline): a kernel label, a colon, a space and the
rest. -/
def labelled_line (l : List Char) : Bool :=
  kernel_labels.any (fun label => (label ++ [':', ' ']).isPrefixOf l)

/-- One region block of a fixture: the fields of the header line
`start-stop perms offset dev inode path` (with `pad` more spaces before the path), the two
lines before the PSS line, the PSS line `Pss: pss kB` (with `pss_pad` more spaces before
the value) and the lines after it; lines are given without their newline. -/
structure smaps_region where
  start : List Char
  stop : List Char
  perms : List Char
  offset : List Char
  dev : List Char
  inode : List Char
  pad : Nat
  path : List Char
  size_line : List Char
  rss_line : List Char
  pss_pad : Nat
  pss : List Char
  rest : List (List Char)

/-- The header line of a region. -/
def render_header (r : smaps_region) : List Char :=
  r.start ++ '-' :: r.stop ++ ' ' :: r.perms ++ ' ' :: r.offset ++ ' ' :: r.dev ++ ' ' :: r.inode
    ++ ' ' :: List.replicate r.pad ' ' ++ r.path ++ ['\n']

/-- The PSS line of a region, without its newline. -/
def pss_line (r : smaps_region) : List Char :=
  "Pss:".toList ++ ' ' :: List.replicate r.pss_pad ' ' ++ r.pss ++ " kB".toList

/-- Lines of text, each followed by a newline. -/
def render_lines : List (List Char) → List Char
  | [] => []
  | l :: ls => l ++ '\n' :: render_lines ls

/-- The lines that follow the header line of a region. -/
def region_lines (r : smaps_region) : List (List Char) :=
  r.size_line :: r.rss_line :: pss_line r :: r.rest

/-- The text of a region block. -/
def render_region (r : smaps_region) : List Char :=
  render_header r ++ render_lines (region_lines r)

/-- The text of a fixture. -/
def render_fixture : List smaps_region → List Char
  | [] => []
  | r :: rs => render_region r ++ render_fixture rs

/-- A well-formed header line: hexadecimal addresses of at most 16 digits, four non-empty
fields, a path without space, newline or NUL, and a line that one `fgets` reads whole. -/
def well_formed_header (r : smaps_region) : Bool :=
  is_numeral 16 r.start && r.start.length ≤ 16 && is_numeral 16 r.stop && r.stop.length ≤ 16
    && is_field r.perms && is_field r.offset && is_field r.dev && is_field r.inode
    && no_blank r.path && r.path.length + 1 < PATH_MAX - 1
    && (render_header r).length < 2 * PATH_MAX - 1

/-- A well-formed region block: a well-formed header line followed by 18 lines of text of
which the third is `Pss: v kB` with a decimal numeral `v` that a `long long` holds. -/
def well_formed_region (r : smaps_region) : Bool :=
  well_formed_header r && text_line r.size_line && text_line r.rss_line
    && is_numeral 10 r.pss && numeral_value 10 r.pss < 9223372036854775808
    && r.pss.length < PATH_MAX - 1 && text_line (pss_line r)
    && r.rest.length == 15 && r.rest.all text_line

/-- A region block whose lines after the header all carry a kernel label. -/
def labelled_region (r : smaps_region) : Bool :=
  labelled_line r.size_line && labelled_line r.rss_line && r.rest.all labelled_line

/-- The contents of the uninitialised array `addr_strs` never make `strtoull` overflow. -/
def benign (u : uninit_stack) : Prop :=
  ∀ pos, (strtoull 16 (c_str (u.addr_strs pos 1))).2 = false

/-- A token of a line, as `strtok` cuts it at spaces: a non-empty string without space or
NUL. -/
def is_token (t : List Char) : Bool := !t.isEmpty && t.all (fun c => c != ' ' && c != NUL)

/-- Where a token ends: at the end of the string, at a space or at a NUL. -/
def token_end (tl : List Char) : Bool :=
  match tl with
  | [] => true
  | c :: _ => c == ' ' || c == NUL

/-- A fixture with one region, as in the comment of `get_proc_self_smaps_pss_total`. -/
def demo_region : smaps_region where
  start := "08048000".toList
  stop := "08056000".toList
  perms := "r-xp".toList
  offset := "00000000".toList
  dev := "03:0c".toList
  inode := "64593".toList
  pad := 2
  path := "/usr/sbin/gpm".toList
  size_line := "Size:               4100 kB".toList
  rss_line := "Rss:                 256 kB".toList
  pss_pad := 17
  pss := "81".toList
  rest := ["Shared_Clean:          0 kB", "Shared_Dirty:          0 kB",
    "Private_Clean:         0 kB", "Private_Dirty:         0 kB",
    "Referenced:            0 kB", "Anonymous:             0 kB",
    "AnonHugePages:         0 kB", "Shared_Hugetlb:        0 kB",
    "Private_Hugetlb:       0 kB", "Swap:                  0 kB",
    "SwapPss:               0 kB", "KernelPageSize:        4 kB",
    "MMUPageSize:           4 kB", "Locked:                0 kB",
    "VmFlags: rd ex "].map String.toList

/-- A region backed by the profiler's own shared object. -/
def trace_region : smaps_region :=
  { demo_region with
    start := "7f0000001000".toList
    stop := "7f0000002000".toList
    perms := "rw-s".toList
    pad := 0
    path := "/opt/lib/libmpimcu-trace.so".toList
    pss_pad := 0
    pss := "7".toList }

/-- A fixture with two regions. -/
def demo_fixture : List smaps_region := [demo_region, trace_region]

/-- The descriptor the address scan fills in at a header line. -/
def header_entry (res : mmcu_proc_smaps_entry) (r : smaps_region) : mmcu_proc_smaps_entry :=
  { res with
    addr_start := numeral_value 16 r.start
    addr_end := numeral_value 16 r.stop
    reg_shared := r.perms.getD 3 NUL == 's'
    path := if r.perms.getD 3 NUL == 's' then r.path ++ ['\n'] else res.path }

/-- The PSS values the whole-process query adds up. -/
def counted_pss (rs : List smaps_region) : List Int :=
  (rs.filter (fun r => decide (¬ skip_suffix <:+ r.path))).map
    (fun r => (numeral_value 10 r.pss : Int))

/-- A stack on which every uninitialised array happens to hold the empty string. -/
def quiet_stack : uninit_stack where
  toks := fun _ _ => []
  pss_tokens := fun _ _ => []
  addr_strs := fun _ _ => []

/-- What follows a region header is malformed for `get_pss`: fewer than three lines (the
last of them possibly without a newline, at the end of the file); or a third line whose
first token (after `k` spaces) does not start with `Pss:`; or a third line whose third
token does not start with `kB`.  Lines are lines of text that one `fgets` reads whole; the
third line is given with its newline, which is part of its last token. -/
inductive malformed_pss : List Char → Prop where
  | few_lines (ls : List (List Char)) (last : List Char) :
      (∀ l ∈ ls, text_line l = true) → text_line last = true →
      ls.length + (if last.isEmpty then 0 else 1) < 3 →
      malformed_pss (render_lines ls ++ last)
  | bad_label (l1 l2 l3 tail : List Char) (k : Nat) (t tl : List Char) :
      text_line l1 = true → text_line l2 = true → text_line l3 = true →
      l3 ++ ['\n'] = List.replicate k ' ' ++ (t ++ tl) →
      is_token t = true → token_end tl = true → t.take 4 ≠ "Pss:".toList →
      malformed_pss (render_lines [l1, l2, l3] ++ tail)
  | bad_unit (l1 l2 l3 tail : List Char) (k0 k1 k2 : Nat) (t0 t1 t2 tl : List Char) :
      text_line l1 = true → text_line l2 = true → text_line l3 = true →
      l3 ++ ['\n'] = List.replicate k0 ' ' ++ (t0 ++ ' ' :: (List.replicate k1 ' '
        ++ (t1 ++ ' ' :: (List.replicate k2 ' ' ++ (t2 ++ tl))))) →
      is_token t0 = true → is_token t1 = true → is_token t2 = true → token_end tl = true →
      t2.take 2 ≠ "kB".toList →
      malformed_pss (render_lines [l1, l2, l3] ++ tail)

/-- The lines after a header in which the `Pss:` line is replaced by a second `Rss:`
line. -/
def rss_for_pss : List (List Char) :=
  ["Size:               4100 kB", "Rss:                 256 kB",
    "Rss:                 256 kB"].map String.toList

/-! # Theorems -/

/-! ## Arithmetic of `size_t` and `ssize_t` -/

theorem to_ssize_t_add_size (c x : Int) :
    to_ssize_t (c + to_size_t x) = to_ssize_t (c + x) := by
  unfold to_ssize_t to_size_t; omega

theorem to_ssize_t_sub_size (c x : Int) :
    to_ssize_t (c - to_size_t x) = to_ssize_t (c - x) := by
  unfold to_ssize_t to_size_t; omega

theorem to_ssize_t_of_range {x : Int} (h : is_ssize_t x) : to_ssize_t x = x := by
  unfold is_ssize_t at h; unfold to_ssize_t; omega

theorem to_ssize_t_range (x : Int) : is_ssize_t (to_ssize_t x) := by
  unfold is_ssize_t to_ssize_t; omega

theorem to_ssize_t_add_left (a b : Int) :
    to_ssize_t (to_ssize_t a + b) = to_ssize_t (a + b) := by
  unfold to_ssize_t; omega

theorem to_ssize_t_sub_left (a b : Int) :
    to_ssize_t (to_ssize_t a - b) = to_ssize_t (a - b) := by
  unfold to_ssize_t; omega

theorem to_ssize_t_to_size_t {x : Int} (h : is_ssize_t x) :
    to_ssize_t (to_size_t x) = x := by
  unfold is_ssize_t at h; unfold to_ssize_t to_size_t; omega

theorem to_size_t_eq_zero {x : Int} (h : is_ssize_t x) : to_size_t x = 0 ↔ x = 0 := by
  unfold is_ssize_t at h; unfold to_size_t; omega

/-! ## Outcomes -/

theorem outcome_intro_ok {env : mmcu_env} {P : mmcu_mem_stat_mgr → Prop}
    {s : mmcu_mem_stat_mgr} (h : P s) : outcome env (.ok s) P :=
  ⟨fun s' hs' => by cases hs'; exact h, fun f hf => by cases hf⟩

theorem outcome_intro_exit {env : mmcu_env} {P : mmcu_mem_stat_mgr → Prop}
    (h : ¬ env_ok env) : outcome env (.error .exit_failure) P := by
  constructor
  · intro s' hs'
    cases hs'
  · intro f hf
    cases hf
    exact ⟨rfl, h⟩

theorem outcome_ok {env : mmcu_env} {r : Except mmcu_failure mmcu_mem_stat_mgr}
    {P : mmcu_mem_stat_mgr → Prop} (h : outcome env r P) (hok : env_ok env) :
    ∃ s', r = .ok s' ∧ P s' := by
  cases r with
  | ok s' => exact ⟨s', rfl, h.1 s' rfl⟩
  | error f => exact absurd hok (h.2 f rfl).2

theorem outcome_of_ok {env : mmcu_env} {r : Except mmcu_failure mmcu_mem_stat_mgr}
    {P : mmcu_mem_stat_mgr → Prop} (h : outcome env r P) {s' : mmcu_mem_stat_mgr}
    (hr : r = .ok s') : P s' :=
  h.1 s' hr

theorem outcome_mono {env : mmcu_env} {r : Except mmcu_failure mmcu_mem_stat_mgr}
    {P Q : mmcu_mem_stat_mgr → Prop} (h : outcome env r P) (hpq : ∀ s', P s' → Q s') :
    outcome env r Q :=
  ⟨fun s' hs' => hpq s' (h.1 s' hs'), h.2⟩

theorem outcome_bind {env : mmcu_env} {P Q : mmcu_mem_stat_mgr → Prop}
    {g : mmcu_mem_stat_mgr → Except mmcu_failure mmcu_mem_stat_mgr} :
    ∀ {r : Except mmcu_failure mmcu_mem_stat_mgr}, outcome env r P →
      (∀ s', P s' → outcome env (g s') Q) →
      outcome env (match r with | .error e => .error e | .ok s => g s) Q := by
  intro r h hg
  cases r with
  | ok s' => exact hg s' (h.1 s' rfl)
  | error f =>
    obtain ⟨hf, hn⟩ := h.2 f rfl
    subst hf
    exact outcome_intro_exit hn

theorem stats_frame_refl (s : mmcu_mem_stat_mgr) : stats_frame s s :=
  ⟨rfl, rfl, rfl, rfl, rfl, rfl, rfl, rfl, rfl, rfl⟩

theorem stats_frame_trans {a b c : mmcu_mem_stat_mgr} (h1 : stats_frame a b)
    (h2 : stats_frame b c) : stats_frame a c :=
  ⟨h2.heap.trans h1.heap, h2.addr2entry.trans h1.addr2entry,
   h2.addr2mmap_entry.trans h1.addr2mmap_entry,
   h2.current_mem_allocd.trans h1.current_mem_allocd,
   h2.n_mem_alloc_ops.trans h1.n_mem_alloc_ops, h2.n_mem_free_ops.trans h1.n_mem_free_ops,
   h2.curious_b.trans h1.curious_b, h2.stderr.trans h1.stderr,
   h2.num_captures.trans h1.num_captures,
   h2.n_smaps_entry_calls.trans h1.n_smaps_entry_calls⟩

theorem ums_outcome (env : mmcu_env) (f : Nat) (s : mmcu_mem_stat_mgr) :
    outcome env (update_mem_stats env (f + 1) s false) (fun s' => stats_frame s s') := by
  by_cases hc : ((s.n_mem_ops_recorded + 1) % pss_totals_sample_freq == 0) = true
  · cases hq : env.smaps_pss_total s.n_smaps_total_calls with
    | none =>
      simp only [update_mem_stats, get_proc_self_smaps_pss_total, Bool.false_or,
        Bool.false_eq_true, if_false, hc, if_true, hq]
      exact outcome_intro_exit (fun h => absurd hq (h.1 _))
    | some v =>
      simp only [update_mem_stats, get_proc_self_smaps_pss_total, Bool.false_or,
        Bool.false_eq_true, if_false, hc, if_true, hq]
      exact outcome_intro_ok ⟨rfl, rfl, rfl, rfl, rfl, rfl, rfl, rfl, rfl, rfl⟩
  · simp only [update_mem_stats, get_proc_self_smaps_pss_total, Bool.false_or,
      Bool.false_eq_true, if_false, hc]
    exact outcome_intro_ok ⟨rfl, rfl, rfl, rfl, rfl, rfl, rfl, rfl, rfl, rfl⟩

/-! ## Store and tables -/

theorem deref_new_entry_self (s : mmcu_mem_stat_mgr) (e : mmcu_memory_op_entry) :
    deref (new_entry s e).1 (new_entry s e).2 = e := by
  simp [deref, new_entry, List.getD_eq_getElem?_getD]

theorem deref_new_entry_old (s : mmcu_mem_stat_mgr) (e : mmcu_memory_op_entry) (q : Nat)
    (x : mmcu_memory_op_entry) (h : s.heap[q]? = some x) :
    deref (new_entry s e).1 q = x := by
  have hq : q < s.heap.length := by
    by_contra hc
    rw [List.getElem?_eq_none (by omega)] at h
    cases h
  simp [deref, new_entry, List.getD_eq_getElem?_getD, List.getElem?_append_left hq, h]

theorem live_entry_find {s : mmcu_mem_stat_mgr} {a : Nat} {x : mmcu_memory_op_entry}
    (h : live_entry s a = some x) :
    ∃ q, map_find s.addr2entry a = some q ∧ s.heap[q]? = some x := by
  unfold live_entry at h
  cases hq : map_find s.addr2entry a with
  | none => simp [hq] at h
  | some q => exact ⟨q, rfl, by simpa [hq] using h⟩

theorem map_find_erase_self (m : List (Nat × Nat)) (a : Nat) :
    map_find (map_erase m a) a = none := by
  induction m with
  | nil => rfl
  | cons kv m ih =>
    obtain ⟨k, v⟩ := kv
    by_cases h : k = a
    · simpa [map_erase, h] using ih
    · simpa [map_erase, List.filter_cons, h, map_find] using ih

theorem map_find_erase_ne (m : List (Nat × Nat)) {a b : Nat} (h : b ≠ a) :
    map_find (map_erase m a) b = map_find m b := by
  induction m with
  | nil => rfl
  | cons kv m ih =>
    obtain ⟨k, v⟩ := kv
    unfold map_erase at ih ⊢
    by_cases hk : k = a
    · have hkb : ¬ k = b := fun hc => h (hc.symm.trans hk)
      simpa [List.filter_cons, hk, map_find, hkb, Ne.symm h] using ih
    · by_cases hkb : k = b
      · subst hkb
        simp [List.filter_cons, hk, map_find]
      · simpa [List.filter_cons, hk, map_find, hkb] using ih

theorem map_insert_of_none {m : List (Nat × Nat)} {a : Nat} (p : Nat)
    (h : map_find m a = none) : map_insert m a p = (a, p) :: m := by
  simp [map_insert, h]

/-! ## One step of the engine's inner methods -/

theorem ucma_alloc (env : mmcu_env) (f : Nat) (s : mmcu_mem_stat_mgr) (p : Nat)
    (h : alloc_class (deref s p).opid = true) :
    update_current_mem_allocd env (f + 1) s p false =
      update_mem_stats env f
        { s with
          n_mem_alloc_ops := s.n_mem_alloc_ops + 1
          current_mem_allocd := to_ssize_t (s.current_mem_allocd + (deref s p).size) }
        false := by
  cases ho : (deref s p).opid <;> simp [ho, alloc_class] at h <;>
    simp [update_current_mem_allocd, ho, to_ssize_t_add_size]

theorem ucma_free (env : mmcu_env) (f : Nat) (s : mmcu_mem_stat_mgr) (p : Nat)
    (h : (deref s p).opid = MMCU_HOOK_FREE ∨ (deref s p).opid = MMCU_HOOK_MUNMAP) :
    update_current_mem_allocd env (f + 1) s p false =
      update_mem_stats env f
        { s with
          n_mem_free_ops := s.n_mem_free_ops + 1
          current_mem_allocd := to_ssize_t (s.current_mem_allocd - (deref s p).size) }
        false := by
  rcases h with h | h <;> simp [update_current_mem_allocd, h, to_ssize_t_sub_size]

theorem ucma_pss_update (env : mmcu_env) (f : Nat) (s : mmcu_mem_stat_mgr) (p : Nat)
    (h : (deref s p).opid = MMCU_HOOK_MMAP_PSS_UPDATE) :
    update_current_mem_allocd env (f + 1) s p false =
      update_mem_stats env f
        { s with
          current_mem_allocd := to_ssize_t (s.current_mem_allocd + (deref s p).size) }
        false := by
  simp [update_current_mem_allocd, h, to_ssize_t_add_size]

theorem uape_empty (env : mmcu_env) (f : Nat) (s : mmcu_mem_stat_mgr)
    (h : s.addr2mmap_entry = []) :
    update_all_pss_entries env (f + 1) s false =
      .ok { s with
        n_mpi_pss_samples_requested := s.n_mpi_pss_samples_requested + 1
        n_mpi_pss_samples :=
          if s.n_mpi_pss_samples_requested % mpi_pss_update_freq != 0
          then s.n_mpi_pss_samples else s.n_mpi_pss_samples + 1 } := by
  by_cases hc : (s.n_mpi_pss_samples_requested % mpi_pss_update_freq != 0) = true
  · simp [update_all_pss_entries, hc]
  · simp [update_all_pss_entries, hc, h, for_each_entry]

/-! ## One capture of a heap event -/

theorem deref_num_captures (s : mmcu_mem_stat_mgr) (n : Nat) :
    deref { s with num_captures := n } = deref s := rfl

theorem capture_insert_eq (env : mmcu_env) (f : Nat) (s : mmcu_mem_stat_mgr) (p : Nat)
    (h1 : (deref s p).opid ≠ MMCU_HOOK_REALLOC) (h2 : (deref s p).opid ≠ MMCU_HOOK_MMAP)
    (h3 : (deref s p).opid ≠ MMCU_HOOK_MUNMAP)
    (hq : map_find s.addr2entry (deref s p).addr = none) :
    capture env (f + 1) s p =
      match update_current_mem_allocd env f
          { s with
            num_captures := s.num_captures + 1
            addr2entry := ((deref s p).addr, p) :: s.addr2entry } p false with
      | .error e => .error e
      | .ok s => update_all_pss_entries env f s false := by
  cases ho : (deref s p).opid <;> simp [ho] at h1 h2 h3 <;>
    simp [capture, deref_num_captures, ho, hq, map_insert]

theorem capture_free_eq (env : mmcu_env) (f : Nat) (s : mmcu_mem_stat_mgr) (p q : Nat)
    (ho : (deref s p).opid = MMCU_HOOK_FREE)
    (hq : map_find s.addr2entry (deref s p).addr = some q) :
    capture env (f + 1) s p =
      match update_current_mem_allocd env f
          (store { s with num_captures := s.num_captures + 1 } p
            { deref s p with size := (deref s q).size }) p false with
      | .error e => .error e
      | .ok s' =>
        match update_all_pss_entries env f s' false with
        | .error e => .error e
        | .ok s' => .ok { s' with addr2entry := map_erase s'.addr2entry (deref s p).addr } := by
  simp [capture, deref_num_captures, ho, hq]

theorem capture_curious (env : mmcu_env) (f : Nat) (s : mmcu_mem_stat_mgr) (p q : Nat)
    (hcls : alloc_class (deref s p).opid = true)
    (hq : map_find s.addr2entry (deref s p).addr = some q) :
    capture env (f + 1) s p =
      .ok { s with
        num_captures := s.num_captures + 1
        stderr :=
          if to_ssize_t (s.curious_b + (deref s q).size) ≥ report_thresh
          then s.stderr ++ [.curious_threshold] else s.stderr
        curious_b :=
          if to_ssize_t (s.curious_b + (deref s q).size) ≥ report_thresh
          then 0 else to_ssize_t (s.curious_b + (deref s q).size) } := by
  cases ho : (deref s p).opid <;> simp [ho, alloc_class] at hcls <;>
    simp [capture, deref_num_captures, ho, hq]

theorem ucma_alloc_outcome (env : mmcu_env) (f : Nat) (t : mmcu_mem_stat_mgr) (p : Nat)
    (h : alloc_class (deref t p).opid = true) :
    outcome env (update_current_mem_allocd env (f + 2) t p false) (fun s' =>
      core_is s' t.heap t.addr2entry t.addr2mmap_entry
        (to_ssize_t (t.current_mem_allocd + (deref t p).size))) := by
  rw [ucma_alloc env (f + 1) t p h]
  exact outcome_mono (ums_outcome env f _) (fun s' hf =>
    ⟨hf.heap, hf.addr2entry, hf.addr2mmap_entry, hf.current_mem_allocd⟩)

theorem ucma_free_outcome (env : mmcu_env) (f : Nat) (t : mmcu_mem_stat_mgr) (p : Nat)
    (h : (deref t p).opid = MMCU_HOOK_FREE ∨ (deref t p).opid = MMCU_HOOK_MUNMAP) :
    outcome env (update_current_mem_allocd env (f + 2) t p false) (fun s' =>
      core_is s' t.heap t.addr2entry t.addr2mmap_entry
        (to_ssize_t (t.current_mem_allocd - (deref t p).size))) := by
  rw [ucma_free env (f + 1) t p h]
  exact outcome_mono (ums_outcome env f _) (fun s' hf =>
    ⟨hf.heap, hf.addr2entry, hf.addr2mmap_entry, hf.current_mem_allocd⟩)

theorem ucma_pss_update_outcome (env : mmcu_env) (f : Nat) (t : mmcu_mem_stat_mgr) (p : Nat)
    (h : (deref t p).opid = MMCU_HOOK_MMAP_PSS_UPDATE) :
    outcome env (update_current_mem_allocd env (f + 2) t p false) (fun s' =>
      core_is s' t.heap t.addr2entry t.addr2mmap_entry
        (to_ssize_t (t.current_mem_allocd + (deref t p).size))) := by
  rw [ucma_pss_update env (f + 1) t p h]
  exact outcome_mono (ums_outcome env f _) (fun s' hf =>
    ⟨hf.heap, hf.addr2entry, hf.addr2mmap_entry, hf.current_mem_allocd⟩)

theorem uape_empty_outcome (env : mmcu_env) (f : Nat) (t : mmcu_mem_stat_mgr)
    (h : t.addr2mmap_entry = []) :
    outcome env (update_all_pss_entries env (f + 1) t false) (fun s' =>
      core_is s' t.heap t.addr2entry [] t.current_mem_allocd) := by
  rw [uape_empty env f t h]
  exact outcome_intro_ok ⟨rfl, rfl, h, rfl⟩

theorem capture_alloc_outcome (env : mmcu_env) (f : Nat) (s : mmcu_mem_stat_mgr) (p : Nat)
    (hcls : alloc_class (deref s p).opid = true)
    (hq : map_find s.addr2entry (deref s p).addr = none)
    (hmm : s.addr2mmap_entry = []) :
    outcome env (capture env (f + 3) s p) (fun s' =>
      core_is s' s.heap (((deref s p).addr, p) :: s.addr2entry) []
        (to_ssize_t (s.current_mem_allocd + (deref s p).size))) := by
  have h1 : (deref s p).opid ≠ MMCU_HOOK_REALLOC := by
    intro h; simp [h, alloc_class] at hcls
  have h2 : (deref s p).opid ≠ MMCU_HOOK_MMAP := by
    intro h; simp [h, alloc_class] at hcls
  have h3 : (deref s p).opid ≠ MMCU_HOOK_MUNMAP := by
    intro h; simp [h, alloc_class] at hcls
  rw [capture_insert_eq env (f + 2) s p h1 h2 h3 hq]
  refine outcome_bind (ucma_alloc_outcome env f _ p hcls) (fun s1 hs1 => ?_)
  refine outcome_mono (uape_empty_outcome env (f + 1) s1 (hs1.addr2mmap_entry.trans hmm))
    (fun s2 hs2 => ?_)
  exact ⟨hs2.heap.trans hs1.heap, hs2.addr2entry.trans hs1.addr2entry, hs2.addr2mmap_entry,
    hs2.current_mem_allocd.trans hs1.current_mem_allocd⟩

theorem deref_store_self (s : mmcu_mem_stat_mgr) (p : Nat) (e : mmcu_memory_op_entry)
    (hp : p < s.heap.length) : deref (store s p e) p = e := by
  simp [deref, store, List.getD_eq_getElem?_getD, List.getElem?_set, hp]

theorem capture_free_outcome (env : mmcu_env) (f : Nat) (s : mmcu_mem_stat_mgr) (p q : Nat)
    (hp : p < s.heap.length)
    (ho : (deref s p).opid = MMCU_HOOK_FREE)
    (hq : map_find s.addr2entry (deref s p).addr = some q)
    (hmm : s.addr2mmap_entry = []) :
    outcome env (capture env (f + 3) s p) (fun s' =>
      core_is s' (s.heap.set p { deref s p with size := (deref s q).size })
        (map_erase s.addr2entry (deref s p).addr) []
        (to_ssize_t (s.current_mem_allocd - (deref s q).size))) := by
  rw [capture_free_eq env (f + 2) s p q ho hq]
  have hd : deref (store { s with num_captures := s.num_captures + 1 } p
      { deref s p with size := (deref s q).size }) p
      = { deref s p with size := (deref s q).size } :=
    deref_store_self _ p _ hp
  refine outcome_bind (ucma_free_outcome env f _ p (Or.inl (by rw [hd]; exact ho)))
    (fun s1 hs1 => ?_)
  rw [hd] at hs1
  refine outcome_bind (uape_empty_outcome env (f + 1) s1 (hs1.addr2mmap_entry.trans hmm))
    (fun s2 hs2 => ?_)
  exact outcome_intro_ok ⟨hs2.heap.trans hs1.heap, by
    show map_erase s2.addr2entry _ = _
    rw [hs2.addr2entry, hs1.addr2entry]; rfl, hs2.addr2mmap_entry,
    hs2.current_mem_allocd.trans hs1.current_mem_allocd⟩

/-! ## The resize decomposer -/

theorem capture_realloc_eq (env : mmcu_env) (f : Nat) (s : mmcu_mem_stat_mgr) (p : Nat)
    (ho : (deref s p).opid = MMCU_HOOK_REALLOC) :
    capture env (f + 1) s p =
      break_down_realloc env f { s with num_captures := s.num_captures + 1 } p := by
  simp [capture, deref_num_captures, ho]

theorem bdr_move_eq (env : mmcu_env) (f : Nat) (s : mmcu_mem_stat_mgr) (p : Nat)
    (ha : (deref s p).addr ≠ 0) (hs : to_size_t (deref s p).size ≠ 0)
    (hold : (deref s p).old_addr ≠ 0) (hne : (deref s p).old_addr ≠ (deref s p).addr) :
    break_down_realloc env (f + 1) s p =
      match capture env f (store s p { deref s p with opid := MMCU_HOOK_MALLOC }) p with
      | .error e => .error e
      | .ok s' =>
        capture env f
          (store (store s' p { deref s' p with opid := MMCU_HOOK_FREE }) p
            { deref (store s' p { deref s' p with opid := MMCU_HOOK_FREE }) p with
              addr := (deref s p).old_addr }) p := by
  simp [break_down_realloc, ha, hs, hold, hne]

theorem bdr_in_place_eq (env : mmcu_env) (f : Nat) (s : mmcu_mem_stat_mgr) (p : Nat)
    (ha : (deref s p).addr ≠ 0) (hs : to_size_t (deref s p).size ≠ 0)
    (hold : (deref s p).old_addr = (deref s p).addr) :
    break_down_realloc env (f + 1) s p =
      match capture env f (store s p { deref s p with opid := MMCU_HOOK_FREE }) p with
      | .error e => .error e
      | .ok s' =>
        capture env f
          (store (store s' p { deref s' p with opid := MMCU_HOOK_MALLOC }) p
            { deref (store s' p { deref s' p with opid := MMCU_HOOK_MALLOC }) p with
              size := to_ssize_t (to_size_t (deref s p).size) }) p := by
  simp [break_down_realloc, ha, hs, hold]

theorem bdr_free_eq (env : mmcu_env) (f : Nat) (s : mmcu_mem_stat_mgr) (p q : Nat)
    (ha : (deref s p).addr ≠ 0) (hs : to_size_t (deref s p).size = 0)
    (hold : (deref s p).old_addr ≠ 0)
    (hq : map_find s.addr2entry (deref s p).old_addr = some q) :
    break_down_realloc env (f + 1) s p =
      capture env f
        (store (store s p { deref s p with opid := MMCU_HOOK_FREE }) p
          { deref (store s p { deref s p with opid := MMCU_HOOK_FREE }) p with
            addr := (deref s p).old_addr }) p := by
  simp [break_down_realloc, ha, hs, hold, hq]

theorem bdr_malloc_eq (env : mmcu_env) (f : Nat) (s : mmcu_mem_stat_mgr) (p : Nat)
    (ha : (deref s p).addr ≠ 0) (hold : (deref s p).old_addr = 0) :
    break_down_realloc env (f + 1) s p =
      capture env f (store s p { deref s p with opid := MMCU_HOOK_MALLOC }) p := by
  simp [break_down_realloc, ha, hold]

theorem deref_store_ne (s : mmcu_mem_stat_mgr) (p q : Nat) (e : mmcu_memory_op_entry)
    (h : q ≠ p) : deref (store s p e) q = deref s q := by
  simp [deref, store, List.getD_eq_getElem?_getD, List.getElem?_set, Ne.symm h]

theorem deref_of_heap {s t : mmcu_mem_stat_mgr} (h : s.heap = t.heap) (x : Nat) :
    deref s x = deref t x := by
  simp [deref, h]

theorem store_store (s : mmcu_mem_stat_mgr) (p : Nat) (a b : mmcu_memory_op_entry) :
    store (store s p a) p b = store s p b := by
  simp [store, List.set_set]

theorem capture_realloc_move_outcome (env : mmcu_env) (f : Nat) (t : mmcu_mem_stat_mgr)
    (p q A O : Nat) (S : Int)
    (hp : p < t.heap.length)
    (he : deref t p = ⟨MMCU_HOOK_REALLOC, A, S, O⟩)
    (hA0 : A ≠ 0) (hO0 : O ≠ 0) (hne : O ≠ A) (hS : to_size_t S ≠ 0)
    (hA : map_find t.addr2entry A = none)
    (hO : map_find t.addr2entry O = some q) (hqp : q ≠ p)
    (hmm : t.addr2mmap_entry = []) :
    outcome env (capture env (f + 5) t p) (fun s' =>
      core_is s' (t.heap.set p ⟨MMCU_HOOK_FREE, O, (deref t q).size, O⟩)
        (map_erase ((A, p) :: t.addr2entry) O) []
        (to_ssize_t (t.current_mem_allocd + (S - (deref t q).size)))) := by
  rw [capture_realloc_eq env (f + 4) t p (by rw [he])]
  rw [bdr_move_eq env (f + 3) _ p (by rw [deref_num_captures, he]; exact hA0)
    (by rw [deref_num_captures, he]; exact hS) (by rw [deref_num_captures, he]; exact hO0)
    (by rw [deref_num_captures, he]; exact hne)]
  simp only [deref_num_captures, he]
  have hd1 : deref (store { t with num_captures := t.num_captures + 1 } p
      ⟨MMCU_HOOK_MALLOC, A, S, O⟩) p = ⟨MMCU_HOOK_MALLOC, A, S, O⟩ :=
    deref_store_self _ p _ hp
  have ho1 := capture_alloc_outcome env f
    (store { t with num_captures := t.num_captures + 1 } p ⟨MMCU_HOOK_MALLOC, A, S, O⟩) p
    (by rw [hd1]; rfl) (by rw [hd1]; exact hA) hmm
  rw [hd1] at ho1
  refine outcome_bind ho1 (fun s2 hs2 => ?_)
  have hlen : p < s2.heap.length := by
    rw [hs2.heap]; simpa [store] using hp
  have hd2 : deref s2 p = ⟨MMCU_HOOK_MALLOC, A, S, O⟩ := by
    rw [deref_of_heap hs2.heap]; exact hd1
  rw [store_store, deref_store_self _ p _ hlen, hd2]
  have hd3 : deref (store s2 p ⟨MMCU_HOOK_FREE, O, S, O⟩) p = ⟨MMCU_HOOK_FREE, O, S, O⟩ :=
    deref_store_self _ p _ hlen
  have hdq : deref (store s2 p ⟨MMCU_HOOK_FREE, O, S, O⟩) q = deref t q := by
    rw [deref_store_ne _ p q _ hqp, deref_of_heap hs2.heap, deref_store_ne _ p q _ hqp]
    rfl
  have hfind : map_find (store s2 p ⟨MMCU_HOOK_FREE, O, S, O⟩).addr2entry O = some q := by
    show map_find s2.addr2entry O = some q
    rw [hs2.addr2entry]
    simpa [map_find, Ne.symm hne] using hO
  have ho2 := capture_free_outcome env f (store s2 p ⟨MMCU_HOOK_FREE, O, S, O⟩) p q
    (by simpa [store] using hlen) (by rw [hd3]) (by rw [hd3]; exact hfind)
    hs2.addr2mmap_entry
  rw [hd3, hdq] at ho2
  refine outcome_mono ho2 (fun s4 hs4 => ?_)
  refine ⟨?_, ?_, hs4.addr2mmap_entry, ?_⟩
  · rw [hs4.heap]
    show (s2.heap.set p _).set p _ = _
    rw [hs2.heap]
    simp [store, List.set_set]
  · rw [hs4.addr2entry]
    show map_erase s2.addr2entry O = _
    rw [hs2.addr2entry]
    rfl
  · rw [hs4.current_mem_allocd]
    show to_ssize_t (s2.current_mem_allocd - _) = _
    rw [hs2.current_mem_allocd]
    show to_ssize_t (to_ssize_t (t.current_mem_allocd + S) - _) = _
    rw [to_ssize_t_sub_left]
    congr 1
    ring

theorem capture_realloc_in_place_outcome (env : mmcu_env) (f : Nat) (t : mmcu_mem_stat_mgr)
    (p q A : Nat) (S : Int)
    (hp : p < t.heap.length)
    (he : deref t p = ⟨MMCU_HOOK_REALLOC, A, S, A⟩)
    (hA0 : A ≠ 0) (hS : to_size_t S ≠ 0)
    (hA : map_find t.addr2entry A = some q) (hqp : q ≠ p)
    (hmm : t.addr2mmap_entry = []) :
    outcome env (capture env (f + 5) t p) (fun s' =>
      core_is s' (t.heap.set p ⟨MMCU_HOOK_MALLOC, A, to_ssize_t (to_size_t S), A⟩)
        ((A, p) :: map_erase t.addr2entry A) []
        (to_ssize_t (t.current_mem_allocd + (S - (deref t q).size)))) := by
  rw [capture_realloc_eq env (f + 4) t p (by rw [he])]
  rw [bdr_in_place_eq env (f + 3) _ p (by rw [deref_num_captures, he]; exact hA0)
    (by rw [deref_num_captures, he]; exact hS) (by rw [deref_num_captures, he])]
  simp only [deref_num_captures, he]
  have hd1 : deref (store { t with num_captures := t.num_captures + 1 } p
      ⟨MMCU_HOOK_FREE, A, S, A⟩) p = ⟨MMCU_HOOK_FREE, A, S, A⟩ :=
    deref_store_self _ p _ hp
  have hdq : deref (store { t with num_captures := t.num_captures + 1 } p
      ⟨MMCU_HOOK_FREE, A, S, A⟩) q = deref t q := by
    rw [deref_store_ne _ p q _ hqp]; rfl
  have ho1 := capture_free_outcome env f
    (store { t with num_captures := t.num_captures + 1 } p ⟨MMCU_HOOK_FREE, A, S, A⟩) p q
    (by simpa [store] using hp) (by rw [hd1]) (by rw [hd1]; exact hA) hmm
  rw [hd1, hdq] at ho1
  refine outcome_bind ho1 (fun s2 hs2 => ?_)
  have hlen : p < s2.heap.length := by
    rw [hs2.heap]; simpa [store] using hp
  have hd2 : deref s2 p = ⟨MMCU_HOOK_FREE, A, (deref t q).size, A⟩ := by
    simp [deref, hs2.heap, store, List.getD_eq_getElem?_getD, List.getElem?_set, hp]
  rw [store_store, deref_store_self _ p _ hlen, hd2]
  have hd3 : deref (store s2 p ⟨MMCU_HOOK_MALLOC, A, to_ssize_t (to_size_t S), A⟩) p
      = ⟨MMCU_HOOK_MALLOC, A, to_ssize_t (to_size_t S), A⟩ :=
    deref_store_self _ p _ hlen
  have hfind : map_find (store s2 p
      ⟨MMCU_HOOK_MALLOC, A, to_ssize_t (to_size_t S), A⟩).addr2entry A = none := by
    show map_find s2.addr2entry A = none
    rw [hs2.addr2entry]
    exact map_find_erase_self _ _
  have ho2 := capture_alloc_outcome env f
    (store s2 p ⟨MMCU_HOOK_MALLOC, A, to_ssize_t (to_size_t S), A⟩) p
    (by rw [hd3]; rfl) (by rw [hd3]; exact hfind) hs2.addr2mmap_entry
  rw [hd3] at ho2
  refine outcome_mono ho2 (fun s4 hs4 => ?_)
  refine ⟨?_, ?_, hs4.addr2mmap_entry, ?_⟩
  · rw [hs4.heap]
    show s2.heap.set p _ = _
    rw [hs2.heap]
    simp [store, List.set_set]
  · rw [hs4.addr2entry]
    show (A, p) :: s2.addr2entry = _
    rw [hs2.addr2entry]
    rfl
  · rw [hs4.current_mem_allocd]
    show to_ssize_t (s2.current_mem_allocd + _) = _
    rw [hs2.current_mem_allocd]
    show to_ssize_t (to_ssize_t (t.current_mem_allocd - (deref t q).size)
      + to_ssize_t (to_size_t S)) = _
    unfold to_ssize_t to_size_t
    omega

theorem capture_realloc_free_outcome (env : mmcu_env) (f : Nat) (t : mmcu_mem_stat_mgr)
    (p q A O : Nat) (S : Int)
    (hp : p < t.heap.length)
    (he : deref t p = ⟨MMCU_HOOK_REALLOC, A, S, O⟩)
    (hA0 : A ≠ 0) (hO0 : O ≠ 0) (hS : to_size_t S = 0)
    (hO : map_find t.addr2entry O = some q) (hqp : q ≠ p)
    (hmm : t.addr2mmap_entry = []) :
    outcome env (capture env (f + 5) t p) (fun s' =>
      core_is s' (t.heap.set p ⟨MMCU_HOOK_FREE, O, (deref t q).size, O⟩)
        (map_erase t.addr2entry O) []
        (to_ssize_t (t.current_mem_allocd - (deref t q).size))) := by
  rw [capture_realloc_eq env (f + 4) t p (by rw [he])]
  rw [bdr_free_eq env (f + 3) _ p q (by rw [deref_num_captures, he]; exact hA0)
    (by rw [deref_num_captures, he]; exact hS) (by rw [deref_num_captures, he]; exact hO0)
    (by rw [deref_num_captures, he]; exact hO)]
  simp only [deref_num_captures, he]
  rw [store_store, deref_store_self { t with num_captures := t.num_captures + 1 } p _ hp]
  have hd1 : deref (store { t with num_captures := t.num_captures + 1 } p
      ⟨MMCU_HOOK_FREE, O, S, O⟩) p = ⟨MMCU_HOOK_FREE, O, S, O⟩ :=
    deref_store_self _ p _ hp
  have hdq : deref (store { t with num_captures := t.num_captures + 1 } p
      ⟨MMCU_HOOK_FREE, O, S, O⟩) q = deref t q := by
    rw [deref_store_ne _ p q _ hqp]; rfl
  have ho1 := capture_free_outcome env f
    (store { t with num_captures := t.num_captures + 1 } p ⟨MMCU_HOOK_FREE, O, S, O⟩) p q
    (by simpa [store] using hp) (by rw [hd1]) (by rw [hd1]; exact hO) hmm
  rw [hd1, hdq] at ho1
  refine outcome_mono ho1 (fun s2 hs2 => ?_)
  refine ⟨?_, hs2.addr2entry, hs2.addr2mmap_entry, hs2.current_mem_allocd⟩
  rw [hs2.heap]
  simp [store, List.set_set]

/-! ## Facts about a freshly built event -/

theorem new_entry_lt (s : mmcu_mem_stat_mgr) (e : mmcu_memory_op_entry) :
    (new_entry s e).2 < (new_entry s e).1.heap.length := by
  simp [new_entry]

theorem live_entry_new {s : mmcu_mem_stat_mgr} {a : Nat} {x : mmcu_memory_op_entry}
    (e : mmcu_memory_op_entry) (h : live_entry s a = some x) :
    ∃ q, map_find (new_entry s e).1.addr2entry a = some q ∧ q ≠ (new_entry s e).2 ∧
      deref (new_entry s e).1 q = x := by
  obtain ⟨q, hq, hx⟩ := live_entry_find h
  refine ⟨q, hq, ?_, deref_new_entry_old s e q x hx⟩
  intro hc
  have : s.heap[q]? = none := by
    rw [hc]; simp [new_entry]
  rw [this] at hx
  cases hx

theorem demo_env_ok : env_ok demo_env :=
  ⟨fun _ h => by simp [demo_env] at h, fun _ _ h => by simp [demo_env] at h⟩

/-! ## Resize events -/

theorem realloc_move_core (env : mmcu_env) (s : mmcu_mem_stat_mgr) (A O : Nat) (S : Int)
    (e0 : mmcu_memory_op_entry)
    (hmm : s.addr2mmap_entry = []) (hO : live_entry s O = some e0)
    (hA : map_find s.addr2entry A = none) (hne : A ≠ O) (hA0 : A ≠ 0) (hO0 : O ≠ 0)
    (hSr : is_ssize_t S) (hS : S ≠ 0) :
    outcome env (capture_new env s ⟨MMCU_HOOK_REALLOC, A, S, O⟩) (fun s' =>
      core_is s'
        ((s.heap ++ [(⟨MMCU_HOOK_REALLOC, A, S, O⟩ : mmcu_memory_op_entry)]).set s.heap.length
          ⟨MMCU_HOOK_FREE, O, e0.size, O⟩)
        (map_erase ((A, s.heap.length) :: s.addr2entry) O) []
        (to_ssize_t (s.current_mem_allocd + (S - e0.size)))) := by
  obtain ⟨q, hq, hqp, hdq⟩ :=
    live_entry_new (⟨MMCU_HOOK_REALLOC, A, S, O⟩ : mmcu_memory_op_entry) hO
  have h := capture_realloc_move_outcome env 1 (new_entry s ⟨MMCU_HOOK_REALLOC, A, S, O⟩).1
    (new_entry s ⟨MMCU_HOOK_REALLOC, A, S, O⟩).2 q A O S (new_entry_lt _ _)
    (deref_new_entry_self _ _) hA0 hO0 (Ne.symm hne)
    (fun h => hS ((to_size_t_eq_zero hSr).1 h)) hA hq hqp hmm
  rw [hdq] at h
  exact h

theorem realloc_in_place_core (env : mmcu_env) (s : mmcu_mem_stat_mgr) (A : Nat) (S : Int)
    (e0 : mmcu_memory_op_entry)
    (hmm : s.addr2mmap_entry = []) (hA : live_entry s A = some e0) (hA0 : A ≠ 0)
    (hSr : is_ssize_t S) (hS : S ≠ 0) :
    outcome env (capture_new env s ⟨MMCU_HOOK_REALLOC, A, S, A⟩) (fun s' =>
      core_is s'
        ((s.heap ++ [(⟨MMCU_HOOK_REALLOC, A, S, A⟩ : mmcu_memory_op_entry)]).set s.heap.length
          ⟨MMCU_HOOK_MALLOC, A, S, A⟩)
        ((A, s.heap.length) :: map_erase s.addr2entry A) []
        (to_ssize_t (s.current_mem_allocd + (S - e0.size)))) := by
  obtain ⟨q, hq, hqp, hdq⟩ :=
    live_entry_new (⟨MMCU_HOOK_REALLOC, A, S, A⟩ : mmcu_memory_op_entry) hA
  have h := capture_realloc_in_place_outcome env 1
    (new_entry s ⟨MMCU_HOOK_REALLOC, A, S, A⟩).1
    (new_entry s ⟨MMCU_HOOK_REALLOC, A, S, A⟩).2 q A S (new_entry_lt _ _)
    (deref_new_entry_self _ _) hA0
    (fun h => hS ((to_size_t_eq_zero hSr).1 h)) hq hqp hmm
  rw [hdq, to_ssize_t_to_size_t hSr] at h
  exact h

theorem realloc_free_core (env : mmcu_env) (s : mmcu_mem_stat_mgr) (A O : Nat)
    (e0 : mmcu_memory_op_entry)
    (hmm : s.addr2mmap_entry = []) (hO : live_entry s O = some e0)
    (hA0 : A ≠ 0) (hO0 : O ≠ 0) :
    outcome env (capture_new env s ⟨MMCU_HOOK_REALLOC, A, 0, O⟩) (fun s' =>
      core_is s'
        ((s.heap ++ [(⟨MMCU_HOOK_REALLOC, A, 0, O⟩ : mmcu_memory_op_entry)]).set s.heap.length
          ⟨MMCU_HOOK_FREE, O, e0.size, O⟩)
        (map_erase s.addr2entry O) []
        (to_ssize_t (s.current_mem_allocd - e0.size))) := by
  obtain ⟨q, hq, hqp, hdq⟩ :=
    live_entry_new (⟨MMCU_HOOK_REALLOC, A, 0, O⟩ : mmcu_memory_op_entry) hO
  have h := capture_realloc_free_outcome env 1
    (new_entry s ⟨MMCU_HOOK_REALLOC, A, 0, O⟩).1
    (new_entry s ⟨MMCU_HOOK_REALLOC, A, 0, O⟩).2 q A O 0 (new_entry_lt _ _)
    (deref_new_entry_self _ _) hA0 hO0 (by simp [to_size_t]) hq hqp hmm
  rw [hdq] at h
  exact h

theorem live_entry_of_core {s' : mmcu_mem_stat_mgr} {H : List mmcu_memory_op_entry}
    {tbl mm : List (Nat × Nat)} {tot : Int} (h : core_is s' H tbl mm tot) (a : Nat) :
    live_entry s' a = (map_find tbl a).bind (fun p => H[p]?) := by
  unfold live_entry
  rw [h.heap, h.addr2entry]

theorem curious_core (env : mmcu_env) (s : mmcu_mem_stat_mgr)
    (e e0 : mmcu_memory_op_entry) (hcls : alloc_class e.opid = true)
    (hlive : live_entry s e.addr = some e0) :
    capture_new env s e =
      .ok { s with
        heap := s.heap ++ [e]
        num_captures := s.num_captures + 1
        stderr :=
          if to_ssize_t (s.curious_b + e0.size) ≥ report_thresh
          then s.stderr ++ [.curious_threshold] else s.stderr
        curious_b :=
          if to_ssize_t (s.curious_b + e0.size) ≥ report_thresh
          then 0 else to_ssize_t (s.curious_b + e0.size) } := by
  obtain ⟨q, hq, _, hdq⟩ := live_entry_new e hlive
  unfold capture_new capture_fuel
  rw [capture_curious env 5 _ _ q (by rw [deref_new_entry_self]; exact hcls)
    (by rw [deref_new_entry_self]; exact hq), hdq]
  rfl

theorem live_entry_append {s s' : mmcu_mem_stat_mgr} (e : mmcu_memory_op_entry)
    (ht : s'.addr2entry = s.addr2entry) (hh : s'.heap = s.heap ++ [e]) {a : Nat}
    {x : mmcu_memory_op_entry} (h : live_entry s a = some x) : live_entry s' a = some x := by
  obtain ⟨q, hq, hx⟩ := live_entry_find h
  have hlt : q < s.heap.length := by
    by_contra hc
    rw [List.getElem?_eq_none (by omega)] at hx
    cases hx
  unfold live_entry
  rw [ht, hq, hh]
  simp [List.getElem?_append_left hlt, hx]

/-! ## Mapped regions -/

theorem smaps_retry_indep (env : mmcu_env) (A : Nat) :
    ∀ (n : Nat) (res : mmcu_proc_smaps_entry) (t u : mmcu_mem_stat_mgr),
      t.n_smaps_entry_calls = u.n_smaps_entry_calls →
      smaps_retry env A n res u =
        match smaps_retry env A n res t with
        | .error f => .error f
        | .ok (b, d, t') =>
          .ok (b, d, { u with n_smaps_entry_calls := t'.n_smaps_entry_calls }) := by
  intro n
  induction n with
  | zero =>
    intro res t u h
    cases u
    simp only [smaps_retry] at h ⊢
    subst h
    rfl
  | succ n ih =>
    intro res t u h
    simp only [smaps_retry, ← h]
    cases hq : env.smaps_entry t.n_smaps_entry_calls A with
    | fatal => rfl
    | not_found =>
      simp only []
      exact ih res _ _ (by simp [h])
    | found e => rfl

theorem gpse_indep (env : mmcu_env) (A : Nat) (t u : mmcu_mem_stat_mgr)
    (d : mmcu_proc_smaps_entry) (t' : mmcu_mem_stat_mgr)
    (h : t.n_smaps_entry_calls = u.n_smaps_entry_calls)
    (ht : get_proc_self_smaps_entry env t A = .ok (d, t')) :
    ∃ u', get_proc_self_smaps_entry env u A = .ok (d, u') ∧
      u'.heap = u.heap ∧ u'.addr2entry = u.addr2entry ∧
      u'.addr2mmap_entry = u.addr2mmap_entry ∧
      u'.current_mem_allocd = u.current_mem_allocd := by
  unfold get_proc_self_smaps_entry at ht ⊢
  rw [smaps_retry_indep env A n_tries {} t u h]
  cases hr : smaps_retry env A n_tries {} t with
  | error f => rw [hr] at ht; cases ht
  | ok x =>
    obtain ⟨b, d', t''⟩ := x
    rw [hr] at ht
    simp only [Except.ok.injEq, Prod.mk.injEq] at ht
    obtain ⟨hd, _⟩ := ht
    subst hd
    exact ⟨_, rfl, rfl, rfl, rfl, rfl⟩

theorem smaps_retry_ok (env : mmcu_env) (A : Nat) (hok : env_ok env) :
    ∀ (n : Nat) (res : mmcu_proc_smaps_entry) (t : mmcu_mem_stat_mgr),
      ∃ x, smaps_retry env A n res t = .ok x := by
  intro n
  induction n with
  | zero => intro res t; exact ⟨_, rfl⟩
  | succ n ih =>
    intro res t
    simp only [smaps_retry]
    cases hq : env.smaps_entry t.n_smaps_entry_calls A with
    | fatal => exact absurd hq (hok.2 _ _)
    | not_found => exact ih _ _
    | found e => exact ⟨_, rfl⟩

theorem gpse_ok (env : mmcu_env) (A : Nat) (hok : env_ok env) (t : mmcu_mem_stat_mgr) :
    ∃ x, get_proc_self_smaps_entry env t A = .ok x := by
  unfold get_proc_self_smaps_entry
  obtain ⟨x, hx⟩ := smaps_retry_ok env A hok n_tries {} t
  rw [hx]
  exact ⟨_, rfl⟩

theorem capture_mmap_eq (env : mmcu_env) (f : Nat) (s : mmcu_mem_stat_mgr) (p : Nat)
    (ho : (deref s p).opid = MMCU_HOOK_MMAP ∨ (deref s p).opid = MMCU_HOOK_MUNMAP) :
    capture env (f + 1) s p =
      capture_mmap_ops env f { s with num_captures := s.num_captures + 1 } p := by
  rcases ho with ho | ho <;> simp [capture, deref_num_captures, ho]

theorem capture_mmap_new_outcome (env : mmcu_env) (f : Nat) (t t0 t0' : mmcu_mem_stat_mgr)
    (p A O : Nat) (L : Int) (d : mmcu_proc_smaps_entry)
    (hp : p < t.heap.length)
    (he : deref t p = ⟨MMCU_HOOK_MMAP, A, L, O⟩)
    (hA : map_find t.addr2mmap_entry A = none)
    (hc : t0.n_smaps_entry_calls = t.n_smaps_entry_calls)
    (hq : get_proc_self_smaps_entry env t0 A = .ok (d, t0')) :
    outcome env (capture env (f + 3) t p) (fun s' =>
      core_is s' (t.heap.set p ⟨MMCU_HOOK_MMAP_PSS_UPDATE, A, to_ssize_t d.pss_in_b, O⟩)
        t.addr2entry ((A, p) :: t.addr2mmap_entry)
        (to_ssize_t (t.current_mem_allocd + d.pss_in_b))) := by
  rw [capture_mmap_eq env (f + 2) t p (Or.inl (by rw [he]))]
  obtain ⟨u', hu', hh, ht, hm, htot⟩ :=
    gpse_indep env A t0 { t with num_captures := t.num_captures + 1 } d t0' hc hq
  have hget : t.heap[p] = ⟨MMCU_HOOK_MMAP, A, L, O⟩ := by
    have h := he
    simp only [deref, List.getD_eq_getElem?_getD, List.getElem?_eq_getElem hp,
      Option.getD_some] at h
    exact h
  have hh' : u'.heap = t.heap := hh
  have hm' : u'.addr2mmap_entry = t.addr2mmap_entry := hm
  have ht' : u'.addr2entry = t.addr2entry := ht
  have htot' : u'.current_mem_allocd = t.current_mem_allocd := htot
  simp only [capture_mmap_ops, deref_num_captures, he, hA, ne_eq, not_true_eq_false,
    if_false, hu']
  refine outcome_mono (ucma_pss_update_outcome env f _ p ?_) (fun s' hs' => ?_)
  · simp [deref, store, hh', hget, List.getD_eq_getElem?_getD, List.getElem?_set, hp]
  · have h1 := hs'.heap
    have h2 := hs'.addr2entry
    have h3 := hs'.addr2mmap_entry
    have h4 := hs'.current_mem_allocd
    simp only [deref, store, hh', hget, List.getD_eq_getElem?_getD, List.getElem?_set, hp,
      List.set_set, List.length_set, if_true, Option.getD_some, htot', hm', ht',
      map_insert_of_none p hA, List.getElem?_eq_getElem hp] at h1 h2 h3 h4
    refine ⟨h1, h2, h3, ?_⟩
    rw [h4]
    unfold to_ssize_t
    omega

theorem capture_munmap_outcome (env : mmcu_env) (f : Nat) (t : mmcu_mem_stat_mgr)
    (p q A O : Nat) (L : Int)
    (he : deref t p = ⟨MMCU_HOOK_MUNMAP, A, L, O⟩)
    (hA : map_find t.addr2mmap_entry A = some q) :
    outcome env (capture env (f + 3) t p) (fun s' =>
      core_is s' t.heap t.addr2entry (map_erase t.addr2mmap_entry A)
        (to_ssize_t (t.current_mem_allocd - L))) := by
  rw [capture_mmap_eq env (f + 2) t p (Or.inr (by rw [he]))]
  simp only [capture_mmap_ops, deref_num_captures, he, hA, if_true]
  have ho := ucma_free_outcome env f { t with num_captures := t.num_captures + 1 } p
    (Or.inr (by rw [deref_num_captures, he]))
  rw [deref_num_captures, he] at ho
  refine outcome_bind ho (fun s1 hs1 => ?_)
  exact outcome_intro_ok ⟨hs1.heap, hs1.addr2entry, by
    show map_erase s1.addr2mmap_entry A = _
    rw [hs1.addr2mmap_entry], hs1.current_mem_allocd⟩

theorem mmap_hook_outcome (env : mmcu_env) (s sq : mmcu_mem_stat_mgr) (A L1 : Nat)
    (d : mmcu_proc_smaps_entry)
    (hA : map_find s.addr2mmap_entry A = none)
    (hq : get_proc_self_smaps_entry env s A = .ok (d, sq)) :
    outcome env (mmcu_mem_hooks_mmap_hook env s A L1) (fun s1 =>
      core_is s1
        ((s.heap ++ [(⟨MMCU_HOOK_MMAP, A, to_ssize_t L1, 0⟩ : mmcu_memory_op_entry)]).set
          s.heap.length ⟨MMCU_HOOK_MMAP_PSS_UPDATE, A, to_ssize_t d.pss_in_b, 0⟩)
        s.addr2entry ((A, s.heap.length) :: s.addr2mmap_entry)
        (to_ssize_t (s.current_mem_allocd + d.pss_in_b))) :=
  capture_mmap_new_outcome env 3 (new_entry s ⟨MMCU_HOOK_MMAP, A, to_ssize_t L1, 0⟩).1 s sq
    (new_entry s ⟨MMCU_HOOK_MMAP, A, to_ssize_t L1, 0⟩).2 A 0 (to_ssize_t L1) d
    (new_entry_lt _ _) (deref_new_entry_self _ _) hA rfl hq

theorem munmap_hook_outcome (env : mmcu_env) (s : mmcu_mem_stat_mgr) (A L2 q : Nat)
    (hA : map_find s.addr2mmap_entry A = some q) :
    outcome env (mmcu_mem_hooks_munmap_hook env s A L2) (fun s2 =>
      core_is s2
        (s.heap ++ [(⟨MMCU_HOOK_MUNMAP, A, to_ssize_t L2, 0⟩ : mmcu_memory_op_entry)])
        s.addr2entry (map_erase s.addr2mmap_entry A)
        (to_ssize_t (s.current_mem_allocd - to_ssize_t L2))) :=
  capture_munmap_outcome env 3 (new_entry s ⟨MMCU_HOOK_MUNMAP, A, to_ssize_t L2, 0⟩).1
    (new_entry s ⟨MMCU_HOOK_MUNMAP, A, to_ssize_t L2, 0⟩).2 q A 0 (to_ssize_t L2)
    (deref_new_entry_self _ _) hA

theorem map_unmap_core (env : mmcu_env) (s sq : mmcu_mem_stat_mgr) (A L1 L2 : Nat)
    (d : mmcu_proc_smaps_entry)
    (hA : map_find s.addr2mmap_entry A = none)
    (hq : get_proc_self_smaps_entry env s A = .ok (d, sq)) :
    (env_ok env → ∃ s1 s2, mmcu_mem_hooks_mmap_hook env s A L1 = .ok s1 ∧
      mmcu_mem_hooks_munmap_hook env s1 A L2 = .ok s2) ∧
    ∀ s1 s2, mmcu_mem_hooks_mmap_hook env s A L1 = .ok s1 →
      mmcu_mem_hooks_munmap_hook env s1 A L2 = .ok s2 →
      s2.current_mem_allocd
          = to_ssize_t (s.current_mem_allocd + ((d.pss_in_b : Int) - (L2 : Int))) ∧
        map_find s2.addr2mmap_entry A = none := by
  have h1 := mmap_hook_outcome env s sq A L1 d hA hq
  have hfind : ∀ s1, core_is s1
      ((s.heap ++ [(⟨MMCU_HOOK_MMAP, A, to_ssize_t L1, 0⟩ : mmcu_memory_op_entry)]).set
        s.heap.length ⟨MMCU_HOOK_MMAP_PSS_UPDATE, A, to_ssize_t d.pss_in_b, 0⟩)
      s.addr2entry ((A, s.heap.length) :: s.addr2mmap_entry)
      (to_ssize_t (s.current_mem_allocd + d.pss_in_b)) →
      map_find s1.addr2mmap_entry A = some s.heap.length := by
    intro s1 hs1
    rw [hs1.addr2mmap_entry]
    simp [map_find]
  refine ⟨fun hok => ?_, fun s1 s2 hs1 hs2 => ?_⟩
  · obtain ⟨s1, hs1, hc1⟩ := outcome_ok h1 hok
    obtain ⟨s2, hs2, _⟩ := outcome_ok (munmap_hook_outcome env s1 A L2 _ (hfind s1 hc1)) hok
    exact ⟨s1, s2, hs1, hs2⟩
  · have hc1 := outcome_of_ok h1 hs1
    have hc2 := outcome_of_ok (munmap_hook_outcome env s1 A L2 _ (hfind s1 hc1)) hs2
    refine ⟨?_, ?_⟩
    · rw [hc2.current_mem_allocd, hc1.current_mem_allocd]
      unfold to_ssize_t
      omega
    · rw [hc2.addr2mmap_entry]
      exact map_find_erase_self _ _

/-! ## Sequences of allocate and free events -/

theorem map_find_none_iff (m : List (Nat × Nat)) (a : Nat) :
    map_find m a = none ↔ a ∉ m.map (fun kv => kv.1) := by
  induction m with
  | nil => simp [map_find]
  | cons kv m ih =>
    obtain ⟨k, v⟩ := kv
    by_cases h : k = a
    · simp [map_find, h]
    · simp [map_find, h, ih, Ne.symm h]

theorem map_find_mem {m : List (Nat × Nat)} {a q : Nat} (h : map_find m a = some q) :
    (a, q) ∈ m := by
  induction m with
  | nil => simp [map_find] at h
  | cons kv m ih =>
    obtain ⟨k, v⟩ := kv
    by_cases hk : k = a
    · simp [map_find, hk] at h
      simp [hk, h]
    · simp [map_find, hk] at h
      exact List.mem_cons_of_mem _ (ih h)

theorem sum_filter_key (V : List (Nat × Int)) (a : Nat) (z : Int)
    (hnd : (V.map (fun kv => kv.1)).Nodup) (hmem : (a, z) ∈ V) :
    ((V.filter (fun kv => decide (kv.1 ≠ a))).map (fun kv => kv.2)).sum
      = (V.map (fun kv => kv.2)).sum - z := by
  induction V with
  | nil => simp at hmem
  | cons kv V ih =>
    obtain ⟨k, v⟩ := kv
    simp only [List.map_cons, List.nodup_cons] at hnd
    rcases List.mem_cons.1 hmem with h | h
    · simp only [Prod.mk.injEq] at h
      obtain ⟨hk, hv⟩ := h
      subst hk; subst hv
      have hfil : V.filter (fun kv => decide (kv.1 ≠ a)) = V := by
        apply List.filter_eq_self.2
        intro x hx
        simp only [ne_eq, decide_not, Bool.not_eq_true', decide_eq_false_iff_not]
        intro hc
        exact hnd.1 (List.mem_map.2 ⟨x, hx, hc⟩)
      have hfil' := hfil
      simp only [ne_eq, decide_not] at hfil'
      simp [List.filter_cons, hfil']
    · have hk : k ≠ a := by
        intro hc
        exact hnd.1 (List.mem_map.2 ⟨(a, z), h, hc.symm⟩)
      have ih' := ih hnd.2 h
      simp only [ne_eq, decide_not] at ih'
      simp [List.filter_cons, hk, ih']
      ring

theorem view_keys {s : mmcu_mem_stat_mgr} {L : List mmcu_memory_op_entry}
    (h : heap_inv s L) :
    s.addr2entry.map (fun kv => kv.1) = L.map (fun e => e.addr) := by
  have := congrArg (List.map (fun (x : Nat × Int) => x.1)) h.view
  simpa [List.map_map, Function.comp_def] using this

theorem deref_append_old {s s' : mmcu_mem_stat_mgr} {e : mmcu_memory_op_entry} {k : Nat}
    (h : s'.heap = s.heap ++ [e]) (hk : k < s.heap.length) : deref s' k = deref s k := by
  simp [deref, h, List.getD_eq_getElem?_getD, List.getElem?_append_left hk]

theorem deref_append_set_old {s s' : mmcu_mem_stat_mgr} {e x : mmcu_memory_op_entry}
    {k : Nat} (h : s'.heap = (s.heap ++ [e]).set s.heap.length x) (hk : k < s.heap.length) :
    deref s' k = deref s k := by
  have hne : s.heap.length ≠ k := by omega
  simp [deref, h, List.getD_eq_getElem?_getD, List.getElem?_set, hne,
    List.getElem?_append_left hk]

theorem heap_step_alloc (env : mmcu_env) (s : mmcu_mem_stat_mgr)
    (L : List mmcu_memory_op_entry) (e : mmcu_memory_op_entry) (hinv : heap_inv s L)
    (hcls : alloc_class e.opid = true) (hnone : map_find s.addr2entry e.addr = none) :
    outcome env (capture_new env s e) (fun s' => heap_inv s' (e :: L)) := by
  have hc := capture_alloc_outcome env 3 (new_entry s e).1 (new_entry s e).2
    (by rw [deref_new_entry_self]; exact hcls)
    (by rw [deref_new_entry_self]; exact hnone) hinv.mm
  rw [deref_new_entry_self] at hc
  refine outcome_mono hc (fun s' hs' => ?_)
  have hheap : s'.heap = s.heap ++ [e] := hs'.heap
  have htbl : s'.addr2entry = (e.addr, s.heap.length) :: s.addr2entry := hs'.addr2entry
  have htot : s'.current_mem_allocd = to_ssize_t (s.current_mem_allocd + e.size) :=
    hs'.current_mem_allocd
  refine ⟨hs'.addr2mmap_entry, ?_, ?_, ?_, ?_⟩
  · rw [htot, hinv.total, to_ssize_t_add_left]
    simp only [List.map_cons, List.sum_cons]
    congr 1
    ring
  · rw [htbl]
    simp only [List.map_cons]
    have hd : deref s' s.heap.length = e := by
      simp [deref, hheap, List.getD_eq_getElem?_getD]
    rw [hd, ← hinv.view]
    congr 1
    apply List.map_congr_left
    intro kv hkv
    rw [deref_append_old hheap (hinv.ptrs kv hkv)]
  · intro kv hkv
    rw [htbl] at hkv
    rw [hheap]
    simp only [List.length_append, List.length_singleton]
    rcases List.mem_cons.1 hkv with h | h
    · rw [h]; exact Nat.lt_succ_self _
    · exact Nat.lt_succ_of_lt (hinv.ptrs kv h)
  · simp only [List.map_cons, List.nodup_cons]
    refine ⟨?_, hinv.nodup⟩
    rw [← view_keys hinv]
    exact (map_find_none_iff _ _).1 hnone

theorem heap_step_free (env : mmcu_env) (s : mmcu_mem_stat_mgr)
    (L : List mmcu_memory_op_entry) (e : mmcu_memory_op_entry) (q : Nat)
    (hinv : heap_inv s L)
    (ho : e.opid = MMCU_HOOK_FREE) (hq : map_find s.addr2entry e.addr = some q) :
    outcome env (capture_new env s e)
      (fun s' => heap_inv s' (L.filter (fun x => decide (x.addr ≠ e.addr)))) := by
  have hmem := map_find_mem hq
  have hql : q < s.heap.length := hinv.ptrs _ hmem
  have hdq : deref (new_entry s e).1 q = deref s q :=
    deref_append_old (s := s) (e := e) rfl hql
  have hc := capture_free_outcome env 3 (new_entry s e).1 (new_entry s e).2 q
    (new_entry_lt s e) (by rw [deref_new_entry_self]; exact ho)
    (by rw [deref_new_entry_self]; exact hq) hinv.mm
  rw [deref_new_entry_self, hdq] at hc
  refine outcome_mono hc (fun s' hs' => ?_)
  have hheap : s'.heap = (s.heap ++ [e]).set s.heap.length
      { e with size := (deref s q).size } := hs'.heap
  have htbl : s'.addr2entry = map_erase s.addr2entry e.addr := hs'.addr2entry
  have htot : s'.current_mem_allocd
      = to_ssize_t (s.current_mem_allocd - (deref s q).size) := hs'.current_mem_allocd
  have hview : (a : Nat) → ((L.map (fun e => (e.addr, e.size))).filter
      (fun kv => decide (kv.1 ≠ a))) =
      (L.filter (fun x => decide (x.addr ≠ a))).map (fun e => (e.addr, e.size)) := by
    intro a
    rw [List.filter_map]
    rfl
  refine ⟨hs'.addr2mmap_entry, ?_, ?_, ?_, ?_⟩
  · rw [htot, hinv.total, to_ssize_t_sub_left]
    congr 1
    have hz : (e.addr, (deref s q).size) ∈ L.map (fun e => (e.addr, e.size)) := by
      rw [← hinv.view]
      exact List.mem_map.2 ⟨(e.addr, q), hmem, rfl⟩
    have hnd : ((L.map (fun e => (e.addr, e.size))).map (fun kv => kv.1)).Nodup := by
      simpa [List.map_map, Function.comp_def] using hinv.nodup
    have hsum := sum_filter_key _ e.addr _ hnd hz
    rw [hview, List.map_map, List.map_map] at hsum
    simpa [Function.comp_def] using hsum.symm
  · rw [htbl, ← hview, ← hinv.view]
    unfold map_erase
    rw [List.filter_map]
    apply List.map_congr_left
    intro kv hkv
    have hkv' := (List.mem_filter.1 hkv).1
    rw [deref_append_set_old hheap (hinv.ptrs kv hkv')]
  · intro kv hkv
    rw [htbl] at hkv
    have hkv' := (List.mem_filter.1 hkv).1
    rw [hheap]
    simp only [List.length_set, List.length_append, List.length_singleton]
    exact Nat.lt_succ_of_lt (hinv.ptrs kv hkv')
  · exact List.Nodup.sublist (List.Sublist.map _ (List.filter_sublist _)) hinv.nodup

theorem heap_step (env : mmcu_env) (s : mmcu_mem_stat_mgr) (L : List mmcu_memory_op_entry)
    (e : mmcu_memory_op_entry) (hinv : heap_inv s L) (hok : heap_event_ok s e = true) :
    outcome env (capture_new env s e) (fun s' => heap_inv s' (live_step L e)) := by
  unfold heap_event_ok at hok
  unfold live_step
  by_cases hcls : alloc_class e.opid = true
  · simp only [hcls, if_true] at hok ⊢
    exact heap_step_alloc env s L e hinv hcls (by simpa using hok)
  · simp only [hcls, if_false, Bool.false_eq_true, Bool.and_eq_true, decide_eq_true_eq] at hok ⊢
    obtain ⟨ho, hq⟩ := hok
    obtain ⟨q, hq⟩ := Option.isSome_iff_exists.1 hq
    exact heap_step_free env s L e q hinv ho hq

theorem heap_run (env : mmcu_env) :
    ∀ (evs : List mmcu_memory_op_entry) (s : mmcu_mem_stat_mgr)
      (L : List mmcu_memory_op_entry), heap_inv s L → unique_addr_trace env s evs →
      outcome env (capture_all env s evs) (fun s' => heap_inv s' (evs.foldl live_step L)) := by
  intro evs
  induction evs with
  | nil =>
    intro s L hinv _
    exact outcome_intro_ok hinv
  | cons e es ih =>
    intro s L hinv htr
    obtain ⟨hok, hrest⟩ := htr
    have hstep := heap_step env s L e hinv hok
    simp only [capture_all, List.foldl_cons]
    cases hr : capture_new env s e with
    | error f =>
      obtain ⟨hf, hn⟩ := hstep.2 f hr
      subst hf
      exact outcome_intro_exit hn
    | ok s1 =>
      exact ih s1 _ (hstep.1 s1 hr) (hrest s1 hr)

theorem unique_addr_trace_of_admissible (env : mmcu_env) :
    ∀ (evs : List mmcu_memory_op_entry) (s : mmcu_mem_stat_mgr)
      (L : List mmcu_memory_op_entry), heap_inv s L → events_admissible L evs = true →
      unique_addr_trace env s evs := by
  intro evs
  induction evs with
  | nil => intro s L _ _; trivial
  | cons e es ih =>
    intro s L hinv hadm
    simp only [events_admissible, Bool.and_eq_true] at hadm
    obtain ⟨hhead, hrest⟩ := hadm
    have hok : heap_event_ok s e = true := by
      unfold heap_event_ok
      by_cases hcls : alloc_class e.opid = true
      · simp only [hcls, if_true, decide_eq_true_eq] at hhead ⊢
        rw [← view_keys hinv] at hhead
        simp [(map_find_none_iff _ _).2 hhead]
      · simp only [hcls, if_false, Bool.false_eq_true, Bool.and_eq_true,
          decide_eq_true_eq] at hhead ⊢
        refine ⟨hhead.1, ?_⟩
        have hmem := hhead.2
        rw [← view_keys hinv] at hmem
        cases hf : map_find s.addr2entry e.addr with
        | none => exact absurd hmem ((map_find_none_iff _ _).1 hf)
        | some q => rfl
    exact ⟨hok, fun s' hs' => ih s' _ ((heap_step env s L e hinv hok).1 s' hs') hrest⟩

theorem heap_inv_init : heap_inv init_state [] :=
  ⟨rfl, rfl, rfl, fun _ h => (by cases h), List.nodup_nil⟩

theorem map_find_isSome_iff (m : List (Nat × Nat)) (a : Nat) :
    (map_find m a).isSome = true ↔ a ∈ m.map (fun kv => kv.1) := by
  cases h : map_find m a with
  | none =>
    simp only [Option.isSome_none, Bool.false_eq_true, false_iff]
    exact (map_find_none_iff m a).1 h
  | some q =>
    simp only [Option.isSome_some, true_iff]
    exact List.mem_map.2 ⟨(a, q), map_find_mem h, rfl⟩

/-! ## Watermarks -/

theorem marks_le_refl (s : mmcu_mem_stat_mgr) : marks_le s s := ⟨le_refl _, le_refl _⟩

theorem marks_le_trans {a b c : mmcu_mem_stat_mgr} (h1 : marks_le a b) (h2 : marks_le b c) :
    marks_le a c := ⟨le_trans h1.1 h2.1, le_trans h1.2 h2.2⟩

theorem marks_le_of_eq {a b : mmcu_mem_stat_mgr}
    (h1 : b.mpi_high_mem_usage_mark = a.mpi_high_mem_usage_mark)
    (h2 : b.pss_high_mem_usage_mark = a.pss_high_mem_usage_mark) : marks_le a b :=
  ⟨le_of_eq h1.symm, le_of_eq h2.symm⟩

theorem for_each_entry_rel (R : mmcu_mem_stat_mgr → mmcu_mem_stat_mgr → Prop)
    (hrefl : ∀ s, R s s) (htrans : ∀ a b c, R a b → R b c → R a c)
    (body : mmcu_mem_stat_mgr → Nat → Except mmcu_failure (Bool × mmcu_mem_stat_mgr))
    (hbody : ∀ s p b s', body s p = .ok (b, s') → R s s') :
    ∀ (l : List (Nat × Nat)) (s s' : mmcu_mem_stat_mgr),
      for_each_entry body l s = .ok s' → R s s' := by
  intro l
  induction l with
  | nil =>
    intro s s' h
    simp only [for_each_entry, Except.ok.injEq] at h
    rw [← h]; exact hrefl s
  | cons me rest ih =>
    intro s s' h
    simp only [for_each_entry] at h
    cases hb : body s me.2 with
    | error f => rw [hb] at h; cases h
    | ok x =>
      obtain ⟨go_on, s1⟩ := x
      rw [hb] at h
      simp only [] at h
      have h1 := hbody s me.2 go_on s1 hb
      cases go_on with
      | true =>
        simp only [if_true] at h
        exact htrans _ _ _ h1 (ih s1 s' h)
      | false =>
        simp only [Bool.false_eq_true, if_false, Except.ok.injEq] at h
        rw [← h]; exact h1

theorem smaps_retry_frame (env : mmcu_env) (A : Nat) :
    ∀ (n : Nat) (res : mmcu_proc_smaps_entry) (t : mmcu_mem_stat_mgr) (b : Bool)
      (d : mmcu_proc_smaps_entry) (t' : mmcu_mem_stat_mgr),
      smaps_retry env A n res t = .ok (b, d, t') →
      t' = { t with n_smaps_entry_calls := t'.n_smaps_entry_calls } := by
  intro n
  induction n with
  | zero =>
    intro res t b d t' h
    simp only [smaps_retry, Except.ok.injEq, Prod.mk.injEq] at h
    rw [← h.2.2]
  | succ n ih =>
    intro res t b d t' h
    simp only [smaps_retry] at h
    cases hq : env.smaps_entry t.n_smaps_entry_calls A with
    | fatal => rw [hq] at h; cases h
    | not_found =>
      rw [hq] at h
      have := ih _ _ _ _ _ h
      rw [this]
    | found e =>
      rw [hq] at h
      simp only [Except.ok.injEq, Prod.mk.injEq] at h
      rw [← h.2.2]

theorem gpse_frame (env : mmcu_env) (A : Nat) (t t' : mmcu_mem_stat_mgr)
    (d : mmcu_proc_smaps_entry) (h : get_proc_self_smaps_entry env t A = .ok (d, t')) :
    t' = { t with n_smaps_entry_calls := t'.n_smaps_entry_calls, stderr := t'.stderr } := by
  unfold get_proc_self_smaps_entry at h
  cases hr : smaps_retry env A n_tries {} t with
  | error f => rw [hr] at h; cases h
  | ok x =>
    obtain ⟨b, d', t''⟩ := x
    rw [hr] at h
    simp only [Except.ok.injEq, Prod.mk.injEq] at h
    have hf := smaps_retry_frame env A _ _ _ _ _ _ hr
    rw [← h.2, hf]

theorem pss_entry_step_marks (env : mmcu_env)
    (ucma : mmcu_mem_stat_mgr → Nat → Bool → Except mmcu_failure mmcu_mem_stat_mgr)
    (hu : ∀ s p b s', ucma s p b = .ok s' → marks_le s s')
    (s : mmcu_mem_stat_mgr) (e : Nat) (b : Bool) (s' : mmcu_mem_stat_mgr)
    (h : pss_entry_step env ucma s e = .ok (b, s')) : marks_le s s' := by
  unfold pss_entry_step at h
  cases ho : (deref s e).opid <;> simp only [ho] at h
  case MMCU_HOOK_MMAP_PSS_UPDATE =>
    cases hq : get_proc_self_smaps_entry env s (deref s e).addr with
    | error f => rw [hq] at h; cases h
    | ok x =>
      obtain ⟨d, s1⟩ := x
      rw [hq] at h
      simp only [] at h
      have hf := gpse_frame env _ _ _ _ hq
      have h01 : marks_le s s1 := by
        rw [hf]; exact marks_le_refl _
      cases h1 : ucma (store s1 e { deref s1 e with size := to_ssize_t (-(deref s e).size) })
          e true with
      | error f => rw [h1] at h; cases h
      | ok s2 =>
        rw [h1] at h
        simp only [] at h
        have h12 : marks_le s1 s2 := ⟨(hu _ _ _ _ h1).1, (hu _ _ _ _ h1).2⟩
        cases h2 : ucma (store s2 e { deref s2 e with size := to_ssize_t d.pss_in_b })
            e false with
        | error f => rw [h2] at h; cases h
        | ok s3 =>
          rw [h2] at h
          simp only [Except.ok.injEq, Prod.mk.injEq] at h
          have h23 : marks_le s2 s3 := ⟨(hu _ _ _ _ h2).1, (hu _ _ _ _ h2).2⟩
          rw [← h.2]
          exact marks_le_trans h01 (marks_le_trans h12 h23)
  case MMCU_HOOK_MUNMAP =>
    cases h1 : ucma s e false with
    | error f => rw [h1] at h; cases h
    | ok s2 =>
      rw [h1] at h
      simp only [Except.ok.injEq, Prod.mk.injEq] at h
      rw [← h.2]
      exact hu _ _ _ _ h1
  all_goals
    simp only [Except.ok.injEq, Prod.mk.injEq] at h
    rw [← h.2]
    exact marks_le_refl _

theorem inner_marks (env : mmcu_env) :
    ∀ fuel : Nat,
      (∀ s b s', update_mem_stats env fuel s b = .ok s' → marks_le s s') ∧
      (∀ s b s', update_all_pss_entries env fuel s b = .ok s' → marks_le s s') ∧
      (∀ s p b s', update_current_mem_allocd env fuel s p b = .ok s' → marks_le s s') := by
  intro fuel
  induction fuel with
  | zero =>
    refine ⟨?_, ?_, ?_⟩
    · intro s b s' h; simp [update_mem_stats] at h
    · intro s b s' h; simp [update_all_pss_entries] at h
    · intro s p b s' h; simp [update_current_mem_allocd] at h
  | succ fuel ih =>
    obtain ⟨ih1, ih2, ih3⟩ := ih
    refine ⟨?_, ?_, ?_⟩
    · intro s b s' h
      have hmark : ∀ (c m : Int), m ≤ (if c > m then c else m) := by
        intro c m; split <;> omega
      cases b with
      | false =>
        by_cases hc : ((s.n_mem_ops_recorded + 1) % pss_totals_sample_freq == 0) = true
        · cases hq : env.smaps_pss_total s.n_smaps_total_calls with
          | none =>
            simp [update_mem_stats, get_proc_self_smaps_pss_total, hc, hq] at h
          | some v =>
            simp only [update_mem_stats, get_proc_self_smaps_pss_total, Bool.false_or,
              Bool.false_eq_true, if_false, hc, if_true, hq, Except.ok.injEq] at h
            rw [← h]
            exact ⟨hmark _ _, hmark _ _⟩
        · simp only [update_mem_stats, get_proc_self_smaps_pss_total, Bool.false_or,
            Bool.false_eq_true, if_false, hc, Except.ok.injEq] at h
          rw [← h]
          exact ⟨hmark _ _, le_refl _⟩
      | true =>
        cases hq : env.smaps_pss_total s.n_smaps_total_calls with
        | none =>
          simp [update_mem_stats, get_proc_self_smaps_pss_total, hq] at h
        | some v =>
          simp only [update_mem_stats, get_proc_self_smaps_pss_total, Bool.true_or,
            if_true, hq] at h
          have h2 := ih2 _ _ _ h
          exact ⟨le_trans (hmark _ _) h2.1, le_trans (hmark _ _) h2.2⟩
    · intro s b s' h
      simp only [update_all_pss_entries] at h
      split at h
      · simp only [Except.ok.injEq] at h
        rw [← h]
        exact ⟨le_refl _, le_refl _⟩
      · have h2 := for_each_entry_rel marks_le marks_le_refl
          (fun _ _ _ h1 h2 => marks_le_trans h1 h2) _
          (pss_entry_step_marks env _ ih3) _ _ _ h
        exact ⟨h2.1, h2.2⟩
    · intro s p b s' h
      simp only [update_current_mem_allocd] at h
      cases ho : (deref s p).opid <;> simp only [ho] at h <;>
        first
        | cases h
        | (cases b with
            | true =>
              simp only [Bool.not_true, Bool.false_eq_true, if_false, Except.ok.injEq] at h
              rw [← h]
              exact ⟨le_refl _, le_refl _⟩
            | false =>
              simp only [Bool.not_false, if_true] at h
              have h1 := ih1 _ _ _ h
              exact ⟨h1.1, h1.2⟩)

theorem bind_ok_inv {g : mmcu_mem_stat_mgr → Except mmcu_failure mmcu_mem_stat_mgr}
    {s' : mmcu_mem_stat_mgr} :
    ∀ {r : Except mmcu_failure mmcu_mem_stat_mgr},
      (match r with | Except.error e => Except.error e | Except.ok s => g s) = Except.ok s' →
      ∃ s1, r = .ok s1 ∧ g s1 = .ok s' := by
  intro r h
  cases r with
  | error f => cases h
  | ok s1 => exact ⟨s1, rfl, h⟩

theorem capture_mmap_ops_marks (env : mmcu_env) (fuel : Nat) (s : mmcu_mem_stat_mgr)
    (p : Nat) (s' : mmcu_mem_stat_mgr) (h : capture_mmap_ops env fuel s p = .ok s') :
    marks_le s s' := by
  have ih3 := (inner_marks env fuel).2.2
  simp only [capture_mmap_ops] at h
  cases hf : map_find s.addr2mmap_entry (deref s p).addr with
  | none =>
    rw [hf] at h
    simp only [] at h
    split at h
    · cases h
    · cases hq : get_proc_self_smaps_entry env s (deref s p).addr with
      | error f => rw [hq] at h; cases h
      | ok x =>
        obtain ⟨d, s1⟩ := x
        rw [hq] at h
        simp only [] at h
        have hfr := gpse_frame env _ _ _ _ hq
        have h1 := ih3 _ _ _ _ h
        have h01 : marks_le s s1 := by rw [hfr]; exact marks_le_refl _
        exact marks_le_trans h01 ⟨h1.1, h1.2⟩
  | some q =>
    rw [hf] at h
    simp only [] at h
    split at h
    · obtain ⟨s1, h1, h2⟩ := bind_ok_inv h
      simp only [Except.ok.injEq] at h2
      have := ih3 _ _ _ _ h1
      rw [← h2]
      exact ⟨this.1, this.2⟩
    · simp only [Except.ok.injEq] at h
      rw [← h]
      exact marks_le_refl _

theorem capture_marks (env : mmcu_env) :
    ∀ fuel : Nat,
      (∀ s p s', capture env fuel s p = .ok s' → marks_le s s') ∧
      (∀ s p s', break_down_realloc env fuel s p = .ok s' → marks_le s s') := by
  intro fuel
  induction fuel with
  | zero =>
    refine ⟨?_, ?_⟩
    · intro s p s' h; simp [capture] at h
    · intro s p s' h; simp [break_down_realloc] at h
  | succ fuel ih =>
    obtain ⟨ihc, ihb⟩ := ih
    have ih2 := (inner_marks env fuel).2.1
    have ih3 := (inner_marks env fuel).2.2
    refine ⟨?_, ?_⟩
    · intro s p s' h
      simp only [capture] at h
      split at h
      · have := ihb _ _ _ h
        exact ⟨this.1, this.2⟩
      · have := capture_mmap_ops_marks env fuel _ _ _ h
        exact ⟨this.1, this.2⟩
      · have := capture_mmap_ops_marks env fuel _ _ _ h
        exact ⟨this.1, this.2⟩
      · split at h
        · obtain ⟨s1, h1, h2⟩ := bind_ok_inv h
          have a := ih3 _ _ _ _ h1
          have b := ih2 _ _ _ h2
          exact ⟨le_trans a.1 b.1, le_trans a.2 b.2⟩
        · split at h
          · obtain ⟨s1, h1, h2⟩ := bind_ok_inv h
            obtain ⟨s2, h3, h4⟩ := bind_ok_inv h2
            simp only [Except.ok.injEq] at h4
            have a := ih3 _ _ _ _ h1
            have b := ih2 _ _ _ h3
            rw [← h4]
            exact ⟨le_trans a.1 b.1, le_trans a.2 b.2⟩
          · simp only [Except.ok.injEq] at h
            rw [← h]
            exact ⟨le_refl _, le_refl _⟩
    · intro s p s' h
      simp only [break_down_realloc] at h
      split at h
      · have := ihc _ _ _ h
        exact ⟨this.1, this.2⟩
      · split at h
        · split at h
          · have := ihc _ _ _ h
            exact ⟨this.1, this.2⟩
          · have := ihc _ _ _ h
            exact ⟨this.1, this.2⟩
        · split at h
          · have := ihc _ _ _ h
            exact ⟨this.1, this.2⟩
          · split at h
            · obtain ⟨s1, h1, h2⟩ := bind_ok_inv h
              have a := ihc _ _ _ h1
              have b := ihc _ _ _ h2
              exact ⟨le_trans a.1 b.1, le_trans a.2 b.2⟩
            · obtain ⟨s1, h1, h2⟩ := bind_ok_inv h
              have a := ihc _ _ _ h1
              have b := ihc _ _ _ h2
              exact ⟨le_trans a.1 b.1, le_trans a.2 b.2⟩

theorem free_core (env : mmcu_env) (s : mmcu_mem_stat_mgr) (A O : Nat) (z : Int)
    (e0 : mmcu_memory_op_entry)
    (hmm : s.addr2mmap_entry = []) (hA : live_entry s A = some e0) :
    outcome env (capture_new env s ⟨MMCU_HOOK_FREE, A, z, O⟩) (fun s' =>
      core_is s'
        ((s.heap ++ [(⟨MMCU_HOOK_FREE, A, z, O⟩ : mmcu_memory_op_entry)]).set s.heap.length
          ⟨MMCU_HOOK_FREE, A, e0.size, O⟩)
        (map_erase s.addr2entry A) []
        (to_ssize_t (s.current_mem_allocd - e0.size))) := by
  obtain ⟨q, hq, _, hdq⟩ :=
    live_entry_new (⟨MMCU_HOOK_FREE, A, z, O⟩ : mmcu_memory_op_entry) hA
  have h := capture_free_outcome env 3 (new_entry s ⟨MMCU_HOOK_FREE, A, z, O⟩).1
    (new_entry s ⟨MMCU_HOOK_FREE, A, z, O⟩).2 q (new_entry_lt _ _)
    (by rw [deref_new_entry_self]) (by rw [deref_new_entry_self]; exact hq) hmm
  rw [deref_new_entry_self, hdq] at h
  exact h

/-! ## The capture count is write-only -/

theorem gpse_nc (env : mmcu_env) (A : Nat) (t t' : mmcu_mem_stat_mgr)
    (d : mmcu_proc_smaps_entry) (n : Nat)
    (h : get_proc_self_smaps_entry env t A = .ok (d, t')) :
    get_proc_self_smaps_entry env { t with num_captures := n } A
      = .ok (d, { t' with num_captures := n }) := by
  unfold get_proc_self_smaps_entry at h ⊢
  rw [smaps_retry_indep env A n_tries {} t { t with num_captures := n } rfl]
  cases hr : smaps_retry env A n_tries {} t with
  | error f => rw [hr] at h; cases h
  | ok x =>
    obtain ⟨b, d', t''⟩ := x
    rw [hr] at h
    simp only [Except.ok.injEq, Prod.mk.injEq] at h
    have hf := smaps_retry_frame env A _ _ _ _ _ _ hr
    obtain ⟨hd, ht⟩ := h
    subst hd
    rw [← ht, hf]

theorem for_each_entry_nc
    (body : mmcu_mem_stat_mgr → Nat → Except mmcu_failure (Bool × mmcu_mem_stat_mgr))
    (hbody : ∀ s p b r n, body s p = .ok (b, r) →
      body { s with num_captures := n } p = .ok (b, { r with num_captures := n })) :
    ∀ (l : List (Nat × Nat)) (s r : mmcu_mem_stat_mgr) (n : Nat),
      for_each_entry body l s = .ok r →
      for_each_entry body l { s with num_captures := n } = .ok { r with num_captures := n } := by
  intro l
  induction l with
  | nil =>
    intro s r n h
    simp only [for_each_entry, Except.ok.injEq] at h ⊢
    rw [h]
  | cons me rest ih =>
    intro s r n h
    simp only [for_each_entry] at h ⊢
    cases hb : body s me.2 with
    | error f => rw [hb] at h; cases h
    | ok x =>
      obtain ⟨go_on, s1⟩ := x
      rw [hb] at h
      rw [hbody s me.2 go_on s1 n hb]
      simp only [] at h ⊢
      cases go_on with
      | true =>
        simp only [if_true] at h ⊢
        exact ih s1 r n h
      | false =>
        simp only [Bool.false_eq_true, if_false, Except.ok.injEq] at h ⊢
        rw [h]

theorem pss_entry_step_nc (env : mmcu_env)
    (ucma : mmcu_mem_stat_mgr → Nat → Bool → Except mmcu_failure mmcu_mem_stat_mgr)
    (hu : ∀ s p b r n, ucma s p b = .ok r →
      ucma { s with num_captures := n } p b = .ok { r with num_captures := n })
    (s : mmcu_mem_stat_mgr) (e : Nat) (b : Bool) (r : mmcu_mem_stat_mgr) (n : Nat)
    (h : pss_entry_step env ucma s e = .ok (b, r)) :
    pss_entry_step env ucma { s with num_captures := n } e
      = .ok (b, { r with num_captures := n }) := by
  unfold pss_entry_step at h ⊢
  rw [deref_num_captures]
  cases ho : (deref s e).opid <;> simp only [ho] at h ⊢
  case MMCU_HOOK_MMAP_PSS_UPDATE =>
    cases hq : get_proc_self_smaps_entry env s (deref s e).addr with
    | error f => rw [hq] at h; cases h
    | ok x =>
      obtain ⟨d, s1⟩ := x
      rw [hq] at h
      rw [gpse_nc env _ _ _ _ n hq]
      simp only [] at h ⊢
      cases h1 : ucma (store s1 e { deref s1 e with size := to_ssize_t (-(deref s e).size) })
          e true with
      | error f => rw [h1] at h; cases h
      | ok s2 =>
        rw [h1] at h
        have h1' := hu _ _ _ _ n h1
        simp only [] at h
        cases h2 : ucma (store s2 e { deref s2 e with size := to_ssize_t d.pss_in_b })
            e false with
        | error f => rw [h2] at h; cases h
        | ok s3 =>
          rw [h2] at h
          have h2' := hu _ _ _ _ n h2
          simp only [Except.ok.injEq, Prod.mk.injEq] at h
          obtain ⟨hb, hr⟩ := h
          subst hb; subst hr
          simp only [store, deref] at h1' h2' ⊢
          rw [h1']
          simp only []
          rw [h2']
  case MMCU_HOOK_MUNMAP =>
    cases h1 : ucma s e false with
    | error f => rw [h1] at h; cases h
    | ok s2 =>
      rw [h1] at h
      rw [hu _ _ _ _ n h1]
      simp only [Except.ok.injEq, Prod.mk.injEq] at h ⊢
      obtain ⟨hb, hr⟩ := h
      subst hb; subst hr
      exact ⟨rfl, rfl⟩
  all_goals
    simp only [Except.ok.injEq, Prod.mk.injEq] at h ⊢
    obtain ⟨hb, hr⟩ := h
    subst hb; subst hr
    exact ⟨rfl, rfl⟩

theorem inner_nc (env : mmcu_env) :
    ∀ fuel : Nat,
      (∀ s b r n, update_mem_stats env fuel s b = .ok r →
        update_mem_stats env fuel { s with num_captures := n } b
          = .ok { r with num_captures := n }) ∧
      (∀ s b r n, update_all_pss_entries env fuel s b = .ok r →
        update_all_pss_entries env fuel { s with num_captures := n } b
          = .ok { r with num_captures := n }) ∧
      (∀ s p b r n, update_current_mem_allocd env fuel s p b = .ok r →
        update_current_mem_allocd env fuel { s with num_captures := n } p b
          = .ok { r with num_captures := n }) := by
  intro fuel
  induction fuel with
  | zero =>
    refine ⟨?_, ?_, ?_⟩
    · intro s b r n h; simp [update_mem_stats] at h
    · intro s b r n h; simp [update_all_pss_entries] at h
    · intro s p b r n h; simp [update_current_mem_allocd] at h
  | succ fuel ih =>
    obtain ⟨ih1, ih2, ih3⟩ := ih
    refine ⟨?_, ?_, ?_⟩
    · intro s b r n h
      cases b with
      | false =>
        by_cases hc : ((s.n_mem_ops_recorded + 1) % pss_totals_sample_freq == 0) = true
        · cases hq : env.smaps_pss_total s.n_smaps_total_calls with
          | none =>
            simp [update_mem_stats, get_proc_self_smaps_pss_total, hc, hq] at h
          | some v =>
            simp only [update_mem_stats, get_proc_self_smaps_pss_total, Bool.false_or,
              Bool.false_eq_true, if_false, hc, if_true, hq, Except.ok.injEq] at h ⊢
            rw [← h]
        · simp only [update_mem_stats, get_proc_self_smaps_pss_total, Bool.false_or,
            Bool.false_eq_true, if_false, hc, Except.ok.injEq] at h ⊢
          rw [← h]
      | true =>
        cases hq : env.smaps_pss_total s.n_smaps_total_calls with
        | none =>
          simp [update_mem_stats, get_proc_self_smaps_pss_total, hq] at h
        | some v =>
          simp only [update_mem_stats, get_proc_self_smaps_pss_total, Bool.true_or,
            if_true, hq] at h ⊢
          exact ih2 _ _ _ n h
    · intro s b r n h
      simp only [update_all_pss_entries] at h ⊢
      split at h
      · rename_i hsk
        simp only [Except.ok.injEq] at h
        rw [if_pos hsk, ← h]
      · rename_i hsk
        rw [if_neg hsk]
        exact for_each_entry_nc _ (pss_entry_step_nc env _ ih3) _ _ _ n h
    · intro s p b r n h
      simp only [update_current_mem_allocd, deref_num_captures] at h ⊢
      cases ho : (deref s p).opid <;> simp only [ho] at h ⊢ <;>
        first
        | cases h
        | (cases b with
            | true =>
              simp only [Bool.not_true, Bool.false_eq_true, if_false, Except.ok.injEq] at h ⊢
              rw [← h]
            | false =>
              simp only [Bool.not_false, if_true] at h ⊢
              exact ih1 _ _ _ n h)

/-! ## Fuel beyond the nesting depth is not used -/

theorem ums_fuel (env : mmcu_env) (f : Nat) (s : mmcu_mem_stat_mgr) :
    update_mem_stats env (f + 1) s false = update_mem_stats env 1 s false := by
  simp [update_mem_stats]

theorem ucma_fuel (env : mmcu_env) (f : Nat) :
    update_current_mem_allocd env (f + 2) = update_current_mem_allocd env 2 := by
  funext s p b
  simp only [update_current_mem_allocd]
  split <;> simp [ums_fuel env (f := f)]

theorem uape_fuel (env : mmcu_env) (f : Nat) (s : mmcu_mem_stat_mgr) (b : Bool) :
    update_all_pss_entries env (f + 3) s b = update_all_pss_entries env 3 s b := by
  simp only [update_all_pss_entries, ucma_fuel env f]

theorem capture_alloc_fuel (env : mmcu_env) (f : Nat) (t : mmcu_mem_stat_mgr) (p : Nat)
    (hcls : alloc_class (deref t p).opid = true) :
    capture env (f + 4) t p = capture env 4 t p := by
  have h1 : (deref t p).opid ≠ MMCU_HOOK_REALLOC := by
    intro h; simp [h, alloc_class] at hcls
  have h2 : (deref t p).opid ≠ MMCU_HOOK_MMAP := by
    intro h; simp [h, alloc_class] at hcls
  have h3 : (deref t p).opid ≠ MMCU_HOOK_MUNMAP := by
    intro h; simp [h, alloc_class] at hcls
  cases hq : map_find t.addr2entry (deref t p).addr with
  | none =>
    rw [capture_insert_eq env (f + 3) t p h1 h2 h3 hq, capture_insert_eq env 3 t p h1 h2 h3 hq,
      ucma_fuel env (f + 1), ucma_fuel env 1]
    cases update_current_mem_allocd env 2
      { t with
        num_captures := t.num_captures + 1
        addr2entry := ((deref t p).addr, p) :: t.addr2entry } p false with
    | error e => rfl
    | ok s1 => exact uape_fuel env f s1 false
  | some q =>
    rw [capture_curious env (f + 3) t p q hcls hq, capture_curious env 3 t p q hcls hq]

theorem capture_alloc_nc (env : mmcu_env) (t : mmcu_mem_stat_mgr) (p : Nat)
    (r : mmcu_mem_stat_mgr) (m : Nat)
    (hcls : alloc_class (deref t p).opid = true)
    (h : capture env 4 t p = .ok r) :
    capture env 4 { t with num_captures := m } p = .ok { r with num_captures := m + 1 } := by
  have h1 : (deref t p).opid ≠ MMCU_HOOK_REALLOC := by
    intro h; simp [h, alloc_class] at hcls
  have h2 : (deref t p).opid ≠ MMCU_HOOK_MMAP := by
    intro h; simp [h, alloc_class] at hcls
  have h3 : (deref t p).opid ≠ MMCU_HOOK_MUNMAP := by
    intro h; simp [h, alloc_class] at hcls
  cases hq : map_find t.addr2entry (deref t p).addr with
  | none =>
    rw [capture_insert_eq env 3 t p h1 h2 h3 hq] at h
    rw [capture_insert_eq env 3 { t with num_captures := m } p h1 h2 h3 hq]
    obtain ⟨s1, hs1, hs2⟩ := bind_ok_inv h
    have hs1' := (inner_nc env 3).2.2 _ _ _ _ (m + 1) hs1
    have hs2' := (inner_nc env 3).2.1 _ _ _ (m + 1) hs2
    simp only [deref_num_captures] at hs1' ⊢
    rw [hs1']
    exact hs2'
  | some q =>
    rw [capture_curious env 3 t p q hcls hq] at h
    rw [capture_curious env 3 { t with num_captures := m } p q hcls hq]
    simp only [Except.ok.injEq] at h ⊢
    rw [← h]
    rfl

theorem set_append_last {α : Type} (l : List α) (a b : α) :
    (l ++ [a]).set l.length b = l ++ [b] := by
  induction l with
  | nil => rfl
  | cons x l ih => simp [List.set, ih]

theorem capture_result_nc (env : mmcu_env) (t : mmcu_mem_stat_mgr) (p : Nat)
    (r : mmcu_mem_stat_mgr) (hcls : alloc_class (deref t p).opid = true)
    (h : capture env 4 t p = .ok r) : r.num_captures = t.num_captures + 1 := by
  have h' := capture_alloc_nc env t p r t.num_captures hcls h
  have h'' : capture env 4 t p = .ok { r with num_captures := t.num_captures + 1 } := h'
  rw [h] at h''
  simp only [Except.ok.injEq] at h''
  exact congrArg mmcu_mem_stat_mgr.num_captures h''

theorem realloc_null_old_unfold (env : mmcu_env) (s : mmcu_mem_stat_mgr) (A : Nat) (S : Int)
    (hA : A ≠ 0) :
    capture_new env s ⟨MMCU_HOOK_REALLOC, A, S, 0⟩ =
      capture env 4
        { (new_entry s ⟨MMCU_HOOK_MALLOC, A, S, 0⟩).1 with
          num_captures := s.num_captures + 1 }
        (new_entry s ⟨MMCU_HOOK_MALLOC, A, S, 0⟩).2 := by
  unfold capture_new capture_fuel
  rw [capture_realloc_eq env 5 _ _ (by rw [deref_new_entry_self])]
  rw [bdr_malloc_eq env 4 _ _ (by rw [deref_num_captures, deref_new_entry_self]; exact hA)
    (by rw [deref_num_captures, deref_new_entry_self])]
  rw [deref_num_captures, deref_new_entry_self]
  simp only [store, new_entry, set_append_last]

theorem malloc_fuel (env : mmcu_env) (s : mmcu_mem_stat_mgr) (A : Nat) (S : Int) :
    capture_new env s ⟨MMCU_HOOK_MALLOC, A, S, 0⟩ =
      capture env 4 (new_entry s ⟨MMCU_HOOK_MALLOC, A, S, 0⟩).1
        (new_entry s ⟨MMCU_HOOK_MALLOC, A, S, 0⟩).2 :=
  capture_alloc_fuel env 2 _ _ (by rw [deref_new_entry_self]; rfl)

/-! ## The capture count does not influence failures -/

theorem gpse_nc_error (env : mmcu_env) (A : Nat) (t : mmcu_mem_stat_mgr)
    (f : mmcu_failure) (n : Nat)
    (h : get_proc_self_smaps_entry env t A = .error f) :
    get_proc_self_smaps_entry env { t with num_captures := n } A = .error f := by
  unfold get_proc_self_smaps_entry at h ⊢
  rw [smaps_retry_indep env A n_tries {} t { t with num_captures := n } rfl]
  cases hr : smaps_retry env A n_tries {} t with
  | error f' => rw [hr] at h; exact h
  | ok x => rw [hr] at h; cases h

theorem for_each_entry_nc_error
    (body : mmcu_mem_stat_mgr → Nat → Except mmcu_failure (Bool × mmcu_mem_stat_mgr))
    (hbody : ∀ s p b r n, body s p = .ok (b, r) →
      body { s with num_captures := n } p = .ok (b, { r with num_captures := n }))
    (hbodyE : ∀ s p f n, body s p = .error f →
      body { s with num_captures := n } p = .error f) :
    ∀ (l : List (Nat × Nat)) (s : mmcu_mem_stat_mgr) (f : mmcu_failure) (n : Nat),
      for_each_entry body l s = .error f →
      for_each_entry body l { s with num_captures := n } = .error f := by
  intro l
  induction l with
  | nil =>
    intro s f n h
    simp only [for_each_entry] at h
    cases h
  | cons me rest ih =>
    intro s f n h
    simp only [for_each_entry] at h ⊢
    cases hb : body s me.2 with
    | error f' =>
      rw [hb] at h
      rw [hbodyE s me.2 f' n hb]
      exact h
    | ok x =>
      obtain ⟨go_on, s1⟩ := x
      rw [hb] at h
      rw [hbody s me.2 go_on s1 n hb]
      simp only [] at h ⊢
      cases go_on with
      | true =>
        simp only [if_true] at h ⊢
        exact ih s1 f n h
      | false =>
        simp only [Bool.false_eq_true, if_false] at h
        cases h

theorem pss_entry_step_nc_error (env : mmcu_env)
    (ucma : mmcu_mem_stat_mgr → Nat → Bool → Except mmcu_failure mmcu_mem_stat_mgr)
    (hu : ∀ s p b r n, ucma s p b = .ok r →
      ucma { s with num_captures := n } p b = .ok { r with num_captures := n })
    (huE : ∀ s p b f n, ucma s p b = .error f →
      ucma { s with num_captures := n } p b = .error f)
    (s : mmcu_mem_stat_mgr) (e : Nat) (f : mmcu_failure) (n : Nat)
    (h : pss_entry_step env ucma s e = .error f) :
    pss_entry_step env ucma { s with num_captures := n } e = .error f := by
  unfold pss_entry_step at h ⊢
  rw [deref_num_captures]
  cases ho : (deref s e).opid <;> simp only [ho] at h ⊢
  case MMCU_HOOK_MMAP_PSS_UPDATE =>
    cases hq : get_proc_self_smaps_entry env s (deref s e).addr with
    | error f' =>
      rw [hq] at h
      rw [gpse_nc_error env _ _ _ n hq]
      exact h
    | ok x =>
      obtain ⟨d, s1⟩ := x
      rw [hq] at h
      rw [gpse_nc env _ _ _ _ n hq]
      simp only [] at h ⊢
      cases h1 : ucma (store s1 e { deref s1 e with size := to_ssize_t (-(deref s e).size) })
          e true with
      | error f' =>
        rw [h1] at h
        have h1' := huE _ _ _ _ n h1
        simp only [store, deref] at h1' ⊢
        rw [h1']
        exact h
      | ok s2 =>
        rw [h1] at h
        have h1' := hu _ _ _ _ n h1
        simp only [] at h
        cases h2 : ucma (store s2 e { deref s2 e with size := to_ssize_t d.pss_in_b })
            e false with
        | error f' =>
          rw [h2] at h
          have h2' := huE _ _ _ _ n h2
          simp only [store, deref] at h1' h2' ⊢
          rw [h1']
          simp only []
          rw [h2']
          exact h
        | ok s3 => rw [h2] at h; cases h
  case MMCU_HOOK_MUNMAP =>
    cases h1 : ucma s e false with
    | error f' =>
      rw [h1] at h
      rw [huE _ _ _ _ n h1]
      exact h
    | ok s2 => rw [h1] at h; cases h
  all_goals cases h

theorem inner_nc_error (env : mmcu_env) :
    ∀ fuel : Nat,
      (∀ s b f n, update_mem_stats env fuel s b = .error f →
        update_mem_stats env fuel { s with num_captures := n } b = .error f) ∧
      (∀ s b f n, update_all_pss_entries env fuel s b = .error f →
        update_all_pss_entries env fuel { s with num_captures := n } b = .error f) ∧
      (∀ s p b f n, update_current_mem_allocd env fuel s p b = .error f →
        update_current_mem_allocd env fuel { s with num_captures := n } p b = .error f) := by
  intro fuel
  induction fuel with
  | zero =>
    refine ⟨?_, ?_, ?_⟩
    · intro s b f n h; simpa [update_mem_stats] using h
    · intro s b f n h; simpa [update_all_pss_entries] using h
    · intro s p b f n h; simpa [update_current_mem_allocd] using h
  | succ fuel ih =>
    obtain ⟨ih1, ih2, ih3⟩ := ih
    have hs3 := (inner_nc env fuel).2.2
    refine ⟨?_, ?_, ?_⟩
    · intro s b f n h
      cases b with
      | false =>
        by_cases hc : ((s.n_mem_ops_recorded + 1) % pss_totals_sample_freq == 0) = true
        · cases hq : env.smaps_pss_total s.n_smaps_total_calls with
          | none =>
            simp only [update_mem_stats, get_proc_self_smaps_pss_total, Bool.false_or,
              Bool.false_eq_true, if_false, hc, if_true, hq] at h ⊢
            exact h
          | some v =>
            simp [update_mem_stats, get_proc_self_smaps_pss_total, hc, hq] at h
        · simp [update_mem_stats, get_proc_self_smaps_pss_total, hc] at h
      | true =>
        cases hq : env.smaps_pss_total s.n_smaps_total_calls with
        | none =>
          simp only [update_mem_stats, get_proc_self_smaps_pss_total, Bool.true_or,
            if_true, hq] at h ⊢
          exact h
        | some v =>
          simp only [update_mem_stats, get_proc_self_smaps_pss_total, Bool.true_or,
            if_true, hq] at h ⊢
          exact ih2 _ _ _ n h
    · intro s b f n h
      simp only [update_all_pss_entries] at h ⊢
      split at h
      · cases h
      · rename_i hsk
        rw [if_neg hsk]
        exact for_each_entry_nc_error _ (pss_entry_step_nc env _ hs3)
          (pss_entry_step_nc_error env _ hs3 ih3) _ _ _ n h
    · intro s p b f n h
      simp only [update_current_mem_allocd, deref_num_captures] at h ⊢
      cases ho : (deref s p).opid <;> simp only [ho] at h ⊢ <;>
        first
        | exact h
        | (cases b with
            | true =>
              simp only [Bool.not_true, Bool.false_eq_true, if_false] at h
              cases h
            | false =>
              simp only [Bool.not_false, if_true] at h ⊢
              exact ih1 _ _ _ n h)

theorem capture_alloc_nc_error (env : mmcu_env) (t : mmcu_mem_stat_mgr) (p : Nat)
    (f : mmcu_failure) (m : Nat)
    (hcls : alloc_class (deref t p).opid = true)
    (h : capture env 4 t p = .error f) :
    capture env 4 { t with num_captures := m } p = .error f := by
  have h1 : (deref t p).opid ≠ MMCU_HOOK_REALLOC := by
    intro h; simp [h, alloc_class] at hcls
  have h2 : (deref t p).opid ≠ MMCU_HOOK_MMAP := by
    intro h; simp [h, alloc_class] at hcls
  have h3 : (deref t p).opid ≠ MMCU_HOOK_MUNMAP := by
    intro h; simp [h, alloc_class] at hcls
  cases hq : map_find t.addr2entry (deref t p).addr with
  | none =>
    rw [capture_insert_eq env 3 t p h1 h2 h3 hq] at h
    rw [capture_insert_eq env 3 { t with num_captures := m } p h1 h2 h3 hq]
    cases hu : update_current_mem_allocd env 3
        { t with
          num_captures := t.num_captures + 1
          addr2entry := ((deref t p).addr, p) :: t.addr2entry } p false with
    | error f' =>
      rw [hu] at h
      have hu' := (inner_nc_error env 3).2.2 _ _ _ _ (m + 1) hu
      simp only [deref_num_captures] at hu' ⊢
      rw [hu']
      exact h
    | ok s1 =>
      rw [hu] at h
      have hu' := (inner_nc env 3).2.2 _ _ _ _ (m + 1) hu
      simp only [deref_num_captures] at hu' ⊢
      rw [hu']
      exact (inner_nc_error env 3).2.1 _ _ _ (m + 1) h
  | some q =>
    rw [capture_curious env 3 t p q hcls hq] at h
    cases h

/-! ## Events at an address that is not tracked -/

theorem ucma_noop (env : mmcu_env) (f : Nat) (s : mmcu_mem_stat_mgr) (p : Nat)
    (h : (deref s p).opid = MMCU_HOOK_NOOP) :
    update_current_mem_allocd env (f + 1) s p false = update_mem_stats env f s false := by
  simp [update_current_mem_allocd, h]

theorem ucma_noop_outcome (env : mmcu_env) (f : Nat) (t : mmcu_mem_stat_mgr) (p : Nat)
    (h : (deref t p).opid = MMCU_HOOK_NOOP) :
    outcome env (update_current_mem_allocd env (f + 2) t p false) (fun s' =>
      core_is s' t.heap t.addr2entry t.addr2mmap_entry t.current_mem_allocd) := by
  rw [ucma_noop env (f + 1) t p h]
  exact outcome_mono (ums_outcome env f _) (fun s' hf =>
    ⟨hf.heap, hf.addr2entry, hf.addr2mmap_entry, hf.current_mem_allocd⟩)

theorem capture_free_untracked_outcome (env : mmcu_env) (f : Nat) (s : mmcu_mem_stat_mgr)
    (p : Nat) (ho : (deref s p).opid = MMCU_HOOK_FREE)
    (hq : map_find s.addr2entry (deref s p).addr = none)
    (hmm : s.addr2mmap_entry = []) :
    outcome env (capture env (f + 3) s p) (fun s' =>
      core_is s' s.heap (((deref s p).addr, p) :: s.addr2entry) []
        (to_ssize_t (s.current_mem_allocd - (deref s p).size))) := by
  rw [capture_insert_eq env (f + 2) s p (by rw [ho]; decide) (by rw [ho]; decide)
    (by rw [ho]; decide) hq]
  refine outcome_bind (ucma_free_outcome env f _ p (Or.inl ho)) (fun s1 hs1 => ?_)
  refine outcome_mono (uape_empty_outcome env (f + 1) s1 (hs1.addr2mmap_entry.trans hmm))
    (fun s2 hs2 => ?_)
  exact ⟨hs2.heap.trans hs1.heap, hs2.addr2entry.trans hs1.addr2entry, hs2.addr2mmap_entry,
    hs2.current_mem_allocd.trans hs1.current_mem_allocd⟩

theorem capture_noop_untracked_outcome (env : mmcu_env) (f : Nat) (s : mmcu_mem_stat_mgr)
    (p : Nat) (ho : (deref s p).opid = MMCU_HOOK_NOOP)
    (hq : map_find s.addr2entry (deref s p).addr = none)
    (hmm : s.addr2mmap_entry = []) :
    outcome env (capture env (f + 3) s p) (fun s' =>
      core_is s' s.heap (((deref s p).addr, p) :: s.addr2entry) [] s.current_mem_allocd) := by
  rw [capture_insert_eq env (f + 2) s p (by rw [ho]; decide) (by rw [ho]; decide)
    (by rw [ho]; decide) hq]
  refine outcome_bind (ucma_noop_outcome env f _ p ho) (fun s1 hs1 => ?_)
  refine outcome_mono (uape_empty_outcome env (f + 1) s1 (hs1.addr2mmap_entry.trans hmm))
    (fun s2 hs2 => ?_)
  exact ⟨hs2.heap.trans hs1.heap, hs2.addr2entry.trans hs1.addr2entry, hs2.addr2mmap_entry,
    hs2.current_mem_allocd.trans hs1.current_mem_allocd⟩

/-- Capture of a deallocate event, built as the free hook builds it, at an address that is
not in the live allocation table. -/
theorem free_untracked_core (env : mmcu_env) (s : mmcu_mem_stat_mgr) (A : Nat)
    (hmm : s.addr2mmap_entry = []) (hA : map_find s.addr2entry A = none) :
    outcome env (mmcu_mem_hooks_free_hook env s A) (fun s' =>
      core_is s' (s.heap ++ [(⟨MMCU_HOOK_FREE, A, 0, 0⟩ : mmcu_memory_op_entry)])
        ((A, s.heap.length) :: s.addr2entry) [] (to_ssize_t (s.current_mem_allocd - 0))) := by
  have h := capture_free_untracked_outcome env 3 (new_entry s ⟨MMCU_HOOK_FREE, A, 0, 0⟩).1
    (new_entry s ⟨MMCU_HOOK_FREE, A, 0, 0⟩).2
    (by rw [deref_new_entry_self]) (by rw [deref_new_entry_self]; exact hA) hmm
  rw [deref_new_entry_self] at h
  exact h

/-! ## Unmap of an untracked region -/

theorem munmap_untracked_core (env : mmcu_env) (s : mmcu_mem_stat_mgr) (e : mmcu_memory_op_entry)
    (ho : e.opid = MMCU_HOOK_MUNMAP) (hA : map_find s.addr2mmap_entry e.addr = none) :
    capture_new env s e = .error .assertion_failed := by
  unfold capture_new capture_fuel
  rw [capture_mmap_eq env 5 _ _ (Or.inr (by rw [deref_new_entry_self]; exact ho))]
  have hA' : map_find (new_entry s e).1.addr2mmap_entry e.addr = none := hA
  simp [capture_mmap_ops, deref_num_captures, deref_new_entry_self, ho, hA']

/-! ## Resize events that the decomposer turns into a no-op -/

theorem bdr_null_eq (env : mmcu_env) (f : Nat) (s : mmcu_mem_stat_mgr) (p : Nat)
    (ha : (deref s p).addr = 0) :
    break_down_realloc env (f + 1) s p =
      capture env f (store s p { deref s p with opid := MMCU_HOOK_NOOP }) p := by
  simp [break_down_realloc, ha]

theorem bdr_noop_eq (env : mmcu_env) (f : Nat) (s : mmcu_mem_stat_mgr) (p : Nat)
    (ha : (deref s p).addr ≠ 0) (hs : to_size_t (deref s p).size = 0)
    (hold : (deref s p).old_addr ≠ 0)
    (hq : map_find s.addr2entry (deref s p).old_addr = none) :
    break_down_realloc env (f + 1) s p =
      capture env f (store s p { deref s p with opid := MMCU_HOOK_NOOP }) p := by
  simp [break_down_realloc, ha, hs, hold, hq]

theorem capture_realloc_null_outcome (env : mmcu_env) (f : Nat) (t : mmcu_mem_stat_mgr)
    (p O : Nat) (S : Int)
    (hp : p < t.heap.length)
    (he : deref t p = ⟨MMCU_HOOK_REALLOC, 0, S, O⟩)
    (h0 : map_find t.addr2entry 0 = none)
    (hmm : t.addr2mmap_entry = []) :
    outcome env (capture env (f + 5) t p) (fun s' =>
      core_is s' (t.heap.set p ⟨MMCU_HOOK_NOOP, 0, S, O⟩)
        ((0, p) :: t.addr2entry) [] t.current_mem_allocd) := by
  rw [capture_realloc_eq env (f + 4) t p (by rw [he])]
  rw [bdr_null_eq env (f + 3) _ p (by rw [deref_num_captures, he])]
  simp only [deref_num_captures, he]
  have hd1 : deref (store { t with num_captures := t.num_captures + 1 } p
      ⟨MMCU_HOOK_NOOP, 0, S, O⟩) p = ⟨MMCU_HOOK_NOOP, 0, S, O⟩ :=
    deref_store_self _ p _ hp
  have ho1 := capture_noop_untracked_outcome env f
    (store { t with num_captures := t.num_captures + 1 } p ⟨MMCU_HOOK_NOOP, 0, S, O⟩) p
    (by rw [hd1]) (by rw [hd1]; exact h0) hmm
  rw [hd1] at ho1
  exact ho1

theorem capture_realloc_noop_outcome (env : mmcu_env) (f : Nat) (t : mmcu_mem_stat_mgr)
    (p A O : Nat) (S : Int)
    (hp : p < t.heap.length)
    (he : deref t p = ⟨MMCU_HOOK_REALLOC, A, S, O⟩)
    (hA0 : A ≠ 0) (hO0 : O ≠ 0) (hS : to_size_t S = 0)
    (hA : map_find t.addr2entry A = none)
    (hO : map_find t.addr2entry O = none)
    (hmm : t.addr2mmap_entry = []) :
    outcome env (capture env (f + 5) t p) (fun s' =>
      core_is s' (t.heap.set p ⟨MMCU_HOOK_NOOP, A, S, O⟩)
        ((A, p) :: t.addr2entry) [] t.current_mem_allocd) := by
  rw [capture_realloc_eq env (f + 4) t p (by rw [he])]
  rw [bdr_noop_eq env (f + 3) _ p (by rw [deref_num_captures, he]; exact hA0)
    (by rw [deref_num_captures, he]; exact hS) (by rw [deref_num_captures, he]; exact hO0)
    (by rw [deref_num_captures, he]; exact hO)]
  simp only [deref_num_captures, he]
  have hd1 : deref (store { t with num_captures := t.num_captures + 1 } p
      ⟨MMCU_HOOK_NOOP, A, S, O⟩) p = ⟨MMCU_HOOK_NOOP, A, S, O⟩ :=
    deref_store_self _ p _ hp
  have ho1 := capture_noop_untracked_outcome env f
    (store { t with num_captures := t.num_captures + 1 } p ⟨MMCU_HOOK_NOOP, A, S, O⟩) p
    (by rw [hd1]) (by rw [hd1]; exact hA) hmm
  rw [hd1] at ho1
  exact ho1

theorem realloc_null_core (env : mmcu_env) (s : mmcu_mem_stat_mgr) (O : Nat) (S : Int)
    (hmm : s.addr2mmap_entry = []) (h0 : map_find s.addr2entry 0 = none) :
    outcome env (capture_new env s ⟨MMCU_HOOK_REALLOC, 0, S, O⟩) (fun s' =>
      core_is s' (s.heap ++ [(⟨MMCU_HOOK_NOOP, 0, S, O⟩ : mmcu_memory_op_entry)])
        ((0, s.heap.length) :: s.addr2entry) [] s.current_mem_allocd) := by
  have h := capture_realloc_null_outcome env 1 (new_entry s ⟨MMCU_HOOK_REALLOC, 0, S, O⟩).1
    (new_entry s ⟨MMCU_HOOK_REALLOC, 0, S, O⟩).2 O S (new_entry_lt _ _)
    (deref_new_entry_self _ _) h0 hmm
  have hset : (new_entry s ⟨MMCU_HOOK_REALLOC, 0, S, O⟩).1.heap.set
      (new_entry s ⟨MMCU_HOOK_REALLOC, 0, S, O⟩).2 ⟨MMCU_HOOK_NOOP, 0, S, O⟩
      = s.heap ++ [(⟨MMCU_HOOK_NOOP, 0, S, O⟩ : mmcu_memory_op_entry)] :=
    set_append_last _ _ _
  rw [hset] at h
  exact h

theorem realloc_noop_core (env : mmcu_env) (s : mmcu_mem_stat_mgr) (A O : Nat)
    (hmm : s.addr2mmap_entry = []) (hA0 : A ≠ 0) (hO0 : O ≠ 0)
    (hA : map_find s.addr2entry A = none) (hO : map_find s.addr2entry O = none) :
    outcome env (capture_new env s ⟨MMCU_HOOK_REALLOC, A, 0, O⟩) (fun s' =>
      core_is s' (s.heap ++ [(⟨MMCU_HOOK_NOOP, A, 0, O⟩ : mmcu_memory_op_entry)])
        ((A, s.heap.length) :: s.addr2entry) [] s.current_mem_allocd) := by
  have h := capture_realloc_noop_outcome env 1 (new_entry s ⟨MMCU_HOOK_REALLOC, A, 0, O⟩).1
    (new_entry s ⟨MMCU_HOOK_REALLOC, A, 0, O⟩).2 A O 0 (new_entry_lt _ _)
    (deref_new_entry_self _ _) hA0 hO0 (by simp [to_size_t]) hA hO hmm
  have hset : (new_entry s ⟨MMCU_HOOK_REALLOC, A, 0, O⟩).1.heap.set
      (new_entry s ⟨MMCU_HOOK_REALLOC, A, 0, O⟩).2 ⟨MMCU_HOOK_NOOP, A, 0, O⟩
      = s.heap ++ [(⟨MMCU_HOOK_NOOP, A, 0, O⟩ : mmcu_memory_op_entry)] :=
    set_append_last _ _ _
  rw [hset] at h
  exact h

/-! ## Resize events whose old address is not tracked -/

theorem capture_realloc_move_untracked_outcome (env : mmcu_env) (f : Nat)
    (t : mmcu_mem_stat_mgr) (p A O : Nat) (S : Int)
    (hp : p < t.heap.length)
    (he : deref t p = ⟨MMCU_HOOK_REALLOC, A, S, O⟩)
    (hA0 : A ≠ 0) (hO0 : O ≠ 0) (hne : O ≠ A) (hS : to_size_t S ≠ 0)
    (hA : map_find t.addr2entry A = none)
    (hO : map_find t.addr2entry O = none)
    (hmm : t.addr2mmap_entry = []) :
    outcome env (capture env (f + 5) t p) (fun s' =>
      core_is s' (t.heap.set p ⟨MMCU_HOOK_FREE, O, S, O⟩)
        ((O, p) :: (A, p) :: t.addr2entry) [] (to_ssize_t t.current_mem_allocd)) := by
  rw [capture_realloc_eq env (f + 4) t p (by rw [he])]
  rw [bdr_move_eq env (f + 3) _ p (by rw [deref_num_captures, he]; exact hA0)
    (by rw [deref_num_captures, he]; exact hS) (by rw [deref_num_captures, he]; exact hO0)
    (by rw [deref_num_captures, he]; exact hne)]
  simp only [deref_num_captures, he]
  have hd1 : deref (store { t with num_captures := t.num_captures + 1 } p
      ⟨MMCU_HOOK_MALLOC, A, S, O⟩) p = ⟨MMCU_HOOK_MALLOC, A, S, O⟩ :=
    deref_store_self _ p _ hp
  have ho1 := capture_alloc_outcome env f
    (store { t with num_captures := t.num_captures + 1 } p ⟨MMCU_HOOK_MALLOC, A, S, O⟩) p
    (by rw [hd1]; rfl) (by rw [hd1]; exact hA) hmm
  rw [hd1] at ho1
  refine outcome_bind ho1 (fun s2 hs2 => ?_)
  have hlen : p < s2.heap.length := by
    rw [hs2.heap]; simpa [store] using hp
  have hd2 : deref s2 p = ⟨MMCU_HOOK_MALLOC, A, S, O⟩ := by
    rw [deref_of_heap hs2.heap]; exact hd1
  rw [store_store, deref_store_self _ p _ hlen, hd2]
  have hd3 : deref (store s2 p ⟨MMCU_HOOK_FREE, O, S, O⟩) p = ⟨MMCU_HOOK_FREE, O, S, O⟩ :=
    deref_store_self _ p _ hlen
  have hfind : map_find (store s2 p ⟨MMCU_HOOK_FREE, O, S, O⟩).addr2entry O = none := by
    show map_find s2.addr2entry O = none
    rw [hs2.addr2entry]
    simpa [map_find, Ne.symm hne] using hO
  have ho2 := capture_free_untracked_outcome env f (store s2 p ⟨MMCU_HOOK_FREE, O, S, O⟩) p
    (by rw [hd3]) (by rw [hd3]; exact hfind) hs2.addr2mmap_entry
  rw [hd3] at ho2
  refine outcome_mono ho2 (fun s4 hs4 => ?_)
  refine ⟨?_, ?_, hs4.addr2mmap_entry, ?_⟩
  · rw [hs4.heap]
    show s2.heap.set p _ = _
    rw [hs2.heap]
    simp [store, List.set_set]
  · rw [hs4.addr2entry]
    show (O, p) :: s2.addr2entry = _
    rw [hs2.addr2entry]
    rfl
  · rw [hs4.current_mem_allocd]
    show to_ssize_t (s2.current_mem_allocd - _) = _
    rw [hs2.current_mem_allocd]
    show to_ssize_t (to_ssize_t (t.current_mem_allocd + S) - S) = _
    unfold to_ssize_t
    omega

theorem capture_realloc_in_place_untracked_outcome (env : mmcu_env) (f : Nat)
    (t : mmcu_mem_stat_mgr) (p A : Nat) (S : Int)
    (hp : p < t.heap.length)
    (he : deref t p = ⟨MMCU_HOOK_REALLOC, A, S, A⟩)
    (hA0 : A ≠ 0) (hS : to_size_t S ≠ 0)
    (hA : map_find t.addr2entry A = none)
    (hmm : t.addr2mmap_entry = []) :
    outcome env (capture env (f + 5) t p) (fun s' =>
      core_is s' (t.heap.set p ⟨MMCU_HOOK_MALLOC, A, to_ssize_t (to_size_t S), A⟩)
        ((A, p) :: t.addr2entry) [] (to_ssize_t (t.current_mem_allocd - S))) := by
  rw [capture_realloc_eq env (f + 4) t p (by rw [he])]
  rw [bdr_in_place_eq env (f + 3) _ p (by rw [deref_num_captures, he]; exact hA0)
    (by rw [deref_num_captures, he]; exact hS) (by rw [deref_num_captures, he])]
  simp only [deref_num_captures, he]
  have hd1 : deref (store { t with num_captures := t.num_captures + 1 } p
      ⟨MMCU_HOOK_FREE, A, S, A⟩) p = ⟨MMCU_HOOK_FREE, A, S, A⟩ :=
    deref_store_self _ p _ hp
  have ho1 := capture_free_untracked_outcome env f
    (store { t with num_captures := t.num_captures + 1 } p ⟨MMCU_HOOK_FREE, A, S, A⟩) p
    (by rw [hd1]) (by rw [hd1]; exact hA) hmm
  rw [hd1] at ho1
  refine outcome_bind ho1 (fun s2 hs2 => ?_)
  have hlen : p < s2.heap.length := by
    rw [hs2.heap]; simpa [store] using hp
  have hd2 : deref s2 p = ⟨MMCU_HOOK_FREE, A, S, A⟩ := by
    rw [deref_of_heap hs2.heap]; exact hd1
  rw [store_store, deref_store_self _ p _ hlen, hd2]
  have hd3 : deref (store s2 p ⟨MMCU_HOOK_MALLOC, A, to_ssize_t (to_size_t S), A⟩) p
      = ⟨MMCU_HOOK_MALLOC, A, to_ssize_t (to_size_t S), A⟩ :=
    deref_store_self _ p _ hlen
  have hfind : map_find (store s2 p
      ⟨MMCU_HOOK_MALLOC, A, to_ssize_t (to_size_t S), A⟩).addr2entry A = some p := by
    show map_find s2.addr2entry A = some p
    rw [hs2.addr2entry]
    simp [map_find]
  rw [capture_curious env (f + 2) _ p p (by rw [hd3]; rfl) (by rw [hd3]; exact hfind)]
  refine outcome_intro_ok ⟨?_, ?_, ?_, ?_⟩
  · show s2.heap.set p _ = _
    rw [hs2.heap]
    simp [store, List.set_set]
  · show s2.addr2entry = _
    rw [hs2.addr2entry]
    rfl
  · exact hs2.addr2mmap_entry
  · show s2.current_mem_allocd = _
    rw [hs2.current_mem_allocd]
    rfl

theorem realloc_move_untracked_core (env : mmcu_env) (s : mmcu_mem_stat_mgr) (A O : Nat)
    (S : Int) (hmm : s.addr2mmap_entry = [])
    (hA : map_find s.addr2entry A = none) (hO : map_find s.addr2entry O = none)
    (hne : O ≠ A) (hA0 : A ≠ 0) (hO0 : O ≠ 0) (hS : to_size_t S ≠ 0) :
    outcome env (capture_new env s ⟨MMCU_HOOK_REALLOC, A, S, O⟩) (fun s' =>
      core_is s' (s.heap ++ [(⟨MMCU_HOOK_FREE, O, S, O⟩ : mmcu_memory_op_entry)])
        ((O, s.heap.length) :: (A, s.heap.length) :: s.addr2entry) []
        (to_ssize_t s.current_mem_allocd)) := by
  have h := capture_realloc_move_untracked_outcome env 1
    (new_entry s ⟨MMCU_HOOK_REALLOC, A, S, O⟩).1
    (new_entry s ⟨MMCU_HOOK_REALLOC, A, S, O⟩).2 A O S (new_entry_lt _ _)
    (deref_new_entry_self _ _) hA0 hO0 hne hS hA hO hmm
  have hset : (new_entry s ⟨MMCU_HOOK_REALLOC, A, S, O⟩).1.heap.set
      (new_entry s ⟨MMCU_HOOK_REALLOC, A, S, O⟩).2 ⟨MMCU_HOOK_FREE, O, S, O⟩
      = s.heap ++ [(⟨MMCU_HOOK_FREE, O, S, O⟩ : mmcu_memory_op_entry)] :=
    set_append_last _ _ _
  rw [hset] at h
  exact h

theorem realloc_in_place_untracked_core (env : mmcu_env) (s : mmcu_mem_stat_mgr) (A : Nat)
    (S : Int) (hmm : s.addr2mmap_entry = [])
    (hA : map_find s.addr2entry A = none) (hA0 : A ≠ 0) (hS : to_size_t S ≠ 0) :
    outcome env (capture_new env s ⟨MMCU_HOOK_REALLOC, A, S, A⟩) (fun s' =>
      core_is s'
        (s.heap ++ [(⟨MMCU_HOOK_MALLOC, A, to_ssize_t (to_size_t S), A⟩ : mmcu_memory_op_entry)])
        ((A, s.heap.length) :: s.addr2entry) []
        (to_ssize_t (s.current_mem_allocd - S))) := by
  have h := capture_realloc_in_place_untracked_outcome env 1
    (new_entry s ⟨MMCU_HOOK_REALLOC, A, S, A⟩).1
    (new_entry s ⟨MMCU_HOOK_REALLOC, A, S, A⟩).2 A S (new_entry_lt _ _)
    (deref_new_entry_self _ _) hA0 hS hA hmm
  have hset : (new_entry s ⟨MMCU_HOOK_REALLOC, A, S, A⟩).1.heap.set
      (new_entry s ⟨MMCU_HOOK_REALLOC, A, S, A⟩).2
        ⟨MMCU_HOOK_MALLOC, A, to_ssize_t (to_size_t S), A⟩
      = s.heap ++ [(⟨MMCU_HOOK_MALLOC, A, to_ssize_t (to_size_t S), A⟩ :
          mmcu_memory_op_entry)] :=
    set_append_last _ _ _
  rw [hset] at h
  exact h

/-! ## Sampling steps -/

theorem ums_false_inv (env : mmcu_env) (f : Nat) (s s' : mmcu_mem_stat_mgr)
    (h : update_mem_stats env (f + 1) s false = .ok s') :
    s'.n_mem_ops_recorded = s.n_mem_ops_recorded + 1 ∧
    s'.mem_allocd_samples
      = s.mem_allocd_samples ++ [(env.mmcu_time s.n_time_calls, s.current_mem_allocd)] ∧
    s'.mpi_high_mem_usage_mark = max s.mpi_high_mem_usage_mark s.current_mem_allocd ∧
    ((s.n_mem_ops_recorded + 1) % 8 = 0 →
      ∃ v, env.smaps_pss_total s.n_smaps_total_calls = some v ∧
        s'.pss_total_samples
          = s.pss_total_samples ++ [(env.mmcu_time (s.n_time_calls + 1), v)] ∧
        s'.n_app_pss_samples = s.n_app_pss_samples + 1 ∧
        s'.pss_high_mem_usage_mark = max s.pss_high_mem_usage_mark v) ∧
    ((s.n_mem_ops_recorded + 1) % 8 ≠ 0 →
      s'.pss_total_samples = s.pss_total_samples ∧
      s'.n_app_pss_samples = s.n_app_pss_samples ∧
      s'.pss_high_mem_usage_mark = s.pss_high_mem_usage_mark) ∧
    s'.n_mpi_pss_samples_requested = s.n_mpi_pss_samples_requested ∧
    s'.n_mpi_pss_samples = s.n_mpi_pss_samples := by
  have hmark : ∀ (c m : Int), (if c > m then c else m) = max m c := by
    intro c m; split <;> omega
  by_cases hc : ((s.n_mem_ops_recorded + 1) % pss_totals_sample_freq == 0) = true
  · have hc8 : (s.n_mem_ops_recorded + 1) % 8 = 0 := by
      simpa [pss_totals_sample_freq] using hc
    cases hq : env.smaps_pss_total s.n_smaps_total_calls with
    | none =>
      simp [update_mem_stats, get_proc_self_smaps_pss_total, hc, hq] at h
    | some v =>
      simp only [update_mem_stats, get_proc_self_smaps_pss_total, Bool.false_or,
        Bool.false_eq_true, if_false, hc, if_true, hq, Except.ok.injEq] at h
      rw [← h]
      refine ⟨rfl, ?_, hmark _ _, fun _ => ⟨v, rfl, ?_, rfl, hmark _ _⟩,
        fun hn => absurd hc8 hn, rfl, rfl⟩
      · simp [mem_allocd_sample_freq, Nat.mod_one]
      · simp [mem_allocd_sample_freq, Nat.mod_one]
  · have hc8 : (s.n_mem_ops_recorded + 1) % 8 ≠ 0 := by
      simpa [pss_totals_sample_freq] using hc
    simp only [update_mem_stats, get_proc_self_smaps_pss_total, Bool.false_or,
      Bool.false_eq_true, if_false, hc, Except.ok.injEq] at h
    rw [← h]
    refine ⟨rfl, ?_, hmark _ _, fun hn => absurd hn hc8, fun _ => ⟨rfl, rfl, rfl⟩, rfl, rfl⟩
    simp [mem_allocd_sample_freq, Nat.mod_one]

theorem ums_false_ok (env : mmcu_env) (f : Nat) (s : mmcu_mem_stat_mgr) (hok : env_ok env) :
    ∃ s', update_mem_stats env (f + 1) s false = .ok s' := by
  obtain ⟨s', h, _⟩ := outcome_ok (ums_outcome env f s) hok
  exact ⟨s', h⟩

theorem ums_n_inv (env : mmcu_env) :
    ∀ (k : Nat) (s s' : mmcu_mem_stat_mgr), update_mem_stats_n env k s = .ok s' →
      s'.n_mem_ops_recorded = s.n_mem_ops_recorded + k ∧
      s'.mem_allocd_samples.length = s.mem_allocd_samples.length + k ∧
      s'.pss_total_samples.length + s.n_mem_ops_recorded / 8
        = s.pss_total_samples.length + (s.n_mem_ops_recorded + k) / 8 := by
  intro k
  induction k with
  | zero =>
    intro s s' h
    simp only [update_mem_stats_n, Except.ok.injEq] at h
    subst h
    exact ⟨rfl, rfl, rfl⟩
  | succ k ih =>
    intro s s' h
    simp only [update_mem_stats_n] at h
    obtain ⟨s1, h1, h2⟩ := bind_ok_inv h
    obtain ⟨hn, hm, _, hp, hnp, _, _⟩ := ums_false_inv env 0 s s1 h1
    obtain ⟨ihn, ihm, ihp⟩ := ih s1 s' h2
    refine ⟨by omega, ?_, ?_⟩
    · rw [ihm, hm]; simp; omega
    · by_cases hc : (s.n_mem_ops_recorded + 1) % 8 = 0
      · obtain ⟨v, _, hv, _, _⟩ := hp hc
        rw [hv, hn] at ihp
        simp only [List.length_append, List.length_singleton] at ihp
        omega
      · obtain ⟨hv, _, _⟩ := hnp hc
        rw [hv, hn] at ihp
        omega

theorem ums_n_ok (env : mmcu_env) (hok : env_ok env) :
    ∀ (k : Nat) (s : mmcu_mem_stat_mgr), ∃ s', update_mem_stats_n env k s = .ok s' := by
  intro k
  induction k with
  | zero => intro s; exact ⟨s, rfl⟩
  | succ k ih =>
    intro s
    obtain ⟨s1, h1⟩ := ums_false_ok env 0 s hok
    obtain ⟨s', h2⟩ := ih s1
    refine ⟨s', ?_⟩
    simp only [update_mem_stats_n, h1]
    exact h2

/-! ## The first map of an address -/

theorem ucma_pss_update_frame (env : mmcu_env) (f : Nat) (t : mmcu_mem_stat_mgr) (p : Nat)
    (h : (deref t p).opid = MMCU_HOOK_MMAP_PSS_UPDATE) :
    outcome env (update_current_mem_allocd env (f + 2) t p false) (fun s' =>
      stats_frame { t with
        current_mem_allocd := to_ssize_t (t.current_mem_allocd + (deref t p).size) } s') := by
  rw [ucma_pss_update env (f + 1) t p h]
  exact ums_outcome env f _

theorem capture_mmap_new_full (env : mmcu_env) (f : Nat) (t t0 t0' : mmcu_mem_stat_mgr)
    (p A O : Nat) (L : Int) (d : mmcu_proc_smaps_entry)
    (hp : p < t.heap.length)
    (he : deref t p = ⟨MMCU_HOOK_MMAP, A, L, O⟩)
    (hA : map_find t.addr2mmap_entry A = none)
    (hc : t0.n_smaps_entry_calls = t.n_smaps_entry_calls)
    (hq : get_proc_self_smaps_entry env t0 A = .ok (d, t0')) :
    outcome env (capture env (f + 3) t p) (fun s' =>
      core_is s' (t.heap.set p ⟨MMCU_HOOK_MMAP_PSS_UPDATE, A, to_ssize_t d.pss_in_b, O⟩)
        t.addr2entry ((A, p) :: t.addr2mmap_entry)
        (to_ssize_t (t.current_mem_allocd + d.pss_in_b)) ∧
      s'.n_mem_alloc_ops = t.n_mem_alloc_ops + 1 ∧ s'.n_mem_free_ops = t.n_mem_free_ops) := by
  rw [capture_mmap_eq env (f + 2) t p (Or.inl (by rw [he]))]
  obtain ⟨u', hu', hh, ht, hm, htot⟩ :=
    gpse_indep env A t0 { t with num_captures := t.num_captures + 1 } d t0' hc hq
  have hfr := gpse_frame env A _ _ _ hu'
  have hget : t.heap[p] = ⟨MMCU_HOOK_MMAP, A, L, O⟩ := by
    have h := he
    simp only [deref, List.getD_eq_getElem?_getD, List.getElem?_eq_getElem hp,
      Option.getD_some] at h
    exact h
  have hh' : u'.heap = t.heap := hh
  have hm' : u'.addr2mmap_entry = t.addr2mmap_entry := hm
  have ht' : u'.addr2entry = t.addr2entry := ht
  have htot' : u'.current_mem_allocd = t.current_mem_allocd := htot
  have ha' : u'.n_mem_alloc_ops = t.n_mem_alloc_ops := by rw [hfr]
  have hf' : u'.n_mem_free_ops = t.n_mem_free_ops := by rw [hfr]
  simp only [capture_mmap_ops, deref_num_captures, he, hA, ne_eq, not_true_eq_false,
    if_false, hu']
  refine outcome_mono (ucma_pss_update_frame env f _ p ?_) (fun s' hs' => ?_)
  · simp [deref, store, hh', hget, List.getD_eq_getElem?_getD, List.getElem?_set, hp]
  · have h1 := hs'.heap
    have h2 := hs'.addr2entry
    have h3 := hs'.addr2mmap_entry
    have h4 := hs'.current_mem_allocd
    have h5 := hs'.n_mem_alloc_ops
    have h6 := hs'.n_mem_free_ops
    simp only [deref, store, hh', hget, List.getD_eq_getElem?_getD, List.getElem?_set, hp,
      List.set_set, List.length_set, if_true, Option.getD_some, htot', hm', ht',
      map_insert_of_none p hA, List.getElem?_eq_getElem hp, ha', hf'] at h1 h2 h3 h4 h5 h6
    refine ⟨⟨h1, h2, h3, ?_⟩, h5, h6⟩
    rw [h4]
    unfold to_ssize_t
    omega

theorem map_event_core (env : mmcu_env) (s sq : mmcu_mem_stat_mgr) (A O : Nat) (L : Int)
    (d : mmcu_proc_smaps_entry)
    (hA : map_find s.addr2mmap_entry A = none)
    (hq : get_proc_self_smaps_entry env s A = .ok (d, sq)) :
    outcome env (capture_new env s ⟨MMCU_HOOK_MMAP, A, L, O⟩) (fun s1 =>
      core_is s1
        (s.heap ++ [(⟨MMCU_HOOK_MMAP_PSS_UPDATE, A, to_ssize_t d.pss_in_b, O⟩ :
          mmcu_memory_op_entry)])
        s.addr2entry ((A, s.heap.length) :: s.addr2mmap_entry)
        (to_ssize_t (s.current_mem_allocd + d.pss_in_b)) ∧
      s1.n_mem_alloc_ops = s.n_mem_alloc_ops + 1 ∧ s1.n_mem_free_ops = s.n_mem_free_ops) := by
  have h := capture_mmap_new_full env 3 (new_entry s ⟨MMCU_HOOK_MMAP, A, L, O⟩).1 s sq
    (new_entry s ⟨MMCU_HOOK_MMAP, A, L, O⟩).2 A O L d
    (new_entry_lt _ _) (deref_new_entry_self _ _) hA rfl hq
  have hset : (new_entry s ⟨MMCU_HOOK_MMAP, A, L, O⟩).1.heap.set
      (new_entry s ⟨MMCU_HOOK_MMAP, A, L, O⟩).2
        ⟨MMCU_HOOK_MMAP_PSS_UPDATE, A, to_ssize_t d.pss_in_b, O⟩
      = s.heap ++ [(⟨MMCU_HOOK_MMAP_PSS_UPDATE, A, to_ssize_t d.pss_in_b, O⟩ :
          mmcu_memory_op_entry)] :=
    set_append_last _ _ _
  rw [hset] at h
  exact h

theorem mapped_entry_of_core {s' : mmcu_mem_stat_mgr} {H : List mmcu_memory_op_entry}
    {tbl mm : List (Nat × Nat)} {tot : Int} (h : core_is s' H tbl mm tot) (a : Nat) :
    mapped_entry s' a = (map_find mm a).bind (fun p => H[p]?) := by
  unfold mapped_entry
  rw [h.heap, h.addr2mmap_entry]

/-! ## Failures of the region query -/

theorem smaps_retry_error (env : mmcu_env) (A : Nat) :
    ∀ (n : Nat) (res : mmcu_proc_smaps_entry) (t : mmcu_mem_stat_mgr) (f : mmcu_failure),
      smaps_retry env A n res t = .error f → f = .exit_failure ∧ ¬ env_ok env := by
  intro n
  induction n with
  | zero => intro res t f h; simp [smaps_retry] at h
  | succ n ih =>
    intro res t f h
    simp only [smaps_retry] at h
    cases hq : env.smaps_entry t.n_smaps_entry_calls A with
    | fatal =>
      rw [hq] at h
      simp only [Except.error.injEq] at h
      exact ⟨h.symm, fun hok => hok.2 _ _ hq⟩
    | not_found => rw [hq] at h; exact ih _ _ _ h
    | found e => rw [hq] at h; cases h

theorem gpse_error (env : mmcu_env) (A : Nat) (t : mmcu_mem_stat_mgr) (f : mmcu_failure)
    (h : get_proc_self_smaps_entry env t A = .error f) : f = .exit_failure ∧ ¬ env_ok env := by
  unfold get_proc_self_smaps_entry at h
  cases hr : smaps_retry env A n_tries {} t with
  | error f' =>
    rw [hr] at h
    simp only [Except.error.injEq] at h
    subst h
    exact smaps_retry_error env A _ _ _ _ hr
  | ok x => rw [hr] at h; cases h

theorem deref_lt_of_opid {s : mmcu_mem_stat_mgr} {p : Nat}
    (h : (deref s p).opid ≠ MMCU_HOOK_NOOP) : p < s.heap.length := by
  by_contra hc
  apply h
  simp [deref, List.getD_eq_getElem?_getD, List.getElem?_eq_none (Nat.le_of_not_lt hc)]
  rfl

/-! ## The refresh of mapped regions -/

theorem ucma_internal_pss (env : mmcu_env) (f : Nat) (s : mmcu_mem_stat_mgr) (p : Nat)
    (h : (deref s p).opid = MMCU_HOOK_MMAP_PSS_UPDATE) :
    update_current_mem_allocd env (f + 1) s p true =
      .ok { s with
        current_mem_allocd := to_ssize_t (s.current_mem_allocd + (deref s p).size) } := by
  simp [update_current_mem_allocd, h, to_ssize_t_add_size]


theorem pss_entry_step_update (env : mmcu_env) (f : Nat) (s : mmcu_mem_stat_mgr) (e : Nat)
    (ho : (deref s e).opid = MMCU_HOOK_MMAP_PSS_UPDATE) :
    (∀ b s', pss_entry_step env (update_current_mem_allocd env (f + 2)) s e = .ok (b, s') →
      b = true ∧ ∃ d s1, get_proc_self_smaps_entry env s (deref s e).addr = .ok (d, s1) ∧
        refresh_step env s s' e d) ∧
    (∀ x, pss_entry_step env (update_current_mem_allocd env (f + 2)) s e = .error x →
      x = .exit_failure ∧ ¬ env_ok env) := by
  have hlt : e < s.heap.length := deref_lt_of_opid (by rw [ho]; decide)
  unfold pss_entry_step
  simp only [ho]
  cases hq : get_proc_self_smaps_entry env s (deref s e).addr with
  | error x =>
    simp only []
    refine ⟨fun b s' h => (by cases h), fun x' h => ?_⟩
    simp only [Except.error.injEq] at h
    subst h
    exact gpse_error env _ _ _ hq
  | ok r =>
    obtain ⟨d, s1⟩ := r
    simp only []
    have hfr := gpse_frame env _ _ _ _ hq
    have hh : s1.heap = s.heap := by rw [hfr]
    have hd1 : deref s1 e = deref s e := deref_of_heap hh e
    rw [hd1]
    have hlt1 : e < s1.heap.length := by rw [hh]; exact hlt
    have hX : deref (store s1 e { deref s e with size := to_ssize_t (-(deref s e).size) }) e
        = { deref s e with size := to_ssize_t (-(deref s e).size) } :=
      deref_store_self _ e _ hlt1
    have h1 := ucma_internal_pss env (f + 1)
      (store s1 e { deref s e with size := to_ssize_t (-(deref s e).size) }) e
      (by rw [hX]; exact ho)
    rw [hX] at h1
    cases h1' : update_current_mem_allocd env (f + 2)
        (store s1 e { deref s e with size := to_ssize_t (-(deref s e).size) }) e true with
    | error x => rw [h1] at h1'; cases h1'
    | ok s2 =>
      rw [h1] at h1'
      simp only [Except.ok.injEq] at h1'
      simp only []
      have hh2 : s2.heap
          = s1.heap.set e { deref s e with size := to_ssize_t (-(deref s e).size) } := by
        rw [← h1']; rfl
      have hlt2 : e < s2.heap.length := by rw [hh2]; simpa using hlt1
      have hd2 : deref s2 e = { deref s e with size := to_ssize_t (-(deref s e).size) } := by
        rw [← h1']; exact hX
      rw [hd2]
      have hY : deref (store s2 e { deref s e with size := to_ssize_t d.pss_in_b }) e
          = { deref s e with size := to_ssize_t d.pss_in_b } :=
        deref_store_self _ e _ hlt2
      have h2 := ucma_pss_update env (f + 1)
        (store s2 e { deref s e with size := to_ssize_t d.pss_in_b }) e
        (by rw [hY]; exact ho)
      rw [hY] at h2
      have hfields : s2.addr2entry = s.addr2entry ∧ s2.addr2mmap_entry = s.addr2mmap_entry ∧
          s2.current_mem_allocd = to_ssize_t (s.current_mem_allocd
            + to_ssize_t (-(deref s e).size)) ∧
          s2.n_mem_ops_recorded = s.n_mem_ops_recorded ∧
          s2.mem_allocd_samples = s.mem_allocd_samples ∧
          s2.pss_total_samples = s.pss_total_samples ∧
          s2.n_mem_alloc_ops = s.n_mem_alloc_ops ∧ s2.n_mem_free_ops = s.n_mem_free_ops ∧
          s2.n_mpi_pss_samples = s.n_mpi_pss_samples := by
        rw [← h1', hfr]
        exact ⟨rfl, rfl, rfl, rfl, rfl, rfl, rfl, rfl, rfl⟩
      obtain ⟨g1, g2, g3, g4, g5, g6, g7, g8, g9⟩ := hfields
      cases h2' : update_current_mem_allocd env (f + 2)
          (store s2 e { deref s e with size := to_ssize_t d.pss_in_b }) e false with
      | error x =>
        simp only []
        refine ⟨fun b s' h => (by cases h), fun x' h => ?_⟩
        simp only [Except.error.injEq] at h
        subst h
        rw [h2] at h2'
        exact (ums_outcome env f _).2 _ h2'
      | ok s3 =>
        simp only []
        refine ⟨fun b s' h => ?_, fun x' h => (by cases h)⟩
        simp only [Except.ok.injEq, Prod.mk.injEq] at h
        obtain ⟨hb, hs'⟩ := h
        subst hs'
        refine ⟨hb.symm, d, s1, rfl, ?_⟩
        rw [h2] at h2'
        have hf := outcome_of_ok (ums_outcome env f _) h2'
        obtain ⟨hn, hm, _, hp, hnp, _, hq9⟩ := ums_false_inv env f _ _ h2'
        have k1 : s3.heap = (s2.heap).set e { deref s e with size := to_ssize_t d.pss_in_b } :=
          hf.heap
        have k2 : s3.current_mem_allocd
            = to_ssize_t (s2.current_mem_allocd + to_ssize_t d.pss_in_b) :=
          hf.current_mem_allocd
        have k3 : s3.n_mem_ops_recorded = s2.n_mem_ops_recorded + 1 := hn
        have k4 : s3.mem_allocd_samples = s2.mem_allocd_samples
            ++ [(env.mmcu_time s2.n_time_calls,
              to_ssize_t (s2.current_mem_allocd + to_ssize_t d.pss_in_b))] := hm
        refine ⟨?_, hf.addr2entry.trans g1, hf.addr2mmap_entry.trans g2, ?_, ?_, ?_, ?_,
          hf.n_mem_alloc_ops.trans g7, hf.n_mem_free_ops.trans g8, hq9.trans g9⟩
        · rw [k1, hh2, hh, List.set_set]
        · rw [k2, g3]
          unfold to_ssize_t
          omega
        · rw [k3, g4]
        · exact ⟨_, by rw [k4, g5, k2]⟩
        · by_cases hc : (s2.n_mem_ops_recorded + 1) % 8 = 0
          · obtain ⟨v, _, hv, _, _⟩ := hp hc
            have hv' : s3.pss_total_samples = s2.pss_total_samples ++ [(_, v)] := hv
            rw [hv', g6]
            rw [g4] at hc
            simp only [List.length_append, List.length_singleton]
            omega
          · obtain ⟨hv, _, _⟩ := hnp hc
            have hv' : s3.pss_total_samples = s2.pss_total_samples := hv
            rw [hv', g6]
            rw [g4] at hc
            omega

theorem map_set_same {α β : Type} (g : α → β) :
    ∀ (l : List α) (i : Nat) (x : α), (∀ y, l[i]? = some y → g x = g y) →
      (l.set i x).map g = l.map g := by
  intro l
  induction l with
  | nil => intro i x _; rfl
  | cons a l ih =>
    intro i x h
    cases i with
    | zero =>
      have := h a (by simp)
      simp [List.set, this]
    | succ i =>
      simp only [List.set, List.map_cons]
      rw [ih i x (fun y hy => h y (by simpa using hy))]

theorem shape_set_size (s : mmcu_mem_stat_mgr) (e : Nat) (z : Int) :
    (s.heap.set e { deref s e with size := z }).map entry_shape = s.heap.map entry_shape := by
  apply map_set_same
  intro y hy
  simp [deref, List.getD_eq_getElem?_getD, hy, entry_shape]

theorem deref_shape {s t : mmcu_mem_stat_mgr}
    (h : t.heap.map entry_shape = s.heap.map entry_shape) (q : Nat) :
    entry_shape (deref t q) = entry_shape (deref s q) := by
  have h1 := congrArg (fun l => l[q]?) h
  simp only [List.getElem?_map] at h1
  unfold deref
  rw [List.getD_eq_getElem?_getD, List.getD_eq_getElem?_getD]
  cases ht : t.heap[q]? with
  | none =>
    cases hs : s.heap[q]? with
    | none => rfl
    | some y => rw [ht, hs] at h1; cases h1
  | some x =>
    cases hs : s.heap[q]? with
    | none => rw [ht, hs] at h1; cases h1
    | some y =>
      rw [ht, hs] at h1
      simpa using h1

theorem deref_opid_of_shape {s t : mmcu_mem_stat_mgr}
    (h : t.heap.map entry_shape = s.heap.map entry_shape) (q : Nat) :
    (deref t q).opid = (deref s q).opid :=
  congrArg (fun x => x.1) (deref_shape h q)

theorem deref_addr_of_shape {s t : mmcu_mem_stat_mgr}
    (h : t.heap.map entry_shape = s.heap.map entry_shape) (q : Nat) :
    (deref t q).addr = (deref s q).addr :=
  congrArg (fun x => x.2.1) (deref_shape h q)


theorem refresh_loop_counts (env : mmcu_env) (f : Nat) :
    ∀ (l : List (Nat × Nat)) (s : mmcu_mem_stat_mgr),
      (∀ kv ∈ l, (deref s kv.2).opid = MMCU_HOOK_MMAP_PSS_UPDATE) →
      (∀ s', for_each_entry (pss_entry_step env (update_current_mem_allocd env (f + 2))) l s
          = .ok s' → refresh_counts s s' l.length) ∧
      (∀ x, for_each_entry (pss_entry_step env (update_current_mem_allocd env (f + 2))) l s
          = .error x → x = .exit_failure ∧ ¬ env_ok env) := by
  intro l
  induction l with
  | nil =>
    intro s _
    refine ⟨fun s' h => ?_, fun x h => (by cases h)⟩
    simp only [for_each_entry, Except.ok.injEq] at h
    subst h
    exact ⟨rfl, rfl, rfl, rfl, rfl, rfl, rfl, rfl, rfl⟩
  | cons me rest ih =>
    intro s hall
    have ho := hall me (List.mem_cons_self _ _)
    obtain ⟨hstep, hstepE⟩ := pss_entry_step_update env f s me.2 ho
    simp only [for_each_entry]
    cases hb : pss_entry_step env (update_current_mem_allocd env (f + 2)) s me.2 with
    | error x =>
      simp only []
      refine ⟨fun s' h => (by cases h), fun x' h => ?_⟩
      simp only [Except.error.injEq] at h
      subst h
      exact hstepE _ hb
    | ok r =>
      obtain ⟨b, s1⟩ := r
      obtain ⟨hbt, d, sq, _, hr⟩ := hstep b s1 hb
      subst hbt
      simp only [if_true]
      have hshape : s1.heap.map entry_shape = s.heap.map entry_shape := by
        rw [hr.heap]; exact shape_set_size s me.2 _
      have hall1 : ∀ kv ∈ rest, (deref s1 kv.2).opid = MMCU_HOOK_MMAP_PSS_UPDATE := by
        intro kv hkv
        rw [deref_opid_of_shape hshape]
        exact hall kv (List.mem_cons_of_mem _ hkv)
      obtain ⟨ih1, ih2⟩ := ih s1 hall1
      refine ⟨fun s' h => ?_, ih2⟩
      have c := ih1 s' h
      refine ⟨c.addr2entry.trans hr.addr2entry, c.addr2mmap_entry.trans hr.addr2mmap_entry,
        c.shape.trans hshape, ?_, ?_, ?_, c.n_mem_alloc_ops.trans hr.n_mem_alloc_ops,
        c.n_mem_free_ops.trans hr.n_mem_free_ops,
        c.n_mpi_pss_samples.trans hr.n_mpi_pss_samples⟩
      · rw [c.n_mem_ops_recorded, hr.n_mem_ops_recorded, List.length_cons]; omega
      · obtain ⟨t, ht⟩ := hr.mem_allocd_samples
        rw [c.mem_allocd_samples, ht, List.length_cons]
        simp only [List.length_append, List.length_singleton]
        omega
      · have h1 := c.pss_total_samples
        have h2 := hr.pss_total_samples
        rw [hr.n_mem_ops_recorded] at h1
        rw [List.length_cons]
        have e1 : s.n_mem_ops_recorded + 1 + rest.length
            = s.n_mem_ops_recorded + (rest.length + 1) := by omega
        rw [e1] at h1
        omega

theorem uape_runs_eq (env : mmcu_env) (f : Nat) (s : mmcu_mem_stat_mgr) (samp : Bool)
    (hrun : (samp || s.n_mpi_pss_samples_requested % mpi_pss_update_freq == 0) = true) :
    update_all_pss_entries env (f + 1) s samp =
      for_each_entry (pss_entry_step env (update_current_mem_allocd env f)) s.addr2mmap_entry
        { s with
          n_mpi_pss_samples_requested :=
            if samp then s.n_mpi_pss_samples_requested
            else s.n_mpi_pss_samples_requested + 1
          n_mpi_pss_samples := s.n_mpi_pss_samples + 1 } := by
  cases samp with
  | true => simp [update_all_pss_entries]
  | false =>
    simp only [Bool.false_or, beq_iff_eq] at hrun
    simp [update_all_pss_entries, hrun]

theorem uape_skips_eq (env : mmcu_env) (f : Nat) (s : mmcu_mem_stat_mgr)
    (hskip : s.n_mpi_pss_samples_requested % mpi_pss_update_freq ≠ 0) :
    update_all_pss_entries env (f + 1) s false =
      .ok { s with n_mpi_pss_samples_requested := s.n_mpi_pss_samples_requested + 1 } := by
  simp [update_all_pss_entries, hskip]

theorem deref_heap_set_self {s t : mmcu_mem_stat_mgr} {e : Nat} {x : mmcu_memory_op_entry}
    (h : t.heap = s.heap.set e x) (hlt : e < s.heap.length) : deref t e = x := by
  have h' : t.heap = (store s e x).heap := h
  rw [deref_of_heap h']
  exact deref_store_self s e x hlt

theorem deref_heap_set_ne {s t : mmcu_mem_stat_mgr} {e q : Nat} {x : mmcu_memory_op_entry}
    (h : t.heap = s.heap.set e x) (hne : q ≠ e) : deref t q = deref s q := by
  have h' : t.heap = (store s e x).heap := h
  rw [deref_of_heap h']
  exact deref_store_ne s e q x hne

theorem refresh_loop_delta (env : mmcu_env) (f : Nat) (pss_of : Nat → Nat) :
    ∀ (l : List (Nat × Nat)) (s : mmcu_mem_stat_mgr),
      (∀ kv ∈ l, (deref s kv.2).opid = MMCU_HOOK_MMAP_PSS_UPDATE) →
      (l.map (fun kv => kv.2)).Nodup →
      is_ssize_t s.current_mem_allocd →
      (∀ kv ∈ l, ∀ t d t', get_proc_self_smaps_entry env t (deref s kv.2).addr = .ok (d, t') →
        d.pss_in_b = pss_of (deref s kv.2).addr) →
      ∀ s', for_each_entry (pss_entry_step env (update_current_mem_allocd env (f + 2))) l s
          = .ok s' →
        (∀ kv ∈ l, deref s' kv.2
          = { deref s kv.2 with size := to_ssize_t (pss_of (deref s kv.2).addr) }) ∧
        (∀ q, q ∉ l.map (fun kv => kv.2) → deref s' q = deref s q) ∧
        s'.current_mem_allocd = to_ssize_t (s.current_mem_allocd
          + (l.map (fun kv => (pss_of (deref s kv.2).addr : Int) - (deref s kv.2).size)).sum) := by
  intro l
  induction l with
  | nil =>
    intro s _ _ hrng _ s' h
    simp only [for_each_entry, Except.ok.injEq] at h
    subst h
    refine ⟨fun kv hkv => (by cases hkv), fun q _ => rfl, ?_⟩
    simp only [List.map_nil, List.sum_nil, add_zero]
    exact (to_ssize_t_of_range hrng).symm
  | cons me rest ih =>
    intro s hall hnd hrng hq s' h
    have ho := hall me (List.mem_cons_self _ _)
    have hlt : me.2 < s.heap.length := deref_lt_of_opid (by rw [ho]; decide)
    obtain ⟨hstep, _⟩ := pss_entry_step_update env f s me.2 ho
    simp only [for_each_entry] at h
    cases hb : pss_entry_step env (update_current_mem_allocd env (f + 2)) s me.2 with
    | error x => rw [hb] at h; cases h
    | ok r =>
      obtain ⟨b, s1⟩ := r
      rw [hb] at h
      obtain ⟨hbt, d, sq, hd, hr⟩ := hstep b s1 hb
      subst hbt
      simp only [if_true] at h
      have hpss : d.pss_in_b = pss_of (deref s me.2).addr :=
        hq me (List.mem_cons_self _ _) s d sq hd
      simp only [List.map_cons, List.nodup_cons] at hnd
      obtain ⟨hnot, hnd'⟩ := hnd
      have hrest : ∀ kv ∈ rest, deref s1 kv.2 = deref s kv.2 := by
        intro kv hkv
        apply deref_heap_set_ne hr.heap
        intro hc
        exact hnot (List.mem_map.2 ⟨kv, hkv, hc⟩)
      have hall1 : ∀ kv ∈ rest, (deref s1 kv.2).opid = MMCU_HOOK_MMAP_PSS_UPDATE := by
        intro kv hkv
        rw [hrest kv hkv]
        exact hall kv (List.mem_cons_of_mem _ hkv)
      have hq1 : ∀ kv ∈ rest, ∀ t d t',
          get_proc_self_smaps_entry env t (deref s1 kv.2).addr = .ok (d, t') →
          d.pss_in_b = pss_of (deref s1 kv.2).addr := by
        intro kv hkv
        rw [hrest kv hkv]
        exact hq kv (List.mem_cons_of_mem _ hkv)
      have hrng1 : is_ssize_t s1.current_mem_allocd := by
        rw [hr.current_mem_allocd]; exact to_ssize_t_range _
      obtain ⟨i1, i2, i3⟩ := ih s1 hall1 hnd' hrng1 hq1 s' h
      refine ⟨?_, ?_, ?_⟩
      · intro kv hkv
        rcases List.mem_cons.1 hkv with hk | hk
        · subst hk
          rw [i2 _ hnot, deref_heap_set_self hr.heap hlt, hpss]
        · rw [i1 kv hk, hrest kv hk]
      · intro q hqn
        simp only [List.map_cons, List.mem_cons, not_or] at hqn
        rw [i2 q hqn.2]
        exact deref_heap_set_ne hr.heap hqn.1
      · rw [i3, hr.current_mem_allocd, to_ssize_t_add_left, hpss]
        have hsum : (rest.map (fun kv => (pss_of (deref s1 kv.2).addr : Int)
              - (deref s1 kv.2).size))
            = rest.map (fun kv => (pss_of (deref s kv.2).addr : Int) - (deref s kv.2).size) := by
          apply List.map_congr_left
          intro kv hkv
          rw [hrest kv hkv]
        rw [hsum]
        simp only [List.map_cons, List.sum_cons]
        congr 1
        ring

theorem refresh_runs_counts (env : mmcu_env) (f : Nat) (s : mmcu_mem_stat_mgr) (samp : Bool)
    (hrun : (samp || s.n_mpi_pss_samples_requested % mpi_pss_update_freq == 0) = true)
    (hall : ∀ kv ∈ s.addr2mmap_entry, (deref s kv.2).opid = MMCU_HOOK_MMAP_PSS_UPDATE) :
    (∀ s', update_all_pss_entries env (f + 3) s samp = .ok s' →
      s'.addr2entry = s.addr2entry ∧ s'.addr2mmap_entry = s.addr2mmap_entry ∧
      s'.heap.map entry_shape = s.heap.map entry_shape ∧
      s'.n_mem_ops_recorded = s.n_mem_ops_recorded + s.addr2mmap_entry.length ∧
      s'.mem_allocd_samples.length
        = s.mem_allocd_samples.length + s.addr2mmap_entry.length ∧
      s'.pss_total_samples.length + s.n_mem_ops_recorded / 8
        = s.pss_total_samples.length
          + (s.n_mem_ops_recorded + s.addr2mmap_entry.length) / 8) ∧
    (∀ x, update_all_pss_entries env (f + 3) s samp = .error x →
      x = .exit_failure ∧ ¬ env_ok env) := by
  rw [uape_runs_eq env (f + 2) s samp hrun]
  obtain ⟨h1, h2⟩ := refresh_loop_counts env f s.addr2mmap_entry
    { s with
      n_mpi_pss_samples_requested :=
        if samp then s.n_mpi_pss_samples_requested else s.n_mpi_pss_samples_requested + 1
      n_mpi_pss_samples := s.n_mpi_pss_samples + 1 } hall
  refine ⟨fun s' h => ?_, h2⟩
  have c := h1 s' h
  exact ⟨c.addr2entry, c.addr2mmap_entry, c.shape, c.n_mem_ops_recorded, c.mem_allocd_samples,
    c.pss_total_samples⟩

theorem ok_of_no_error {env : mmcu_env} {r : Except mmcu_failure mmcu_mem_stat_mgr}
    (h : ∀ x, r = .error x → x = .exit_failure ∧ ¬ env_ok env) (hok : env_ok env) :
    ∃ s', r = .ok s' := by
  cases r with
  | ok s' => exact ⟨s', rfl⟩
  | error x => exact absurd hok (h x rfl).2

theorem refresh_runs_delta (env : mmcu_env) (f : Nat) (s : mmcu_mem_stat_mgr) (samp : Bool)
    (pss_of : Nat → Nat)
    (hrun : (samp || s.n_mpi_pss_samples_requested % mpi_pss_update_freq == 0) = true)
    (hall : ∀ kv ∈ s.addr2mmap_entry, (deref s kv.2).opid = MMCU_HOOK_MMAP_PSS_UPDATE)
    (hnd : (s.addr2mmap_entry.map (fun kv => kv.2)).Nodup)
    (hrng : is_ssize_t s.current_mem_allocd)
    (hq : ∀ kv ∈ s.addr2mmap_entry, ∀ t d t',
      get_proc_self_smaps_entry env t (deref s kv.2).addr = .ok (d, t') →
      d.pss_in_b = pss_of (deref s kv.2).addr)
    (s' : mmcu_mem_stat_mgr) (h : update_all_pss_entries env (f + 3) s samp = .ok s') :
    (∀ kv ∈ s.addr2mmap_entry, deref s' kv.2
      = { deref s kv.2 with size := to_ssize_t (pss_of (deref s kv.2).addr) }) ∧
    s'.current_mem_allocd = to_ssize_t (s.current_mem_allocd
      + (s.addr2mmap_entry.map
          (fun kv => (pss_of (deref s kv.2).addr : Int) - (deref s kv.2).size)).sum) := by
  rw [uape_runs_eq env (f + 2) s samp hrun] at h
  obtain ⟨h1, _, h3⟩ := refresh_loop_delta env f pss_of s.addr2mmap_entry
    { s with
      n_mpi_pss_samples_requested :=
        if samp then s.n_mpi_pss_samples_requested else s.n_mpi_pss_samples_requested + 1
      n_mpi_pss_samples := s.n_mpi_pss_samples + 1 } hall hnd hrng hq s' h
  exact ⟨h1, h3⟩

theorem demo_env_pss (t : mmcu_mem_stat_mgr) (a : Nat) (d : mmcu_proc_smaps_entry)
    (t' : mmcu_mem_stat_mgr) (h : get_proc_self_smaps_entry demo_env t a = .ok (d, t')) :
    d.pss_in_b = 4096 := by
  simp only [get_proc_self_smaps_entry, n_tries, smaps_retry, demo_env, Except.ok.injEq,
    Prod.mk.injEq] at h
  rw [← h.1]

theorem mapped_state_kinds :
    ∀ kv ∈ mapped_state.addr2mmap_entry,
      (deref mapped_state kv.2).opid = MMCU_HOOK_MMAP_PSS_UPDATE := by
  intro kv hkv
  simp only [mapped_state, List.mem_singleton] at hkv
  subst hkv
  rfl

/-! ## The retry loop of the region query -/

theorem smaps_retry_found (env : mmcu_env) (a : Nat) :
    ∀ (n : Nat) (res : mmcu_proc_smaps_entry) (t : mmcu_mem_stat_mgr) (i : Nat)
      (d : mmcu_proc_smaps_entry), i < n →
      (∀ j, j < i → env.smaps_entry (t.n_smaps_entry_calls + j) a = .not_found) →
      env.smaps_entry (t.n_smaps_entry_calls + i) a = .found d →
      smaps_retry env a n res t
        = .ok (true, d, { t with n_smaps_entry_calls := t.n_smaps_entry_calls + i + 1 }) := by
  intro n
  induction n with
  | zero => intro res t i d hi; omega
  | succ n ih =>
    intro res t i d hi hnf hf
    cases i with
    | zero =>
      simp only [Nat.add_zero] at hf
      simp only [smaps_retry, hf, Nat.add_zero]
    | succ i =>
      have h0 := hnf 0 (Nat.succ_pos _)
      simp only [Nat.add_zero] at h0
      simp only [smaps_retry, h0]
      have := ih res { t with n_smaps_entry_calls := t.n_smaps_entry_calls + 1 } i d
        (by omega)
        (fun j hj => by
          have := hnf (j + 1) (by omega)
          simpa [Nat.add_assoc, Nat.add_comm 1 j] using this)
        (by simpa [Nat.add_assoc, Nat.add_comm 1 i] using hf)
      rw [this]
      simp only [Except.ok.injEq, Prod.mk.injEq, true_and]
      congr 1
      omega

theorem smaps_retry_not_found (env : mmcu_env) (a : Nat) :
    ∀ (n : Nat) (res : mmcu_proc_smaps_entry) (t : mmcu_mem_stat_mgr),
      (∀ j, j < n → env.smaps_entry (t.n_smaps_entry_calls + j) a = .not_found) →
      smaps_retry env a n res t
        = .ok (false, res, { t with n_smaps_entry_calls := t.n_smaps_entry_calls + n }) := by
  intro n
  induction n with
  | zero => intro res t _; rfl
  | succ n ih =>
    intro res t hnf
    have h0 := hnf 0 (Nat.succ_pos _)
    simp only [Nat.add_zero] at h0
    simp only [smaps_retry, h0]
    have := ih res { t with n_smaps_entry_calls := t.n_smaps_entry_calls + 1 }
      (fun j hj => by
        have := hnf (j + 1) (by omega)
        simpa [Nat.add_assoc, Nat.add_comm 1 j] using this)
    rw [this]
    simp only [Except.ok.injEq, Prod.mk.injEq, true_and]
    congr 1
    omega

theorem smaps_retry_calls (env : mmcu_env) (a : Nat) :
    ∀ (n : Nat) (res : mmcu_proc_smaps_entry) (t : mmcu_mem_stat_mgr) (b : Bool)
      (d : mmcu_proc_smaps_entry) (t' : mmcu_mem_stat_mgr),
      smaps_retry env a n res t = .ok (b, d, t') →
      t'.n_smaps_entry_calls ≤ t.n_smaps_entry_calls + n ∧
      (b = true → ∃ i, i < n ∧ t'.n_smaps_entry_calls = t.n_smaps_entry_calls + i + 1 ∧
        env.smaps_entry (t.n_smaps_entry_calls + i) a = .found d ∧
        ∀ j, j < i → env.smaps_entry (t.n_smaps_entry_calls + j) a = .not_found) ∧
      (b = false → d = res ∧ t'.n_smaps_entry_calls = t.n_smaps_entry_calls + n ∧
        ∀ j, j < n → env.smaps_entry (t.n_smaps_entry_calls + j) a = .not_found) := by
  intro n
  induction n with
  | zero =>
    intro res t b d t' h
    simp only [smaps_retry, Except.ok.injEq, Prod.mk.injEq] at h
    obtain ⟨hb, hd, ht⟩ := h
    subst hb; subst hd; subst ht
    exact ⟨le_refl _, fun h => (by cases h), fun _ => ⟨rfl, rfl, fun j hj => (by omega)⟩⟩
  | succ n ih =>
    intro res t b d t' h
    simp only [smaps_retry] at h
    cases hq : env.smaps_entry t.n_smaps_entry_calls a with
    | fatal => rw [hq] at h; cases h
    | not_found =>
      rw [hq] at h
      obtain ⟨h1, h2, h3⟩ := ih _ _ _ _ _ h
      simp only at h1 h2 h3
      refine ⟨by omega, fun hb => ?_, fun hb => ?_⟩
      · obtain ⟨i, hi, hc, hf, hn⟩ := h2 hb
        refine ⟨i + 1, by omega, by omega, ?_, ?_⟩
        · simpa [Nat.add_assoc, Nat.add_comm 1 i] using hf
        · intro j hj
          cases j with
          | zero => simpa using hq
          | succ j =>
            have := hn j (by omega)
            simpa [Nat.add_assoc, Nat.add_comm 1 j] using this
      · obtain ⟨hd, hc, hn⟩ := h3 hb
        refine ⟨hd, by omega, ?_⟩
        intro j hj
        cases j with
        | zero => simpa using hq
        | succ j =>
          have := hn j (by omega)
          simpa [Nat.add_assoc, Nat.add_comm 1 j] using this
    | found e =>
      rw [hq] at h
      simp only [Except.ok.injEq, Prod.mk.injEq] at h
      obtain ⟨hb, hd, ht⟩ := h
      subst hb; subst hd; subst ht
      refine ⟨by simp, fun _ => ⟨0, Nat.succ_pos _, rfl, by simpa using hq,
        fun j hj => (by omega)⟩, fun h => (by cases h)⟩

/-! ## Watermarks and the sample series -/

theorem series_max_append (l : List (Int × Int)) (t v : Int) :
    series_max (l ++ [(t, v)]) = max (series_max l) v := by
  simp [series_max, List.foldl_append]

theorem mark_step (c m : Int) : (if c > m then c else m) = max m c := by
  split <;> omega

theorem pss_entry_step_wm (env : mmcu_env)
    (ucma : mmcu_mem_stat_mgr → Nat → Bool → Except mmcu_failure mmcu_mem_stat_mgr)
    (hu : ∀ s p b s', ucma s p b = .ok s' → series_inv s →
      series_inv s' ∧ (b = false → s'.current_mem_allocd ≤ s'.mpi_high_mem_usage_mark))
    (s : mmcu_mem_stat_mgr) (e : Nat) (b : Bool) (s' : mmcu_mem_stat_mgr)
    (h : pss_entry_step env ucma s e = .ok (b, s')) (hinv : wm_inv s) : wm_inv s' := by
  unfold pss_entry_step at h
  cases ho : (deref s e).opid <;> simp only [ho] at h
  case MMCU_HOOK_MMAP_PSS_UPDATE =>
    cases hq : get_proc_self_smaps_entry env s (deref s e).addr with
    | error f => rw [hq] at h; cases h
    | ok x =>
      obtain ⟨d, s1⟩ := x
      rw [hq] at h
      simp only [] at h
      have hf := gpse_frame env _ _ _ _ hq
      have h01 : series_inv s1 := by
        rw [hf]; exact ⟨hinv.series.mpi, hinv.series.pss⟩
      cases h1 : ucma (store s1 e { deref s1 e with size := to_ssize_t (-(deref s e).size) })
          e true with
      | error f => rw [h1] at h; cases h
      | ok s2 =>
        rw [h1] at h
        simp only [] at h
        have h12 := (hu _ _ _ _ h1 ⟨h01.mpi, h01.pss⟩).1
        cases h2 : ucma (store s2 e { deref s2 e with size := to_ssize_t d.pss_in_b })
            e false with
        | error f => rw [h2] at h; cases h
        | ok s3 =>
          rw [h2] at h
          simp only [Except.ok.injEq, Prod.mk.injEq] at h
          have h23 := hu _ _ _ _ h2 ⟨h12.mpi, h12.pss⟩
          rw [← h.2]
          exact ⟨h23.1, h23.2 rfl⟩
  case MMCU_HOOK_MUNMAP =>
    cases h1 : ucma s e false with
    | error f => rw [h1] at h; cases h
    | ok s2 =>
      rw [h1] at h
      simp only [Except.ok.injEq, Prod.mk.injEq] at h
      rw [← h.2]
      have := hu _ _ _ _ h1 hinv.series
      exact ⟨this.1, this.2 rfl⟩
  all_goals
    simp only [Except.ok.injEq, Prod.mk.injEq] at h
    rw [← h.2]
    exact ⟨⟨hinv.series.mpi, hinv.series.pss⟩, hinv.total⟩

theorem inner_wm (env : mmcu_env) :
    ∀ fuel : Nat,
      (∀ s b s', update_mem_stats env fuel s b = .ok s' → series_inv s → wm_inv s') ∧
      (∀ s b s', update_all_pss_entries env fuel s b = .ok s' → wm_inv s → wm_inv s') ∧
      (∀ s p b s', update_current_mem_allocd env fuel s p b = .ok s' → series_inv s →
        series_inv s' ∧ (b = false → s'.current_mem_allocd ≤ s'.mpi_high_mem_usage_mark)) := by
  intro fuel
  induction fuel with
  | zero =>
    refine ⟨?_, ?_, ?_⟩
    · intro s b s' h; simp [update_mem_stats] at h
    · intro s b s' h; simp [update_all_pss_entries] at h
    · intro s p b s' h; simp [update_current_mem_allocd] at h
  | succ fuel ih =>
    obtain ⟨ih1, ih2, ih3⟩ := ih
    refine ⟨?_, ?_, ?_⟩
    · intro s b s' h hinv
      cases b with
      | false =>
        have hf := outcome_of_ok (ums_outcome env fuel s) h
        obtain ⟨_, hm, hmk, hp, hnp, _, _⟩ := ums_false_inv env fuel s s' h
        refine ⟨⟨?_, ?_⟩, ?_⟩
        · rw [hmk, hm, series_max_append, hinv.mpi]
        · by_cases hc : (s.n_mem_ops_recorded + 1) % 8 = 0
          · obtain ⟨v, _, hv, _, hpm⟩ := hp hc
            rw [hpm, hv, series_max_append, hinv.pss]
          · obtain ⟨hv, _, hpm⟩ := hnp hc
            rw [hpm, hv, hinv.pss]
        · rw [hmk, hf.current_mem_allocd]
          exact le_max_right _ _
      | true =>
        cases hq : env.smaps_pss_total s.n_smaps_total_calls with
        | none =>
          simp [update_mem_stats, get_proc_self_smaps_pss_total, hq] at h
        | some v =>
          simp only [update_mem_stats, get_proc_self_smaps_pss_total, Bool.true_or,
            if_true, hq] at h
          refine ih2 _ _ _ h ⟨⟨?_, ?_⟩, ?_⟩
          · show (if s.current_mem_allocd > s.mpi_high_mem_usage_mark then s.current_mem_allocd
              else s.mpi_high_mem_usage_mark) = series_max (s.mem_allocd_samples ++ [_])
            rw [series_max_append, mark_step, hinv.mpi]
          · show (if v > s.pss_high_mem_usage_mark then v else s.pss_high_mem_usage_mark)
              = series_max (s.pss_total_samples ++ [_])
            rw [series_max_append, mark_step, hinv.pss]
          · show s.current_mem_allocd ≤ (if s.current_mem_allocd > s.mpi_high_mem_usage_mark
              then s.current_mem_allocd else s.mpi_high_mem_usage_mark)
            rw [mark_step]
            exact le_max_right _ _
    · intro s b s' h hinv
      simp only [update_all_pss_entries] at h
      split at h
      · simp only [Except.ok.injEq] at h
        rw [← h]
        exact ⟨⟨hinv.series.mpi, hinv.series.pss⟩, hinv.total⟩
      · have h2 := for_each_entry_rel (fun a b => wm_inv a → wm_inv b) (fun _ h => h)
          (fun _ _ _ h1 h2 h => h2 (h1 h)) _
          (fun s p b s' hb => pss_entry_step_wm env _ ih3 s p b s' hb) _ _ _ h
        exact h2 ⟨⟨hinv.series.mpi, hinv.series.pss⟩, hinv.total⟩
    · intro s p b s' h hinv
      simp only [update_current_mem_allocd] at h
      cases ho : (deref s p).opid <;> simp only [ho] at h <;>
        first
        | cases h
        | (cases b with
            | true =>
              simp only [Bool.not_true, Bool.false_eq_true, if_false, Except.ok.injEq] at h
              rw [← h]
              exact ⟨⟨hinv.mpi, hinv.pss⟩, fun hc => (by cases hc)⟩
            | false =>
              simp only [Bool.not_false, if_true] at h
              have h1 := ih1 _ _ _ h ⟨hinv.mpi, hinv.pss⟩
              exact ⟨h1.series, fun _ => h1.total⟩)

theorem capture_mmap_ops_wm (env : mmcu_env) (fuel : Nat) (s : mmcu_mem_stat_mgr)
    (p : Nat) (s' : mmcu_mem_stat_mgr) (h : capture_mmap_ops env fuel s p = .ok s')
    (hinv : wm_inv s) : wm_inv s' := by
  have ih3 := (inner_wm env fuel).2.2
  simp only [capture_mmap_ops] at h
  cases hf : map_find s.addr2mmap_entry (deref s p).addr with
  | none =>
    rw [hf] at h
    simp only [] at h
    split at h
    · cases h
    · cases hq : get_proc_self_smaps_entry env s (deref s p).addr with
      | error f => rw [hq] at h; cases h
      | ok x =>
        obtain ⟨d, s1⟩ := x
        rw [hq] at h
        simp only [] at h
        have hfr := gpse_frame env _ _ _ _ hq
        have h01 : series_inv s1 := by
          rw [hfr]; exact ⟨hinv.series.mpi, hinv.series.pss⟩
        have h1 := ih3 _ _ _ _ h ⟨h01.mpi, h01.pss⟩
        exact ⟨h1.1, h1.2 rfl⟩
  | some q =>
    rw [hf] at h
    simp only [] at h
    split at h
    · obtain ⟨s1, h1, h2⟩ := bind_ok_inv h
      simp only [Except.ok.injEq] at h2
      have := ih3 _ _ _ _ h1 hinv.series
      rw [← h2]
      exact ⟨⟨this.1.mpi, this.1.pss⟩, this.2 rfl⟩
    · simp only [Except.ok.injEq] at h
      rw [← h]
      exact ⟨⟨hinv.series.mpi, hinv.series.pss⟩, hinv.total⟩

theorem capture_wm (env : mmcu_env) :
    ∀ fuel : Nat,
      (∀ s p s', capture env fuel s p = .ok s' → wm_inv s → wm_inv s') ∧
      (∀ s p s', break_down_realloc env fuel s p = .ok s' → wm_inv s → wm_inv s') := by
  intro fuel
  induction fuel with
  | zero =>
    refine ⟨?_, ?_⟩
    · intro s p s' h; simp [capture] at h
    · intro s p s' h; simp [break_down_realloc] at h
  | succ fuel ih =>
    obtain ⟨ihc, ihb⟩ := ih
    have ih2 := (inner_wm env fuel).2.1
    have ih3 := (inner_wm env fuel).2.2
    refine ⟨?_, ?_⟩
    · intro s p s' h hinv
      have hinv' : ∀ (t : mmcu_mem_stat_mgr),
          t.mpi_high_mem_usage_mark = s.mpi_high_mem_usage_mark →
          t.pss_high_mem_usage_mark = s.pss_high_mem_usage_mark →
          t.mem_allocd_samples = s.mem_allocd_samples →
          t.pss_total_samples = s.pss_total_samples →
          t.current_mem_allocd = s.current_mem_allocd → wm_inv t := by
        intro t a b c d e
        exact ⟨⟨by rw [a, c]; exact hinv.series.mpi, by rw [b, d]; exact hinv.series.pss⟩,
          by rw [e, a]; exact hinv.total⟩
      simp only [capture] at h
      split at h
      · exact ihb _ _ _ h (hinv' _ rfl rfl rfl rfl rfl)
      · exact capture_mmap_ops_wm env fuel _ _ _ h (hinv' _ rfl rfl rfl rfl rfl)
      · exact capture_mmap_ops_wm env fuel _ _ _ h (hinv' _ rfl rfl rfl rfl rfl)
      · split at h
        · obtain ⟨s1, h1, h2⟩ := bind_ok_inv h
          have a := ih3 _ _ _ _ h1 ⟨hinv.series.mpi, hinv.series.pss⟩
          exact ih2 _ _ _ h2 ⟨a.1, a.2 rfl⟩
        · split at h
          · obtain ⟨s1, h1, h2⟩ := bind_ok_inv h
            obtain ⟨s2, h3, h4⟩ := bind_ok_inv h2
            simp only [Except.ok.injEq] at h4
            have a := ih3 _ _ _ _ h1 ⟨hinv.series.mpi, hinv.series.pss⟩
            have b := ih2 _ _ _ h3 ⟨a.1, a.2 rfl⟩
            rw [← h4]
            exact ⟨⟨b.series.mpi, b.series.pss⟩, b.total⟩
          · simp only [Except.ok.injEq] at h
            rw [← h]
            exact hinv' _ rfl rfl rfl rfl rfl
    · intro s p s' h hinv
      have hst : ∀ (t : mmcu_mem_stat_mgr) (q : Nat) (x : mmcu_memory_op_entry),
          wm_inv t → wm_inv (store t q x) := by
        intro t q x ht
        exact ⟨⟨ht.series.mpi, ht.series.pss⟩, ht.total⟩
      simp only [break_down_realloc] at h
      split at h
      · exact ihc _ _ _ h (hst _ _ _ hinv)
      · split at h
        · split at h
          · exact ihc _ _ _ h (hst _ _ _ (hst _ _ _ hinv))
          · exact ihc _ _ _ h (hst _ _ _ hinv)
        · split at h
          · exact ihc _ _ _ h (hst _ _ _ hinv)
          · split at h
            · obtain ⟨s1, h1, h2⟩ := bind_ok_inv h
              have a := ihc _ _ _ h1 (hst _ _ _ hinv)
              exact ihc _ _ _ h2 (hst _ _ _ (hst _ _ _ a))
            · obtain ⟨s1, h1, h2⟩ := bind_ok_inv h
              have a := ihc _ _ _ h1 (hst _ _ _ hinv)
              exact ihc _ _ _ h2 (hst _ _ _ (hst _ _ _ a))

theorem wm_inv_init : wm_inv init_state :=
  ⟨⟨rfl, rfl⟩, le_refl _⟩

theorem stats_reachable_wm (env : mmcu_env) (s : mmcu_mem_stat_mgr)
    (h : stats_reachable env s) : wm_inv s := by
  induction h with
  | init => exact wm_inv_init
  | capture s e s' _ hc ih =>
    exact (capture_wm env capture_fuel).1 _ _ _ hc
      ⟨⟨ih.series.mpi, ih.series.pss⟩, ih.total⟩
  | update s fuel sample s' _ hu ih =>
    exact (inner_wm env fuel).1 _ _ _ hu ih.series

theorem foldl_max_spec : ∀ (L : List Int) (a : Int),
    a ≤ L.foldl max a ∧ (∀ x ∈ L, x ≤ L.foldl max a) ∧
      (L.foldl max a = a ∨ L.foldl max a ∈ L) := by
  intro L
  induction L with
  | nil => intro a; exact ⟨le_refl _, fun x hx => (by cases hx), Or.inl rfl⟩
  | cons y L ih =>
    intro a
    obtain ⟨h1, h2, h3⟩ := ih (max a y)
    simp only [List.foldl_cons]
    refine ⟨le_trans (le_max_left _ _) h1, ?_, ?_⟩
    · intro x hx
      rcases List.mem_cons.1 hx with hx | hx
      · rw [hx]; exact le_trans (le_max_right _ _) h1
      · exact h2 x hx
    · rcases h3 with h3 | h3
      · rw [h3]
        rcases max_choice a y with hm | hm
        · exact Or.inl hm
        · exact Or.inr (by rw [hm]; exact List.mem_cons_self _ _)
      · exact Or.inr (List.mem_cons_of_mem _ h3)

theorem series_max_spec (l : List (Int × Int)) :
    0 ≤ series_max l ∧ (∀ x ∈ l, x.2 ≤ series_max l) ∧
      (series_max l = 0 ∨ ∃ x ∈ l, x.2 = series_max l) := by
  obtain ⟨h1, h2, h3⟩ := foldl_max_spec (l.map (fun x => x.2)) 0
  refine ⟨h1, fun x hx => h2 _ (List.mem_map.2 ⟨x, hx, rfl⟩), ?_⟩
  rcases h3 with h3 | h3
  · exact Or.inl h3
  · obtain ⟨x, hx, he⟩ := List.mem_map.1 h3
    exact Or.inr ⟨x, hx, he⟩

/-! ## What the inner methods leave alone -/

theorem engine_frame_refl (s : mmcu_mem_stat_mgr) : engine_frame s s := ⟨rfl, rfl, rfl, rfl⟩

theorem engine_frame_trans {a b c : mmcu_mem_stat_mgr} (h1 : engine_frame a b)
    (h2 : engine_frame b c) : engine_frame a c :=
  ⟨h2.addr2entry.trans h1.addr2entry, h2.addr2mmap_entry.trans h1.addr2mmap_entry,
    h2.shape.trans h1.shape, h2.num_captures.trans h1.num_captures⟩

theorem ums_false_frame (env : mmcu_env) (fuel : Nat) (s s' : mmcu_mem_stat_mgr)
    (h : update_mem_stats env fuel s false = .ok s') : stats_frame s s' := by
  cases fuel with
  | zero => simp [update_mem_stats] at h
  | succ f => exact outcome_of_ok (ums_outcome env f s) h

theorem ucma_ok_frame (env : mmcu_env) (fuel : Nat) (s : mmcu_mem_stat_mgr) (p : Nat)
    (b : Bool) (s' : mmcu_mem_stat_mgr)
    (h : update_current_mem_allocd env fuel s p b = .ok s') :
    s'.heap = s.heap ∧ s'.addr2entry = s.addr2entry ∧
    s'.addr2mmap_entry = s.addr2mmap_entry ∧ s'.stderr = s.stderr ∧
    s'.num_captures = s.num_captures := by
  cases fuel with
  | zero => simp [update_current_mem_allocd] at h
  | succ fuel =>
    simp only [update_current_mem_allocd] at h
    cases ho : (deref s p).opid <;> simp only [ho] at h <;>
      first
      | cases h
      | (cases b with
          | true =>
            simp only [Bool.not_true, Bool.false_eq_true, if_false, Except.ok.injEq] at h
            rw [← h]
            exact ⟨rfl, rfl, rfl, rfl, rfl⟩
          | false =>
            simp only [Bool.not_false, if_true] at h
            have hf := ums_false_frame env fuel _ _ h
            exact ⟨hf.heap, hf.addr2entry, hf.addr2mmap_entry, hf.stderr, hf.num_captures⟩)

theorem gpse_stderr (env : mmcu_env) (A : Nat) (t t' : mmcu_mem_stat_mgr)
    (d : mmcu_proc_smaps_entry) (h : get_proc_self_smaps_entry env t A = .ok (d, t')) :
    t'.stderr = t.stderr ∨ t'.stderr = t.stderr ++ [.missing_smaps_entry] := by
  unfold get_proc_self_smaps_entry at h
  cases hr : smaps_retry env A n_tries {} t with
  | error f => rw [hr] at h; cases h
  | ok x =>
    obtain ⟨b, d', t''⟩ := x
    rw [hr] at h
    simp only [Except.ok.injEq, Prod.mk.injEq] at h
    have hf := smaps_retry_frame env A _ _ _ _ _ _ hr
    have hs : t''.stderr = t.stderr := by rw [hf]
    rw [← h.2]
    cases b with
    | true => exact Or.inl (by simpa using hs)
    | false => exact Or.inr (by simp [hs])

theorem no_unexpected_of_stderr {s s' : mmcu_mem_stat_mgr}
    (h : s'.stderr = s.stderr ∨ s'.stderr = s.stderr ++ [.missing_smaps_entry])
    (hn : no_unexpected s) : no_unexpected s' := by
  intro o hm
  rcases h with h | h
  · rw [h] at hm; exact hn o hm
  · rw [h] at hm
    rcases List.mem_append.1 hm with hm | hm
    · exact hn o hm
    · simp at hm

theorem shape_store_size (s : mmcu_mem_stat_mgr) (e : Nat) (z : Int) :
    (store s e { deref s e with size := z }).heap.map entry_shape
      = s.heap.map entry_shape :=
  shape_set_size s e z

theorem pss_entry_step_frame (env : mmcu_env) (fuel : Nat) (s : mmcu_mem_stat_mgr) (e : Nat)
    (b : Bool) (s' : mmcu_mem_stat_mgr)
    (h : pss_entry_step env (update_current_mem_allocd env fuel) s e = .ok (b, s')) :
    engine_frame s s' ∧
    ((deref s e).opid = MMCU_HOOK_MMAP_PSS_UPDATE → no_unexpected s → no_unexpected s') := by
  unfold pss_entry_step at h
  cases ho : (deref s e).opid <;> simp only [ho] at h
  case MMCU_HOOK_MMAP_PSS_UPDATE =>
    cases hq : get_proc_self_smaps_entry env s (deref s e).addr with
    | error f => rw [hq] at h; cases h
    | ok x =>
      obtain ⟨d, s1⟩ := x
      rw [hq] at h
      simp only [] at h
      have hf := gpse_frame env _ _ _ _ hq
      have hse := gpse_stderr env _ _ _ _ hq
      have hh1 : s1.heap = s.heap := by rw [hf]
      have ha1 : s1.addr2entry = s.addr2entry := by rw [hf]
      have hm1 : s1.addr2mmap_entry = s.addr2mmap_entry := by rw [hf]
      have hn1 : s1.num_captures = s.num_captures := by rw [hf]
      cases h1 : update_current_mem_allocd env fuel
          (store s1 e { deref s1 e with size := to_ssize_t (-(deref s e).size) }) e true with
      | error f => rw [h1] at h; cases h
      | ok s2 =>
        rw [h1] at h
        simp only [] at h
        obtain ⟨a1, a2, a3, a4, a5⟩ := ucma_ok_frame env fuel _ _ _ _ h1
        cases h2 : update_current_mem_allocd env fuel
            (store s2 e { deref s2 e with size := to_ssize_t d.pss_in_b }) e false with
        | error f => rw [h2] at h; cases h
        | ok s3 =>
          rw [h2] at h
          simp only [Except.ok.injEq, Prod.mk.injEq] at h
          obtain ⟨b1, b2, b3, b4, b5⟩ := ucma_ok_frame env fuel _ _ _ _ h2
          rw [← h.2]
          have sh2 : s2.heap.map entry_shape = s.heap.map entry_shape := by
            rw [a1]
            have := shape_store_size s1 e (to_ssize_t (-(deref s e).size))
            rw [this, hh1]
          have sh3 : s3.heap.map entry_shape = s.heap.map entry_shape := by
            rw [b1]
            have := shape_store_size s2 e (to_ssize_t d.pss_in_b)
            rw [this, sh2]
          have st3 : s3.stderr = s1.stderr := by
            rw [b4]; show s2.stderr = _; rw [a4]; rfl
          refine ⟨⟨?_, ?_, sh3, ?_⟩, fun _ hn => ?_⟩
          · rw [b2]; show s2.addr2entry = _; rw [a2]; exact ha1
          · rw [b3]; show s2.addr2mmap_entry = _; rw [a3]; exact hm1
          · rw [b5]; show s2.num_captures = _; rw [a5]; exact hn1
          · apply no_unexpected_of_stderr _ hn
            rw [st3]; exact hse
  case MMCU_HOOK_MUNMAP =>
    cases h1 : update_current_mem_allocd env fuel s e false with
    | error f => rw [h1] at h; cases h
    | ok s2 =>
      rw [h1] at h
      simp only [Except.ok.injEq, Prod.mk.injEq] at h
      obtain ⟨a1, a2, a3, a4, a5⟩ := ucma_ok_frame env fuel _ _ _ _ h1
      rw [← h.2]
      exact ⟨⟨a2, a3, by rw [a1], a5⟩, fun hc => (by cases hc)⟩
  all_goals
    simp only [Except.ok.injEq, Prod.mk.injEq] at h
    rw [← h.2]
    exact ⟨⟨rfl, rfl, rfl, rfl⟩, fun hc => (by cases hc)⟩

theorem loop_frame (env : mmcu_env) (fuel : Nat) :
    ∀ (l : List (Nat × Nat)) (s s' : mmcu_mem_stat_mgr),
      for_each_entry (pss_entry_step env (update_current_mem_allocd env fuel)) l s = .ok s' →
      engine_frame s s' :=
  for_each_entry_rel engine_frame engine_frame_refl
    (fun _ _ _ h1 h2 => engine_frame_trans h1 h2) _
    (fun s p b s' hb => (pss_entry_step_frame env fuel s p b s' hb).1)

theorem loop_stderr (env : mmcu_env) (fuel : Nat) :
    ∀ (l : List (Nat × Nat)) (s s' : mmcu_mem_stat_mgr),
      for_each_entry (pss_entry_step env (update_current_mem_allocd env fuel)) l s = .ok s' →
      (∀ kv ∈ l, (deref s kv.2).opid = MMCU_HOOK_MMAP_PSS_UPDATE) →
      no_unexpected s → no_unexpected s' := by
  intro l
  induction l with
  | nil =>
    intro s s' h _ hn
    simp only [for_each_entry, Except.ok.injEq] at h
    rw [← h]; exact hn
  | cons me rest ih =>
    intro s s' h hall hn
    simp only [for_each_entry] at h
    cases hb : pss_entry_step env (update_current_mem_allocd env fuel) s me.2 with
    | error f => rw [hb] at h; cases h
    | ok x =>
      obtain ⟨go_on, s1⟩ := x
      rw [hb] at h
      simp only [] at h
      obtain ⟨hfr, hst⟩ := pss_entry_step_frame env fuel s me.2 go_on s1 hb
      have hn1 := hst (hall me (List.mem_cons_self _ _)) hn
      cases go_on with
      | true =>
        simp only [if_true] at h
        refine ih s1 s' h ?_ hn1
        intro kv hkv
        rw [deref_opid_of_shape hfr.shape]
        exact hall kv (List.mem_cons_of_mem _ hkv)
      | false =>
        simp only [Bool.false_eq_true, if_false, Except.ok.injEq] at h
        rw [← h]; exact hn1

theorem uape_frame (env : mmcu_env) (fuel : Nat) (s : mmcu_mem_stat_mgr) (b : Bool)
    (s' : mmcu_mem_stat_mgr) (h : update_all_pss_entries env fuel s b = .ok s') :
    engine_frame s s' ∧
    ((∀ kv ∈ s.addr2mmap_entry, (deref s kv.2).opid = MMCU_HOOK_MMAP_PSS_UPDATE) →
      no_unexpected s → no_unexpected s') := by
  cases fuel with
  | zero => simp [update_all_pss_entries] at h
  | succ fuel =>
    simp only [update_all_pss_entries] at h
    split at h
    · simp only [Except.ok.injEq] at h
      rw [← h]
      exact ⟨⟨rfl, rfl, rfl, rfl⟩, fun _ hn => hn⟩
    · have h1 := loop_frame env fuel _ _ _ h
      refine ⟨⟨h1.addr2entry, h1.addr2mmap_entry, h1.shape, h1.num_captures⟩, fun hk hn => ?_⟩
      exact loop_stderr env fuel _ _ _ h hk hn

/-! ## What one capture leaves alone -/

theorem capture_curious_plain (env : mmcu_env) (f : Nat) (s : mmcu_mem_stat_mgr) (p q : Nat)
    (h1 : (deref s p).opid ≠ MMCU_HOOK_REALLOC) (h2 : (deref s p).opid ≠ MMCU_HOOK_MMAP)
    (h3 : (deref s p).opid ≠ MMCU_HOOK_MUNMAP) (h4 : (deref s p).opid ≠ MMCU_HOOK_FREE)
    (hq : map_find s.addr2entry (deref s p).addr = some q) :
    capture env (f + 1) s p =
      .ok { s with
        num_captures := s.num_captures + 1
        stderr :=
          if to_ssize_t (s.curious_b + (deref s q).size) ≥ report_thresh
          then s.stderr ++ [.curious_threshold] else s.stderr
        curious_b :=
          if to_ssize_t (s.curious_b + (deref s q).size) ≥ report_thresh
          then 0 else to_ssize_t (s.curious_b + (deref s q).size) } := by
  cases ho : (deref s p).opid <;> simp [ho] at h1 h2 h3 h4 <;>
    simp [capture, deref_num_captures, ho, hq]

theorem no_unexpected_curious {s : mmcu_mem_stat_mgr} {c : Prop} [Decidable c]
    (hn : no_unexpected s) :
    ∀ o, mmcu_warning.unexpected_opid o
      ∉ (if c then s.stderr ++ [mmcu_warning.curious_threshold] else s.stderr) := by
  intro o hm
  split at hm
  · rcases List.mem_append.1 hm with hm | hm
    · exact hn o hm
    · simp at hm
  · exact hn o hm

theorem capture_plain_frame (env : mmcu_env) (fuel : Nat) (s : mmcu_mem_stat_mgr) (p : Nat)
    (s' : mmcu_mem_stat_mgr)
    (h1 : (deref s p).opid ≠ MMCU_HOOK_REALLOC) (h2 : (deref s p).opid ≠ MMCU_HOOK_MMAP)
    (h3 : (deref s p).opid ≠ MMCU_HOOK_MUNMAP)
    (h : capture env fuel s p = .ok s') :
    s'.addr2mmap_entry = s.addr2mmap_entry ∧
    s'.heap.map entry_shape = s.heap.map entry_shape ∧
    s'.num_captures = s.num_captures + 1 ∧
    ((∀ kv ∈ s.addr2mmap_entry, (deref s kv.2).opid = MMCU_HOOK_MMAP_PSS_UPDATE) →
      no_unexpected s → no_unexpected s') := by
  cases fuel with
  | zero => simp [capture] at h
  | succ fuel =>
    cases hq : map_find s.addr2entry (deref s p).addr with
    | none =>
      rw [capture_insert_eq env fuel s p h1 h2 h3 hq] at h
      obtain ⟨s1, k1, k2⟩ := bind_ok_inv h
      obtain ⟨a1, a2, a3, a4, a5⟩ := ucma_ok_frame env fuel _ _ _ _ k1
      obtain ⟨b, bs⟩ := uape_frame env fuel _ _ _ k2
      have a1' : s1.heap = s.heap := a1
      have a3' : s1.addr2mmap_entry = s.addr2mmap_entry := a3
      have a4' : s1.stderr = s.stderr := a4
      refine ⟨b.addr2mmap_entry.trans a3, ?_, ?_, fun hk hn => ?_⟩
      · rw [b.shape, a1']
      · rw [b.num_captures, a5]
      · apply bs
        · intro kv hkv
          rw [a3'] at hkv
          rw [deref_of_heap a1']
          exact hk kv hkv
        · intro o hm
          rw [a4'] at hm
          exact hn o hm
    | some q =>
      by_cases ho : (deref s p).opid = MMCU_HOOK_FREE
      · rw [capture_free_eq env fuel s p q ho hq] at h
        obtain ⟨s1, k1, k2⟩ := bind_ok_inv h
        obtain ⟨s2, k3, k4⟩ := bind_ok_inv k2
        simp only [Except.ok.injEq] at k4
        obtain ⟨a1, a2, a3, a4, a5⟩ := ucma_ok_frame env fuel _ _ _ _ k1
        obtain ⟨b, bs⟩ := uape_frame env fuel _ _ _ k3
        have hsh : s1.heap.map entry_shape = s.heap.map entry_shape := by
          rw [a1]
          exact shape_store_size { s with num_captures := s.num_captures + 1 } p _
        have a3' : s1.addr2mmap_entry = s.addr2mmap_entry := a3
        have a4' : s1.stderr = s.stderr := a4
        rw [← k4]
        refine ⟨b.addr2mmap_entry.trans a3, ?_, ?_, fun hk hn => ?_⟩
        · show s2.heap.map entry_shape = _
          rw [b.shape, hsh]
        · show s2.num_captures = _
          rw [b.num_captures, a5]; rfl
        · show no_unexpected s2
          apply bs
          · intro kv hkv
            rw [a3'] at hkv
            rw [deref_opid_of_shape hsh]
            exact hk kv hkv
          · intro o hm
            rw [a4'] at hm
            exact hn o hm
      · rw [capture_curious_plain env fuel s p q h1 h2 h3 ho hq] at h
        simp only [Except.ok.injEq] at h
        rw [← h]
        exact ⟨rfl, rfl, rfl, fun _ hn => no_unexpected_curious hn⟩

/-- Kinds that `capture` handles itself: not resize, map or unmap. -/
theorem plain_after_store (s : mmcu_mem_stat_mgr) (p : Nat) (x : mmcu_memory_op_entry)
    (hx : x.opid ≠ MMCU_HOOK_REALLOC ∧ x.opid ≠ MMCU_HOOK_MMAP ∧ x.opid ≠ MMCU_HOOK_MUNMAP) :
    (deref (store s p x) p).opid ≠ MMCU_HOOK_REALLOC ∧
    (deref (store s p x) p).opid ≠ MMCU_HOOK_MMAP ∧
    (deref (store s p x) p).opid ≠ MMCU_HOOK_MUNMAP := by
  by_cases hp : p < s.heap.length
  · rw [deref_store_self s p x hp]; exact hx
  · have : deref (store s p x) p = default := by
      have hlen : (s.heap.set p x).length ≤ p := by
        simpa using Nat.le_of_not_lt hp
      simp [deref, store, List.getD_eq_getElem?_getD, List.getElem?_eq_none hlen]
    rw [this]
    exact ⟨by decide, by decide, by decide⟩

theorem shape_store_ne (s : mmcu_mem_stat_mgr) (p q : Nat) (x : mmcu_memory_op_entry)
    (h : q ≠ p) : entry_shape (deref (store s p x) q) = entry_shape (deref s q) := by
  rw [deref_store_ne s p q x h]

/-! ## What the resize decomposer leaves alone -/

theorem plain_of_kind (x : mmcu_memory_op_entry)
    (h : x.opid = MMCU_HOOK_NOOP ∨ x.opid = MMCU_HOOK_FREE ∨ x.opid = MMCU_HOOK_MALLOC) :
    x.opid ≠ MMCU_HOOK_REALLOC ∧ x.opid ≠ MMCU_HOOK_MMAP ∧ x.opid ≠ MMCU_HOOK_MUNMAP := by
  rcases h with h | h | h <;> rw [h] <;> exact ⟨by decide, by decide, by decide⟩

theorem store_capture_frame (env : mmcu_env) (fuel : Nat) (s : mmcu_mem_stat_mgr) (p : Nat)
    (x : mmcu_memory_op_entry) (s' : mmcu_mem_stat_mgr)
    (hx : x.opid ≠ MMCU_HOOK_REALLOC ∧ x.opid ≠ MMCU_HOOK_MMAP ∧ x.opid ≠ MMCU_HOOK_MUNMAP)
    (h : capture env fuel (store s p x) p = .ok s') :
    s'.addr2mmap_entry = s.addr2mmap_entry ∧
    (∀ q, q ≠ p → entry_shape (deref s' q) = entry_shape (deref s q)) ∧
    s'.num_captures = s.num_captures + 1 ∧
    ((∀ kv ∈ s.addr2mmap_entry, kv.2 ≠ p) →
      (∀ kv ∈ s.addr2mmap_entry, (deref s kv.2).opid = MMCU_HOOK_MMAP_PSS_UPDATE) →
      no_unexpected s → no_unexpected s') := by
  obtain ⟨g1, g2, g3⟩ := plain_after_store s p x hx
  obtain ⟨a, b, c, d⟩ := capture_plain_frame env fuel (store s p x) p s' g1 g2 g3 h
  refine ⟨a, fun q hq => ?_, c, fun hp hk hn => ?_⟩
  · rw [deref_shape b q]
    exact shape_store_ne s p q x hq
  · apply d
    · intro kv hkv
      have hkv' : kv ∈ s.addr2mmap_entry := hkv
      rw [deref_store_ne s p kv.2 x (hp kv hkv')]
      exact hk kv hkv'
    · exact hn

theorem bdr_frame (env : mmcu_env) (fuel : Nat) (s : mmcu_mem_stat_mgr) (p : Nat)
    (s' : mmcu_mem_stat_mgr) (h : break_down_realloc env fuel s p = .ok s') :
    s'.addr2mmap_entry = s.addr2mmap_entry ∧
    (∀ q, q ≠ p → entry_shape (deref s' q) = entry_shape (deref s q)) ∧
    (s'.num_captures = s.num_captures + 1 ∨ s'.num_captures = s.num_captures + 2) ∧
    ((∀ kv ∈ s.addr2mmap_entry, kv.2 ≠ p) →
      (∀ kv ∈ s.addr2mmap_entry, (deref s kv.2).opid = MMCU_HOOK_MMAP_PSS_UPDATE) →
      no_unexpected s → no_unexpected s') := by
  have one : ∀ (x : mmcu_memory_op_entry),
      (x.opid ≠ MMCU_HOOK_REALLOC ∧ x.opid ≠ MMCU_HOOK_MMAP ∧ x.opid ≠ MMCU_HOOK_MUNMAP) →
      ∀ f, capture env f (store s p x) p = .ok s' →
      s'.addr2mmap_entry = s.addr2mmap_entry ∧
      (∀ q, q ≠ p → entry_shape (deref s' q) = entry_shape (deref s q)) ∧
      (s'.num_captures = s.num_captures + 1 ∨ s'.num_captures = s.num_captures + 2) ∧
      ((∀ kv ∈ s.addr2mmap_entry, kv.2 ≠ p) →
        (∀ kv ∈ s.addr2mmap_entry, (deref s kv.2).opid = MMCU_HOOK_MMAP_PSS_UPDATE) →
        no_unexpected s → no_unexpected s') := by
    intro x hx f hc
    obtain ⟨a, b, c, d⟩ := store_capture_frame env f s p x s' hx hc
    exact ⟨a, b, Or.inl c, d⟩
  have two : ∀ (x : mmcu_memory_op_entry) (y : mmcu_mem_stat_mgr → mmcu_memory_op_entry),
      (x.opid ≠ MMCU_HOOK_REALLOC ∧ x.opid ≠ MMCU_HOOK_MMAP ∧ x.opid ≠ MMCU_HOOK_MUNMAP) →
      (∀ t, (y t).opid ≠ MMCU_HOOK_REALLOC ∧ (y t).opid ≠ MMCU_HOOK_MMAP ∧
        (y t).opid ≠ MMCU_HOOK_MUNMAP) →
      ∀ f s1, capture env f (store s p x) p = .ok s1 →
      capture env f (store s1 p (y s1)) p = .ok s' →
      s'.addr2mmap_entry = s.addr2mmap_entry ∧
      (∀ q, q ≠ p → entry_shape (deref s' q) = entry_shape (deref s q)) ∧
      (s'.num_captures = s.num_captures + 1 ∨ s'.num_captures = s.num_captures + 2) ∧
      ((∀ kv ∈ s.addr2mmap_entry, kv.2 ≠ p) →
        (∀ kv ∈ s.addr2mmap_entry, (deref s kv.2).opid = MMCU_HOOK_MMAP_PSS_UPDATE) →
        no_unexpected s → no_unexpected s') := by
    intro x y hx hy f s1 hc1 hc2
    obtain ⟨a, b, c, d⟩ := store_capture_frame env f s p x s1 hx hc1
    obtain ⟨a', b', c', d'⟩ := store_capture_frame env f s1 p (y s1) s' (hy s1) hc2
    refine ⟨a'.trans a, fun q hq => (b' q hq).trans (b q hq), Or.inr (by omega),
      fun hp hk hn => ?_⟩
    apply d'
    · intro kv hkv
      rw [a] at hkv
      exact hp kv hkv
    · intro kv hkv
      rw [a] at hkv
      have := congrArg (fun z => z.1) (b kv.2 (hp kv hkv))
      exact this.trans (hk kv hkv)
    · exact d hp hk hn
  cases fuel with
  | zero => simp [break_down_realloc] at h
  | succ fuel =>
    simp only [break_down_realloc] at h
    split at h
    · exact one _ (plain_of_kind _ (Or.inl rfl)) fuel h
    · split at h
      · split at h
        · rw [store_store] at h
          refine one _ ?_ fuel h
          exact plain_after_store s p _ (plain_of_kind _ (Or.inr (Or.inl rfl)))
        · exact one _ (plain_of_kind _ (Or.inl rfl)) fuel h
      · split at h
        · exact one _ (plain_of_kind _ (Or.inr (Or.inr rfl))) fuel h
        · split at h
          · obtain ⟨s1, h1, h2⟩ := bind_ok_inv h
            rw [store_store] at h2
            refine two _
              (fun t => { deref (store t p { deref t p with opid := MMCU_HOOK_FREE }) p with
                addr := (deref s p).old_addr })
              (plain_of_kind _ (Or.inr (Or.inr rfl))) (fun t => ?_) fuel s1 h1 h2
            exact plain_after_store t p _ (plain_of_kind _ (Or.inr (Or.inl rfl)))
          · obtain ⟨s1, h1, h2⟩ := bind_ok_inv h
            rw [store_store] at h2
            refine two _
              (fun t => { deref (store t p { deref t p with opid := MMCU_HOOK_MALLOC }) p with
                size := to_ssize_t (to_size_t (deref s p).size) })
              (plain_of_kind _ (Or.inr (Or.inl rfl))) (fun t => ?_) fuel s1 h1 h2
            exact plain_after_store t p _ (plain_of_kind _ (Or.inr (Or.inr rfl)))

/-! ## The mapped-region table invariant -/

theorem capture_mmap_ops_tables (env : mmcu_env) (fuel : Nat) (s : mmcu_mem_stat_mgr)
    (p : Nat) (s' : mmcu_mem_stat_mgr) (h : capture_mmap_ops env fuel s p = .ok s') :
    s'.addr2entry = s.addr2entry ∧ s'.num_captures = s.num_captures ∧
    (no_unexpected s → no_unexpected s') := by
  simp only [capture_mmap_ops] at h
  cases hf : map_find s.addr2mmap_entry (deref s p).addr with
  | none =>
    rw [hf] at h
    simp only [] at h
    split at h
    · cases h
    · cases hq : get_proc_self_smaps_entry env s (deref s p).addr with
      | error f => rw [hq] at h; cases h
      | ok x =>
        obtain ⟨d, s1⟩ := x
        rw [hq] at h
        simp only [] at h
        have hfr := gpse_frame env _ _ _ _ hq
        have hse := gpse_stderr env _ _ _ _ hq
        obtain ⟨a1, a2, a3, a4, a5⟩ := ucma_ok_frame env fuel _ _ _ _ h
        have a2' : s'.addr2entry = s1.addr2entry := a2
        have a4' : s'.stderr = s1.stderr := a4
        have a5' : s'.num_captures = s1.num_captures := a5
        refine ⟨by rw [a2', hfr], by rw [a5', hfr], fun hn => ?_⟩
        apply no_unexpected_of_stderr _ hn
        rw [a4']; exact hse
  | some q =>
    rw [hf] at h
    simp only [] at h
    split at h
    · obtain ⟨s1, h1, h2⟩ := bind_ok_inv h
      simp only [Except.ok.injEq] at h2
      obtain ⟨a1, a2, a3, a4, a5⟩ := ucma_ok_frame env fuel _ _ _ _ h1
      rw [← h2]
      refine ⟨a2, a5, fun hn => ?_⟩
      intro o hm
      have hm' : mmcu_warning.unexpected_opid o ∈ s1.stderr := hm
      rw [a4] at hm'
      exact hn o hm'
    · simp only [Except.ok.injEq] at h
      rw [← h]
      refine ⟨rfl, rfl, fun hn => ?_⟩
      intro o hm
      rcases List.mem_append.1 hm with hm | hm
      · exact hn o hm
      · simp at hm

theorem mem_map_erase {m : List (Nat × Nat)} {a : Nat} {kv : Nat × Nat}
    (h : kv ∈ map_erase m a) : kv ∈ m :=
  (List.mem_filter.1 h).1

theorem capture_mmap_ops_inv (env : mmcu_env) (fuel : Nat) (s : mmcu_mem_stat_mgr)
    (p : Nat) (s' : mmcu_mem_stat_mgr) (h : capture_mmap_ops env fuel s p = .ok s')
    (hinv : mm_inv s) (hp : ∀ kv ∈ s.addr2mmap_entry, kv.2 ≠ p) : mm_inv s' := by
  simp only [capture_mmap_ops] at h
  cases hf : map_find s.addr2mmap_entry (deref s p).addr with
  | none =>
    rw [hf] at h
    simp only [] at h
    split at h
    · cases h
    · rename_i hop
      have hop' : (deref s p).opid = MMCU_HOOK_MMAP := by
        by_contra hc; exact hop hc
      have hlt : p < s.heap.length := deref_lt_of_opid (by rw [hop']; decide)
      cases hq : get_proc_self_smaps_entry env s (deref s p).addr with
      | error f => rw [hq] at h; cases h
      | ok x =>
        obtain ⟨d, s1⟩ := x
        rw [hq] at h
        simp only [] at h
        have hfr := gpse_frame env _ _ _ _ hq
        have hh1 : s1.heap = s.heap := by rw [hfr]
        have hm1 : s1.addr2mmap_entry = s.addr2mmap_entry := by rw [hfr]
        obtain ⟨a1, a2, a3, a4, a5⟩ := ucma_ok_frame env fuel _ _ _ _ h
        have hd1 : deref s1 p = deref s p := deref_of_heap hh1 p
        have hlt1 : p < s1.heap.length := by rw [hh1]; exact hlt
        have k1 : s'.heap = (store (store s1 p
            { deref s1 p with opid := MMCU_HOOK_MMAP_PSS_UPDATE }) p
            { deref (store s1 p { deref s1 p with opid := MMCU_HOOK_MMAP_PSS_UPDATE }) p with
              size := to_ssize_t d.pss_in_b }).heap := a1
        have k3 : s'.addr2mmap_entry
            = map_insert s1.addr2mmap_entry (deref s p).addr p := a3
        rw [hm1, map_insert_of_none p hf] at k3
        have hX : deref (store s1 p { deref s1 p with opid := MMCU_HOOK_MMAP_PSS_UPDATE }) p
            = { deref s1 p with opid := MMCU_HOOK_MMAP_PSS_UPDATE } :=
          deref_store_self _ p _ hlt1
        have hself : deref s' p = { deref s p with
            opid := MMCU_HOOK_MMAP_PSS_UPDATE, size := to_ssize_t d.pss_in_b } := by
          rw [deref_of_heap k1, deref_store_self _ p _ (by simpa [store] using hlt1), hX, hd1]
        have hother : ∀ q, q ≠ p → deref s' q = deref s q := by
          intro q hq
          rw [deref_of_heap k1, deref_store_ne _ p q _ hq, deref_store_ne _ p q _ hq]
          exact deref_of_heap hh1 q
        intro kv hkv
        rw [k3] at hkv
        rcases List.mem_cons.1 hkv with hk | hk
        · rw [hk]
          show (deref s' p).opid = _ ∧ (deref s' p).addr = _
          rw [hself]
          exact ⟨rfl, rfl⟩
        · rw [hother kv.2 (hp kv hk)]
          exact hinv kv hk
  | some q =>
    rw [hf] at h
    simp only [] at h
    split at h
    · obtain ⟨s1, h1, h2⟩ := bind_ok_inv h
      simp only [Except.ok.injEq] at h2
      obtain ⟨a1, a2, a3, a4, a5⟩ := ucma_ok_frame env fuel _ _ _ _ h1
      rw [← h2]
      intro kv hkv
      have hkv' : kv ∈ map_erase s1.addr2mmap_entry (deref s p).addr := hkv
      rw [a3] at hkv'
      have hmem := mem_map_erase hkv'
      show (deref s1 kv.2).opid = _ ∧ (deref s1 kv.2).addr = _
      rw [deref_of_heap a1]
      exact hinv kv hmem
    · simp only [Except.ok.injEq] at h
      rw [← h]
      exact hinv

theorem mm_inv_of_shape {s s' : mmcu_mem_stat_mgr}
    (hm : s'.addr2mmap_entry = s.addr2mmap_entry)
    (hs : ∀ kv ∈ s.addr2mmap_entry, entry_shape (deref s' kv.2) = entry_shape (deref s kv.2))
    (hinv : mm_inv s) : mm_inv s' := by
  intro kv hkv
  rw [hm] at hkv
  have h1 := congrArg (fun z => z.1) (hs kv hkv)
  have h2 := congrArg (fun z => z.2.1) (hs kv hkv)
  exact ⟨h1.trans (hinv kv hkv).1, h2.trans (hinv kv hkv).2⟩

theorem capture_inv (env : mmcu_env) (fuel : Nat) (s : mmcu_mem_stat_mgr) (p : Nat)
    (s' : mmcu_mem_stat_mgr) (h : capture env fuel s p = .ok s')
    (hinv : mm_inv s) (hp : ∀ kv ∈ s.addr2mmap_entry, kv.2 ≠ p) (hn : no_unexpected s) :
    mm_inv s' ∧ no_unexpected s' := by
  have hk : ∀ kv ∈ s.addr2mmap_entry, (deref s kv.2).opid = MMCU_HOOK_MMAP_PSS_UPDATE :=
    fun kv hkv => (hinv kv hkv).1
  cases fuel with
  | zero => simp [capture] at h
  | succ fuel =>
    by_cases h1 : (deref s p).opid = MMCU_HOOK_REALLOC
    · rw [capture_realloc_eq env fuel s p h1] at h
      obtain ⟨a, b, _, d⟩ := bdr_frame env fuel _ p s' h
      exact ⟨mm_inv_of_shape a (fun kv hkv => b kv.2 (hp kv hkv)) hinv, d hp hk hn⟩
    · by_cases h2 : (deref s p).opid = MMCU_HOOK_MMAP ∨ (deref s p).opid = MMCU_HOOK_MUNMAP
      · rw [capture_mmap_eq env fuel s p h2] at h
        exact ⟨capture_mmap_ops_inv env fuel _ p s' h hinv hp,
          (capture_mmap_ops_tables env fuel _ p s' h).2.2 hn⟩
      · obtain ⟨a, b, _, d⟩ := capture_plain_frame env (fuel + 1) s p s' h1
          (fun hc => h2 (Or.inl hc)) (fun hc => h2 (Or.inr hc)) h
        exact ⟨mm_inv_of_shape a (fun kv _ => deref_shape b kv.2) hinv, d hk hn⟩

theorem capture_nc (env : mmcu_env) (fuel : Nat) (s : mmcu_mem_stat_mgr) (p : Nat)
    (s' : mmcu_mem_stat_mgr) (h : capture env fuel s p = .ok s') :
    ((deref s p).opid ≠ MMCU_HOOK_REALLOC → s'.num_captures = s.num_captures + 1) ∧
    ((deref s p).opid = MMCU_HOOK_REALLOC →
      s'.num_captures = s.num_captures + 2 ∨ s'.num_captures = s.num_captures + 3) := by
  cases fuel with
  | zero => simp [capture] at h
  | succ fuel =>
    by_cases h1 : (deref s p).opid = MMCU_HOOK_REALLOC
    · rw [capture_realloc_eq env fuel s p h1] at h
      obtain ⟨_, _, c, _⟩ := bdr_frame env fuel _ p s' h
      refine ⟨fun hc => absurd h1 hc, fun _ => ?_⟩
      have c' : s'.num_captures = s.num_captures + 1 + 1
          ∨ s'.num_captures = s.num_captures + 1 + 2 := c
      omega
    · refine ⟨fun _ => ?_, fun hc => absurd hc h1⟩
      by_cases h2 : (deref s p).opid = MMCU_HOOK_MMAP ∨ (deref s p).opid = MMCU_HOOK_MUNMAP
      · rw [capture_mmap_eq env fuel s p h2] at h
        exact (capture_mmap_ops_tables env fuel _ p s' h).2.1
      · exact (capture_plain_frame env (fuel + 1) s p s' h1
          (fun hc => h2 (Or.inl hc)) (fun hc => h2 (Or.inr hc)) h).2.2.1

theorem capture_new_inv (env : mmcu_env) (s : mmcu_mem_stat_mgr) (e : mmcu_memory_op_entry)
    (s' : mmcu_mem_stat_mgr) (h : capture_new env s e = .ok s')
    (hinv : mm_inv s) (hn : no_unexpected s) : mm_inv s' ∧ no_unexpected s' := by
  have hlt : ∀ kv ∈ s.addr2mmap_entry, kv.2 < s.heap.length :=
    fun kv hkv => deref_lt_of_opid (by rw [(hinv kv hkv).1]; decide)
  refine capture_inv env capture_fuel (new_entry s e).1 (new_entry s e).2 s' h ?_ ?_ hn
  · intro kv hkv
    have hkv' : kv ∈ s.addr2mmap_entry := hkv
    rw [deref_append_old (s := s) (e := e) rfl (hlt kv hkv')]
    exact hinv kv hkv'
  · intro kv hkv
    have hkv' : kv ∈ s.addr2mmap_entry := hkv
    have := hlt kv hkv'
    show kv.2 ≠ s.heap.length
    omega

theorem hook_reachable_inv (env : mmcu_env) (s : mmcu_mem_stat_mgr)
    (h : hook_reachable env s) : mm_inv s ∧ no_unexpected s := by
  induction h with
  | init =>
    exact ⟨fun kv hkv => (by cases hkv), fun o hm => (by cases hm)⟩
  | capture s e s' _ _ hc ih => exact capture_new_inv env s e s' hc ih.1 ih.2

theorem capture_new_mmap_tables (env : mmcu_env) (s : mmcu_mem_stat_mgr)
    (e : mmcu_memory_op_entry) (s' : mmcu_mem_stat_mgr)
    (ho : e.opid = MMCU_HOOK_MMAP ∨ e.opid = MMCU_HOOK_MUNMAP)
    (h : capture_new env s e = .ok s') : s'.addr2entry = s.addr2entry := by
  unfold capture_new capture_fuel at h
  rw [capture_mmap_eq env 5 _ _ (by rw [deref_new_entry_self]; exact ho)] at h
  exact (capture_mmap_ops_tables env 5 _ _ s' h).1

theorem capture_new_plain_tables (env : mmcu_env) (s : mmcu_mem_stat_mgr)
    (e : mmcu_memory_op_entry) (s' : mmcu_mem_stat_mgr)
    (ho : alloc_class e.opid = true ∨ e.opid = MMCU_HOOK_FREE)
    (h : capture_new env s e = .ok s') : s'.addr2mmap_entry = s.addr2mmap_entry := by
  have hpl : e.opid ≠ MMCU_HOOK_REALLOC ∧ e.opid ≠ MMCU_HOOK_MMAP ∧
      e.opid ≠ MMCU_HOOK_MUNMAP := by
    rcases ho with ho | ho
    · cases hk : e.opid <;> simp [hk, alloc_class] at ho ⊢
    · rw [ho]; exact ⟨by decide, by decide, by decide⟩
  exact (capture_plain_frame env capture_fuel (new_entry s e).1 (new_entry s e).2 s'
    (by rw [deref_new_entry_self]; exact hpl.1) (by rw [deref_new_entry_self]; exact hpl.2.1)
    (by rw [deref_new_entry_self]; exact hpl.2.2) h).1

/-! ## Fuel: no call chain runs out -/

theorem bind_error_inv {g : mmcu_mem_stat_mgr → Except mmcu_failure mmcu_mem_stat_mgr}
    {f : mmcu_failure} :
    ∀ {r : Except mmcu_failure mmcu_mem_stat_mgr},
      (match r with | Except.error e => Except.error e | Except.ok s => g s) = Except.error f →
      r = .error f ∨ ∃ s1, r = .ok s1 ∧ g s1 = .error f := by
  intro r h
  cases r with
  | error f' => exact Or.inl h
  | ok s1 => exact Or.inr ⟨s1, rfl, h⟩

theorem ums_false_returns (env : mmcu_env) (f : Nat) (s : mmcu_mem_stat_mgr) :
    update_mem_stats env (f + 1) s false ≠ .error .out_of_fuel := by
  intro h
  have := ((ums_outcome env f s).2 _ h).1
  cases this

theorem ucma_returns (env : mmcu_env) (f : Nat) (s : mmcu_mem_stat_mgr) (p : Nat) (b : Bool) :
    update_current_mem_allocd env (f + 2) s p b ≠ .error .out_of_fuel := by
  intro h
  simp only [update_current_mem_allocd] at h
  cases ho : (deref s p).opid <;> simp only [ho] at h <;> cases b <;>
    first
    | cases h
    | (simp only [Bool.not_false, Bool.not_true, if_true, if_false, Bool.false_eq_true] at h
       exact ums_false_returns env f _ h)

theorem for_each_entry_returns
    (body : mmcu_mem_stat_mgr → Nat → Except mmcu_failure (Bool × mmcu_mem_stat_mgr))
    (hb : ∀ s e, body s e ≠ .error .out_of_fuel) :
    ∀ (l : List (Nat × Nat)) (s : mmcu_mem_stat_mgr),
      for_each_entry body l s ≠ .error .out_of_fuel := by
  intro l
  induction l with
  | nil => intro s h; cases h
  | cons me rest ih =>
    intro s h
    simp only [for_each_entry] at h
    cases hq : body s me.2 with
    | error f =>
      rw [hq] at h
      simp only [Except.error.injEq] at h
      rw [h] at hq
      exact hb _ _ hq
    | ok x =>
      obtain ⟨go, s1⟩ := x
      rw [hq] at h
      simp only [] at h
      split at h
      · exact ih _ h
      · cases h

theorem pss_entry_step_returns (env : mmcu_env)
    (ucma : mmcu_mem_stat_mgr → Nat → Bool → Except mmcu_failure mmcu_mem_stat_mgr)
    (hu : ∀ s p b, ucma s p b ≠ .error .out_of_fuel) (s : mmcu_mem_stat_mgr) (e : Nat) :
    pss_entry_step env ucma s e ≠ .error .out_of_fuel := by
  intro h
  unfold pss_entry_step at h
  cases ho : (deref s e).opid <;> simp only [ho] at h
  case MMCU_HOOK_MMAP_PSS_UPDATE =>
    cases hq : get_proc_self_smaps_entry env s (deref s e).addr with
    | error f =>
      rw [hq] at h
      simp only [Except.error.injEq] at h
      rw [h] at hq
      have := (gpse_error env _ _ _ hq).1
      cases this
    | ok x =>
      obtain ⟨d, s1⟩ := x
      rw [hq] at h
      simp only [] at h
      cases h1 : ucma
          (store s1 e { deref s1 e with size := to_ssize_t (-(deref s e).size) }) e true with
      | error f =>
        rw [h1] at h
        simp only [Except.error.injEq] at h
        rw [h] at h1
        exact hu _ _ _ h1
      | ok s2 =>
        rw [h1] at h
        simp only [] at h
        cases h2 : ucma
            (store s2 e { deref s2 e with size := to_ssize_t d.pss_in_b }) e false with
        | error f =>
          rw [h2] at h
          simp only [Except.error.injEq] at h
          rw [h] at h2
          exact hu _ _ _ h2
        | ok s3 => rw [h2] at h; cases h
  case MMCU_HOOK_MUNMAP =>
    cases h1 : ucma s e false with
    | error f =>
      rw [h1] at h
      simp only [Except.error.injEq] at h
      rw [h] at h1
      exact hu _ _ _ h1
    | ok s2 => rw [h1] at h; cases h
  all_goals cases h

theorem uape_returns (env : mmcu_env) (f : Nat) (s : mmcu_mem_stat_mgr) (samp : Bool) :
    update_all_pss_entries env (f + 3) s samp ≠ .error .out_of_fuel := by
  intro h
  simp only [update_all_pss_entries] at h
  split at h
  · cases h
  · exact for_each_entry_returns _
      (pss_entry_step_returns env _ (fun s p b => ucma_returns env f s p b)) _ _ h

theorem ums_returns (env : mmcu_env) (f : Nat) (s : mmcu_mem_stat_mgr) (sample : Bool) :
    update_mem_stats env (f + 4) s sample ≠ .error .out_of_fuel := by
  cases sample with
  | false => exact ums_false_returns env (f + 3) s
  | true =>
    intro h
    simp only [update_mem_stats, get_proc_self_smaps_pss_total, Bool.true_or, if_true] at h
    cases hq : env.smaps_pss_total s.n_smaps_total_calls <;> simp only [hq] at h
    · cases h
    · exact uape_returns env f _ _ h

theorem capture_mmap_ops_returns (env : mmcu_env) (f : Nat) (s : mmcu_mem_stat_mgr) (p : Nat) :
    capture_mmap_ops env (f + 2) s p ≠ .error .out_of_fuel := by
  intro h
  unfold capture_mmap_ops at h
  simp only [] at h
  split at h
  · split at h
    · cases h
    · split at h
      · rename_i f' hq
        simp only [Except.error.injEq] at h
        rw [h] at hq
        have := (gpse_error env _ _ _ hq).1
        cases this
      · exact ucma_returns env f _ _ _ h
  · split at h
    · split at h
      · rename_i f' hq
        simp only [Except.error.injEq] at h
        rw [h] at hq
        exact ucma_returns env f _ _ _ hq
      · cases h
    · cases h

theorem capture_plain_returns (env : mmcu_env) (f : Nat) (s : mmcu_mem_stat_mgr) (p : Nat)
    (h1 : (deref s p).opid ≠ MMCU_HOOK_REALLOC) :
    capture env (f + 4) s p ≠ .error .out_of_fuel := by
  by_cases h2 : (deref s p).opid = MMCU_HOOK_MMAP ∨ (deref s p).opid = MMCU_HOOK_MUNMAP
  · rw [capture_mmap_eq env (f + 3) s p h2]
    exact capture_mmap_ops_returns env (f + 1) _ _
  · have h2a : (deref s p).opid ≠ MMCU_HOOK_MMAP := fun hc => h2 (Or.inl hc)
    have h2b : (deref s p).opid ≠ MMCU_HOOK_MUNMAP := fun hc => h2 (Or.inr hc)
    cases hq : map_find s.addr2entry (deref s p).addr with
    | none =>
      rw [capture_insert_eq env (f + 3) s p h1 h2a h2b hq]
      intro h
      rcases bind_error_inv h with h | ⟨s1, _, h⟩
      · exact ucma_returns env (f + 1) _ _ _ h
      · exact uape_returns env f _ _ h
    | some q =>
      by_cases h4 : (deref s p).opid = MMCU_HOOK_FREE
      · rw [capture_free_eq env (f + 3) s p q h4 hq]
        intro h
        rcases bind_error_inv h with h | ⟨s1, _, h⟩
        · exact ucma_returns env (f + 1) _ _ _ h
        · rcases bind_error_inv h with h | ⟨s2, _, h⟩
          · exact uape_returns env f _ _ h
          · cases h
      · rw [capture_curious_plain env (f + 3) s p q h1 h2a h2b h4 hq]
        intro h
        cases h

theorem store_capture_returns (env : mmcu_env) (f : Nat) (s : mmcu_mem_stat_mgr) (p : Nat)
    (x : mmcu_memory_op_entry)
    (hx : x.opid ≠ MMCU_HOOK_REALLOC ∧ x.opid ≠ MMCU_HOOK_MMAP ∧ x.opid ≠ MMCU_HOOK_MUNMAP) :
    capture env (f + 4) (store s p x) p ≠ .error .out_of_fuel :=
  capture_plain_returns env f _ p (plain_after_store s p x hx).1

theorem bdr_returns (env : mmcu_env) (f : Nat) (s : mmcu_mem_stat_mgr) (p : Nat) :
    break_down_realloc env (f + 5) s p ≠ .error .out_of_fuel := by
  intro h
  simp only [break_down_realloc] at h
  split at h
  · exact store_capture_returns env f s p _ (plain_of_kind _ (Or.inl rfl)) h
  · split at h
    · split at h
      · rw [store_store] at h
        refine store_capture_returns env f s p _ ?_ h
        exact plain_after_store s p _ (plain_of_kind _ (Or.inr (Or.inl rfl)))
      · exact store_capture_returns env f s p _ (plain_of_kind _ (Or.inl rfl)) h
    · split at h
      · exact store_capture_returns env f s p _ (plain_of_kind _ (Or.inr (Or.inr rfl))) h
      · split at h
        · rcases bind_error_inv h with h | ⟨s1, _, h⟩
          · exact store_capture_returns env f s p _ (plain_of_kind _ (Or.inr (Or.inr rfl))) h
          · rw [store_store] at h
            refine store_capture_returns env f s1 p _ ?_ h
            exact plain_after_store s1 p _ (plain_of_kind _ (Or.inr (Or.inl rfl)))
        · rcases bind_error_inv h with h | ⟨s1, _, h⟩
          · exact store_capture_returns env f s p _ (plain_of_kind _ (Or.inr (Or.inl rfl))) h
          · rw [store_store] at h
            refine store_capture_returns env f s1 p _ ?_ h
            exact plain_after_store s1 p _ (plain_of_kind _ (Or.inr (Or.inr rfl)))

theorem capture_returns (env : mmcu_env) (f : Nat) (s : mmcu_mem_stat_mgr) (p : Nat) :
    capture env (f + 6) s p ≠ .error .out_of_fuel := by
  by_cases h1 : (deref s p).opid = MMCU_HOOK_REALLOC
  · rw [capture_realloc_eq env (f + 5) s p h1]
    exact bdr_returns env f _ p
  · exact capture_plain_returns env (f + 2) s p h1

/-! ## Concrete runs under `demo_env` -/

theorem mmap_demo_run :
    capture_new demo_env init_state ⟨MMCU_HOOK_MMAP, 100, 8192, 0⟩ = .ok mapped_state := by
  simp [capture_new, capture_fuel, new_entry, capture, capture_mmap_ops, deref, store,
    init_state, map_find, map_insert, get_proc_self_smaps_entry, smaps_retry, n_tries, demo_env,
    update_current_mem_allocd, update_mem_stats, to_size_t, to_ssize_t,
    mem_allocd_sample_freq, pss_totals_sample_freq, mapped_state]

theorem overlap_munmap_run :
    capture_new demo_env overlap_state ⟨MMCU_HOOK_MUNMAP, 100, 8192, 0⟩
      = .ok overlap_unmapped := by
  simp [capture_new, capture_fuel, new_entry, capture, capture_mmap_ops, deref, store,
    overlap_state, map_find, map_erase, demo_env,
    update_current_mem_allocd, update_mem_stats, to_size_t, to_ssize_t,
    mem_allocd_sample_freq, pss_totals_sample_freq, overlap_unmapped]

theorem overlap_free_run :
    capture_new demo_env overlap_state ⟨MMCU_HOOK_FREE, 100, 0, 0⟩ = .ok overlap_freed := by
  simp [capture_new, capture_fuel, new_entry, capture, deref, store,
    overlap_state, map_find, map_erase, demo_env, update_all_pss_entries, mpi_pss_update_freq,
    update_current_mem_allocd, update_mem_stats, to_size_t, to_ssize_t,
    mem_allocd_sample_freq, pss_totals_sample_freq, overlap_freed]

theorem demo_realloc_move_run :
    capture_new demo_env demo_state ⟨MMCU_HOOK_REALLOC, 200, 20, 100⟩ = .ok demo_moved := by
  simp [capture_new, capture_fuel, new_entry, capture, break_down_realloc, deref, store,
    demo_state, map_find, map_erase, map_insert, demo_env, update_all_pss_entries,
    mpi_pss_update_freq, for_each_entry,
    update_current_mem_allocd, update_mem_stats, to_size_t, to_ssize_t,
    mem_allocd_sample_freq, pss_totals_sample_freq, demo_moved]

/-! ## Reading lines -/

theorem c_str_append_of_no_nul (l x : List Char) (h : ∀ c ∈ l, c ≠ NUL) :
    c_str (l ++ x) = l ++ c_str x := by
  induction l with
  | nil => rfl
  | cons a l ih =>
    have ha : (a != NUL) = true := by simpa using h a (List.mem_cons_self _ _)
    have := ih (fun c hc => h c (List.mem_cons_of_mem _ hc))
    simp only [c_str] at this ⊢
    simp [List.takeWhile_cons, ha, this]

theorem c_str_nil : c_str [] = [] := rfl

theorem c_str_of_no_nul (l : List Char) (h : ∀ c ∈ l, c ≠ NUL) : c_str l = l := by
  have := c_str_append_of_no_nul l [] h
  simpa [c_str_nil] using this

theorem c_str_nul (x : List Char) : c_str (NUL :: x) = [] := by
  simp [c_str, List.takeWhile_cons]

theorem read_line_line (l rest : List Char) (h : ∀ c ∈ l, c ≠ '\n') :
    ∀ k, l.length < k → read_line k (l ++ '\n' :: rest) = (l ++ ['\n'], rest) := by
  induction l with
  | nil =>
    intro k hk
    cases k with
    | zero => simp at hk
    | succ k => simp [read_line]
  | cons a l ih =>
    intro k hk
    cases k with
    | zero => simp at hk
    | succ k =>
      have ha : a ≠ '\n' := h a (List.mem_cons_self _ _)
      have := ih (fun c hc => h c (List.mem_cons_of_mem _ hc)) k
        (by simpa using hk)
      simp [read_line, ha, this]

theorem text_line_spec {l : List Char} (h : text_line l = true) :
    (∀ c ∈ l, c ≠ '\n') ∧ l.length + 1 < 2 * PATH_MAX - 1 := by
  simp only [text_line, Bool.and_eq_true, List.all_eq_true, bne_iff_ne, ne_eq,
    decide_eq_true_eq] at h
  exact h

theorem fgets_line (l rest : List Char) (h : text_line l = true) :
    fgets (2 * PATH_MAX - 1) (l ++ '\n' :: rest) = some (l ++ ['\n'], rest) := by
  obtain ⟨h1, h2⟩ := text_line_spec h
  have hne : (l ++ '\n' :: rest).isEmpty = false := by
    cases l <;> rfl
  simp only [fgets, hne, Bool.false_eq_true, if_false]
  rw [read_line_line l rest h1 _ (by omega)]

theorem fgets_nil (n : Nat) : fgets n [] = none := rfl

theorem read_line_length_le : ∀ (k : Nat) (f : List Char), (read_line k f).2.length ≤ f.length := by
  intro k
  induction k with
  | zero => intro f; simp [read_line]
  | succ k ih =>
    intro f
    cases f with
    | nil => simp [read_line]
    | cons c f =>
      simp only [read_line]
      split
      · simp
      · have := ih f
        simp only [List.length_cons]
        omega

theorem read_line_length_lt (k : Nat) (c : Char) (f : List Char) :
    (read_line (k + 1) (c :: f)).2.length < (c :: f).length := by
  simp only [read_line]
  split
  · simp
  · have := read_line_length_le k f
    simp only [List.length_cons]
    omega

theorem fgets_length_lt {f l rest : List Char}
    (h : fgets (2 * PATH_MAX - 1) f = some (l, rest)) : rest.length < f.length := by
  cases f with
  | nil => simp [fgets] at h
  | cons c f =>
    simp only [fgets, List.isEmpty_cons, Bool.false_eq_true, if_false, Option.some.injEq] at h
    have := read_line_length_lt (2 * PATH_MAX - 1 - 1 - 1) c f
    have e : 2 * PATH_MAX - 1 - 1 - 1 + 1 = 2 * PATH_MAX - 1 - 1 := by
      simp [PATH_MAX]
    rw [e, h] at this
    exact this

theorem skip_lines_length_le : ∀ (n : Nat) (f : List Char), (skip_lines n f).length ≤ f.length := by
  intro n
  induction n with
  | zero => intro f; simp [skip_lines]
  | succ n ih =>
    intro f
    simp only [skip_lines]
    cases h : fgets (2 * PATH_MAX - 1) f with
    | none => simp
    | some x =>
      obtain ⟨l, rest⟩ := x
      have := fgets_length_lt h
      have := ih rest
      simp only []
      omega

theorem render_lines_append_rest (ls : List (List Char)) (l : List Char) :
    render_lines (l :: ls) = l ++ '\n' :: render_lines ls := rfl

theorem skip_lines_rendered (rest : List Char) :
    ∀ (n : Nat) (ls : List (List Char)), (∀ l ∈ ls, text_line l = true) → n ≤ ls.length →
      skip_lines n (render_lines ls ++ rest) = render_lines (ls.drop n) ++ rest := by
  intro n
  induction n with
  | zero => intro ls _ _; simp [skip_lines]
  | succ n ih =>
    intro ls hl hn
    cases ls with
    | nil => simp at hn
    | cons l ls =>
      have h1 := fgets_line l (render_lines ls ++ rest) (hl l (List.mem_cons_self _ _))
      have e : render_lines (l :: ls) ++ rest = l ++ '\n' :: (render_lines ls ++ rest) := by
        simp [render_lines]
      rw [e]
      simp only [skip_lines, h1, List.drop_succ_cons]
      exact ih ls (fun x hx => hl x (List.mem_cons_of_mem _ hx)) (by simpa using hn)

theorem skip_lines_nil (n : Nat) : skip_lines n [] = [] := by
  cases n <;> simp [skip_lines, fgets]

theorem skip_lines_rendered_all :
    ∀ (n : Nat) (ls : List (List Char)), (∀ l ∈ ls, text_line l = true) →
      skip_lines n (render_lines ls) = render_lines (ls.drop n) := by
  intro n
  induction n with
  | zero => intro ls _; simp [skip_lines]
  | succ n ih =>
    intro ls hl
    cases ls with
    | nil => simp [skip_lines_nil, render_lines]
    | cons l ls =>
      have h1 := fgets_line l (render_lines ls) (hl l (List.mem_cons_self _ _))
      simp only [render_lines, skip_lines, h1, List.drop_succ_cons]
      exact ih ls (fun x hx => hl x (List.mem_cons_of_mem _ hx))

/-! ## Tokens -/

theorem strtok_nil (d : Char) : strtok d [] = none := rfl

theorem strtok_skip (d : Char) (p : Nat) (s : List Char) :
    strtok d (List.replicate p d ++ s) = strtok d s := by
  induction p with
  | zero => rfl
  | succ p ih =>
    rw [← ih]
    simp [strtok, List.replicate_succ, List.dropWhile_cons]

theorem strtok_token (d : Char) (t rest : List Char) (hne : t ≠ [])
    (ht : ∀ c ∈ t, c ≠ d) : strtok d (t ++ d :: rest) = some (t, rest) := by
  have h1 : (t ++ d :: rest).dropWhile (fun c => c == d) = t ++ d :: rest := by
    cases t with
    | nil => exact absurd rfl hne
    | cons a t =>
      have ha : (a == d) = false := by simpa using ht a (List.mem_cons_self _ _)
      simp [List.dropWhile_cons, ha]
  have h2 : ∀ (t : List Char), (∀ c ∈ t, c ≠ d) →
      (t ++ d :: rest).takeWhile (fun c => c != d) = t ∧
      (t ++ d :: rest).dropWhile (fun c => c != d) = d :: rest := by
    intro t
    induction t with
    | nil => intro _; simp [List.takeWhile_cons, List.dropWhile_cons]
    | cons a t ih =>
      intro ht
      have ha : (a != d) = true := by simpa using ht a (List.mem_cons_self _ _)
      have := ih (fun c hc => ht c (List.mem_cons_of_mem _ hc))
      simp [List.takeWhile_cons, List.dropWhile_cons, ha, this]
  have hemp : (t ++ d :: rest).isEmpty = false := by cases t <;> rfl
  simp only [strtok, h1, hemp, Bool.false_eq_true, if_false, (h2 t ht).1, (h2 t ht).2,
    List.drop_succ_cons, List.drop_zero]

theorem strtok_last (d : Char) (t : List Char) (hne : t ≠ [])
    (ht : ∀ c ∈ t, c ≠ d) : strtok d t = some (t, []) := by
  have h1 : t.dropWhile (fun c => c == d) = t := by
    cases t with
    | nil => exact absurd rfl hne
    | cons a t =>
      have ha : (a == d) = false := by simpa using ht a (List.mem_cons_self _ _)
      simp [List.dropWhile_cons, ha]
  have h2 : ∀ (t : List Char), (∀ c ∈ t, c ≠ d) →
      t.takeWhile (fun c => c != d) = t ∧ t.dropWhile (fun c => c != d) = [] := by
    intro t
    induction t with
    | nil => intro _; simp
    | cons a t ih =>
      intro ht
      have ha : (a != d) = true := by simpa using ht a (List.mem_cons_self _ _)
      have := ih (fun c hc => ht c (List.mem_cons_of_mem _ hc))
      simp [List.takeWhile_cons, List.dropWhile_cons, ha, this]
  have hemp : t.isEmpty = false := by
    cases t with
    | nil => exact absurd rfl hne
    | cons a t => rfl
  simp only [strtok, h1, hemp, Bool.false_eq_true, if_false, (h2 t ht).1, (h2 t ht).2,
    List.drop_nil]

theorem tokenize_nil (d : Char) (cap k i : Nat) (toks : List (List Char)) :
    tokenize d cap k i [] toks = toks := by
  cases k <;> simp [tokenize, strtok_nil]

theorem tokenize_token (d : Char) (cap k i p : Nat) (t rest : List Char)
    (toks : List (List Char)) (hne : t ≠ []) (ht : ∀ c ∈ t, c ≠ d) :
    tokenize d cap (k + 1) i (List.replicate p d ++ (t ++ d :: rest)) toks
      = tokenize d cap k (i + 1) rest (toks.set i (strncpy (toks.getD i []) t (cap - 1))) := by
  simp only [tokenize, strtok_skip, strtok_token d t rest hne ht]

theorem tokenize_last (d : Char) (cap k i p : Nat) (t : List Char)
    (toks : List (List Char)) (hne : t ≠ []) (ht : ∀ c ∈ t, c ≠ d) :
    tokenize d cap (k + 1) i (List.replicate p d ++ t) toks
      = toks.set i (strncpy (toks.getD i []) t (cap - 1)) := by
  simp only [tokenize, strtok_skip, strtok_last d t hne ht, tokenize_nil]

theorem tokenize_length (d : Char) (cap : Nat) :
    ∀ (k i : Nat) (s : List Char) (toks : List (List Char)),
      (tokenize d cap k i s toks).length = toks.length := by
  intro k
  induction k with
  | zero => intro i s toks; rfl
  | succ k ih =>
    intro i s toks
    simp only [tokenize]
    cases strtok d s with
    | none => rfl
    | some x => simp only [ih, List.length_set]

theorem tokenize_getD_lt (d : Char) (cap : Nat) :
    ∀ (k i : Nat) (s : List Char) (toks : List (List Char)) (j : Nat), j < i →
      (tokenize d cap k i s toks).getD j [] = toks.getD j [] := by
  intro k
  induction k with
  | zero => intro i s toks j _; rfl
  | succ k ih =>
    intro i s toks j hj
    simp only [tokenize]
    cases strtok d s with
    | none => rfl
    | some x =>
      simp only []
      rw [ih (i + 1) _ _ j (by omega)]
      simp only [List.getD_eq_getElem?_getD]
      rw [List.getElem?_set_ne (by omega)]

theorem uninit_length (n : Nat) (g : Nat → List Char) : (uninit n g).length = n := by
  simp [uninit]

theorem uninit_getD (n : Nat) (g : Nat → List Char) (i : Nat) (h : i < n) :
    (uninit n g).getD i [] = g i := by
  simp [uninit, List.getD_eq_getElem?_getD, List.getElem?_map, List.getElem?_range h]

theorem getD_set_self (l : List (List Char)) (i : Nat) (x : List Char) (h : i < l.length) :
    (l.set i x).getD i [] = x := by
  simp [List.getD_eq_getElem?_getD, List.getElem?_set_self h]

theorem getD_set_ne (l : List (List Char)) (i j : Nat) (x : List Char) (h : i ≠ j) :
    (l.set i x).getD j [] = l.getD j [] := by
  simp [List.getD_eq_getElem?_getD, List.getElem?_set_ne h]

/-! ## Copies -/

theorem strncpy_c_str (dest src : List Char) (n : Nat) (h : ∀ c ∈ src, c ≠ NUL)
    (hl : src.length < n) : c_str (strncpy dest src n) = src := by
  have e : strncpy dest src n = src ++ (NUL :: (List.replicate (n - src.length - 1) NUL
      ++ dest.drop n)) := by
    unfold strncpy
    rw [List.take_of_length_le (by omega)]
    have : n - src.length = (n - src.length - 1) + 1 := by omega
    rw [this, List.replicate_succ]
    simp
  rw [e, c_str_append_of_no_nul _ _ h, c_str_nul, List.append_nil]

theorem strncpy_c_str_take (dest src : List Char) (n k : Nat) (h : ∀ c ∈ src, c ≠ NUL)
    (hk : k ≤ n) : (c_str (strncpy dest src n)).take k = src.take k := by
  by_cases hl : src.length < n
  · rw [strncpy_c_str dest src n h hl]
  · have e : strncpy dest src n = src.take n ++ dest.drop n := by
      unfold strncpy
      have : n - src.length = 0 := by omega
      rw [this]
      simp
    rw [e, c_str_append_of_no_nul _ _ (fun c hc => h c (List.mem_of_mem_take hc))]
    have hlen : (src.take n).length = n := by
      rw [List.length_take]; omega
    rw [List.take_append_of_le_length (by omega), List.take_take]
    congr 1
    omega

theorem strncpy_getD (dest src : List Char) (n i : Nat) (hi : i < n) :
    (strncpy dest src n).getD i NUL = src.getD i NUL := by
  unfold strncpy
  simp only [List.getD_eq_getElem?_getD, List.append_assoc]
  by_cases hl : i < src.length
  · rw [List.getElem?_append_left (by rw [List.length_take]; omega)]
    rw [List.getElem?_take_of_lt hi]
  · rw [List.getElem?_append_right (by rw [List.length_take]; omega)]
    rw [List.getElem?_append_left (by
      rw [List.length_take, List.length_replicate]; omega)]
    rw [List.getElem?_replicate]
    rw [List.getElem?_eq_none (by omega)]
    simp only [Option.getD_none]
    split <;> rfl

/-! ## Numerals -/

theorem digit_value_ge {c : Char} {d : Nat} (h : digit_value c = some d) : 48 ≤ c.toNat := by
  unfold digit_value at h
  split at h
  · rename_i hc
    have := hc.1
    simp only [Char.le_def] at this
    exact this
  · split at h
    · rename_i hc
      have := hc.1
      simp only [Char.le_def] at this
      have e : ('a' : Char).val.toNat = 97 := rfl
      have : (97 : Nat) ≤ c.toNat := by
        have h2 := this
        exact h2
      omega
    · split at h
      · rename_i hc
        have := hc.1
        simp only [Char.le_def] at this
        have : (65 : Nat) ≤ c.toNat := this
        omega
      · cases h

theorem digit_not_space {c : Char} {d : Nat} (h : digit_value c = some d) :
    isspace c = false ∧ c ≠ '-' ∧ c ≠ '+' := by
  have hge := digit_value_ge h
  refine ⟨?_, ?_, ?_⟩
  · cases hs : isspace c with
    | false => rfl
    | true =>
      exfalso
      simp only [isspace, Bool.or_eq_true, beq_iff_eq] at hs
      rcases hs with ((((hs | hs) | hs) | hs) | hs) | hs <;> subst hs <;> revert hge <;> decide
  · intro hc; subst hc; revert hge; decide
  · intro hc; subst hc; revert hge; decide

theorem is_numeral_spec {base : Nat} {ds : List Char} (h : is_numeral base ds = true) :
    ds ≠ [] ∧ ∀ c ∈ ds, ∃ d, digit_value c = some d ∧ d < base := by
  simp only [is_numeral, Bool.and_eq_true, Bool.not_eq_true', List.isEmpty_eq_false,
    List.all_eq_true] at h
  refine ⟨by simpa using h.1, fun c hc => ?_⟩
  have := h.2 c hc
  cases hd : digit_value c with
  | none => rw [hd] at this; simp at this
  | some d => rw [hd] at this; exact ⟨d, rfl, by simpa using this⟩

theorem numeral_value_cons (base : Nat) (c : Char) (cs : List Char) :
    numeral_value base (c :: cs)
      = (digit_value c).getD 0 * base ^ cs.length + numeral_value base cs := by
  simp only [numeral_value, List.reverse_cons, List.map_append, List.map_cons, List.map_nil,
    Nat.ofDigits_append, Nat.ofDigits_singleton, List.length_map, List.length_reverse]
  ring

theorem scan_digits_numeral (base : Nat) :
    ∀ (ds : List Char) (acc : Nat), (∀ c ∈ ds, ∃ d, digit_value c = some d ∧ d < base) →
      scan_digits base ds acc = acc * base ^ ds.length + numeral_value base ds := by
  intro ds
  induction ds with
  | nil => intro acc _; simp [scan_digits, numeral_value]
  | cons c cs ih =>
    intro acc h
    obtain ⟨d, hd, hlt⟩ := h c (List.mem_cons_self _ _)
    simp only [scan_digits, hd, hlt, if_true]
    rw [ih _ (fun x hx => h x (List.mem_cons_of_mem _ hx)), numeral_value_cons, hd]
    simp only [Option.getD_some, List.length_cons, pow_succ]
    ring

theorem numeral_value_lt (base : Nat) (hb : 1 < base) (ds : List Char)
    (h : ∀ c ∈ ds, ∃ d, digit_value c = some d ∧ d < base) :
    numeral_value base ds < base ^ ds.length := by
  have := Nat.ofDigits_lt_base_pow_length (b := base)
    (l := ds.reverse.map (fun c => (digit_value c).getD 0)) hb (by
      intro x hx
      simp only [List.mem_map, List.mem_reverse] at hx
      obtain ⟨c, hc, rfl⟩ := hx
      obtain ⟨d, hd, hlt⟩ := h c hc
      rw [hd]
      exact hlt)
  simpa [numeral_value] using this

theorem strto_subject_numeral (base : Nat) (ds : List Char) (hb : base = 10 ∨ base = 16)
    (h : is_numeral base ds = true) :
    strto_subject base ds = (false, numeral_value base ds) := by
  obtain ⟨hne, hd⟩ := is_numeral_spec h
  cases ds with
  | nil => exact absurd rfl hne
  | cons c cs =>
    obtain ⟨d, hc, hlt⟩ := hd c (List.mem_cons_self _ _)
    obtain ⟨h1, h2, h3⟩ := digit_not_space hc
    have hx : (base == 16 && (c :: cs).head? == some '0'
        && ((c :: cs).tail.head? == some 'x' || (c :: cs).tail.head? == some 'X')) = false := by
      cases cs with
      | nil => simp
      | cons x xs =>
        obtain ⟨dx, hdx, hltx⟩ := hd x (List.mem_cons_of_mem _ (List.mem_cons_self _ _))
        have hb16 : dx < 16 := by rcases hb with hb | hb <;> omega
        have n1 : x ≠ 'x' := by
          intro hxx; subst hxx
          have : digit_value 'x' = some 33 := by decide
          rw [this] at hdx
          simp only [Option.some.injEq] at hdx
          omega
        have n2 : x ≠ 'X' := by
          intro hxx; subst hxx
          have : digit_value 'X' = some 33 := by decide
          rw [this] at hdx
          simp only [Option.some.injEq] at hdx
          omega
        simp [n1, n2]
    unfold strto_subject
    simp only [List.dropWhile_cons, h1, Bool.false_eq_true, if_false, List.head?_cons,
      Option.some.injEq, beq_iff_eq, h2, h3, Bool.or_self, decide_False, hx]
    have := scan_digits_numeral base (c :: cs) 0 hd
    simp only [zero_mul, zero_add] at this
    have hx' : ¬ ((base = 16 ∧ c = '0') ∧ (cs.head? = some 'x' ∨ cs.head? = some 'X')) := by
      intro hcon
      obtain ⟨⟨e1, e2⟩, e3⟩ := hcon
      subst e1 e2
      rcases e3 with e3 | e3 <;> simp [e3] at hx
    simp [this, h2, h3, hx']

theorem strtoull_numeral (base : Nat) (ds : List Char) (hb : base = 10 ∨ base = 16)
    (h : is_numeral base ds = true) (hv : numeral_value base ds < 18446744073709551616) :
    strtoull base ds = (numeral_value base ds, false) := by
  simp only [strtoull, strto_subject_numeral base ds hb h]
  simp [Nat.not_le.2 hv]

theorem strtoll_numeral (base : Nat) (ds : List Char) (hb : base = 10 ∨ base = 16)
    (h : is_numeral base ds = true) (hv : numeral_value base ds < 9223372036854775808) :
    strtoll base ds = ((numeral_value base ds : Int), false) := by
  simp only [strtoll, strto_subject_numeral base ds hb h]
  simp [Nat.not_le.2 hv]

theorem hex_numeral_lt (ds : List Char) (h : is_numeral 16 ds = true) (hl : ds.length ≤ 16) :
    numeral_value 16 ds < 18446744073709551616 := by
  have h1 := numeral_value_lt 16 (by decide) ds (is_numeral_spec h).2
  have h2 : 16 ^ ds.length ≤ 16 ^ 16 := Nat.pow_le_pow_right (by decide) hl
  have h3 : (16 : Nat) ^ 16 = 18446744073709551616 := by norm_num
  omega

theorem kernel_label_value :
    ∀ l ∈ kernel_labels,
      (strtoull 16 (l ++ [':'])).2 = false ∧
      ((strtoull 16 (l ++ [':'])).1 = 0 ∨ (strtoull 16 (l ++ [':'])).1 = 10) ∧
      (l ++ [':']).length < 127 ∧ l ++ [':'] ≠ [] ∧
      (∀ c ∈ l ++ [':'], c ≠ ' ' ∧ c ≠ '-' ∧ c ≠ NUL) := by
  decide

/-! ## The address range of a line -/

theorem tokenize_token0 (d : Char) (cap k i : Nat) (t rest : List Char)
    (toks : List (List Char)) (hne : t ≠ []) (ht : ∀ c ∈ t, c ≠ d) :
    tokenize d cap (k + 1) i (t ++ d :: rest) toks
      = tokenize d cap k (i + 1) rest (toks.set i (strncpy (toks.getD i []) t (cap - 1))) := by
  have := tokenize_token d cap k i 0 t rest toks hne ht
  simpa using this

theorem tokenize_last0 (d : Char) (cap k i : Nat) (t : List Char)
    (toks : List (List Char)) (hne : t ≠ []) (ht : ∀ c ∈ t, c ≠ d) :
    tokenize d cap (k + 1) i t toks
      = toks.set i (strncpy (toks.getD i []) t (cap - 1)) := by
  have := tokenize_last d cap k i 0 t toks hne ht
  simpa using this

theorem numeral_chars {base : Nat} {ds : List Char} (h : is_numeral base ds = true) :
    ∀ c ∈ ds, c ≠ '-' ∧ c ≠ NUL ∧ c ≠ ' ' ∧ c ≠ '\n' := by
  intro c hc
  obtain ⟨d, hd, _⟩ := (is_numeral_spec h).2 c hc
  have hge := digit_value_ge hd
  refine ⟨(digit_not_space hd).2.1, ?_, ?_, ?_⟩ <;>
    (intro hcc; subst hcc; revert hge; decide)

theorem get_addr_range_header (g : Nat → List Char) (buf start stop : List Char)
    (hb : c_str buf = start ++ '-' :: stop)
    (h1 : is_numeral 16 start = true) (l1 : start.length ≤ 16)
    (h2 : is_numeral 16 stop = true) (l2 : stop.length ≤ 16) :
    mmcu_proc_smaps.get_addr_range (uninit 2 g) buf
      = .ok (numeral_value 16 start, numeral_value 16 stop) := by
  have c1 := numeral_chars h1
  have c2 := numeral_chars h2
  have n1 := (is_numeral_spec h1).1
  have n2 := (is_numeral_spec h2).1
  have t : tokenize '-' 128 2 0 (c_str buf) (uninit 2 g)
      = ((uninit 2 g).set 0 (strncpy ((uninit 2 g).getD 0 []) start 127)).set 1
          (strncpy (((uninit 2 g).set 0 (strncpy ((uninit 2 g).getD 0 []) start 127)).getD 1 [])
            stop 127) := by
    rw [hb, tokenize_token0 '-' 128 1 0 start stop _ n1 (fun c hc => (c1 c hc).1),
      tokenize_last0 '-' 128 0 1 stop _ n2 (fun c hc => (c2 c hc).1)]
  unfold mmcu_proc_smaps.get_addr_range
  simp only [t]
  rw [getD_set_self _ 1 _ (by simp [uninit_length]),
    getD_set_ne _ 1 0 _ (by decide), getD_set_self _ 0 _ (by simp [uninit_length]),
    strncpy_c_str _ start 127 (fun c hc => (c1 c hc).2.1) (by omega),
    strncpy_c_str _ stop 127 (fun c hc => (c2 c hc).2.1) (by omega),
    strtoull_numeral 16 start (Or.inr rfl) h1 (hex_numeral_lt start h1 l1),
    strtoull_numeral 16 stop (Or.inr rfl) h2 (hex_numeral_lt stop h2 l2)]
  simp

theorem get_addr_range_label (g : Nat → List Char) (buf label : List Char)
    (hl : label ∈ kernel_labels) (hb : c_str buf = label ++ [':']) :
    mmcu_proc_smaps.get_addr_range (uninit 2 g) buf
      = if (strtoull 16 (c_str (g 1))).2 then .error .exit_failure
        else .ok ((strtoull 16 (label ++ [':'])).1, (strtoull 16 (c_str (g 1))).1) := by
  obtain ⟨e, v, len, ne, ch⟩ := kernel_label_value label hl
  have t : tokenize '-' 128 2 0 (c_str buf) (uninit 2 g)
      = (uninit 2 g).set 0 (strncpy ((uninit 2 g).getD 0 []) (label ++ [':']) 127) := by
    rw [hb, tokenize_last0 '-' 128 1 0 _ _ ne (fun c hc => (ch c hc).2.1)]
  unfold mmcu_proc_smaps.get_addr_range
  simp only [t]
  rw [getD_set_self _ 0 _ (by simp [uninit_length]), getD_set_ne _ 0 1 _ (by decide),
    uninit_getD 2 g 1 (by decide),
    strncpy_c_str _ _ 127 (fun c hc => (ch c hc).2.2) (by omega)]
  simp [e]

/-! ## The PSS line -/

theorem is_token_spec {t : List Char} (h : is_token t = true) :
    t ≠ [] ∧ (∀ c ∈ t, c ≠ ' ') ∧ (∀ c ∈ t, c ≠ NUL) := by
  simp only [is_token, Bool.and_eq_true, Bool.not_eq_true', List.isEmpty_eq_false,
    List.all_eq_true, bne_iff_ne, ne_eq] at h
  exact ⟨by simpa using h.1, fun c hc => (h.2 c hc).1, fun c hc => (h.2 c hc).2⟩

theorem token_end_spec {tl : List Char} (h : token_end tl = true) :
    c_str tl = [] ∨ ∃ y, c_str tl = ' ' :: y := by
  cases tl with
  | nil => exact Or.inl rfl
  | cons c y =>
    simp only [token_end, Bool.or_eq_true, beq_iff_eq] at h
    rcases h with h | h
    · subst h
      refine Or.inr ⟨c_str y, ?_⟩
      have : (' ' != NUL) = true := by decide
      simp [c_str, List.takeWhile_cons, this]
    · subst h
      exact Or.inl (c_str_nul y)

theorem c_str_padded_token (p : Nat) (t tl : List Char) (ht : is_token t = true) :
    c_str (List.replicate p ' ' ++ (t ++ tl)) = List.replicate p ' ' ++ (t ++ c_str tl) := by
  rw [c_str_append_of_no_nul _ _ (by
    intro c hc
    rw [List.eq_of_mem_replicate hc]
    decide), c_str_append_of_no_nul _ _ (is_token_spec ht).2.2]

/-- The array a token is copied to, whatever comes after the token. -/
theorem tokenize_slot (cap k i p : Nat) (t x : List Char) (toks : List (List Char))
    (ht : is_token t = true) (hx : x = [] ∨ ∃ y, x = ' ' :: y) (hi : i < toks.length) :
    (tokenize ' ' cap (k + 1) i (List.replicate p ' ' ++ (t ++ x)) toks).getD i []
      = strncpy (toks.getD i []) t (cap - 1) := by
  obtain ⟨hne, hsp, _⟩ := is_token_spec ht
  rcases hx with hx | ⟨y, hx⟩
  · subst hx
    rw [List.append_nil, tokenize_last ' ' cap k i p t toks hne hsp, getD_set_self _ _ _ hi]
  · subst hx
    rw [tokenize_token ' ' cap k i p t y toks hne hsp,
      tokenize_getD_lt ' ' cap k (i + 1) _ _ i (by omega), getD_set_self _ _ _ hi]

theorem pss_line_chars (r : smaps_region) (h : is_numeral 10 r.pss = true) :
    ∀ c ∈ pss_line r ++ ['\n'], c ≠ NUL := by
  intro c hc
  simp only [pss_line, List.append_assoc, List.mem_append, List.mem_cons, List.mem_replicate,
    List.mem_singleton] at hc
  rcases hc with hc | (hc | hc) | hc | hc | hc
  · revert c; decide
  · subst hc; decide
  · rw [hc.2]; decide
  · exact (numeral_chars h c hc).2.1
  · revert c; decide
  · rcases hc with hc | hc
    · subst hc; decide
    · cases hc

theorem get_pss_well_formed (g : Nat → List Char) (r : smaps_region) (tail : List Char)
    (hwf : well_formed_region r = true) :
    mmcu_proc_smaps.get_pss (uninit 3 g) (render_lines (region_lines r) ++ tail)
      = .ok ((numeral_value 10 r.pss : Int), render_lines r.rest ++ tail) := by
  simp only [well_formed_region, Bool.and_eq_true, decide_eq_true_eq, beq_iff_eq,
    List.all_eq_true] at hwf
  obtain ⟨⟨⟨⟨⟨⟨⟨⟨_, hs⟩, hr⟩, hn⟩, hv⟩, hl⟩, hp⟩, hlen⟩, hrest⟩ := hwf
  have hall : ∀ l ∈ region_lines r, text_line l = true := by
    intro l hl
    simp only [region_lines, List.mem_cons] at hl
    rcases hl with hl | hl | hl | hl
    · rw [hl]; exact hs
    · rw [hl]; exact hr
    · rw [hl]; exact hp
    · exact hrest l hl
  have hskip := skip_lines_rendered tail 2 (region_lines r) hall (by simp [region_lines])
  have hdrop : render_lines ((region_lines r).drop 2) ++ tail
      = pss_line r ++ '\n' :: (render_lines r.rest ++ tail) := by
    simp [region_lines, render_lines]
  have hf := fgets_line (pss_line r) (render_lines r.rest ++ tail) hp
  have hc := c_str_of_no_nul _ (pss_line_chars r hn)
  have nc := numeral_chars hn
  have hline : pss_line r ++ ['\n']
      = "Pss:".toList ++ ' ' :: (List.replicate r.pss_pad ' ' ++ (r.pss ++ ' ' :: "kB\n".toList)) := by
    simp [pss_line]
  have t : tokenize ' ' PATH_MAX 3 0 (c_str (pss_line r ++ ['\n'])) (uninit 3 g)
      = (((uninit 3 g).set 0 (strncpy (g 0) "Pss:".toList (PATH_MAX - 1))).set 1
          (strncpy (g 1) r.pss (PATH_MAX - 1))).set 2
            (strncpy (g 2) "kB\n".toList (PATH_MAX - 1)) := by
    rw [hc, hline, tokenize_token0 ' ' PATH_MAX 2 0 _ _ _ (by decide) (by decide),
      tokenize_token ' ' PATH_MAX 1 1 r.pss_pad r.pss _ _ (is_numeral_spec hn).1
        (fun c hc => (nc c hc).2.2.1),
      tokenize_last0 ' ' PATH_MAX 0 2 _ _ (by decide) (by decide)]
    rw [getD_set_ne _ 1 2 _ (by decide), getD_set_ne _ 0 2 _ (by decide),
      getD_set_ne _ 0 1 _ (by decide), uninit_getD 3 g 0 (by decide),
      uninit_getD 3 g 1 (by decide), uninit_getD 3 g 2 (by decide)]
  unfold mmcu_proc_smaps.get_pss
  simp only [hskip, hdrop, hf, t]
  rw [getD_set_ne _ 2 0 _ (by decide), getD_set_ne _ 1 0 _ (by decide),
    getD_set_self _ 0 _ (by simp [uninit_length]),
    getD_set_self _ 2 _ (by simp [uninit_length]),
    getD_set_ne _ 2 1 _ (by decide), getD_set_self _ 1 _ (by simp [uninit_length]),
    strncpy_c_str _ "Pss:".toList _ (by decide) (by decide),
    strncpy_c_str _ "kB\n".toList _ (by decide) (by decide),
    strncpy_c_str _ r.pss _ (fun c hc => (nc c hc).2.1) hl,
    strtoll_numeral 10 r.pss (Or.inl rfl) hn hv]
  simp [strncmp_eq]

/-! ## The header line -/

theorem no_blank_spec {f : List Char} (h : no_blank f = true) :
    ∀ c ∈ f, c ≠ ' ' ∧ c ≠ '\n' ∧ c ≠ NUL := by
  simp only [no_blank, List.all_eq_true, Bool.and_eq_true, bne_iff_ne, ne_eq] at h
  intro c hc
  exact ⟨(h c hc).1.1, (h c hc).1.2, (h c hc).2⟩

theorem is_field_spec {f : List Char} (h : is_field f = true) :
    f ≠ [] ∧ (∀ c ∈ f, c ≠ ' ' ∧ c ≠ '\n' ∧ c ≠ NUL) ∧ f.length < PATH_MAX - 1 := by
  simp only [is_field, Bool.and_eq_true, Bool.not_eq_true', List.isEmpty_eq_false,
    decide_eq_true_eq] at h
  exact ⟨by simpa using h.1.1, no_blank_spec h.1.2, h.2⟩

/-- The header line without its newline. -/
theorem render_header_eq (r : smaps_region) :
    render_header r
      = (r.start ++ '-' :: r.stop) ++ ' ' :: (r.perms ++ ' ' :: (r.offset ++ ' ' :: (r.dev
          ++ ' ' :: (r.inode ++ ' ' :: (List.replicate r.pad ' ' ++ (r.path ++ ['\n'])))))) := by
  simp [render_header]

structure header_facts (r : smaps_region) : Prop where
  start : is_numeral 16 r.start = true
  start_len : r.start.length ≤ 16
  stop : is_numeral 16 r.stop = true
  stop_len : r.stop.length ≤ 16
  perms : is_field r.perms = true
  offset : is_field r.offset = true
  dev : is_field r.dev = true
  inode : is_field r.inode = true
  path : no_blank r.path = true
  path_len : r.path.length + 1 < PATH_MAX - 1
  len : (render_header r).length < 2 * PATH_MAX - 1

theorem well_formed_header_spec {r : smaps_region} (h : well_formed_header r = true) :
    header_facts r := by
  simp only [well_formed_header, Bool.and_eq_true, decide_eq_true_eq] at h
  obtain ⟨⟨⟨⟨⟨⟨⟨⟨⟨⟨a, b⟩, c⟩, d⟩, e⟩, f⟩, g⟩, i⟩, j⟩, k⟩, l⟩ := h
  exact ⟨a, b, c, d, e, f, g, i, j, k, l⟩

theorem mem_field_sep {c : Char} {f rest : List Char} (h : c ∈ f ++ ' ' :: rest) :
    c ∈ f ∨ c = ' ' ∨ c ∈ rest := by
  rcases List.mem_append.1 h with h | h
  · exact Or.inl h
  · rcases List.mem_cons.1 h with h | h
    · exact Or.inr (Or.inl h)
    · exact Or.inr (Or.inr h)

theorem header_line {r : smaps_region} (h : header_facts r) :
    ∃ body, render_header r = body ++ ['\n'] ∧ text_line body = true ∧ ∀ c ∈ body, c ≠ NUL := by
  refine ⟨(r.start ++ '-' :: r.stop) ++ ' ' :: (r.perms ++ ' ' :: (r.offset ++ ' ' :: (r.dev
    ++ ' ' :: (r.inode ++ ' ' :: (List.replicate r.pad ' ' ++ r.path))))), ?_, ?_⟩
  · simp [render_header]
  have key : ∀ c ∈ (r.start ++ '-' :: r.stop) ++ ' ' :: (r.perms ++ ' ' :: (r.offset ++ ' ' ::
      (r.dev ++ ' ' :: (r.inode ++ ' ' :: (List.replicate r.pad ' ' ++ r.path))))),
      c ≠ NUL ∧ c ≠ '\n' := by
    intro c hc
    have n1 := numeral_chars h.start
    have n2 := numeral_chars h.stop
    have f1 := (is_field_spec h.perms).2.1
    have f2 := (is_field_spec h.offset).2.1
    have f3 := (is_field_spec h.dev).2.1
    have f4 := (is_field_spec h.inode).2.1
    have f5 := no_blank_spec h.path
    have sp : (' ' : Char) ≠ NUL ∧ (' ' : Char) ≠ '\n' := by decide
    rcases mem_field_sep hc with hc | hc | hc
    · rcases List.mem_append.1 hc with hc | hc
      · exact ⟨(n1 c hc).2.1, (n1 c hc).2.2.2⟩
      · rcases List.mem_cons.1 hc with hc | hc
        · rw [hc]; decide
        · exact ⟨(n2 c hc).2.1, (n2 c hc).2.2.2⟩
    · rw [hc]; exact sp
    rcases mem_field_sep hc with hc | hc | hc
    · exact ⟨(f1 c hc).2.2, (f1 c hc).2.1⟩
    · rw [hc]; exact sp
    rcases mem_field_sep hc with hc | hc | hc
    · exact ⟨(f2 c hc).2.2, (f2 c hc).2.1⟩
    · rw [hc]; exact sp
    rcases mem_field_sep hc with hc | hc | hc
    · exact ⟨(f3 c hc).2.2, (f3 c hc).2.1⟩
    · rw [hc]; exact sp
    rcases mem_field_sep hc with hc | hc | hc
    · exact ⟨(f4 c hc).2.2, (f4 c hc).2.1⟩
    · rw [hc]; exact sp
    rcases List.mem_append.1 hc with hc | hc
    · rw [List.eq_of_mem_replicate hc]; exact sp
    · exact ⟨(f5 c hc).2.2, (f5 c hc).2.1⟩
  refine ⟨?_, fun c hc => (key c hc).1⟩
  have hlen := h.len
  have e : render_header r = ((r.start ++ '-' :: r.stop) ++ ' ' :: (r.perms ++ ' ' ::
      (r.offset ++ ' ' :: (r.dev ++ ' ' :: (r.inode ++ ' ' ::
        (List.replicate r.pad ' ' ++ r.path)))))) ++ ['\n'] := by
    simp [render_header]
  rw [e, List.length_append] at hlen
  simp only [text_line, Bool.and_eq_true, List.all_eq_true, bne_iff_ne, ne_eq,
    decide_eq_true_eq]
  exact ⟨fun c hc => (key c hc).2, by simpa using hlen⟩

theorem header_chars {r : smaps_region} (h : header_facts r) :
    ∀ c ∈ render_header r, c ≠ NUL := by
  obtain ⟨body, e, _, hb⟩ := header_line h
  intro c hc
  rw [e] at hc
  rcases List.mem_append.1 hc with hc | hc
  · exact hb c hc
  · rw [List.mem_singleton.1 hc]; decide

/-- The arrays the tokenizer fills from a header line. -/
theorem tokenize_header (g : Nat → List Char) (r : smaps_region) (h : header_facts r) :
    c_str ((tokenize ' ' PATH_MAX 6 0 (c_str (render_header r)) (uninit 6 g)).getD 0 [])
      = r.start ++ '-' :: r.stop ∧
    ((tokenize ' ' PATH_MAX 6 0 (c_str (render_header r)) (uninit 6 g)).getD 1 []).getD 3 NUL
      = r.perms.getD 3 NUL ∧
    c_str ((tokenize ' ' PATH_MAX 6 0 (c_str (render_header r)) (uninit 6 g)).getD 5 [])
      = r.path ++ ['\n'] := by
  have n1 := numeral_chars h.start
  have n2 := numeral_chars h.stop
  obtain ⟨p1, p2, p3⟩ := is_field_spec h.perms
  obtain ⟨o1, o2, _⟩ := is_field_spec h.offset
  obtain ⟨d1, d2, _⟩ := is_field_spec h.dev
  obtain ⟨i1, i2, _⟩ := is_field_spec h.inode
  have f5 := no_blank_spec h.path
  have t0ne : r.start ++ '-' :: r.stop ≠ [] := by simp
  have t0 : ∀ c ∈ r.start ++ '-' :: r.stop, c ≠ ' ' ∧ c ≠ NUL := by
    intro c hc
    rcases List.mem_append.1 hc with hc | hc
    · exact ⟨(n1 c hc).2.2.1, (n1 c hc).2.1⟩
    · rcases List.mem_cons.1 hc with hc | hc
      · rw [hc]; decide
      · exact ⟨(n2 c hc).2.2.1, (n2 c hc).2.1⟩
  have t5ne : r.path ++ ['\n'] ≠ [] := by simp
  have t5 : ∀ c ∈ r.path ++ ['\n'], c ≠ ' ' ∧ c ≠ NUL := by
    intro c hc
    rcases List.mem_append.1 hc with hc | hc
    · exact ⟨(f5 c hc).1, (f5 c hc).2.2⟩
    · rw [List.mem_singleton.1 hc]; decide
  have t : tokenize ' ' PATH_MAX 6 0 (c_str (render_header r)) (uninit 6 g)
      = ((((((uninit 6 g).set 0 (strncpy (g 0) (r.start ++ '-' :: r.stop) (PATH_MAX - 1))).set 1
          (strncpy (g 1) r.perms (PATH_MAX - 1))).set 2
          (strncpy (g 2) r.offset (PATH_MAX - 1))).set 3
          (strncpy (g 3) r.dev (PATH_MAX - 1))).set 4
          (strncpy (g 4) r.inode (PATH_MAX - 1))).set 5
          (strncpy (g 5) (r.path ++ ['\n']) (PATH_MAX - 1)) := by
    rw [c_str_of_no_nul _ (header_chars h), render_header_eq,
      tokenize_token0 ' ' PATH_MAX 5 0 _ _ _ t0ne (fun c hc => (t0 c hc).1),
      tokenize_token0 ' ' PATH_MAX 4 1 _ _ _ p1 (fun c hc => (p2 c hc).1),
      tokenize_token0 ' ' PATH_MAX 3 2 _ _ _ o1 (fun c hc => (o2 c hc).1),
      tokenize_token0 ' ' PATH_MAX 2 3 _ _ _ d1 (fun c hc => (d2 c hc).1),
      tokenize_token0 ' ' PATH_MAX 1 4 _ _ _ i1 (fun c hc => (i2 c hc).1),
      tokenize_last ' ' PATH_MAX 0 5 r.pad _ _ t5ne (fun c hc => (t5 c hc).1)]
    simp only [List.getD_eq_getElem?_getD, List.getElem?_set, uninit_length, uninit]
    simp
  rw [t]
  have hl0 : (r.start ++ '-' :: r.stop).length < PATH_MAX - 1 := by
    have := h.start_len
    have := h.stop_len
    simp only [List.length_append, List.length_cons, PATH_MAX]
    omega
  have hl5 : (r.path ++ ['\n']).length < PATH_MAX - 1 := by
    have := h.path_len
    simpa using this
  refine ⟨?_, ?_, ?_⟩
  · simp only [List.getD_eq_getElem?_getD, List.getElem?_set, uninit_length]
    simp only [show ¬ (5 = 0) by decide, show ¬ (4 = 0) by decide, show ¬ (3 = 0) by decide,
      show ¬ (2 = 0) by decide, show ¬ (1 = 0) by decide, if_false, if_true,
      show (0 : Nat) < 6 by decide, Option.getD_some]
    exact strncpy_c_str _ _ _ (fun c hc => (t0 c hc).2) hl0
  · simp only [List.getD_eq_getElem?_getD, List.getElem?_set, uninit_length, List.length_set]
    simp only [show ¬ (5 = 1) by decide, show ¬ (4 = 1) by decide, show ¬ (3 = 1) by decide,
      show ¬ (2 = 1) by decide, if_false, if_true,
      show (1 : Nat) < 6 by decide, Option.getD_some]
    have := strncpy_getD (g 1) r.perms (PATH_MAX - 1) 3 (by decide)
    simpa [List.getD_eq_getElem?_getD] using this
  · simp only [List.getD_eq_getElem?_getD, List.getElem?_set, uninit_length, List.length_set]
    simp only [if_true, show (5 : Nat) < 6 by decide, Option.getD_some]
    exact strncpy_c_str _ _ _ (fun c hc => (t5 c hc).2) hl5

/-! ## The address scan, line by line -/

theorem entry_scan_succ (u : uninit_stack) (t : Nat) (res : mmcu_proc_smaps_entry)
    (fuel : Nat) (mapsf : List Char) :
    mmcu_proc_smaps.entry_scan u t res (fuel + 1) mapsf =
    match fgets (2 * PATH_MAX - 1) mapsf with
    | none => .ok none
    | some (cline_buff, rest) =>
      match mmcu_proc_smaps.get_addr_range (uninit 2 (u.addr_strs mapsf.length))
          ((tokenize ' ' PATH_MAX 6 0 (c_str cline_buff) (uninit 6 (u.toks mapsf.length))).getD 0 []) with
      | .error f => .error f
      | .ok (addr_start, addr_end) =>
        if t = addr_start then
          .ok (some ({ res with
            addr_start := addr_start
            addr_end := addr_end
            reg_shared := mmcu_proc_smaps.entry_has_shared_perms
              ((tokenize ' ' PATH_MAX 6 0 (c_str cline_buff) (uninit 6 (u.toks mapsf.length))).getD 1 [])
            path :=
              if mmcu_proc_smaps.entry_has_shared_perms
                ((tokenize ' ' PATH_MAX 6 0 (c_str cline_buff) (uninit 6 (u.toks mapsf.length))).getD 1 [])
              then (c_str ((tokenize ' ' PATH_MAX 6 0 (c_str cline_buff)
                (uninit 6 (u.toks mapsf.length))).getD 5 [])).take (PATH_MAX - 1)
              else res.path }, rest))
        else mmcu_proc_smaps.entry_scan u t res fuel rest := by
  rfl

theorem entry_scan_fuel (u : uninit_stack) (t : Nat) (res : mmcu_proc_smaps_entry) :
    ∀ (n fuel : Nat) (f : List Char), f.length < fuel → fuel ≤ n →
      mmcu_proc_smaps.entry_scan u t res fuel f
        = mmcu_proc_smaps.entry_scan u t res (f.length + 1) f := by
  intro n
  induction n with
  | zero => intro fuel f h1 h2; omega
  | succ n ih =>
    intro fuel f h1 h2
    cases fuel with
    | zero => omega
    | succ fuel =>
      rw [entry_scan_succ, entry_scan_succ]
      cases hf : fgets (2 * PATH_MAX - 1) f with
      | none => rfl
      | some x =>
        obtain ⟨line, rest⟩ := x
        have hlt := fgets_length_lt hf
        simp only []
        rw [ih fuel rest (by omega) (by omega), ih f.length rest hlt (by omega)]

theorem entry_scan_step (u : uninit_stack) (t : Nat) (res : mmcu_proc_smaps_entry)
    (f line rest : List Char) (hf : fgets (2 * PATH_MAX - 1) f = some (line, rest)) :
    mmcu_proc_smaps.entry_scan u t res (f.length + 1) f
      = match mmcu_proc_smaps.get_addr_range (uninit 2 (u.addr_strs f.length))
          ((tokenize ' ' PATH_MAX 6 0 (c_str line) (uninit 6 (u.toks f.length))).getD 0 []) with
        | .error e => .error e
        | .ok (addr_start, addr_end) =>
          if t = addr_start then
            .ok (some ({ res with
              addr_start := addr_start
              addr_end := addr_end
              reg_shared := mmcu_proc_smaps.entry_has_shared_perms
                ((tokenize ' ' PATH_MAX 6 0 (c_str line) (uninit 6 (u.toks f.length))).getD 1 [])
              path :=
                if mmcu_proc_smaps.entry_has_shared_perms
                  ((tokenize ' ' PATH_MAX 6 0 (c_str line) (uninit 6 (u.toks f.length))).getD 1 [])
                then (c_str ((tokenize ' ' PATH_MAX 6 0 (c_str line)
                  (uninit 6 (u.toks f.length))).getD 5 [])).take (PATH_MAX - 1)
                else res.path }, rest))
          else mmcu_proc_smaps.entry_scan u t res (rest.length + 1) rest := by
  have hlt := fgets_length_lt hf
  rw [entry_scan_succ]
  simp only [hf]
  rw [entry_scan_fuel u t res f.length f.length rest hlt (le_refl _)]

theorem entry_scan_header (u : uninit_stack) (t : Nat) (res : mmcu_proc_smaps_entry)
    (r : smaps_region) (tail : List Char) (h : header_facts r) :
    mmcu_proc_smaps.entry_scan u t res ((render_header r ++ tail).length + 1)
        (render_header r ++ tail)
      = if t = numeral_value 16 r.start then .ok (some (header_entry res r, tail))
        else mmcu_proc_smaps.entry_scan u t res (tail.length + 1) tail := by
  obtain ⟨body, e, hb, _⟩ := header_line h
  have hf : fgets (2 * PATH_MAX - 1) (render_header r ++ tail)
      = some (render_header r, tail) := by
    rw [e]
    have := fgets_line body tail hb
    simpa using this
  rw [entry_scan_step u t res _ _ _ hf]
  obtain ⟨a, b, c⟩ := tokenize_header (u.toks (render_header r ++ tail).length) r h
  rw [get_addr_range_header _ _ r.start r.stop a h.start h.start_len h.stop h.stop_len]
  simp only [mmcu_proc_smaps.entry_has_shared_perms, b, c, header_entry]
  have hl : (r.path ++ ['\n']).length ≤ PATH_MAX - 1 := by
    have := h.path_len
    simp only [List.length_append, List.length_singleton]
    omega
  rw [List.take_of_length_le hl]

theorem labelled_line_spec {l : List Char} (h : labelled_line l = true) :
    ∃ label ∈ kernel_labels, ∃ body, l = label ++ ':' :: ' ' :: body := by
  simp only [labelled_line, List.any_eq_true] at h
  obtain ⟨label, hl, hp⟩ := h
  rw [List.isPrefixOf_iff_prefix] at hp
  obtain ⟨body, hb⟩ := hp
  exact ⟨label, hl, body, by rw [← hb]; simp⟩

theorem entry_scan_labelled (u : uninit_stack) (t : Nat) (res : mmcu_proc_smaps_entry)
    (label body tail : List Char) (hl : label ∈ kernel_labels)
    (ht : text_line (label ++ ':' :: ' ' :: body) = true) :
    ∃ e, mmcu_proc_smaps.entry_scan u t res
        ((label ++ ':' :: ' ' :: body ++ '\n' :: tail).length + 1)
        (label ++ ':' :: ' ' :: body ++ '\n' :: tail)
      = if (strtoull 16 (c_str (u.addr_strs
            (label ++ ':' :: ' ' :: body ++ '\n' :: tail).length 1))).2
        then .error .exit_failure
        else if t = (strtoull 16 (label ++ [':'])).1 then .ok (some (e, tail))
        else mmcu_proc_smaps.entry_scan u t res (tail.length + 1) tail := by
  obtain ⟨_, _, len, ne, ch⟩ := kernel_label_value label hl
  have hf := fgets_line (label ++ ':' :: ' ' :: body) tail ht
  have hc : c_str ((label ++ ':' :: ' ' :: body) ++ ['\n'])
      = List.replicate 0 ' ' ++ ((label ++ [':']) ++ ' ' :: c_str (body ++ ['\n'])) := by
    have e : (label ++ ':' :: ' ' :: body) ++ ['\n']
        = (label ++ [':']) ++ (' ' :: (body ++ ['\n'])) := by simp
    rw [e, c_str_append_of_no_nul _ _ (fun c hc => (ch c hc).2.2)]
    have : (' ' != NUL) = true := by decide
    simp [c_str, List.takeWhile_cons, this]
  have htok : is_token (label ++ [':']) = true := by
    simp only [is_token, Bool.and_eq_true, Bool.not_eq_true', List.isEmpty_eq_false,
      List.all_eq_true, bne_iff_ne, ne_eq]
    exact ⟨by simp, fun c hc => ⟨(ch c hc).1, (ch c hc).2.2⟩⟩
  have hs := tokenize_slot PATH_MAX 5 0 0 (label ++ [':']) (' ' :: c_str (body ++ ['\n']))
    (uninit 6 (u.toks (label ++ ':' :: ' ' :: body ++ '\n' :: tail).length)) htok
    (Or.inr ⟨_, rfl⟩) (by simp [uninit_length])
  have hb : c_str ((tokenize ' ' PATH_MAX 6 0 (c_str ((label ++ ':' :: ' ' :: body) ++ ['\n']))
      (uninit 6 (u.toks (label ++ ':' :: ' ' :: body ++ '\n' :: tail).length))).getD 0 [])
      = label ++ [':'] := by
    rw [hc, hs]
    exact strncpy_c_str _ _ _ (fun c hc => (ch c hc).2.2) (by simp only [PATH_MAX]; omega)
  rw [entry_scan_step u t res _ _ _ hf, get_addr_range_label _ _ label hl hb]
  by_cases he : (strtoull 16 (c_str (u.addr_strs
      (label ++ ':' :: ' ' :: body ++ '\n' :: tail).length 1))).2 = true
  · exact ⟨res, by simp only [he, if_true]⟩
  · simp only [he, Bool.false_eq_true, if_false]
    exact ⟨_, rfl⟩

/-! ## The address scan over whole regions -/

theorem region_facts {r : smaps_region} (h : well_formed_region r = true) :
    header_facts r ∧ (∀ l ∈ region_lines r, text_line l = true) ∧ r.rest.length = 15 := by
  simp only [well_formed_region, Bool.and_eq_true, decide_eq_true_eq, beq_iff_eq,
    List.all_eq_true] at h
  obtain ⟨⟨⟨⟨⟨⟨⟨⟨hh, hs⟩, hr⟩, hn⟩, hv⟩, hl⟩, hp⟩, hlen⟩, hrest⟩ := h
  refine ⟨well_formed_header_spec hh, ?_, hlen⟩
  intro l hl
  simp only [region_lines, List.mem_cons] at hl
  rcases hl with hl | hl | hl | hl
  · rw [hl]; exact hs
  · rw [hl]; exact hr
  · rw [hl]; exact hp
  · exact hrest l hl

theorem region_labels {r : smaps_region} (h : labelled_region r = true) :
    ∀ l ∈ region_lines r, labelled_line l = true := by
  simp only [labelled_region, Bool.and_eq_true, List.all_eq_true] at h
  intro l hl
  simp only [region_lines, List.mem_cons] at hl
  rcases hl with hl | hl | hl | hl
  · rw [hl]; exact h.1.1
  · rw [hl]; exact h.1.2
  · rw [hl]
    simp only [labelled_line, List.any_eq_true]
    refine ⟨"Pss".toList, by decide, ?_⟩
    simp [pss_line]
  · exact h.2 l hl

theorem entry_scan_lines (u : uninit_stack) (t : Nat) (res : mmcu_proc_smaps_entry)
    (tail : List Char) (h0 : t ≠ 0) (hp : t % 4096 = 0) :
    ∀ (L : List (List Char)), (∀ l ∈ L, text_line l = true) →
      (∀ l ∈ L, labelled_line l = true) →
      (mmcu_proc_smaps.entry_scan u t res ((render_lines L ++ tail).length + 1)
          (render_lines L ++ tail) = .error .exit_failure ∨
        mmcu_proc_smaps.entry_scan u t res ((render_lines L ++ tail).length + 1)
          (render_lines L ++ tail)
          = mmcu_proc_smaps.entry_scan u t res (tail.length + 1) tail) ∧
      (benign u →
        mmcu_proc_smaps.entry_scan u t res ((render_lines L ++ tail).length + 1)
          (render_lines L ++ tail)
          = mmcu_proc_smaps.entry_scan u t res (tail.length + 1) tail) := by
  intro L
  induction L with
  | nil => intro _ _; exact ⟨Or.inr rfl, fun _ => rfl⟩
  | cons l L ih =>
    intro ht hl
    obtain ⟨label, hlab, body, hb⟩ := labelled_line_spec (hl l (List.mem_cons_self _ _))
    have htl := ht l (List.mem_cons_self _ _)
    rw [hb] at htl
    obtain ⟨e, he⟩ := entry_scan_labelled u t res label body (render_lines L ++ tail) hlab htl
    obtain ⟨_, hv, _⟩ := kernel_label_value label hlab
    have hne : t ≠ (strtoull 16 (label ++ [':'])).1 := by
      intro hc
      rcases hv with hv | hv
      · exact h0 (hc.trans hv)
      · rw [hv] at hc; rw [hc] at hp; revert hp; decide
    have e1 : render_lines (l :: L) ++ tail
        = label ++ ':' :: ' ' :: body ++ '\n' :: (render_lines L ++ tail) := by
      simp [render_lines, hb]
    obtain ⟨i1, i2⟩ := ih (fun x hx => ht x (List.mem_cons_of_mem _ hx))
      (fun x hx => hl x (List.mem_cons_of_mem _ hx))
    rw [e1, he]
    simp only [hne, if_false]
    refine ⟨?_, fun hben => ?_⟩
    · by_cases hr : (strtoull 16 (c_str (u.addr_strs
          (label ++ ':' :: ' ' :: body ++ '\n' :: (render_lines L ++ tail)).length 1))).2 = true
      · exact Or.inl (by simp only [hr, if_true])
      · simp only [hr, Bool.false_eq_true, if_false]
        exact i1
    · rw [hben _]
      simp only [Bool.false_eq_true, if_false]
      exact i2 hben

theorem entry_scan_region (u : uninit_stack) (t : Nat) (res : mmcu_proc_smaps_entry)
    (tail : List Char) (h0 : t ≠ 0) (hp : t % 4096 = 0) (r : smaps_region)
    (hwf : well_formed_region r = true) (hlab : labelled_region r = true)
    (hne : numeral_value 16 r.start ≠ t) :
    (mmcu_proc_smaps.entry_scan u t res ((render_region r ++ tail).length + 1)
        (render_region r ++ tail) = .error .exit_failure ∨
      mmcu_proc_smaps.entry_scan u t res ((render_region r ++ tail).length + 1)
        (render_region r ++ tail)
        = mmcu_proc_smaps.entry_scan u t res (tail.length + 1) tail) ∧
    (benign u →
      mmcu_proc_smaps.entry_scan u t res ((render_region r ++ tail).length + 1)
        (render_region r ++ tail)
        = mmcu_proc_smaps.entry_scan u t res (tail.length + 1) tail) := by
  obtain ⟨hh, hl, _⟩ := region_facts hwf
  have e : render_region r ++ tail
      = render_header r ++ (render_lines (region_lines r) ++ tail) := by
    simp [render_region]
  rw [e, entry_scan_header u t res r _ hh]
  simp only [Ne.symm hne, if_false]
  exact entry_scan_lines u t res tail h0 hp (region_lines r) hl (region_labels hlab)

theorem entry_scan_fixture (u : uninit_stack) (t : Nat) (res : mmcu_proc_smaps_entry)
    (tail : List Char) (h0 : t ≠ 0) (hp : t % 4096 = 0) :
    ∀ (pre : List smaps_region),
      (∀ r ∈ pre, well_formed_region r = true ∧ labelled_region r = true ∧
        numeral_value 16 r.start ≠ t) →
      (mmcu_proc_smaps.entry_scan u t res ((render_fixture pre ++ tail).length + 1)
          (render_fixture pre ++ tail) = .error .exit_failure ∨
        mmcu_proc_smaps.entry_scan u t res ((render_fixture pre ++ tail).length + 1)
          (render_fixture pre ++ tail)
          = mmcu_proc_smaps.entry_scan u t res (tail.length + 1) tail) ∧
      (benign u →
        mmcu_proc_smaps.entry_scan u t res ((render_fixture pre ++ tail).length + 1)
          (render_fixture pre ++ tail)
          = mmcu_proc_smaps.entry_scan u t res (tail.length + 1) tail) := by
  intro pre
  induction pre with
  | nil => intro _; exact ⟨Or.inr rfl, fun _ => rfl⟩
  | cons r pre ih =>
    intro h
    obtain ⟨hwf, hlab, hne⟩ := h r (List.mem_cons_self _ _)
    obtain ⟨i1, i2⟩ := ih (fun x hx => h x (List.mem_cons_of_mem _ hx))
    have e : render_fixture (r :: pre) ++ tail
        = render_region r ++ (render_fixture pre ++ tail) := by
      simp [render_fixture]
    obtain ⟨j1, j2⟩ := entry_scan_region u t res (render_fixture pre ++ tail) h0 hp r hwf hlab hne
    rw [e]
    refine ⟨?_, fun hben => (j2 hben).trans (i2 hben)⟩
    rcases j1 with j1 | j1
    · exact Or.inl j1
    · rw [j1]; exact i1

/-! ## The whole-process scan -/

theorem pss_total_scan_succ (u : uninit_stack) (fuel : Nat) (smapsf : List Char) (pss_sum : Int) :
    mmcu_proc_smaps.pss_total_scan u (fuel + 1) smapsf pss_sum =
    match fgets (2 * PATH_MAX - 1) smapsf with
    | none => .ok pss_sum
    | some (lb, rest) =>
      if (c_str ((tokenize ' ' PATH_MAX 6 0 (c_str lb)
          (uninit 6 (u.toks smapsf.length))).getD 5 [])).length = 0 then .error .length_error
      else
        match mmcu_proc_smaps.get_pss (uninit 3 (u.pss_tokens rest.length)) rest with
        | .error f => .error f
        | .ok (cur_pss, rest) =>
          mmcu_proc_smaps.pss_total_scan u fuel (skip_lines 15 rest)
            (if !mmcu_proc_smaps.has_suffix
                ((c_str ((tokenize ' ' PATH_MAX 6 0 (c_str lb)
                  (uninit 6 (u.toks smapsf.length))).getD 5 [])).take
                  ((c_str ((tokenize ' ' PATH_MAX 6 0 (c_str lb)
                    (uninit 6 (u.toks smapsf.length))).getD 5 [])).length - 1)) skip_suffix
             then to_ssize_t (pss_sum + cur_pss) else pss_sum) := by
  rfl

theorem get_pss_length_lt (g : List (List Char)) (f rest : List Char) (v : Int)
    (h : mmcu_proc_smaps.get_pss g f = .ok (v, rest)) : rest.length < f.length := by
  unfold mmcu_proc_smaps.get_pss at h
  cases hf : fgets (2 * PATH_MAX - 1) (skip_lines 2 f) with
  | none => simp only [hf] at h; cases h
  | some x =>
    obtain ⟨lb, r1⟩ := x
    simp only [hf] at h
    have h1 := fgets_length_lt hf
    have h2 := skip_lines_length_le 2 f
    split at h
    · cases h
    · split at h
      · cases h
      · split at h
        · cases h
        · simp only [Except.ok.injEq, Prod.mk.injEq] at h
          rw [← h.2]
          omega

theorem pss_total_scan_fuel (u : uninit_stack) :
    ∀ (n fuel : Nat) (f : List Char) (s : Int), f.length < fuel → fuel ≤ n →
      mmcu_proc_smaps.pss_total_scan u fuel f s
        = mmcu_proc_smaps.pss_total_scan u (f.length + 1) f s := by
  intro n
  induction n with
  | zero => intro fuel f s h1 h2; omega
  | succ n ih =>
    intro fuel f s h1 h2
    cases fuel with
    | zero => omega
    | succ fuel =>
      rw [pss_total_scan_succ, pss_total_scan_succ]
      cases hf : fgets (2 * PATH_MAX - 1) f with
      | none => rfl
      | some x =>
        obtain ⟨line, rest⟩ := x
        have hlt := fgets_length_lt hf
        simp only []
        split
        · rfl
        · cases hg : mmcu_proc_smaps.get_pss (uninit 3 (u.pss_tokens rest.length)) rest with
          | error e => rfl
          | ok y =>
            obtain ⟨v, r2⟩ := y
            have h3 := get_pss_length_lt _ _ _ _ hg
            have h4 := skip_lines_length_le 15 r2
            simp only []
            rw [ih fuel (skip_lines 15 r2) _ (by omega) (by omega),
              ih f.length (skip_lines 15 r2) _ (by omega) (by omega)]

theorem has_suffix_iff (s t : List Char) :
    mmcu_proc_smaps.has_suffix s t = true ↔ t <:+ s := by
  simp only [mmcu_proc_smaps.has_suffix, Bool.and_eq_true, decide_eq_true_eq,
    beq_iff_eq]
  constructor
  · intro h
    rw [List.suffix_iff_eq_drop]
    exact h.2.symm
  · intro h
    exact ⟨h.length_le, (List.suffix_iff_eq_drop.1 h).symm⟩

theorem pss_total_scan_region (u : uninit_stack) (r : smaps_region) (tail : List Char) (s : Int)
    (hwf : well_formed_region r = true) :
    mmcu_proc_smaps.pss_total_scan u ((render_region r ++ tail).length + 1)
        (render_region r ++ tail) s
      = mmcu_proc_smaps.pss_total_scan u (tail.length + 1) tail
          (if skip_suffix <:+ r.path then s else to_ssize_t (s + numeral_value 10 r.pss)) := by
  obtain ⟨hh, hl, hlen⟩ := region_facts hwf
  obtain ⟨body, e, hb, _⟩ := header_line hh
  have e1 : render_region r ++ tail
      = render_header r ++ (render_lines (region_lines r) ++ tail) := by
    simp [render_region]
  have hf : fgets (2 * PATH_MAX - 1) (render_header r ++ (render_lines (region_lines r) ++ tail))
      = some (render_header r, render_lines (region_lines r) ++ tail) := by
    rw [e]
    have := fgets_line body (render_lines (region_lines r) ++ tail) hb
    simpa using this
  obtain ⟨_, _, c⟩ := tokenize_header
    (u.toks (render_header r ++ (render_lines (region_lines r) ++ tail)).length) r hh
  have hskip : skip_lines 15 (render_lines r.rest ++ tail) = tail := by
    have := skip_lines_rendered tail 15 r.rest
      (fun l hl' => hl l (by simp [region_lines, hl'])) (by omega)
    rw [this, List.drop_of_length_le (by omega)]
    rfl
  rw [e1, pss_total_scan_succ]
  simp only [hf, c, get_pss_well_formed _ r tail hwf, hskip]
  rw [pss_total_scan_fuel u _ _ tail _ (by
    simp only [List.length_append]
    have : 0 < (render_header r).length := by rw [e]; simp
    omega) (le_refl _)]
  have hs : mmcu_proc_smaps.has_suffix r.path skip_suffix = decide (skip_suffix <:+ r.path) := by
    rw [Bool.eq_iff_iff, has_suffix_iff]
    simp
  simp only [List.length_append, List.length_singleton, Nat.add_sub_cancel,
    List.take_left', hs]
  by_cases hsuf : skip_suffix <:+ r.path <;> simp [hsuf]

/-! ## The whole-process total of a fixture -/

theorem to_ssize_t_mul_left (a : Int) :
    to_ssize_t (to_ssize_t a * 1024) = to_ssize_t (a * 1024) := by
  unfold to_ssize_t
  omega

theorem counted_pss_cons (r : smaps_region) (rs : List smaps_region) :
    (counted_pss (r :: rs)).sum
      = (if skip_suffix <:+ r.path then 0 else (numeral_value 10 r.pss : Int))
        + (counted_pss rs).sum := by
  by_cases h : skip_suffix <:+ r.path <;> simp [counted_pss, List.filter_cons, h]

theorem render_fixture_append (a b : List smaps_region) :
    render_fixture (a ++ b) = render_fixture a ++ render_fixture b := by
  induction a with
  | nil => rfl
  | cons r a ih => simp [render_fixture, ih]

theorem pss_total_scan_fixture (u : uninit_stack) :
    ∀ (rs : List smaps_region) (s : Int), (∀ r ∈ rs, well_formed_region r = true) →
      is_ssize_t s →
      mmcu_proc_smaps.pss_total_scan u ((render_fixture rs).length + 1)
        (render_fixture rs) s = .ok (to_ssize_t (s + (counted_pss rs).sum)) := by
  intro rs
  induction rs with
  | nil =>
    intro s _ hs
    rw [pss_total_scan_succ]
    simp [render_fixture, fgets_nil, counted_pss, to_ssize_t_of_range hs]
  | cons r rs ih =>
    intro s hwf hs
    have := pss_total_scan_region u r (render_fixture rs) s (hwf r (List.mem_cons_self _ _))
    have e : render_fixture (r :: rs) = render_region r ++ render_fixture rs := rfl
    rw [e, this, counted_pss_cons]
    by_cases h : skip_suffix <:+ r.path
    · simp only [h, if_true, zero_add]
      exact ih s (fun x hx => hwf x (List.mem_cons_of_mem _ hx)) hs
    · simp only [h, if_false]
      rw [ih _ (fun x hx => hwf x (List.mem_cons_of_mem _ hx)) (to_ssize_t_range _),
        to_ssize_t_add_left, add_assoc]

theorem pss_in_b_value (n : Nat) :
    (to_size_t (to_size_t (n : Int) * 1024)).toNat = (1024 * n) % 18446744073709551616 := by
  unfold to_size_t
  omega

theorem counted_pss_nonneg (rs : List smaps_region) : 0 ≤ (counted_pss rs).sum := by
  apply List.sum_nonneg
  intro x hx
  simp only [counted_pss, List.mem_map] at hx
  obtain ⟨r, _, rfl⟩ := hx
  exact Int.natCast_nonneg _

theorem quiet_stack_benign : benign quiet_stack := fun _ => rfl

/-! ## Malformed PSS lines -/

theorem read_line_all (l : List Char) (h : ∀ c ∈ l, c ≠ '\n') :
    ∀ k, l.length ≤ k → read_line k l = (l, []) := by
  induction l with
  | nil => intro k _; cases k <;> rfl
  | cons a l ih =>
    intro k hk
    cases k with
    | zero => simp at hk
    | succ k =>
      have ha : a ≠ '\n' := h a (List.mem_cons_self _ _)
      have := ih (fun c hc => h c (List.mem_cons_of_mem _ hc)) k (by simpa using hk)
      simp [read_line, ha, this]

theorem fgets_last (l : List Char) (h : text_line l = true) (hne : l.isEmpty = false) :
    fgets (2 * PATH_MAX - 1) l = some (l, []) := by
  obtain ⟨h1, h2⟩ := text_line_spec h
  simp only [fgets, hne, Bool.false_eq_true, if_false]
  rw [read_line_all l h1 _ (by omega)]

theorem skip_lines_short (last : List Char) (hlast : text_line last = true) :
    ∀ (ls : List (List Char)) (n : Nat), (∀ l ∈ ls, text_line l = true) →
      ls.length + (if last.isEmpty then 0 else 1) ≤ n →
      skip_lines n (render_lines ls ++ last) = [] := by
  intro ls
  induction ls with
  | nil =>
    intro n _ hn
    cases he : last.isEmpty with
    | true =>
      have : last = [] := by simpa using he
      subst this
      exact skip_lines_nil n
    | false =>
      rw [he] at hn
      cases n with
      | zero => simp at hn
      | succ n =>
        simp only [render_lines, List.nil_append, skip_lines, fgets_last last hlast he,
          skip_lines_nil]
  | cons l ls ih =>
    intro n hl hn
    cases n with
    | zero => simp at hn
    | succ n =>
      have h1 := fgets_line l (render_lines ls ++ last) (hl l (List.mem_cons_self _ _))
      have e : render_lines (l :: ls) ++ last = l ++ '\n' :: (render_lines ls ++ last) := by
        simp [render_lines]
      rw [e]
      simp only [skip_lines, h1]
      exact ih n (fun x hx => hl x (List.mem_cons_of_mem _ hx)) (by
        simp only [List.length_cons] at hn
        omega)

theorem get_pss_few_lines (g : Nat → List Char) (ls : List (List Char)) (last : List Char)
    (hl : ∀ l ∈ ls, text_line l = true) (hlast : text_line last = true)
    (hn : ls.length + (if last.isEmpty then 0 else 1) < 3) :
    mmcu_proc_smaps.get_pss (uninit 3 g) (render_lines ls ++ last) = .error .exit_failure := by
  have hs := skip_lines_short last hlast ls 2 hl (by omega)
  unfold mmcu_proc_smaps.get_pss
  simp only [hs, fgets_nil]

/-- The stream that `get_pss` sees when a region has the third line `l3`. -/
theorem get_pss_third_line (g : Nat → List Char) (l1 l2 l3 tail : List Char)
    (h1 : text_line l1 = true) (h2 : text_line l2 = true) (h3 : text_line l3 = true) :
    mmcu_proc_smaps.get_pss (uninit 3 g) (render_lines [l1, l2, l3] ++ tail)
      = if !strncmp_eq "Pss:".toList (c_str ((tokenize ' ' PATH_MAX 3 0 (c_str (l3 ++ ['\n']))
            (uninit 3 g)).getD 0 [])) 4 then .error .exit_failure
        else if !strncmp_eq "kB".toList (c_str ((tokenize ' ' PATH_MAX 3 0 (c_str (l3 ++ ['\n']))
            (uninit 3 g)).getD 2 [])) 2 then .error .exit_failure
        else if (strtoll 10 (c_str ((tokenize ' ' PATH_MAX 3 0 (c_str (l3 ++ ['\n']))
            (uninit 3 g)).getD 1 []))).2 then .error .exit_failure
        else .ok ((strtoll 10 (c_str ((tokenize ' ' PATH_MAX 3 0 (c_str (l3 ++ ['\n']))
            (uninit 3 g)).getD 1 []))).1, tail) := by
  have hs := skip_lines_rendered tail 2 [l1, l2, l3] (by
    intro l hl
    simp only [List.mem_cons, List.mem_singleton, List.not_mem_nil, or_false] at hl
    rcases hl with hl | hl | hl <;> rw [hl] <;> assumption) (by simp)
  have hd : render_lines (List.drop 2 [l1, l2, l3]) ++ tail = l3 ++ '\n' :: tail := by
    simp [render_lines]
  have hf := fgets_line l3 tail h3
  unfold mmcu_proc_smaps.get_pss
  simp only [hs, hd, hf]

theorem c_str_space (y : List Char) : c_str (' ' :: y) = ' ' :: c_str y := by
  have : (' ' != NUL) = true := by decide
  simp [c_str, List.takeWhile_cons, this]

theorem get_pss_bad_label (g : Nat → List Char) (l1 l2 l3 tail : List Char) (k : Nat)
    (t tl : List Char)
    (h1 : text_line l1 = true) (h2 : text_line l2 = true) (h3 : text_line l3 = true)
    (he : l3 ++ ['\n'] = List.replicate k ' ' ++ (t ++ tl))
    (ht : is_token t = true) (hend : token_end tl = true) (hbad : t.take 4 ≠ "Pss:".toList) :
    mmcu_proc_smaps.get_pss (uninit 3 g) (render_lines [l1, l2, l3] ++ tail)
      = .error .exit_failure := by
  rw [get_pss_third_line g l1 l2 l3 tail h1 h2 h3, he, c_str_padded_token k t tl ht,
    tokenize_slot PATH_MAX 2 0 k t (c_str tl) _ ht (by
      rcases token_end_spec hend with h | ⟨y, h⟩
      · exact Or.inl h
      · exact Or.inr ⟨y, h⟩) (by simp [uninit_length])]
  have hc : strncmp_eq "Pss:".toList
      (c_str (strncpy ((uninit 3 g).getD 0 []) t (PATH_MAX - 1))) 4 = false := by
    simp only [strncmp_eq]
    rw [strncpy_c_str_take _ t _ 4 (is_token_spec ht).2.2 (by decide)]
    simp only [beq_eq_false_iff_ne, ne_eq]
    intro hc
    exact hbad hc.symm
  simp only [hc, Bool.not_false, if_true]

theorem get_pss_bad_unit (g : Nat → List Char) (l1 l2 l3 tail : List Char) (k0 k1 k2 : Nat)
    (t0 t1 t2 tl : List Char)
    (h1 : text_line l1 = true) (h2 : text_line l2 = true) (h3 : text_line l3 = true)
    (he : l3 ++ ['\n'] = List.replicate k0 ' ' ++ (t0 ++ ' ' :: (List.replicate k1 ' '
      ++ (t1 ++ ' ' :: (List.replicate k2 ' ' ++ (t2 ++ tl))))))
    (ht0 : is_token t0 = true) (ht1 : is_token t1 = true) (ht2 : is_token t2 = true)
    (hend : token_end tl = true) (hbad : t2.take 2 ≠ "kB".toList) :
    mmcu_proc_smaps.get_pss (uninit 3 g) (render_lines [l1, l2, l3] ++ tail)
      = .error .exit_failure := by
  obtain ⟨n0, s0, _⟩ := is_token_spec ht0
  obtain ⟨n1, s1, _⟩ := is_token_spec ht1
  have hc : c_str (List.replicate k0 ' ' ++ (t0 ++ ' ' :: (List.replicate k1 ' '
      ++ (t1 ++ ' ' :: (List.replicate k2 ' ' ++ (t2 ++ tl))))))
      = List.replicate k0 ' ' ++ (t0 ++ ' ' :: (List.replicate k1 ' '
      ++ (t1 ++ ' ' :: (List.replicate k2 ' ' ++ (t2 ++ c_str tl))))) := by
    rw [c_str_padded_token k0 t0 _ ht0, c_str_space, c_str_padded_token k1 t1 _ ht1,
      c_str_space, c_str_padded_token k2 t2 _ ht2]
  rw [get_pss_third_line g l1 l2 l3 tail h1 h2 h3, he, hc,
    tokenize_token ' ' PATH_MAX 2 0 k0 t0 _ _ n0 s0,
    tokenize_token ' ' PATH_MAX 1 1 k1 t1 _ _ n1 s1,
    tokenize_slot PATH_MAX 0 2 k2 t2 (c_str tl) _ ht2 (by
      rcases token_end_spec hend with h | ⟨y, h⟩
      · exact Or.inl h
      · exact Or.inr ⟨y, h⟩) (by simp [uninit_length])]
  have hc2 : ∀ d, strncmp_eq "kB".toList (c_str (strncpy d t2 (PATH_MAX - 1))) 2 = false := by
    intro d
    simp only [strncmp_eq]
    rw [strncpy_c_str_take _ t2 _ 2 (is_token_spec ht2).2.2 (by decide)]
    simp only [beq_eq_false_iff_ne, ne_eq]
    intro hc
    exact hbad hc.symm
  simp only [hc2, Bool.not_false, if_true]
  split <;> rfl

theorem get_pss_malformed (g : Nat → List Char) (f : List Char) (h : malformed_pss f) :
    mmcu_proc_smaps.get_pss (uninit 3 g) f = .error .exit_failure := by
  cases h with
  | few_lines ls last hl hlast hn => exact get_pss_few_lines g ls last hl hlast hn
  | bad_label l1 l2 l3 tail k t tl h1 h2 h3 he ht hend hbad =>
    exact get_pss_bad_label g l1 l2 l3 tail k t tl h1 h2 h3 he ht hend hbad
  | bad_unit l1 l2 l3 tail k0 k1 k2 t0 t1 t2 tl h1 h2 h3 he ht0 ht1 ht2 hend hbad =>
    exact get_pss_bad_unit g l1 l2 l3 tail k0 k1 k2 t0 t1 t2 tl h1 h2 h3 he ht0 ht1 ht2 hend
      hbad

/-! ## Queries on a malformed region -/

theorem entry_query_of_scan_found (u : uninit_stack) (f : List Char) (t : Nat)
    (res e : mmcu_proc_smaps_entry) (rest : List Char)
    (hs : mmcu_proc_smaps.entry_scan u t res (f.length + 1) f = .ok (some (e, rest)))
    (hp : ∀ g, mmcu_proc_smaps.get_pss (uninit 3 g) rest = .error .exit_failure) :
    mmcu_proc_smaps.get_proc_self_smaps_entry u (some f) t res = .error .exit_failure := by
  simp only [mmcu_proc_smaps.get_proc_self_smaps_entry, hs, hp]

theorem entry_query_of_scan_error (u : uninit_stack) (f : List Char) (t : Nat)
    (res : mmcu_proc_smaps_entry)
    (hs : mmcu_proc_smaps.entry_scan u t res (f.length + 1) f = .error .exit_failure) :
    mmcu_proc_smaps.get_proc_self_smaps_entry u (some f) t res = .error .exit_failure := by
  simp only [mmcu_proc_smaps.get_proc_self_smaps_entry, hs]

theorem address_query_malformed (u : uninit_stack) (pre : List smaps_region)
    (r : smaps_region) (f : List Char) (t : Nat) (res : mmcu_proc_smaps_entry)
    (hpre : ∀ x ∈ pre, well_formed_region x = true ∧ labelled_region x = true ∧
      numeral_value 16 x.start ≠ t)
    (hr : well_formed_header r = true) (ht : numeral_value 16 r.start = t)
    (h0 : pre = [] ∨ (t ≠ 0 ∧ t % 4096 = 0)) (hf : malformed_pss f) :
    mmcu_proc_smaps.get_proc_self_smaps_entry u
      (some (render_fixture pre ++ (render_header r ++ f))) t res = .error .exit_failure := by
  have hh := well_formed_header_spec hr
  have hhead := entry_scan_header u t res r f hh
  simp only [ht, if_true] at hhead
  rcases h0 with h0 | ⟨h0, hp⟩
  · subst h0
    exact entry_query_of_scan_found u _ t res _ f hhead (fun g => get_pss_malformed g f hf)
  · obtain ⟨s1, _⟩ := entry_scan_fixture u t res (render_header r ++ f) h0 hp pre hpre
    rcases s1 with s1 | s1
    · exact entry_query_of_scan_error u _ t res s1
    · exact entry_query_of_scan_found u _ t res _ f (s1.trans hhead)
        (fun g => get_pss_malformed g f hf)

theorem pss_total_scan_prefix (u : uninit_stack) (tail : List Char) :
    ∀ (pre : List smaps_region) (s : Int), (∀ r ∈ pre, well_formed_region r = true) →
      ∃ s', mmcu_proc_smaps.pss_total_scan u ((render_fixture pre ++ tail).length + 1)
          (render_fixture pre ++ tail) s
        = mmcu_proc_smaps.pss_total_scan u (tail.length + 1) tail s' := by
  intro pre
  induction pre with
  | nil => intro s _; exact ⟨s, rfl⟩
  | cons r pre ih =>
    intro s hwf
    have e : render_fixture (r :: pre) ++ tail
        = render_region r ++ (render_fixture pre ++ tail) := by
      simp [render_fixture]
    rw [e, pss_total_scan_region u r _ s (hwf r (List.mem_cons_self _ _))]
    exact ih _ (fun x hx => hwf x (List.mem_cons_of_mem _ hx))

theorem total_query_malformed (u : uninit_stack) (pre : List smaps_region)
    (r : smaps_region) (f : List Char)
    (hpre : ∀ x ∈ pre, well_formed_region x = true)
    (hr : well_formed_header r = true) (hf : malformed_pss f) :
    mmcu_proc_smaps.get_proc_self_smaps_pss_total u
      (some (render_fixture pre ++ (render_header r ++ f))) = .error .exit_failure := by
  have hh := well_formed_header_spec hr
  obtain ⟨body, e, hb, _⟩ := header_line hh
  have hfg : fgets (2 * PATH_MAX - 1) (render_header r ++ f) = some (render_header r, f) := by
    rw [e]
    have := fgets_line body f hb
    simpa using this
  obtain ⟨_, _, c⟩ := tokenize_header (u.toks (render_header r ++ f).length) r hh
  obtain ⟨s', hs⟩ := pss_total_scan_prefix u (render_header r ++ f) pre 0 hpre
  have hstep : mmcu_proc_smaps.pss_total_scan u ((render_header r ++ f).length + 1)
      (render_header r ++ f) s' = .error .exit_failure := by
    rw [pss_total_scan_succ]
    simp only [hfg, c, get_pss_malformed _ f hf]
    simp
  simp only [mmcu_proc_smaps.get_proc_self_smaps_pss_total, hs, hstep]

/-! # The claims -/

/-- C2. Moving resize, total.  In a state with no mapped regions tracked, where the old
address `O` is in the live allocation table with recorded size `e0.size` and the new
address `A` is not, capturing a resize event with `A ≠ O`, both non-null, and size
`S ≠ 0` completes whenever the kernel interface is readable, and whenever it completes
the running total has changed by exactly `S - e0.size` (in `ssize_t` arithmetic, hence
exactly whenever the result is representable) and `O` is absent from the live
allocation table. -/
theorem realloc_move_total (env : mmcu_env) (s : mmcu_mem_stat_mgr) (A O : Nat) (S : Int)
    (e0 : mmcu_memory_op_entry)
    (hmm : s.addr2mmap_entry = []) (hO : live_entry s O = some e0)
    (hA : map_find s.addr2entry A = none) (hne : A ≠ O) (hA0 : A ≠ 0) (hO0 : O ≠ 0)
    (hSr : is_ssize_t S) (hS : S ≠ 0) :
    (env_ok env → ∃ s', capture_new env s ⟨MMCU_HOOK_REALLOC, A, S, O⟩ = .ok s') ∧
    ∀ s', capture_new env s ⟨MMCU_HOOK_REALLOC, A, S, O⟩ = .ok s' →
      s'.current_mem_allocd = to_ssize_t (s.current_mem_allocd + (S - e0.size)) ∧
      (is_ssize_t (s.current_mem_allocd + (S - e0.size)) →
        s'.current_mem_allocd = s.current_mem_allocd + (S - e0.size)) ∧
      map_find s'.addr2entry O = none := by
  have hc := realloc_move_core env s A O S e0 hmm hO hA hne hA0 hO0 hSr hS
  refine ⟨fun hok => ?_, fun s' hs' => ?_⟩
  · obtain ⟨s', h, _⟩ := outcome_ok hc hok
    exact ⟨s', h⟩
  · have h := outcome_of_ok hc hs'
    refine ⟨h.current_mem_allocd, fun hr => ?_, ?_⟩
    · rw [h.current_mem_allocd, to_ssize_t_of_range hr]
    · rw [h.addr2entry]
      exact map_find_erase_self _ _

/-- Instance of C2: from `demo_state` (10 bytes tracked at address 100) a resize to 20
bytes that moves the block to address 200. -/
theorem realloc_move_total_witness :
    (env_ok demo_env →
      ∃ s', capture_new demo_env demo_state ⟨MMCU_HOOK_REALLOC, 200, 20, 100⟩ = .ok s') ∧
    ∀ s', capture_new demo_env demo_state ⟨MMCU_HOOK_REALLOC, 200, 20, 100⟩ = .ok s' →
      s'.current_mem_allocd = to_ssize_t (10 + (20 - 10)) ∧
      (is_ssize_t (10 + (20 - 10)) → s'.current_mem_allocd = 10 + (20 - 10)) ∧
      map_find s'.addr2entry 100 = none :=
  realloc_move_total demo_env demo_state 200 100 20 ⟨MMCU_HOOK_MALLOC, 100, 10, 0⟩
    rfl rfl rfl (by decide) (by decide) (by decide) (by decide) (by decide)

/-- C3 (the code at the failing input).  From `demo_state` (address 100 tracked with
recorded size 10) a resize to 20 bytes that moves the block to address 200 leaves, under
the new address 200, a record of kind deallocate with address 100 and size 10: the
record inserted under the new address is the one the decomposer then rewrites into the
deallocate sub-event, whose size `capture` overwrites with the old recorded size. -/
theorem realloc_move_records_old_size :
    ∃ s', capture_new demo_env demo_state ⟨MMCU_HOOK_REALLOC, 200, 20, 100⟩ = .ok s' ∧
      live_entry s' 200 = some ⟨MMCU_HOOK_FREE, 100, 10, 100⟩ := by
  have hc := realloc_move_core demo_env demo_state 200 100 20 ⟨MMCU_HOOK_MALLOC, 100, 10, 0⟩
    rfl rfl rfl (by decide) (by decide) (by decide) (by decide) (by decide)
  obtain ⟨s', h, hs'⟩ := outcome_ok hc demo_env_ok
  refine ⟨s', h, ?_⟩
  rw [live_entry_of_core hs' 200]
  rfl

/-- C4. In-place resize.  In a state with no mapped regions tracked, where the non-null
address `A` is in the live allocation table with recorded size `e0.size`, capturing a
resize event with new address = old address = `A` and size `S ≠ 0` completes whenever
the kernel interface is readable, and whenever it completes the running total has
changed by exactly `S - e0.size` (in `ssize_t` arithmetic) and `A` is still in the live
allocation table, now with recorded size `S`. -/
theorem realloc_in_place_total (env : mmcu_env) (s : mmcu_mem_stat_mgr) (A : Nat) (S : Int)
    (e0 : mmcu_memory_op_entry)
    (hmm : s.addr2mmap_entry = []) (hA : live_entry s A = some e0) (hA0 : A ≠ 0)
    (hSr : is_ssize_t S) (hS : S ≠ 0) :
    (env_ok env → ∃ s', capture_new env s ⟨MMCU_HOOK_REALLOC, A, S, A⟩ = .ok s') ∧
    ∀ s', capture_new env s ⟨MMCU_HOOK_REALLOC, A, S, A⟩ = .ok s' →
      s'.current_mem_allocd = to_ssize_t (s.current_mem_allocd + (S - e0.size)) ∧
      (is_ssize_t (s.current_mem_allocd + (S - e0.size)) →
        s'.current_mem_allocd = s.current_mem_allocd + (S - e0.size)) ∧
      (live_entry s' A).map (fun x => x.size) = some S := by
  have hc := realloc_in_place_core env s A S e0 hmm hA hA0 hSr hS
  refine ⟨fun hok => ?_, fun s' hs' => ?_⟩
  · obtain ⟨s', h, _⟩ := outcome_ok hc hok
    exact ⟨s', h⟩
  · have h := outcome_of_ok hc hs'
    refine ⟨h.current_mem_allocd, fun hr => ?_, ?_⟩
    · rw [h.current_mem_allocd, to_ssize_t_of_range hr]
    · rw [live_entry_of_core h A]
      simp [map_find]

/-- Instance of C4: from `demo_state` a resize of the block at address 100 to 20 bytes
that leaves it in place. -/
theorem realloc_in_place_total_witness :
    (env_ok demo_env →
      ∃ s', capture_new demo_env demo_state ⟨MMCU_HOOK_REALLOC, 100, 20, 100⟩ = .ok s') ∧
    ∀ s', capture_new demo_env demo_state ⟨MMCU_HOOK_REALLOC, 100, 20, 100⟩ = .ok s' →
      s'.current_mem_allocd = to_ssize_t (10 + (20 - 10)) ∧
      (is_ssize_t (10 + (20 - 10)) → s'.current_mem_allocd = 10 + (20 - 10)) ∧
      (live_entry s' 100).map (fun x => x.size) = some 20 :=
  realloc_in_place_total demo_env demo_state 100 20 ⟨MMCU_HOOK_MALLOC, 100, 10, 0⟩
    rfl rfl (by decide) (by decide) (by decide)

/-- C5. Resize acting as free.  In a state with no mapped regions tracked, where the
non-null old address `O` is in the live allocation table with recorded size `e0.size`,
capturing a resize event with a non-null new address, size 0 and old address `O`
completes whenever the kernel interface is readable, and whenever it completes the
running total has been reduced by exactly `e0.size` (in `ssize_t` arithmetic) and `O` is
no longer in the live allocation table. -/
theorem realloc_zero_size_frees (env : mmcu_env) (s : mmcu_mem_stat_mgr) (A O : Nat)
    (e0 : mmcu_memory_op_entry)
    (hmm : s.addr2mmap_entry = []) (hO : live_entry s O = some e0)
    (hA0 : A ≠ 0) (hO0 : O ≠ 0) :
    (env_ok env → ∃ s', capture_new env s ⟨MMCU_HOOK_REALLOC, A, 0, O⟩ = .ok s') ∧
    ∀ s', capture_new env s ⟨MMCU_HOOK_REALLOC, A, 0, O⟩ = .ok s' →
      s'.current_mem_allocd = to_ssize_t (s.current_mem_allocd - e0.size) ∧
      (is_ssize_t (s.current_mem_allocd - e0.size) →
        s'.current_mem_allocd = s.current_mem_allocd - e0.size) ∧
      map_find s'.addr2entry O = none := by
  have hc := realloc_free_core env s A O e0 hmm hO hA0 hO0
  refine ⟨fun hok => ?_, fun s' hs' => ?_⟩
  · obtain ⟨s', h, _⟩ := outcome_ok hc hok
    exact ⟨s', h⟩
  · have h := outcome_of_ok hc hs'
    refine ⟨h.current_mem_allocd, fun hr => ?_, ?_⟩
    · rw [h.current_mem_allocd, to_ssize_t_of_range hr]
    · rw [h.addr2entry]
      exact map_find_erase_self _ _

/-- Instance of C5: from `demo_state` a resize of the block at address 100 to size 0. -/
theorem realloc_zero_size_frees_witness :
    (env_ok demo_env →
      ∃ s', capture_new demo_env demo_state ⟨MMCU_HOOK_REALLOC, 100, 0, 100⟩ = .ok s') ∧
    ∀ s', capture_new demo_env demo_state ⟨MMCU_HOOK_REALLOC, 100, 0, 100⟩ = .ok s' →
      s'.current_mem_allocd = to_ssize_t (10 - 10) ∧
      (is_ssize_t (10 - 10) → s'.current_mem_allocd = 10 - 10) ∧
      map_find s'.addr2entry 100 = none :=
  realloc_zero_size_frees demo_env demo_state 100 100 ⟨MMCU_HOOK_MALLOC, 100, 10, 0⟩
    rfl rfl (by decide) (by decide)

/-- C8. Curious operation changes no accounting.  When address `e.addr` is in the live
allocation table, capturing an allocate-class event `e` (malloc, calloc or
posix_memalign, any size) at that address returns and leaves unchanged: the running
total, the live allocation table (every entry, with its record and thus its recorded
size, in particular the one of `e.addr`), the mapped-region table, both watermarks,
both time series and the allocate / free / operations-recorded counters.  The capture
count grows by one. -/
theorem curious_op_changes_no_accounting (env : mmcu_env) (s : mmcu_mem_stat_mgr)
    (e e0 : mmcu_memory_op_entry) (hcls : alloc_class e.opid = true)
    (hlive : live_entry s e.addr = some e0) :
    ∃ s', capture_new env s e = .ok s' ∧
      s'.current_mem_allocd = s.current_mem_allocd ∧
      s'.addr2entry = s.addr2entry ∧
      (∀ a x, live_entry s a = some x → live_entry s' a = some x) ∧
      live_entry s' e.addr = some e0 ∧
      s'.addr2mmap_entry = s.addr2mmap_entry ∧
      s'.mpi_high_mem_usage_mark = s.mpi_high_mem_usage_mark ∧
      s'.pss_high_mem_usage_mark = s.pss_high_mem_usage_mark ∧
      s'.mem_allocd_samples = s.mem_allocd_samples ∧
      s'.pss_total_samples = s.pss_total_samples ∧
      s'.n_mem_alloc_ops = s.n_mem_alloc_ops ∧
      s'.n_mem_free_ops = s.n_mem_free_ops ∧
      s'.n_mem_ops_recorded = s.n_mem_ops_recorded ∧
      s'.num_captures = s.num_captures + 1 := by
  refine ⟨_, curious_core env s e e0 hcls hlive, rfl, rfl, ?_, ?_, rfl, rfl, rfl, rfl, rfl,
    rfl, rfl, rfl, rfl⟩
  · intro a x hx
    refine live_entry_append (s := s) e ?_ ?_ hx <;> rfl
  · refine live_entry_append (s := s) e ?_ ?_ hlive <;> rfl

/-- Instance of C8: a second malloc reported at the tracked address 100 of
`demo_state`. -/
theorem curious_op_changes_no_accounting_witness :
    ∃ s', capture_new demo_env demo_state ⟨MMCU_HOOK_MALLOC, 100, 64, 0⟩ = .ok s' ∧
      s'.current_mem_allocd = demo_state.current_mem_allocd ∧
      s'.addr2entry = demo_state.addr2entry ∧
      (∀ a x, live_entry demo_state a = some x → live_entry s' a = some x) ∧
      live_entry s' 100 = some ⟨MMCU_HOOK_MALLOC, 100, 10, 0⟩ ∧
      s'.addr2mmap_entry = demo_state.addr2mmap_entry ∧
      s'.mpi_high_mem_usage_mark = demo_state.mpi_high_mem_usage_mark ∧
      s'.pss_high_mem_usage_mark = demo_state.pss_high_mem_usage_mark ∧
      s'.mem_allocd_samples = demo_state.mem_allocd_samples ∧
      s'.pss_total_samples = demo_state.pss_total_samples ∧
      s'.n_mem_alloc_ops = demo_state.n_mem_alloc_ops ∧
      s'.n_mem_free_ops = demo_state.n_mem_free_ops ∧
      s'.n_mem_ops_recorded = demo_state.n_mem_ops_recorded ∧
      s'.num_captures = demo_state.num_captures + 1 :=
  curious_op_changes_no_accounting demo_env demo_state ⟨MMCU_HOOK_MALLOC, 100, 64, 0⟩
    ⟨MMCU_HOOK_MALLOC, 100, 10, 0⟩ rfl rfl

/-- C9 at the boundary.  In `curious_state` address 100 is tracked with a recorded size of
exactly 1048576 bytes and the curious-bytes counter is 0.  One more malloc reported at
address 100 brings the counter to exactly 1048576, which does not exceed 1 MiB; yet the
warning is emitted and the counter is reset to 0. -/
theorem curious_warning_at_exactly_one_mib :
    ¬ (to_ssize_t (curious_state.curious_b + 1048576) > 1048576) ∧
    ∃ s', capture_new demo_env curious_state ⟨MMCU_HOOK_MALLOC, 100, 1, 0⟩ = .ok s' ∧
      s'.stderr = [.curious_threshold] ∧ s'.curious_b = 0 := by
  refine ⟨by decide, _, curious_core demo_env curious_state ⟨MMCU_HOOK_MALLOC, 100, 1, 0⟩
    ⟨MMCU_HOOK_MALLOC, 100, 1048576, 0⟩ rfl rfl, ?_, ?_⟩
  · decide
  · decide

/-- C9, amended.  On every curious operation (an allocate-class event `e` at an address
whose live-table record is `e0`) the recorded size `e0.size` is added to the
curious-bytes counter (in `ssize_t` arithmetic).  Exactly when the counter after that
addition is at least 1 MiB (1048576 bytes) one warning is appended to standard error and
the counter is reset to 0; otherwise nothing is appended and the counter keeps the
accumulated sum. -/
theorem curious_bytes_threshold (env : mmcu_env) (s : mmcu_mem_stat_mgr)
    (e e0 : mmcu_memory_op_entry) (hcls : alloc_class e.opid = true)
    (hlive : live_entry s e.addr = some e0) :
    ∃ s', capture_new env s e = .ok s' ∧
      (1048576 ≤ to_ssize_t (s.curious_b + e0.size) →
        s'.stderr = s.stderr ++ [.curious_threshold] ∧ s'.curious_b = 0) ∧
      (to_ssize_t (s.curious_b + e0.size) < 1048576 →
        s'.stderr = s.stderr ∧ s'.curious_b = to_ssize_t (s.curious_b + e0.size)) := by
  refine ⟨_, curious_core env s e e0 hcls hlive, fun h => ?_, fun h => ?_⟩
  · have h' : to_ssize_t (s.curious_b + e0.size) ≥ report_thresh := by
      simpa [report_thresh] using h
    simp [h']
  · have h' : ¬ to_ssize_t (s.curious_b + e0.size) ≥ report_thresh := by
      simp only [report_thresh]; omega
    simp [h']

/-- Instance of the amended C9: a second malloc reported at the tracked address 100 of
`demo_state`, whose recorded size is 10. -/
theorem curious_bytes_threshold_witness :
    ∃ s', capture_new demo_env demo_state ⟨MMCU_HOOK_MALLOC, 100, 64, 0⟩ = .ok s' ∧
      (1048576 ≤ to_ssize_t (demo_state.curious_b + 10) →
        s'.stderr = demo_state.stderr ++ [.curious_threshold] ∧ s'.curious_b = 0) ∧
      (to_ssize_t (demo_state.curious_b + 10) < 1048576 →
        s'.stderr = demo_state.stderr ∧
          s'.curious_b = to_ssize_t (demo_state.curious_b + 10)) :=
  curious_bytes_threshold demo_env demo_state ⟨MMCU_HOOK_MALLOC, 100, 64, 0⟩
    ⟨MMCU_HOOK_MALLOC, 100, 10, 0⟩ rfl rfl

/-- C7 as stated fails.  From the start-up state, with a kernel interface reporting a PSS
of 4096 bytes for the region, a map of 8192 bytes at address 100 followed immediately by
the unmap of those 8192 bytes leaves the running total at -4096, not at its pre-map value
0: the unmap subtracts the length carried by the unmap event, not the PSS stored at
registration. -/
theorem map_unmap_total_not_restored :
    ∃ s1 s2, mmcu_mem_hooks_mmap_hook demo_env init_state 100 8192 = .ok s1 ∧
      mmcu_mem_hooks_munmap_hook demo_env s1 100 8192 = .ok s2 ∧
      s2.current_mem_allocd = -4096 ∧
      s2.current_mem_allocd ≠ init_state.current_mem_allocd := by
  have hq : get_proc_self_smaps_entry demo_env init_state 100
      = .ok ({ pss_in_b := 4096 }, { init_state with n_smaps_entry_calls := 1 }) := rfl
  have h := map_unmap_core demo_env init_state _ 100 8192 8192 _ rfl hq
  obtain ⟨s1, s2, hs1, hs2⟩ := h.1 demo_env_ok
  have ht := (h.2 s1 s2 hs1 hs2).1
  have hv : s2.current_mem_allocd = -4096 := by
    rw [ht]; decide
  refine ⟨s1, s2, hs1, hs2, hv, ?_⟩
  rw [hv]
  decide

/-- C7, amended.  In a state where address `A` is not in the mapped-region table and the
engine's region query for `A` yields the descriptor `d`, capturing a map event at `A`
(any requested length `L1`) and then immediately an unmap event at `A` as the munmap hook
builds it (carrying the unmap length `L2`) completes whenever the kernel interface is
readable, and whenever it completes the running total equals its value before the map
plus the PSS stored at registration minus the length carried by the unmap event
(`ssize_t` arithmetic), and `A` is no longer in the mapped-region table.  The amount
subtracted at unmap is the unmap length `L2`, so the total is back at its pre-map value
only when `L2` equals the stored PSS. -/
theorem map_unmap_total (env : mmcu_env) (s sq : mmcu_mem_stat_mgr) (A L1 L2 : Nat)
    (d : mmcu_proc_smaps_entry)
    (hA : map_find s.addr2mmap_entry A = none)
    (hq : get_proc_self_smaps_entry env s A = .ok (d, sq)) :
    (env_ok env → ∃ s1 s2, mmcu_mem_hooks_mmap_hook env s A L1 = .ok s1 ∧
      mmcu_mem_hooks_munmap_hook env s1 A L2 = .ok s2) ∧
    ∀ s1 s2, mmcu_mem_hooks_mmap_hook env s A L1 = .ok s1 →
      mmcu_mem_hooks_munmap_hook env s1 A L2 = .ok s2 →
      s2.current_mem_allocd
          = to_ssize_t (s.current_mem_allocd + ((d.pss_in_b : Int) - (L2 : Int))) ∧
        map_find s2.addr2mmap_entry A = none :=
  map_unmap_core env s sq A L1 L2 d hA hq

/-- Instance of the amended C7: from the start-up state, a map of 8192 bytes at address
100 whose PSS is 4096 bytes, then the unmap of 8192 bytes. -/
theorem map_unmap_total_witness :
    (env_ok demo_env →
      ∃ s1 s2, mmcu_mem_hooks_mmap_hook demo_env init_state 100 8192 = .ok s1 ∧
        mmcu_mem_hooks_munmap_hook demo_env s1 100 8192 = .ok s2) ∧
    ∀ s1 s2, mmcu_mem_hooks_mmap_hook demo_env init_state 100 8192 = .ok s1 →
      mmcu_mem_hooks_munmap_hook demo_env s1 100 8192 = .ok s2 →
      s2.current_mem_allocd
          = to_ssize_t (init_state.current_mem_allocd
              + (((4096 : Nat) : Int) - ((8192 : Nat) : Int))) ∧
        map_find s2.addr2mmap_entry 100 = none :=
  map_unmap_total demo_env init_state { init_state with n_smaps_entry_calls := 1 } 100 8192
    8192 { pss_in_b := 4096 } rfl rfl

/-- C1.  Starting from the start-up state (nothing tracked, no mapped regions), for every
finite sequence of allocate-class (malloc / calloc / posix_memalign) and deallocate
events in which every allocate event's address is not in the live allocation table at
the moment it is captured and every deallocate event's address is in it
(`unique_addr_trace`), the captures complete whenever the kernel interface is readable,
and whenever they complete the running total equals the sum of the sizes of the allocate
events whose address has not yet been deallocated (as an `ssize_t`, hence the exact sum
whenever that is representable) and the live allocation table holds exactly the
addresses of those events. -/
theorem running_total_is_sum_of_live_sizes (env : mmcu_env)
    (evs : List mmcu_memory_op_entry) (htr : unique_addr_trace env init_state evs) :
    (env_ok env → ∃ s', capture_all env init_state evs = .ok s') ∧
    ∀ s', capture_all env init_state evs = .ok s' →
      s'.current_mem_allocd = to_ssize_t (((live_allocs evs).map (fun e => e.size)).sum) ∧
      (is_ssize_t (((live_allocs evs).map (fun e => e.size)).sum) →
        s'.current_mem_allocd = ((live_allocs evs).map (fun e => e.size)).sum) ∧
      ∀ a, (map_find s'.addr2entry a).isSome = true ↔
        a ∈ (live_allocs evs).map (fun e => e.addr) := by
  have h := heap_run env evs init_state [] heap_inv_init htr
  refine ⟨fun hok => ?_, fun s' hs' => ?_⟩
  · obtain ⟨s', hs', _⟩ := outcome_ok h hok
    exact ⟨s', hs'⟩
  · have hinv : heap_inv s' (live_allocs evs) := outcome_of_ok h hs'
    refine ⟨hinv.total, fun hr => ?_, fun a => ?_⟩
    · rw [hinv.total, to_ssize_t_of_range hr]
    · rw [map_find_isSome_iff, view_keys hinv]

/-- Instance of C1: malloc of 10 bytes at 100, calloc of 20 bytes at 200, free of 100. -/
theorem running_total_is_sum_of_live_sizes_witness :
    (env_ok demo_env → ∃ s', capture_all demo_env init_state
      [⟨MMCU_HOOK_MALLOC, 100, 10, 0⟩, ⟨MMCU_HOOK_CALLOC, 200, 20, 0⟩,
        ⟨MMCU_HOOK_FREE, 100, 0, 0⟩] = .ok s') ∧
    ∀ s', capture_all demo_env init_state
      [⟨MMCU_HOOK_MALLOC, 100, 10, 0⟩, ⟨MMCU_HOOK_CALLOC, 200, 20, 0⟩,
        ⟨MMCU_HOOK_FREE, 100, 0, 0⟩] = .ok s' →
      s'.current_mem_allocd = to_ssize_t (((live_allocs
        [⟨MMCU_HOOK_MALLOC, 100, 10, 0⟩, ⟨MMCU_HOOK_CALLOC, 200, 20, 0⟩,
          ⟨MMCU_HOOK_FREE, 100, 0, 0⟩]).map (fun e => e.size)).sum) ∧
      (is_ssize_t (((live_allocs
        [⟨MMCU_HOOK_MALLOC, 100, 10, 0⟩, ⟨MMCU_HOOK_CALLOC, 200, 20, 0⟩,
          ⟨MMCU_HOOK_FREE, 100, 0, 0⟩]).map (fun e => e.size)).sum) →
        s'.current_mem_allocd = ((live_allocs
          [⟨MMCU_HOOK_MALLOC, 100, 10, 0⟩, ⟨MMCU_HOOK_CALLOC, 200, 20, 0⟩,
            ⟨MMCU_HOOK_FREE, 100, 0, 0⟩]).map (fun e => e.size)).sum) ∧
      ∀ a, (map_find s'.addr2entry a).isSome = true ↔
        a ∈ (live_allocs
          [⟨MMCU_HOOK_MALLOC, 100, 10, 0⟩, ⟨MMCU_HOOK_CALLOC, 200, 20, 0⟩,
            ⟨MMCU_HOOK_FREE, 100, 0, 0⟩]).map (fun e => e.addr) :=
  running_total_is_sum_of_live_sizes demo_env _
    (unique_addr_trace_of_admissible demo_env _ init_state [] heap_inv_init (by decide))

/-- C10. Watermarks are monotone.  For every state, every event and every behaviour of
the kernel queries and the clock, if `capture` of the event completes then the
library-only high watermark and the whole-process high watermark afterwards are each at
least their values before the call; this includes deallocate and unmap events, which
lower the running total. -/
theorem watermarks_monotone (env : mmcu_env) (s : mmcu_mem_stat_mgr)
    (e : mmcu_memory_op_entry) (s' : mmcu_mem_stat_mgr)
    (h : capture_new env s e = .ok s') :
    s.mpi_high_mem_usage_mark ≤ s'.mpi_high_mem_usage_mark ∧
    s.pss_high_mem_usage_mark ≤ s'.pss_high_mem_usage_mark := by
  have hm := (capture_marks env capture_fuel).1 _ _ _ h
  exact ⟨hm.1, hm.2⟩

/-- Instance of C10: freeing the block tracked in `demo_state` completes, lowers the
running total, and leaves both watermarks at least as high as before. -/
theorem watermarks_monotone_witness :
    ∃ s', capture_new demo_env demo_state ⟨MMCU_HOOK_FREE, 100, 0, 0⟩ = .ok s' ∧
      s'.current_mem_allocd < demo_state.current_mem_allocd ∧
      demo_state.mpi_high_mem_usage_mark ≤ s'.mpi_high_mem_usage_mark ∧
      demo_state.pss_high_mem_usage_mark ≤ s'.pss_high_mem_usage_mark := by
  obtain ⟨s', hs', hc⟩ := outcome_ok
    (free_core demo_env demo_state 100 0 0 ⟨MMCU_HOOK_MALLOC, 100, 10, 0⟩ rfl rfl) demo_env_ok
  refine ⟨s', hs', ?_, watermarks_monotone demo_env demo_state _ s' hs'⟩
  rw [hc.current_mem_allocd]
  decide

/-- C6. Resize with null old address equals plain allocate.  For every state, every
non-null address `A` and every size `S`, capturing a resize event (addr = `A`,
size = `S`, old_addr = null) ends exactly as capturing the malloc event (addr = `A`,
size = `S`) from the same state does: it fails when and as the malloc capture fails, and
otherwise returns the state the malloc capture returns with the capture count one
higher.  So the two resulting states agree in every component (running total, live
allocation table and the records it points to, mapped-region table, watermarks, time
series, all other counters) except the capture count. -/
theorem realloc_null_old_is_malloc (env : mmcu_env) (s : mmcu_mem_stat_mgr) (A : Nat)
    (S : Int) (hA : A ≠ 0) :
    capture_new env s ⟨MMCU_HOOK_REALLOC, A, S, 0⟩ =
      (capture_new env s ⟨MMCU_HOOK_MALLOC, A, S, 0⟩).map
        (fun r => { r with num_captures := r.num_captures + 1 }) := by
  have hcls : alloc_class (deref (new_entry s ⟨MMCU_HOOK_MALLOC, A, S, 0⟩).1
      (new_entry s ⟨MMCU_HOOK_MALLOC, A, S, 0⟩).2).opid = true := by
    rw [deref_new_entry_self]; rfl
  rw [realloc_null_old_unfold env s A S hA, malloc_fuel env s A S]
  cases hr : capture env 4 (new_entry s ⟨MMCU_HOOK_MALLOC, A, S, 0⟩).1
      (new_entry s ⟨MMCU_HOOK_MALLOC, A, S, 0⟩).2 with
  | error f =>
    simp only [Except.map]
    exact capture_alloc_nc_error env _ _ f (s.num_captures + 1) hcls hr
  | ok r =>
    have hn := capture_result_nc env _ _ r hcls hr
    have hn' : r.num_captures = s.num_captures + 1 := hn
    rw [capture_alloc_nc env _ _ r (s.num_captures + 1) hcls hr]
    simp only [Except.map, hn']

/-- Instance of C6: from `demo_state`, the malloc of 20 bytes at address 200 completes,
and a resize with null old address that returns 20 bytes at address 200 yields the same
state with the capture count one higher. -/
theorem realloc_null_old_is_malloc_witness :
    (∃ r, capture_new demo_env demo_state ⟨MMCU_HOOK_MALLOC, 200, 20, 0⟩ = .ok r) ∧
    capture_new demo_env demo_state ⟨MMCU_HOOK_REALLOC, 200, 20, 0⟩ =
      (capture_new demo_env demo_state ⟨MMCU_HOOK_MALLOC, 200, 20, 0⟩).map
        (fun r => { r with num_captures := r.num_captures + 1 }) := by
  refine ⟨?_, realloc_null_old_is_malloc demo_env demo_state 200 20 (by decide)⟩
  have h := capture_alloc_outcome demo_env 3
    (new_entry demo_state ⟨MMCU_HOOK_MALLOC, 200, 20, 0⟩).1
    (new_entry demo_state ⟨MMCU_HOOK_MALLOC, 200, 20, 0⟩).2 rfl rfl rfl
  obtain ⟨r, hr, _⟩ := outcome_ok h demo_env_ok
  exact ⟨r, hr⟩

/-- C14 (the code at the failing input).  At start-up nothing is tracked.  The free hook
for address 100 completes and leaves the running total unchanged, but it inserts address
100 into the live allocation table, with the deallocate record itself as its entry.  The
malloc hook for 10 bytes returned at that same address 100 is then handled as a curious
operation: the running total stays at its start-up value and the table is not updated, so
the allocation is not accounted as a new one. -/
theorem free_untracked_is_inserted :
    map_find init_state.addr2entry 100 = none ∧
    ∃ s1 s2, mmcu_mem_hooks_free_hook demo_env init_state 100 = .ok s1 ∧
      live_entry s1 100 = some ⟨MMCU_HOOK_FREE, 100, 0, 0⟩ ∧
      s1.current_mem_allocd = init_state.current_mem_allocd ∧
      mmcu_mem_hooks_malloc_hook demo_env s1 100 10 = .ok s2 ∧
      s2.current_mem_allocd = init_state.current_mem_allocd ∧
      s2.addr2entry = s1.addr2entry := by
  refine ⟨rfl, ?_⟩
  obtain ⟨s1, h1, hc1⟩ := outcome_ok (free_untracked_core demo_env init_state 100 rfl rfl)
    demo_env_ok
  have hl : live_entry s1 100 = some ⟨MMCU_HOOK_FREE, 100, 0, 0⟩ := by
    rw [live_entry_of_core hc1 100]; rfl
  have h2 := curious_core demo_env s1 ⟨MMCU_HOOK_MALLOC, 100, to_ssize_t (10 : Nat), 0⟩
    ⟨MMCU_HOOK_FREE, 100, 0, 0⟩ rfl hl
  refine ⟨s1, _, h1, hl, ?_, h2, ?_, rfl⟩
  · rw [hc1.current_mem_allocd]; decide
  · show s1.current_mem_allocd = _
    rw [hc1.current_mem_allocd]; decide

/-- C15 as stated fails.  At start-up the mapped-region table is empty; the munmap hook
for 8192 bytes at address 100 does not complete: the run ends at the failing assertion
`opid == MMCU_HOOK_MMAP` of `capture_mmap_ops`. -/
theorem munmap_untracked_aborts_at_start_up :
    map_find init_state.addr2mmap_entry 100 = none ∧
    mmcu_mem_hooks_munmap_hook demo_env init_state 100 8192 = .error .assertion_failed :=
  ⟨rfl, munmap_untracked_core demo_env init_state ⟨MMCU_HOOK_MUNMAP, 100, to_ssize_t 8192, 0⟩
    rfl rfl⟩

/-- C15, amended.  For every state, every behaviour of the kernel interface and every
unmap event whose address is not in the mapped-region table, `capture` does not complete:
with assertions compiled in, the run ends at the failing assertion
`opid == MMCU_HOOK_MMAP` that `capture_mmap_ops` makes for an address it does not yet
track, before any table, counter other than the capture count, or the running total is
updated. -/
theorem munmap_untracked_fails_assertion (env : mmcu_env) (s : mmcu_mem_stat_mgr)
    (e : mmcu_memory_op_entry) (ho : e.opid = MMCU_HOOK_MUNMAP)
    (hA : map_find s.addr2mmap_entry e.addr = none) :
    capture_new env s e = .error .assertion_failed :=
  munmap_untracked_core env s e ho hA

/-- Instance of the amended C15: in `demo_state`, which tracks a heap block at address 100
and no mapped region, an unmap event of 4096 bytes at address 100. -/
theorem munmap_untracked_fails_assertion_witness :
    capture_new demo_env demo_state ⟨MMCU_HOOK_MUNMAP, 100, 4096, 0⟩
      = .error .assertion_failed :=
  munmap_untracked_fails_assertion demo_env demo_state ⟨MMCU_HOOK_MUNMAP, 100, 4096, 0⟩
    rfl rfl

/-- C16 (the code at the failing inputs).  In `demo_state` the live allocation table holds
address 100 only.  (i) The realloc hook for a call `realloc(100, 16)` that returned null
completes and leaves the running total unchanged, but inserts address 0 into the live
allocation table, with the no-op record as its entry.  (ii) The realloc hook for a call
`realloc(300, 0)` that returned the non-null address 200, with 300 not tracked, completes
and leaves the running total unchanged, but inserts address 200 into the live allocation
table, with the no-op record as its entry. -/
theorem realloc_noop_inserts_entry :
    (map_find demo_state.addr2entry 0 = none ∧
      ∃ s', mmcu_mem_hooks_realloc_hook demo_env demo_state 0 100 16 = .ok s' ∧
        s'.current_mem_allocd = demo_state.current_mem_allocd ∧
        live_entry s' 0 = some ⟨MMCU_HOOK_NOOP, 0, 16, 100⟩) ∧
    (map_find demo_state.addr2entry 200 = none ∧ map_find demo_state.addr2entry 300 = none ∧
      ∃ s', mmcu_mem_hooks_realloc_hook demo_env demo_state 200 300 0 = .ok s' ∧
        s'.current_mem_allocd = demo_state.current_mem_allocd ∧
        live_entry s' 200 = some ⟨MMCU_HOOK_NOOP, 200, 0, 300⟩) := by
  refine ⟨⟨rfl, ?_⟩, rfl, rfl, ?_⟩
  · obtain ⟨s', h, hc⟩ := outcome_ok
      (realloc_null_core demo_env demo_state 100 (to_ssize_t (16 : Nat)) rfl rfl) demo_env_ok
    refine ⟨s', h, hc.current_mem_allocd, ?_⟩
    rw [live_entry_of_core hc 0]; rfl
  · obtain ⟨s', h, hc⟩ := outcome_ok
      (realloc_noop_core demo_env demo_state 200 300 rfl (by decide) (by decide) rfl rfl)
      demo_env_ok
    refine ⟨s', h, hc.current_mem_allocd, ?_⟩
    rw [live_entry_of_core hc 200]; rfl

/-- C17 (the code at the failing inputs).  In `demo_state` the running total is 10, the
live allocation table holds address 100 only, and no mapped region is tracked.  (i) Move:
the realloc hook for a call `realloc(300, 20)` that returned address 200 completes with
the running total still at 10, not at 30, and with both 200 and 300 inserted into the live
allocation table.  (ii) In place: the realloc hook for a call `realloc(200, 20)` that
returned address 200 completes with the running total at 10 - 20 = -10, not at 30. -/
theorem realloc_untracked_old_not_a_noop :
    map_find demo_state.addr2entry 200 = none ∧ map_find demo_state.addr2entry 300 = none ∧
    demo_state.addr2mmap_entry = [] ∧ demo_state.current_mem_allocd = 10 ∧
    (∃ s', mmcu_mem_hooks_realloc_hook demo_env demo_state 200 300 20 = .ok s' ∧
      s'.current_mem_allocd = 10 ∧
      (map_find s'.addr2entry 200).isSome = true ∧
      (map_find s'.addr2entry 300).isSome = true) ∧
    (∃ s', mmcu_mem_hooks_realloc_hook demo_env demo_state 200 200 20 = .ok s' ∧
      s'.current_mem_allocd = -10 ∧
      (map_find s'.addr2entry 200).isSome = true) := by
  refine ⟨rfl, rfl, rfl, rfl, ?_, ?_⟩
  · obtain ⟨s', h, hc⟩ := outcome_ok
      (realloc_move_untracked_core demo_env demo_state 200 300 (to_ssize_t (20 : Nat)) rfl
        rfl rfl (by decide) (by decide) (by decide) (by decide)) demo_env_ok
    refine ⟨s', h, ?_, ?_, ?_⟩
    · rw [hc.current_mem_allocd]; decide
    · rw [hc.addr2entry]; rfl
    · rw [hc.addr2entry]; rfl
  · obtain ⟨s', h, hc⟩ := outcome_ok
      (realloc_in_place_untracked_core demo_env demo_state 200 (to_ssize_t (20 : Nat)) rfl
        rfl (by decide) (by decide)) demo_env_ok
    refine ⟨s', h, ?_, ?_⟩
    · rw [hc.current_mem_allocd]; decide
    · rw [hc.addr2entry]; rfl

/-- C18. First map of an address is accounted at its PSS.  In a state where address `A`
is not in the mapped-region table and the engine's region query for `A` yields the
descriptor `d` (PSS `d.pss_in_b` bytes), capturing a map event at `A` with any requested
length `L` completes whenever the kernel interface is readable, and whenever it completes
`A` is in the mapped-region table with a record of kind map-cost-update whose size is the
PSS (as an `ssize_t`), the running total has grown by exactly the PSS (in `ssize_t`
arithmetic, hence exactly whenever the result is representable) whatever `L` is, the
allocate-operation counter has grown by exactly 1 and the free-operation counter is
unchanged. -/
theorem first_map_accounted_at_pss (env : mmcu_env) (s sq : mmcu_mem_stat_mgr) (A O : Nat)
    (L : Int) (d : mmcu_proc_smaps_entry)
    (hA : map_find s.addr2mmap_entry A = none)
    (hq : get_proc_self_smaps_entry env s A = .ok (d, sq)) :
    (env_ok env → ∃ s', capture_new env s ⟨MMCU_HOOK_MMAP, A, L, O⟩ = .ok s') ∧
    ∀ s', capture_new env s ⟨MMCU_HOOK_MMAP, A, L, O⟩ = .ok s' →
      mapped_entry s' A = some ⟨MMCU_HOOK_MMAP_PSS_UPDATE, A, to_ssize_t d.pss_in_b, O⟩ ∧
      (is_ssize_t d.pss_in_b → (mapped_entry s' A).map (fun e => e.size) = some d.pss_in_b) ∧
      s'.current_mem_allocd = to_ssize_t (s.current_mem_allocd + d.pss_in_b) ∧
      (is_ssize_t (s.current_mem_allocd + d.pss_in_b) →
        s'.current_mem_allocd = s.current_mem_allocd + d.pss_in_b) ∧
      s'.n_mem_alloc_ops = s.n_mem_alloc_ops + 1 ∧
      s'.n_mem_free_ops = s.n_mem_free_ops := by
  have hc := map_event_core env s sq A O L d hA hq
  refine ⟨fun hok => ?_, fun s' hs' => ?_⟩
  · obtain ⟨s', h, _⟩ := outcome_ok hc hok
    exact ⟨s', h⟩
  · obtain ⟨h, ha, hf⟩ := outcome_of_ok hc hs'
    have hm : mapped_entry s' A
        = some ⟨MMCU_HOOK_MMAP_PSS_UPDATE, A, to_ssize_t d.pss_in_b, O⟩ := by
      rw [mapped_entry_of_core h A]
      simp [map_find]
    refine ⟨hm, fun hr => ?_, h.current_mem_allocd, fun hr => ?_, ha, hf⟩
    · rw [hm]
      simp [to_ssize_t_of_range hr]
    · rw [h.current_mem_allocd, to_ssize_t_of_range hr]

/-- Instance of C18: at start-up, under a kernel interface that reports a PSS of 4096
bytes, a map event of 8192 bytes at address 100. -/
theorem first_map_accounted_at_pss_witness :
    (env_ok demo_env →
      ∃ s', capture_new demo_env init_state ⟨MMCU_HOOK_MMAP, 100, 8192, 0⟩ = .ok s') ∧
    ∀ s', capture_new demo_env init_state ⟨MMCU_HOOK_MMAP, 100, 8192, 0⟩ = .ok s' →
      mapped_entry s' 100
        = some ⟨MMCU_HOOK_MMAP_PSS_UPDATE, 100, to_ssize_t ((4096 : Nat) : Int), 0⟩ ∧
      (is_ssize_t ((4096 : Nat) : Int) →
        (mapped_entry s' 100).map (fun e => e.size) = some ((4096 : Nat) : Int)) ∧
      s'.current_mem_allocd
        = to_ssize_t (init_state.current_mem_allocd + ((4096 : Nat) : Int)) ∧
      (is_ssize_t (init_state.current_mem_allocd + ((4096 : Nat) : Int)) →
        s'.current_mem_allocd = init_state.current_mem_allocd + ((4096 : Nat) : Int)) ∧
      s'.n_mem_alloc_ops = init_state.n_mem_alloc_ops + 1 ∧
      s'.n_mem_free_ops = init_state.n_mem_free_ops :=
  first_map_accounted_at_pss demo_env init_state { init_state with n_smaps_entry_calls := 1 }
    100 0 8192 { pss_in_b := 4096 } rfl rfl

/-- C19. Sampling periodicities.  For every state with operations-recorded counter `n`,
one non-forced call of `update_mem_stats` completes whenever the kernel interface is
readable, and whenever it completes: the counter is `n + 1`; exactly one sample has been
appended to the library-heap series, its value being the current running total; if
`n + 1` is a multiple of 8 exactly one sample `v` (the whole-process PSS total the kernel
query returned) has been appended to the whole-process series, the application-PSS
sample counter has grown by 1 and the whole-process watermark is the larger of its old
value and `v`; and if `n + 1` is not a multiple of 8 the whole-process series, that
counter and that watermark are unchanged.  Hence `k` non-forced calls from the start-up
state leave `k` samples in the library-heap series and `k / 8` (rounded down) in the
whole-process series. -/
theorem sampling_periodicities (env : mmcu_env) (s : mmcu_mem_stat_mgr) (k : Nat) :
    (env_ok env → ∃ s', update_mem_stats env 1 s false = .ok s') ∧
    (∀ s', update_mem_stats env 1 s false = .ok s' →
      s'.n_mem_ops_recorded = s.n_mem_ops_recorded + 1 ∧
      s'.mem_allocd_samples
        = s.mem_allocd_samples ++ [(env.mmcu_time s.n_time_calls, s.current_mem_allocd)] ∧
      ((s.n_mem_ops_recorded + 1) % 8 = 0 →
        ∃ v, env.smaps_pss_total s.n_smaps_total_calls = some v ∧
          s'.pss_total_samples
            = s.pss_total_samples ++ [(env.mmcu_time (s.n_time_calls + 1), v)] ∧
          s'.n_app_pss_samples = s.n_app_pss_samples + 1 ∧
          s'.pss_high_mem_usage_mark = max s.pss_high_mem_usage_mark v ∧
          v ≤ s'.pss_high_mem_usage_mark) ∧
      ((s.n_mem_ops_recorded + 1) % 8 ≠ 0 →
        s'.pss_total_samples = s.pss_total_samples ∧
        s'.n_app_pss_samples = s.n_app_pss_samples ∧
        s'.pss_high_mem_usage_mark = s.pss_high_mem_usage_mark)) ∧
    (env_ok env → ∃ s', update_mem_stats_n env k init_state = .ok s') ∧
    (∀ s', update_mem_stats_n env k init_state = .ok s' →
      s'.mem_allocd_samples.length = k ∧ s'.pss_total_samples.length = k / 8) := by
  refine ⟨fun hok => ums_false_ok env 0 s hok, fun s' hs' => ?_,
    fun hok => ums_n_ok env hok k init_state, fun s' hs' => ?_⟩
  · obtain ⟨hn, hm, _, hp, hnp, _, _⟩ := ums_false_inv env 0 s s' hs'
    refine ⟨hn, hm, fun hc => ?_, hnp⟩
    obtain ⟨v, hv, h1, h2, h3⟩ := hp hc
    exact ⟨v, hv, h1, h2, h3, by rw [h3]; exact le_max_right _ _⟩
  · obtain ⟨_, hm, hp⟩ := ums_n_inv env k init_state s' hs'
    have h0 : init_state.mem_allocd_samples.length = 0 := rfl
    have h1 : init_state.pss_total_samples.length = 0 := rfl
    have h2 : init_state.n_mem_ops_recorded = 0 := rfl
    rw [h0] at hm
    rw [h1, h2] at hp
    refine ⟨by omega, by omega⟩

/-- Instance of C19: under `demo_env`, whose kernel interface is readable, one non-forced
call from `demo_state` and 16 non-forced calls from the start-up state complete. -/
theorem sampling_periodicities_witness :
    (∃ s', update_mem_stats demo_env 1 demo_state false = .ok s' ∧
      s'.n_mem_ops_recorded = 1 ∧ s'.mem_allocd_samples = [(0, 10)]) ∧
    (∃ s', update_mem_stats_n demo_env 16 init_state = .ok s' ∧
      s'.mem_allocd_samples.length = 16 ∧ s'.pss_total_samples.length = 2) := by
  have h := sampling_periodicities demo_env demo_state 16
  obtain ⟨s1, hs1⟩ := h.1 demo_env_ok
  obtain ⟨s2, hs2⟩ := h.2.2.1 demo_env_ok
  obtain ⟨hn, hm, _⟩ := h.2.1 s1 hs1
  obtain ⟨ha, hb⟩ := h.2.2.2 s2 hs2
  exact ⟨⟨s1, hs1, hn, hm⟩, ⟨s2, hs2, ha, hb⟩⟩

/-- C20 as stated fails.  In `mapped_state` one mapped region (address 100, stored PSS
4096) is tracked, the library-heap series holds one sample and the operations-recorded
counter is 1.  The mapped-region refresh is due (the request counter is 0) and
completes; afterwards the library-heap series holds two samples and the
operations-recorded counter is 2: the refresh appended a sample. -/
theorem refresh_appends_sample :
    mapped_state.mem_allocd_samples.length = 1 ∧ mapped_state.n_mem_ops_recorded = 1 ∧
    ∃ s', update_all_pss_entries demo_env 3 mapped_state false = .ok s' ∧
      s'.mem_allocd_samples.length = 2 ∧ s'.n_mem_ops_recorded = 2 := by
  obtain ⟨h1, h2⟩ := refresh_runs_counts demo_env 0 mapped_state false rfl mapped_state_kinds
  obtain ⟨s', hs'⟩ := ok_of_no_error h2 demo_env_ok
  obtain ⟨_, _, _, hn, hm, _⟩ := h1 s' hs'
  exact ⟨rfl, rfl, s', hs', hm, hn⟩

/-- C20, amended.  Whenever the mapped-region refresh runs (it is forced, or the request
counter is a multiple of 8) on a state whose mapped-region table holds only records of
kind map-cost-update, it completes whenever the kernel interface is readable, and
whenever it completes it has appended exactly one library-heap sample per tracked region
and advanced the operations-recorded counter by one per tracked region (the removal of a
region's old size is internal bookkeeping and takes no sample; the addition of its new
size goes through the sampling step), and it has appended one whole-process sample for
each multiple of 8 that the operations-recorded counter reached on the way. -/
theorem refresh_samples_once_per_region (env : mmcu_env) (f : Nat) (s : mmcu_mem_stat_mgr)
    (samp : Bool)
    (hrun : (samp || s.n_mpi_pss_samples_requested % mpi_pss_update_freq == 0) = true)
    (hall : ∀ kv ∈ s.addr2mmap_entry, (deref s kv.2).opid = MMCU_HOOK_MMAP_PSS_UPDATE) :
    (env_ok env → ∃ s', update_all_pss_entries env (f + 3) s samp = .ok s') ∧
    ∀ s', update_all_pss_entries env (f + 3) s samp = .ok s' →
      s'.n_mem_ops_recorded = s.n_mem_ops_recorded + s.addr2mmap_entry.length ∧
      s'.mem_allocd_samples.length
        = s.mem_allocd_samples.length + s.addr2mmap_entry.length ∧
      s'.pss_total_samples.length = s.pss_total_samples.length
        + ((s.n_mem_ops_recorded + s.addr2mmap_entry.length) / 8
            - s.n_mem_ops_recorded / 8) := by
  obtain ⟨h1, h2⟩ := refresh_runs_counts env f s samp hrun hall
  refine ⟨fun hok => ok_of_no_error h2 hok, fun s' hs' => ?_⟩
  obtain ⟨_, _, _, hn, hm, hp⟩ := h1 s' hs'
  refine ⟨hn, hm, ?_⟩
  have hmono : s.n_mem_ops_recorded / 8
      ≤ (s.n_mem_ops_recorded + s.addr2mmap_entry.length) / 8 :=
    Nat.div_le_div_right (Nat.le_add_right _ _)
  omega

/-- Instance of the amended C20: the forced refresh of `mapped_state`. -/
theorem refresh_samples_once_per_region_witness :
    (env_ok demo_env → ∃ s', update_all_pss_entries demo_env 3 mapped_state true = .ok s') ∧
    ∀ s', update_all_pss_entries demo_env 3 mapped_state true = .ok s' →
      s'.n_mem_ops_recorded
        = mapped_state.n_mem_ops_recorded + mapped_state.addr2mmap_entry.length ∧
      s'.mem_allocd_samples.length
        = mapped_state.mem_allocd_samples.length + mapped_state.addr2mmap_entry.length ∧
      s'.pss_total_samples.length = mapped_state.pss_total_samples.length
        + ((mapped_state.n_mem_ops_recorded + mapped_state.addr2mmap_entry.length) / 8
            - mapped_state.n_mem_ops_recorded / 8) :=
  refresh_samples_once_per_region demo_env 0 mapped_state true rfl mapped_state_kinds

/-- C21. Refresh applies the PSS delta.  Let the mapped-region refresh run (forced, or
with the request counter a multiple of 8) on a state whose mapped-region table holds
distinct records, all of kind map-cost-update, and let the kernel query return
`pss_of a` bytes whenever it is asked about the address `a` of one of these records.
Then the refresh completes whenever the kernel interface is readable, and whenever it
completes every tracked record has the stored size `pss_of a` (as an `ssize_t`) and is
otherwise unchanged, the mapped-region table is unchanged, and the running total equals
its previous value plus the sum over the tracked records of (`pss_of a` - old stored
size), in `ssize_t` arithmetic (hence exactly whenever that value is representable). -/
theorem refresh_applies_pss_delta (env : mmcu_env) (f : Nat) (s : mmcu_mem_stat_mgr)
    (samp : Bool) (pss_of : Nat → Nat)
    (hrun : (samp || s.n_mpi_pss_samples_requested % mpi_pss_update_freq == 0) = true)
    (hall : ∀ kv ∈ s.addr2mmap_entry, (deref s kv.2).opid = MMCU_HOOK_MMAP_PSS_UPDATE)
    (hnd : (s.addr2mmap_entry.map (fun kv => kv.2)).Nodup)
    (hrng : is_ssize_t s.current_mem_allocd)
    (hq : ∀ kv ∈ s.addr2mmap_entry, ∀ t d t',
      get_proc_self_smaps_entry env t (deref s kv.2).addr = .ok (d, t') →
      d.pss_in_b = pss_of (deref s kv.2).addr) :
    (env_ok env → ∃ s', update_all_pss_entries env (f + 3) s samp = .ok s') ∧
    ∀ s', update_all_pss_entries env (f + 3) s samp = .ok s' →
      (∀ kv ∈ s.addr2mmap_entry, deref s' kv.2
        = { deref s kv.2 with size := to_ssize_t (pss_of (deref s kv.2).addr) }) ∧
      s'.addr2mmap_entry = s.addr2mmap_entry ∧
      s'.current_mem_allocd = to_ssize_t (s.current_mem_allocd
        + (s.addr2mmap_entry.map
            (fun kv => (pss_of (deref s kv.2).addr : Int) - (deref s kv.2).size)).sum) ∧
      (is_ssize_t (s.current_mem_allocd
        + (s.addr2mmap_entry.map
            (fun kv => (pss_of (deref s kv.2).addr : Int) - (deref s kv.2).size)).sum) →
        s'.current_mem_allocd = s.current_mem_allocd
          + (s.addr2mmap_entry.map
              (fun kv => (pss_of (deref s kv.2).addr : Int) - (deref s kv.2).size)).sum) := by
  obtain ⟨h1, h2⟩ := refresh_runs_counts env f s samp hrun hall
  refine ⟨fun hok => ok_of_no_error h2 hok, fun s' hs' => ?_⟩
  obtain ⟨_, hmm, _⟩ := h1 s' hs'
  obtain ⟨hsz, htot⟩ := refresh_runs_delta env f s samp pss_of hrun hall hnd hrng hq s' hs'
  exact ⟨hsz, hmm, htot, fun hr => by rw [htot, to_ssize_t_of_range hr]⟩

/-- Instance of C21: the refresh of `mapped_state` (one region at address 100, stored
size 4096) under a kernel interface that now reports 4096 bytes for every region. -/
theorem refresh_applies_pss_delta_witness :
    (env_ok demo_env → ∃ s', update_all_pss_entries demo_env 3 mapped_state false = .ok s') ∧
    ∀ s', update_all_pss_entries demo_env 3 mapped_state false = .ok s' →
      (∀ kv ∈ mapped_state.addr2mmap_entry, deref s' kv.2
        = { deref mapped_state kv.2 with size := to_ssize_t ((4096 : Nat) : Int) }) ∧
      s'.addr2mmap_entry = mapped_state.addr2mmap_entry ∧
      s'.current_mem_allocd = to_ssize_t (mapped_state.current_mem_allocd
        + (mapped_state.addr2mmap_entry.map
            (fun kv => ((4096 : Nat) : Int) - (deref mapped_state kv.2).size)).sum) ∧
      (is_ssize_t (mapped_state.current_mem_allocd
        + (mapped_state.addr2mmap_entry.map
            (fun kv => ((4096 : Nat) : Int) - (deref mapped_state kv.2).size)).sum) →
        s'.current_mem_allocd = mapped_state.current_mem_allocd
          + (mapped_state.addr2mmap_entry.map
              (fun kv => ((4096 : Nat) : Int) - (deref mapped_state kv.2).size)).sum) :=
  refresh_applies_pss_delta demo_env 0 mapped_state false (fun _ => 4096) rfl
    mapped_state_kinds (by decide) (by decide)
    (fun _ _ t d t' h => demo_env_pss t _ d t' h)

/-- C23. Bounded retry of the region query.  Let `c` be the number of parser address
queries made so far.  (1) If the first `i` attempts (`i < 5`) report not-found and the
next one reports found with descriptor `d`, the engine's `get_proc_self_smaps_entry`
returns `d` after exactly `i + 1` parser calls and logs nothing.  (2) If 5 attempts in a
row report not-found, it still returns normally, after exactly 5 parser calls, with the
zeroed descriptor (start 0, end 0, PSS 0, not shared, empty path) and one warning.
(3) Whenever it returns, it has made at most 5 parser calls, and either the last call
reported found with the descriptor returned and all earlier ones not-found, or all 5
reported not-found and the descriptor is the zeroed one. -/
theorem bounded_region_query_retry (env : mmcu_env) (s : mmcu_mem_stat_mgr) (a : Nat) :
    (∀ (i : Nat) (d : mmcu_proc_smaps_entry), i < 5 →
      (∀ j, j < i → env.smaps_entry (s.n_smaps_entry_calls + j) a = .not_found) →
      env.smaps_entry (s.n_smaps_entry_calls + i) a = .found d →
      get_proc_self_smaps_entry env s a
        = .ok (d, { s with n_smaps_entry_calls := s.n_smaps_entry_calls + i + 1 })) ∧
    ((∀ j, j < 5 → env.smaps_entry (s.n_smaps_entry_calls + j) a = .not_found) →
      get_proc_self_smaps_entry env s a
        = .ok ({ addr_start := 0, addr_end := 0, pss_in_b := 0, reg_shared := false,
                 path := [] },
               { s with
                 n_smaps_entry_calls := s.n_smaps_entry_calls + 5
                 stderr := s.stderr ++ [.missing_smaps_entry] })) ∧
    (∀ (d : mmcu_proc_smaps_entry) (s' : mmcu_mem_stat_mgr),
      get_proc_self_smaps_entry env s a = .ok (d, s') →
      s'.n_smaps_entry_calls ≤ s.n_smaps_entry_calls + 5 ∧
      ((∃ i, i < 5 ∧ s'.n_smaps_entry_calls = s.n_smaps_entry_calls + i + 1 ∧
          env.smaps_entry (s.n_smaps_entry_calls + i) a = .found d ∧
          ∀ j, j < i → env.smaps_entry (s.n_smaps_entry_calls + j) a = .not_found) ∨
        (d = {} ∧ s'.n_smaps_entry_calls = s.n_smaps_entry_calls + 5 ∧
          ∀ j, j < 5 → env.smaps_entry (s.n_smaps_entry_calls + j) a = .not_found))) := by
  refine ⟨fun i d hi hnf hf => ?_, fun hnf => ?_, fun d s' h => ?_⟩
  · unfold get_proc_self_smaps_entry
    rw [smaps_retry_found env a n_tries {} s i d hi hnf hf]
    rfl
  · unfold get_proc_self_smaps_entry
    rw [smaps_retry_not_found env a n_tries {} s hnf]
    rfl
  · unfold get_proc_self_smaps_entry at h
    cases hr : smaps_retry env a n_tries {} s with
    | error f => rw [hr] at h; cases h
    | ok x =>
      obtain ⟨b, d', t'⟩ := x
      rw [hr] at h
      simp only [Except.ok.injEq, Prod.mk.injEq] at h
      obtain ⟨hd, hs'⟩ := h
      subst hd; subst hs'
      obtain ⟨h1, h2, h3⟩ := smaps_retry_calls env a n_tries {} s b d' t' hr
      refine ⟨h1, ?_⟩
      cases b with
      | true => exact Or.inl (h2 rfl)
      | false => exact Or.inr (h3 rfl)

/-- Instance of C23: under `demo_env` the first attempt reports found; under `empty_env`
all five attempts report not-found and the zeroed descriptor is returned. -/
theorem bounded_region_query_retry_witness :
    get_proc_self_smaps_entry demo_env init_state 100
      = .ok ({ pss_in_b := 4096 }, { init_state with n_smaps_entry_calls := 1 }) ∧
    get_proc_self_smaps_entry empty_env init_state 100
      = .ok ({ addr_start := 0, addr_end := 0, pss_in_b := 0, reg_shared := false,
               path := [] },
             { init_state with
               n_smaps_entry_calls := 5
               stderr := [.missing_smaps_entry] }) :=
  ⟨(bounded_region_query_retry demo_env init_state 100).1 0 { pss_in_b := 4096 }
      (by decide) (fun j hj => absurd hj (Nat.not_lt_zero j)) rfl,
    (bounded_region_query_retry empty_env init_state 100).2.1 (fun _ _ => rfl)⟩

/-- C25. Each watermark is the maximum of its series.  In every state reachable from the
start-up state by `capture` calls and forced or non-forced `update_mem_stats` calls, the
library-only high watermark is the maximum of 0 and the values of the library-heap time
series (it is not negative, no sample exceeds it, and it is 0 or the value of a sample),
the whole-process high watermark is likewise the maximum of 0 and the values of the
whole-process time series, and the library-only watermark is at least the running total;
in particular this holds after every completed capture. -/
theorem watermarks_are_series_maxima (env : mmcu_env) (s : mmcu_mem_stat_mgr)
    (h : stats_reachable env s) :
    (0 ≤ s.mpi_high_mem_usage_mark ∧
      (∀ x ∈ s.mem_allocd_samples, x.2 ≤ s.mpi_high_mem_usage_mark) ∧
      (s.mpi_high_mem_usage_mark = 0 ∨
        ∃ x ∈ s.mem_allocd_samples, x.2 = s.mpi_high_mem_usage_mark)) ∧
    (0 ≤ s.pss_high_mem_usage_mark ∧
      (∀ x ∈ s.pss_total_samples, x.2 ≤ s.pss_high_mem_usage_mark) ∧
      (s.pss_high_mem_usage_mark = 0 ∨
        ∃ x ∈ s.pss_total_samples, x.2 = s.pss_high_mem_usage_mark)) ∧
    s.current_mem_allocd ≤ s.mpi_high_mem_usage_mark ∧
    (∀ e s', capture_new env s e = .ok s' →
      s'.current_mem_allocd ≤ s'.mpi_high_mem_usage_mark) := by
  have hw := stats_reachable_wm env s h
  refine ⟨?_, ?_, hw.total, fun e s' hc => ?_⟩
  · rw [hw.series.mpi]; exact series_max_spec _
  · rw [hw.series.pss]; exact series_max_spec _
  · exact ((capture_wm env capture_fuel).1 _ _ _ hc
      ⟨⟨hw.series.mpi, hw.series.pss⟩, hw.total⟩).total

/-- Instance of C25: the state reached from start-up by a malloc of 10 bytes at address
100 followed by a forced sampling step. -/
theorem watermarks_are_series_maxima_witness :
    ∃ s1 s2, capture_new demo_env init_state ⟨MMCU_HOOK_MALLOC, 100, 10, 0⟩ = .ok s1 ∧
      update_mem_stats demo_env 4 s1 true = .ok s2 ∧
      s1.current_mem_allocd = 10 ∧
      (∀ x ∈ s2.mem_allocd_samples, x.2 ≤ s2.mpi_high_mem_usage_mark) ∧
      (∀ x ∈ s2.pss_total_samples, x.2 ≤ s2.pss_high_mem_usage_mark) ∧
      s2.current_mem_allocd ≤ s2.mpi_high_mem_usage_mark := by
  obtain ⟨s1, h1, hc1⟩ := outcome_ok (capture_alloc_outcome demo_env 3
    (new_entry init_state ⟨MMCU_HOOK_MALLOC, 100, 10, 0⟩).1
    (new_entry init_state ⟨MMCU_HOOK_MALLOC, 100, 10, 0⟩).2 rfl rfl rfl) demo_env_ok
  have h1' : capture_new demo_env init_state ⟨MMCU_HOOK_MALLOC, 100, 10, 0⟩ = .ok s1 := h1
  have hu : update_mem_stats demo_env 4 s1 true
      = update_all_pss_entries demo_env 3
          { s1 with
            mpi_high_mem_usage_mark :=
              if s1.current_mem_allocd > s1.mpi_high_mem_usage_mark
              then s1.current_mem_allocd else s1.mpi_high_mem_usage_mark
            mem_allocd_samples :=
              s1.mem_allocd_samples ++ [(demo_env.mmcu_time s1.n_time_calls,
                s1.current_mem_allocd)]
            n_time_calls := s1.n_time_calls + 1 + 1
            n_app_pss_samples := s1.n_app_pss_samples + 1
            n_smaps_total_calls := s1.n_smaps_total_calls + 1
            pss_total_samples :=
              s1.pss_total_samples ++ [(demo_env.mmcu_time (s1.n_time_calls + 1), 0)]
            pss_high_mem_usage_mark :=
              if 0 > s1.pss_high_mem_usage_mark then 0 else s1.pss_high_mem_usage_mark }
          true := by
    simp [update_mem_stats, get_proc_self_smaps_pss_total, demo_env]
  have hmm : s1.addr2mmap_entry = [] := hc1.addr2mmap_entry
  have hu2 : ∃ s2, update_mem_stats demo_env 4 s1 true = .ok s2 := by
    rw [hu]
    simp [update_all_pss_entries, hmm, for_each_entry]
  obtain ⟨s2, h2⟩ := hu2
  have hr : stats_reachable demo_env s2 :=
    .update s1 4 true s2 (.capture init_state _ s1 .init h1') h2
  have hw := watermarks_are_series_maxima demo_env s2 hr
  refine ⟨s1, s2, h1', h2, ?_, hw.1.2.1, hw.2.1.2.1, hw.2.2.1⟩
  rw [hc1.current_mem_allocd]
  decide

/-- C22. Heap and mapped tables do not interfere.  For every state and every event, the
capture call the hooks make never runs out of fuel, and whenever it returns: if the event
is a map or an unmap event the live allocation table is unchanged, and if the event is of
an allocate class (malloc, calloc, posix_memalign) or a deallocate event the
mapped-region table is unchanged (the whole table, hence its set of addresses).  Nothing
is assumed about the event's address: it may be a key of the other table, of both or of
neither. -/
theorem heap_and_mapped_tables_do_not_interfere (env : mmcu_env) (s : mmcu_mem_stat_mgr)
    (e : mmcu_memory_op_entry) (s' : mmcu_mem_stat_mgr)
    (h : capture_new env s e = .ok s') :
    capture_new env s e ≠ .error .out_of_fuel ∧
    (e.opid = MMCU_HOOK_MMAP ∨ e.opid = MMCU_HOOK_MUNMAP → s'.addr2entry = s.addr2entry) ∧
    (alloc_class e.opid = true ∨ e.opid = MMCU_HOOK_FREE →
      s'.addr2mmap_entry = s.addr2mmap_entry ∧
      s'.addr2mmap_entry.map (fun kv => kv.1) = s.addr2mmap_entry.map (fun kv => kv.1)) := by
  refine ⟨capture_returns env 0 _ _, fun ho => capture_new_mmap_tables env s e s' ho h,
    fun ho => ?_⟩
  have := capture_new_plain_tables env s e s' ho h
  exact ⟨this, by rw [this]⟩

/-- Instance of C22: in `overlap_state` address 100 is a key of both tables.  An unmap
event at 100 leaves the live allocation table `[(100, 0)]` alone, and a deallocate event
at 100 leaves the mapped-region table `[(100, 1)]` alone. -/
theorem heap_and_mapped_tables_do_not_interfere_witness :
    (map_find overlap_state.addr2entry 100 = some 0 ∧
      map_find overlap_state.addr2mmap_entry 100 = some 1) ∧
    (capture_new demo_env overlap_state ⟨MMCU_HOOK_MUNMAP, 100, 8192, 0⟩
        ≠ .error .out_of_fuel ∧
      ((MMCU_HOOK_MUNMAP = MMCU_HOOK_MMAP ∨ MMCU_HOOK_MUNMAP = MMCU_HOOK_MUNMAP) →
        overlap_unmapped.addr2entry = overlap_state.addr2entry) ∧
      (alloc_class MMCU_HOOK_MUNMAP = true ∨ MMCU_HOOK_MUNMAP = MMCU_HOOK_FREE →
        overlap_unmapped.addr2mmap_entry = overlap_state.addr2mmap_entry ∧
        overlap_unmapped.addr2mmap_entry.map (fun kv => kv.1)
          = overlap_state.addr2mmap_entry.map (fun kv => kv.1))) ∧
    (capture_new demo_env overlap_state ⟨MMCU_HOOK_FREE, 100, 0, 0⟩
        ≠ .error .out_of_fuel ∧
      ((MMCU_HOOK_FREE = MMCU_HOOK_MMAP ∨ MMCU_HOOK_FREE = MMCU_HOOK_MUNMAP) →
        overlap_freed.addr2entry = overlap_state.addr2entry) ∧
      (alloc_class MMCU_HOOK_FREE = true ∨ MMCU_HOOK_FREE = MMCU_HOOK_FREE →
        overlap_freed.addr2mmap_entry = overlap_state.addr2mmap_entry ∧
        overlap_freed.addr2mmap_entry.map (fun kv => kv.1)
          = overlap_state.addr2mmap_entry.map (fun kv => kv.1))) :=
  ⟨⟨rfl, rfl⟩,
    heap_and_mapped_tables_do_not_interfere demo_env overlap_state
      ⟨MMCU_HOOK_MUNMAP, 100, 8192, 0⟩ overlap_unmapped overlap_munmap_run,
    heap_and_mapped_tables_do_not_interfere demo_env overlap_state
      ⟨MMCU_HOOK_FREE, 100, 0, 0⟩ overlap_freed overlap_free_run⟩

/-- C26. Capture terminates with bounded nesting.  Fuel counts nested calls.  For every
state and every event: the capture call the hooks make returns within fuel 6 (capture,
decomposer, capture, and the three-deep sampling chain below it); a capture of a stored
event that is not a resize returns within fuel 4, so it never reaches the decomposer; the
decomposer returns within fuel 5, every event it hands back to capture being of kind
malloc, free or no-op; whenever the capture returns, the capture count has grown by
exactly 1 for a non-resize event and by 2 or 3 for a resize event (capture nested at most
two deep, at most two sub-captures); a sampling step, forced or not, returns within fuel
4 (update_mem_stats, update_all_pss_entries, update_current_mem_allocd, update_mem_stats),
a non-forced one within fuel 1 (it starts no refresh), a refresh within fuel 3 and
update_current_mem_allocd within fuel 2. -/
theorem capture_terminates_with_bounded_nesting (env : mmcu_env) (s : mmcu_mem_stat_mgr)
    (e : mmcu_memory_op_entry) (p : Nat) :
    capture_new env s e ≠ .error .out_of_fuel ∧
    ((deref s p).opid ≠ MMCU_HOOK_REALLOC → capture env 4 s p ≠ .error .out_of_fuel) ∧
    break_down_realloc env 5 s p ≠ .error .out_of_fuel ∧
    (∀ s', capture_new env s e = .ok s' →
      (e.opid ≠ MMCU_HOOK_REALLOC → s'.num_captures = s.num_captures + 1) ∧
      (e.opid = MMCU_HOOK_REALLOC →
        s'.num_captures = s.num_captures + 2 ∨ s'.num_captures = s.num_captures + 3)) ∧
    (∀ sample, update_mem_stats env 4 s sample ≠ .error .out_of_fuel) ∧
    update_mem_stats env 1 s false ≠ .error .out_of_fuel ∧
    (∀ samp, update_all_pss_entries env 3 s samp ≠ .error .out_of_fuel) ∧
    (∀ b, update_current_mem_allocd env 2 s p b ≠ .error .out_of_fuel) := by
  refine ⟨capture_returns env 0 _ _, capture_plain_returns env 0 s p, bdr_returns env 0 s p,
    fun s' h => ?_, fun sample => ums_returns env 0 s sample, ums_false_returns env 0 s,
    fun samp => uape_returns env 0 s samp, fun b => ucma_returns env 0 s p b⟩
  have hn := capture_nc env capture_fuel (new_entry s e).1 (new_entry s e).2 s' h
  rw [deref_new_entry_self] at hn
  exact hn

/-- Instance of C26: the resize event `realloc(100, 20)` that returned 200, captured in
`demo_state`, returns `demo_moved`, whose capture count is 3 higher. -/
theorem capture_terminates_with_bounded_nesting_witness :
    capture_new demo_env demo_state ⟨MMCU_HOOK_REALLOC, 200, 20, 100⟩ = .ok demo_moved ∧
    demo_moved.num_captures = demo_state.num_captures + 3 ∧
    (demo_moved.num_captures = demo_state.num_captures + 2 ∨
      demo_moved.num_captures = demo_state.num_captures + 3) :=
  ⟨demo_realloc_move_run, rfl,
    ((capture_terminates_with_bounded_nesting demo_env demo_state
      ⟨MMCU_HOOK_REALLOC, 200, 20, 100⟩ 0).2.2.2.1 demo_moved demo_realloc_move_run).2 rfl⟩

/-- C27. Mapped-region table invariant.  In every state reachable from the start-up state
by captures of events of the kinds the hooks generate, every entry of the mapped-region
table points to a record of kind map-cost-update whose address field is the key it is
stored under, and no unexpected-kind warning has ever been written.  Hence a refresh
started in such a state, whenever it completes, has written no unexpected-kind warning,
has left the free-operation counter alone (the already-unmapped branch would raise it)
and, when it runs its loop, has taken one sample per table entry (the unexpected-kind
branch would leave the loop early). -/
theorem mapped_table_invariant (env : mmcu_env) (s : mmcu_mem_stat_mgr)
    (h : hook_reachable env s) :
    (∀ kv ∈ s.addr2mmap_entry,
      (deref s kv.2).opid = MMCU_HOOK_MMAP_PSS_UPDATE ∧ (deref s kv.2).addr = kv.1) ∧
    (∀ o, mmcu_warning.unexpected_opid o ∉ s.stderr) ∧
    (∀ samp s', update_all_pss_entries env 3 s samp = .ok s' →
      (∀ o, mmcu_warning.unexpected_opid o ∉ s'.stderr) ∧
      s'.n_mem_free_ops = s.n_mem_free_ops ∧
      ((samp || s.n_mpi_pss_samples_requested % mpi_pss_update_freq == 0) = true →
        s'.n_mem_ops_recorded = s.n_mem_ops_recorded + s.addr2mmap_entry.length)) := by
  obtain ⟨hinv, hn⟩ := hook_reachable_inv env s h
  have hk : ∀ kv ∈ s.addr2mmap_entry, (deref s kv.2).opid = MMCU_HOOK_MMAP_PSS_UPDATE :=
    fun kv hkv => (hinv kv hkv).1
  refine ⟨hinv, hn, fun samp s' hr => ⟨(uape_frame env 3 s samp s' hr).2 hk hn, ?_, ?_⟩⟩
  · by_cases hrun : (samp || s.n_mpi_pss_samples_requested % mpi_pss_update_freq == 0) = true
    · rw [uape_runs_eq env 2 s samp hrun] at hr
      exact ((refresh_loop_counts env 0 s.addr2mmap_entry
        { s with
          n_mpi_pss_samples_requested :=
            if samp then s.n_mpi_pss_samples_requested
            else s.n_mpi_pss_samples_requested + 1
          n_mpi_pss_samples := s.n_mpi_pss_samples + 1 } hk).1 s' hr).n_mem_free_ops
    · cases samp with
      | true => simp at hrun
      | false =>
        simp only [Bool.false_or, beq_iff_eq] at hrun
        rw [uape_skips_eq env 2 s hrun] at hr
        simp only [Except.ok.injEq] at hr
        rw [← hr]
  · intro hrun
    exact ((refresh_runs_counts env 0 s samp hrun hk).1 s' hr).2.2.2.1

/-- Instance of C27: `mapped_state`, reached from start-up by one captured map event at
address 100 under `demo_env`. -/
theorem mapped_table_invariant_witness :
    hook_reachable demo_env mapped_state ∧
    mapped_state.addr2mmap_entry = [(100, 0)] ∧
    ((∀ kv ∈ mapped_state.addr2mmap_entry,
      (deref mapped_state kv.2).opid = MMCU_HOOK_MMAP_PSS_UPDATE ∧
        (deref mapped_state kv.2).addr = kv.1) ∧
    (∀ o, mmcu_warning.unexpected_opid o ∉ mapped_state.stderr) ∧
    (∀ samp s', update_all_pss_entries demo_env 3 mapped_state samp = .ok s' →
      (∀ o, mmcu_warning.unexpected_opid o ∉ s'.stderr) ∧
      s'.n_mem_free_ops = mapped_state.n_mem_free_ops ∧
      ((samp || mapped_state.n_mpi_pss_samples_requested % mpi_pss_update_freq == 0) = true →
        s'.n_mem_ops_recorded
          = mapped_state.n_mem_ops_recorded + mapped_state.addr2mmap_entry.length))) :=
  ⟨hook_reachable.capture init_state ⟨MMCU_HOOK_MMAP, 100, 8192, 0⟩ mapped_state
      hook_reachable.init rfl mmap_demo_run,
    rfl,
    mapped_table_invariant demo_env mapped_state
      (hook_reachable.capture init_state ⟨MMCU_HOOK_MMAP, 100, 8192, 0⟩ mapped_state
        hook_reachable.init rfl mmap_demo_run)⟩

/-- C11. Whole-process PSS total.  For every fixture made of well-formed region blocks (a
header line of six space-separated fields, the last a path without spaces followed by a
newline, then 18 lines of text of which the third is `Pss: v kB`), whatever the
uninitialised arrays of the parser hold, `get_proc_self_smaps_pss_total` returns 1024
times the sum of the Pss values of the blocks whose path does not end with
`mpimcu-trace.so`, as an `ssize_t`; that is exactly 1024 times the sum whenever the
product is representable.  Blocks whose path has the suffix contribute nothing. -/
theorem pss_total_excludes_own_library (u : uninit_stack) (rs : List smaps_region)
    (hwf : ∀ r ∈ rs, well_formed_region r = true) :
    mmcu_proc_smaps.get_proc_self_smaps_pss_total u (some (render_fixture rs))
      = .ok (to_ssize_t (1024 * (counted_pss rs).sum)) ∧
    (1024 * (counted_pss rs).sum < 9223372036854775808 →
      mmcu_proc_smaps.get_proc_self_smaps_pss_total u (some (render_fixture rs))
        = .ok (1024 * (counted_pss rs).sum)) ∧
    (counted_pss rs).sum
      = ((rs.filter (fun r => decide (¬ skip_suffix <:+ r.path))).map
          (fun r => (numeral_value 10 r.pss : Int))).sum := by
  have h := pss_total_scan_fixture u rs 0 hwf (by decide)
  have e : mmcu_proc_smaps.get_proc_self_smaps_pss_total u (some (render_fixture rs))
      = .ok (to_ssize_t (1024 * (counted_pss rs).sum)) := by
    simp only [mmcu_proc_smaps.get_proc_self_smaps_pss_total, h, zero_add]
    rw [to_ssize_t_mul_left, mul_comm]
  refine ⟨e, fun hlt => ?_, rfl⟩
  rw [e, to_ssize_t_of_range]
  have := counted_pss_nonneg rs
  exact ⟨by omega, hlt⟩

/-- Instance of C11: the fixture `demo_fixture` has a region with a Pss of 81 kB and a
region backed by `libmpimcu-trace.so` with a Pss of 7 kB; the total is 81 * 1024. -/
theorem pss_total_excludes_own_library_witness :
    mmcu_proc_smaps.get_proc_self_smaps_pss_total quiet_stack
        (some (render_fixture demo_fixture)) = .ok 82944 ∧
    counted_pss demo_fixture = [81] := by
  have hc : counted_pss demo_fixture = [81] := by decide
  have h := (pss_total_excludes_own_library quiet_stack demo_fixture (by decide)).2.1
  rw [hc] at h
  exact ⟨h (by decide), hc⟩

/-- C12. Address query returns the region's PSS.  Take a fixture whose regions before the
region `r` are well-formed blocks with kernel-labelled lines and a start address other
than the target, and let `r` be a well-formed block whose start address is the target, a
non-zero multiple of the page size 4096; whatever follows `r`.  Then the parser's
`get_proc_self_smaps_entry` either exits or reports found with `addr_start` and
`addr_end` the hexadecimal values of the header of `r` and `pss_in_b` 1024 times the Pss
value of `r` (as a `size_t`, hence exactly 1024 times the value when that is below 2^64);
it reports found whenever the uninitialised array `addr_strs` of `get_addr_range` holds
nothing that makes `strtoull` overflow. -/
theorem address_query_returns_region_pss (u : uninit_stack) (pre : List smaps_region)
    (r : smaps_region) (post : List smaps_region) (t : Nat) (res : mmcu_proc_smaps_entry)
    (hpre : ∀ x ∈ pre, well_formed_region x = true ∧ labelled_region x = true ∧
      numeral_value 16 x.start ≠ t)
    (hr : well_formed_region r = true) (ht : numeral_value 16 r.start = t)
    (h0 : t ≠ 0) (hp : t % 4096 = 0) :
    (mmcu_proc_smaps.get_proc_self_smaps_entry u
        (some (render_fixture (pre ++ r :: post))) t res = .error .exit_failure ∨
      mmcu_proc_smaps.get_proc_self_smaps_entry u
        (some (render_fixture (pre ++ r :: post))) t res
        = .ok ({ header_entry res r with
            pss_in_b := (1024 * numeral_value 10 r.pss) % 18446744073709551616 }, true)) ∧
    (benign u →
      mmcu_proc_smaps.get_proc_self_smaps_entry u
        (some (render_fixture (pre ++ r :: post))) t res
        = .ok ({ header_entry res r with
            pss_in_b := (1024 * numeral_value 10 r.pss) % 18446744073709551616 }, true)) ∧
    (header_entry res r).addr_start = t ∧
    (header_entry res r).addr_end = numeral_value 16 r.stop ∧
    (1024 * numeral_value 10 r.pss < 18446744073709551616 →
      (1024 * numeral_value 10 r.pss) % 18446744073709551616 = 1024 * numeral_value 10 r.pss) := by
  obtain ⟨hh, _, _⟩ := region_facts hr
  have e : render_fixture (pre ++ r :: post)
      = render_fixture pre ++ (render_header r
          ++ (render_lines (region_lines r) ++ render_fixture post)) := by
    rw [render_fixture_append]
    simp [render_fixture, render_region]
  obtain ⟨s1, s2⟩ := entry_scan_fixture u t res
    (render_header r ++ (render_lines (region_lines r) ++ render_fixture post)) h0 hp pre hpre
  have hhead := entry_scan_header u t res r
    (render_lines (region_lines r) ++ render_fixture post) hh
  simp only [ht, if_true] at hhead
  have hpss := get_pss_well_formed
    (u.pss_tokens (render_lines (region_lines r) ++ render_fixture post).length) r
    (render_fixture post) hr
  have found : mmcu_proc_smaps.entry_scan u t res
      ((render_fixture (pre ++ r :: post)).length + 1) (render_fixture (pre ++ r :: post))
      = .ok (some (header_entry res r, render_lines (region_lines r) ++ render_fixture post)) →
      mmcu_proc_smaps.get_proc_self_smaps_entry u
        (some (render_fixture (pre ++ r :: post))) t res
        = .ok ({ header_entry res r with
            pss_in_b := (1024 * numeral_value 10 r.pss) % 18446744073709551616 }, true) := by
    intro hs
    simp only [mmcu_proc_smaps.get_proc_self_smaps_entry, hs, hpss, pss_in_b_value]
  refine ⟨?_, fun hben => ?_, ?_, rfl, fun hlt => Nat.mod_eq_of_lt hlt⟩
  · rcases s1 with s1 | s1
    · left
      rw [← e] at s1
      simp only [mmcu_proc_smaps.get_proc_self_smaps_entry, s1]
    · right
      apply found
      rw [e, s1, hhead]
  · apply found
    rw [e, s2 hben, hhead]
  · exact ht

/-- Instance of C12: in `demo_fixture` the second region starts at 7f0000001000; the
first region starts elsewhere and its 18 labelled lines are scanned on the way. -/
theorem address_query_returns_region_pss_witness :
    mmcu_proc_smaps.get_proc_self_smaps_entry quiet_stack
        (some (render_fixture demo_fixture)) 139637976731648 {}
      = .ok ({ header_entry {} trace_region with
          pss_in_b := (1024 * numeral_value 10 trace_region.pss) % 18446744073709551616 },
          true) ∧
    (header_entry {} trace_region).addr_start = 139637976731648 ∧
    (header_entry {} trace_region).addr_end = 139637976735744 ∧
    (1024 * numeral_value 10 trace_region.pss) % 18446744073709551616 = 7168 :=
  ⟨(address_query_returns_region_pss quiet_stack [demo_region] trace_region [] 139637976731648
      {} (by decide) (by decide) (by decide) (by decide) (by decide)).2.1 quiet_stack_benign,
    by decide, by decide, by decide⟩

/-- C13. Malformed PSS line is fatal.  Let `f` be what follows a region header, malformed
in one of three ways: fewer than three lines; a third line whose first token does not
start with `Pss:` (for example a second `Rss:` line); a third line whose third token does
not start with `kB`.  Then, whatever the uninitialised arrays hold, `get_pss` ends in
`exit(EXIT_FAILURE)` and yields no value; so does the address query when the header that
precedes `f` is the first one that starts at the target, and so does the whole-process
query when well-formed regions and a well-formed header precede `f`. -/
theorem malformed_pss_line_is_fatal (f : List Char) (hf : malformed_pss f) :
    (∀ g, mmcu_proc_smaps.get_pss (uninit 3 g) f = .error .exit_failure) ∧
    (∀ u pre r t res,
      (∀ x ∈ pre, well_formed_region x = true ∧ labelled_region x = true ∧
        numeral_value 16 x.start ≠ t) →
      well_formed_header r = true → numeral_value 16 r.start = t →
      (pre = [] ∨ (t ≠ 0 ∧ t % 4096 = 0)) →
      mmcu_proc_smaps.get_proc_self_smaps_entry u
        (some (render_fixture pre ++ (render_header r ++ f))) t res = .error .exit_failure) ∧
    (∀ u pre r, (∀ x ∈ pre, well_formed_region x = true) → well_formed_header r = true →
      mmcu_proc_smaps.get_proc_self_smaps_pss_total u
        (some (render_fixture pre ++ (render_header r ++ f))) = .error .exit_failure) :=
  ⟨fun g => get_pss_malformed g f hf,
    fun u pre r t res hpre hr ht h0 => address_query_malformed u pre r f t res hpre hr ht h0 hf,
    fun u pre r hpre hr => total_query_malformed u pre r f hpre hr hf⟩

theorem rss_for_pss_malformed : malformed_pss (render_lines rss_for_pss) := by
  have := malformed_pss.bad_label "Size:               4100 kB".toList
    "Rss:                 256 kB".toList "Rss:                 256 kB".toList [] 0
    "Rss:".toList "                 256 kB\n".toList (by decide) (by decide) (by decide)
    (by decide) (by decide) (by decide) (by decide)
  rw [List.append_nil] at this
  exact this

/-- Instance of C13: the header of `demo_region` followed by `Size:`, `Rss:` and a second
`Rss:` line in place of the `Pss:` line. -/
theorem malformed_pss_line_is_fatal_witness :
    malformed_pss (render_lines rss_for_pss) ∧
    mmcu_proc_smaps.get_pss (uninit 3 (quiet_stack.pss_tokens 0)) (render_lines rss_for_pss)
      = .error .exit_failure ∧
    mmcu_proc_smaps.get_proc_self_smaps_entry quiet_stack
      (some (render_fixture [] ++ (render_header demo_region ++ render_lines rss_for_pss)))
      134512640 {} = .error .exit_failure ∧
    mmcu_proc_smaps.get_proc_self_smaps_pss_total quiet_stack
      (some (render_fixture [] ++ (render_header demo_region ++ render_lines rss_for_pss)))
      = .error .exit_failure :=
  ⟨rss_for_pss_malformed,
    (malformed_pss_line_is_fatal _ rss_for_pss_malformed).1 _,
    (malformed_pss_line_is_fatal _ rss_for_pss_malformed).2.1 quiet_stack [] demo_region
      134512640 {} (fun x hx => (by cases hx)) (by decide) (by decide) (Or.inl rfl),
    (malformed_pss_line_is_fatal _ rss_for_pss_malformed).2.2 quiet_stack [] demo_region
      (fun x hx => (by cases hx)) (by decide)⟩

/-- C24 fails in the code.  The address scan treats every line as a header line.  Take a
well-formed header whose start address is not the target `t`, followed by a labelled line
`label: body` whose first token converts to `t` as a hexadecimal number (`Size:` and most
other labels convert to 0, `Anonymous:` and `AnonHugePages:` to 10), followed by lines
`f` of which the third is not a `Pss:` line (after `Size:` these are `Rss:`, `Pss:` and
`Shared_Clean:`).  Although no region starts at `t`, the query does not report
not-found: whatever the uninitialised arrays hold it ends in `exit(EXIT_FAILURE)`,
because the labelled line is taken for a match and `get_pss` then reads the wrong
lines. -/
theorem address_query_matches_labelled_line (u : uninit_stack) (r : smaps_region)
    (label body f : List Char) (t : Nat) (res : mmcu_proc_smaps_entry)
    (hr : well_formed_header r = true) (hne : numeral_value 16 r.start ≠ t)
    (hl : label ∈ kernel_labels) (ht : text_line (label ++ ':' :: ' ' :: body) = true)
    (hv : (strtoull 16 (label ++ [':'])).1 = t) (hf : malformed_pss f) :
    mmcu_proc_smaps.get_proc_self_smaps_entry u
      (some (render_header r ++ (label ++ ':' :: ' ' :: body ++ '\n' :: f))) t res
      = .error .exit_failure ∧
    mmcu_proc_smaps.get_proc_self_smaps_entry u
      (some (render_header r ++ (label ++ ':' :: ' ' :: body ++ '\n' :: f))) t res
      ≠ .ok (res, false) := by
  have hh := well_formed_header_spec hr
  have hhead := entry_scan_header u t res r (label ++ ':' :: ' ' :: body ++ '\n' :: f) hh
  simp only [Ne.symm hne, if_false] at hhead
  obtain ⟨e, he⟩ := entry_scan_labelled u t res label body f hl ht
  simp only [hv, if_true] at he
  have key : mmcu_proc_smaps.get_proc_self_smaps_entry u
      (some (render_header r ++ (label ++ ':' :: ' ' :: body ++ '\n' :: f))) t res
      = .error .exit_failure := by
    by_cases hr : (strtoull 16 (c_str (u.addr_strs
        (label ++ ':' :: ' ' :: body ++ '\n' :: f).length 1))).2 = true
    · simp only [hr, if_true] at he
      exact entry_query_of_scan_error u _ t res (hhead.trans he)
    · simp only [hr, Bool.false_eq_true, if_false] at he
      exact entry_query_of_scan_found u _ t res e f (hhead.trans he)
        (fun g => get_pss_malformed g f hf)
  refine ⟨key, ?_⟩
  rw [key]
  intro hc
  cases hc

theorem after_size_line_malformed :
    malformed_pss (render_lines (demo_region.rss_line :: pss_line demo_region
      :: demo_region.rest) ++ render_fixture [trace_region]) := by
  have := malformed_pss.bad_label demo_region.rss_line (pss_line demo_region)
    "Shared_Clean:          0 kB".toList
    (render_lines (demo_region.rest.drop 1) ++ render_fixture [trace_region]) 0
    "Shared_Clean:".toList "          0 kB\n".toList (by decide) (by decide) (by decide)
    (by decide) (by decide) (by decide) (by decide)
  exact this

/-- The failing input of C24: in `demo_fixture` no region starts at address 0, yet the
query for target 0 exits instead of reporting not-found. -/
theorem address_query_matches_labelled_line_witness :
    (∀ r ∈ demo_fixture, numeral_value 16 r.start ≠ 0) ∧
    mmcu_proc_smaps.get_proc_self_smaps_entry quiet_stack
      (some (render_fixture demo_fixture)) 0 {} = .error .exit_failure ∧
    mmcu_proc_smaps.get_proc_self_smaps_entry quiet_stack
      (some (render_fixture demo_fixture)) 0 {} ≠ .ok ({}, false) :=
  ⟨by decide,
    address_query_matches_labelled_line quiet_stack demo_region "Size".toList
      "              4100 kB".toList
      (render_lines (demo_region.rss_line :: pss_line demo_region :: demo_region.rest)
        ++ render_fixture [trace_region]) 0 {} (by decide) (by decide) (by decide) (by decide)
      (by decide) after_size_line_malformed⟩

end MpiMcu
